import Mathlib

/-!
# compute_mem_prob: a verification development

Shallow embedding of `src/C/compute_mem_prob/compute_mem_prob.c`.

Conventions of the embedding.

* `double` values are read exactly, as rationals (every finite double is a
  rational number).  `pow(x, n)` is only ever called with an integer exponent,
  so it is the integer power of `ℚ`.  Division by zero has no counterpart in
  `ℚ` (`x / 0 = 0` there), hence statements about *values* are made where the
  denominators are shown to be non-zero.  Rounding, infinities and NaN are not
  seen in this reading: the section `IEEE` below gives the program a second
  time over IEEE 754 doubles, for the statement on the range of the double
  that is returned.
* A `trunc_pol_t` is its header (`mono`) and its coefficient array, a function
  from the index to the stored value; `calloc` and `bzero` give the constant
  zero function and the code only touches the indices `0..K`.
* Pointers are `Option`s (`none` is `NULL`), arrays of pointers are functions
  from the index.
* `size_t` and `int` counters are natural numbers and integers; the sizes are
  assumed to fit their machine types.
* `calloc` may fail: the field `mem` of the state lists the outcomes of the
  coming calls (`true`: served), and every call after the list is used up is
  served.
* `ERRNO = __LINE__` stores the line number of the source file.
-/

namespace MemProb

/-! ## Macros -/

def YES : Int := 1
def NO : Int := 0
def SUCCESS : Int := 1
def FAILURE : Int := 0

/-- Maximum allowed number of duplicates. -/
def MAXN : Nat := 1024

/-- Macro `OMEGA`: `P*pow(1.0-U/3, N)`. -/
def OMEGA (P U : ℚ) (N : Nat) : ℚ := P * (1 - U / 3) ^ N

/-- Macro `_OMEGA`: `P*(1-pow(1.0-U/3, N))`. -/
def _OMEGA (P U : ℚ) (N : Nat) : ℚ := P * (1 - (1 - U / 3) ^ N)

/-- Macro `xi(i,m)`: `1.0 - pow(1.0 - pow(1.0-U,(i)), (m))`. -/
def xi (U : ℚ) (i : Int) (m : Nat) : ℚ := 1 - (1 - (1 - U) ^ i) ^ m

/-- Macro `aN(i)`: `pow(1.0 - pow(1.0-U,(i)) * U/3.0, N)`. -/
def aN (U : ℚ) (N : Nat) (i : Int) : ℚ := (1 - (1 - U) ^ i * U / 3) ^ N

/-- Macro `gN(i)`: `pow(1.0 - pow(1.0-U,(i)), N)`. -/
def gN (U : ℚ) (N : Nat) (i : Int) : ℚ := (1 - (1 - U) ^ i) ^ N

/-- Macro `dN(i)`: `pow(1.0 - (1.0 - U + U*U/3.0) * pow(1.0-U,(i)), N)`. -/
def dN (U : ℚ) (N : Nat) (i : Int) : ℚ :=
  (1 - (1 - U + U * U / 3) * (1 - U) ^ i) ^ N

/-- Macro `bN(j,i)`:
`pow(1.0 - pow(1.0-U,(j))*U/3.0 - pow(1.0-U,(i))*(1.0-U/3.0), N)`. -/
def bN (U : ℚ) (N : Nat) (j i : Int) : ℚ :=
  (1 - (1 - U) ^ j * U / 3 - (1 - U) ^ i * (1 - U / 3)) ^ N

/-! ## Type declarations -/

structure monomial_t where
  deg : Nat
  coeff : ℚ

structure trunc_pol_t where
  mono : monomial_t
  coeff : Nat → ℚ

structure matrix_t where
  dim : Nat
  term : Nat → Option trunc_pol_t

/-- The object `calloc(1, KSZ)` returns, which is also what `bzero(p, KSZ)`
leaves in `*p`: header and coefficients all zero. -/
def zero_trunc_pol : trunc_pol_t := { mono := { deg := 0, coeff := 0 }, coeff := fun _ => 0 }

/-- The assignment `p->coeff[i] = v`. -/
def trunc_pol_t.set (p : trunc_pol_t) (i : Nat) (v : ℚ) : trunc_pol_t :=
  { p with coeff := Function.update p.coeff i v }

/-- The assignment `M->term[i] = p`. -/
def matrix_t.set (M : matrix_t) (i : Nat) (p : Option trunc_pol_t) : matrix_t :=
  { M with term := Function.update M.term i p }

/-! ## Global variables -/

/-- The globals that only `set_params_mem_prob` assigns. -/
structure Params where
  G : Nat
  K : Nat
  HIGH : Nat
  P : ℚ
  U : ℚ
  KSZ : Nat

/-- The error token and the allocator: what every function may change. -/
structure Eff where
  ERRNO : Int
  mem : List Bool

/-- The process-wide state. The unused global `N` (every function shadows it
with its argument) and the text buffer `ERRMSG` (never written) are left out. -/
structure Session extends Params, Eff where
  TEMP : Option trunc_pol_t
  ARRAY : Nat → Option trunc_pol_t

/-- The state at program start: the zero-initialised globals. -/
def Session.init (mem : List Bool) : Session :=
  { G := 0, K := 0, HIGH := 0, P := 0, U := 0, KSZ := 0, ERRNO := 0, mem := mem,
    TEMP := none, ARRAY := fun _ => none }

/-! ## Control flow helpers -/

/-- A computation that may change `ERRNO`, may allocate, and ends with a
pointer-like result: `none` is `NULL` (or the exit through
`in_case_of_failure`). -/
def Alloc (α : Type) : Type := Eff → Option α × Eff

def Alloc.pure {α : Type} (a : α) : Alloc α := fun e => (some a, e)

def Alloc.bind {α β : Type} (m : Alloc α) (f : α → Alloc β) : Alloc β := fun e =>
  match m e with
  | (some a, e1) => f a e1
  | (none, e1) => (none, e1)

instance : Monad Alloc where
  pure := Alloc.pure
  bind := Alloc.bind

/-- One `calloc` call: takes the next outcome of `mem`. -/
def calloc {α : Type} (zero : α) : Alloc α := fun e =>
  match e.mem with
  | [] => (some zero, e)
  | b :: rest => (if b then some zero else none, { e with mem := rest })

/-- Macro `new_zero_trunc_pol()`: `calloc(1, KSZ)`. -/
def new_zero_trunc_pol : Alloc trunc_pol_t := calloc zero_trunc_pol

/-- Macro `handle_memory_error(x)` applied to the result of `x`, expanded at
line `line`: on `NULL`, `ERRNO = __LINE__; goto in_case_of_failure`. -/
def handle_memory_error {α : Type} (line : Int) (x : Alloc α) : Alloc α := fun e =>
  match x e with
  | (some a, e1) => (some a, e1)
  | (none, e1) => (none, { e1 with ERRNO := line })

/-- The branch `warning(internal_error, ..); ERRNO = __LINE__;
goto in_case_of_failure` at line `line`. -/
def internal_error {α : Type} (line : Int) : Alloc α := fun e =>
  (none, { e with ERRNO := line })

/-- The loop `for (i = lo ; i < lo + n ; i++) s = body(i, s)`. -/
def forLoop {σ : Type} (lo : Nat) : Nat → (Nat → σ → σ) → σ → σ
  | 0, _, s => s
  | n + 1, body, s => forLoop (lo + 1) n body (body lo s)

/-- The same loop with a body that may leave through `in_case_of_failure`
(`Alloc`) or may be undefined (`Option`). -/
def forLoopM {m : Type → Type} [Monad m] {σ : Type} (lo : Nat) :
    Nat → (Nat → σ → m σ) → σ → m σ
  | 0, _, s => pure s
  | n + 1, body, s => body lo s >>= fun s1 => forLoopM (lo + 1) n body s1

/-! ## Polynomial factory

Each constructor is its degree check, its allocation, and the statements that
fill the fresh polynomial `new`; the latter are the functions `fill_*`. -/

def fill_A (g : Params) (deg N : Nat) (tilde : Int) (new : trunc_pol_t) : trunc_pol_t :=
  let d := if deg ≤ g.G then deg else g.G
  let cst := if tilde ≠ 0 then _OMEGA g.P g.U N else OMEGA g.P g.U N
  let st := forLoop 1 d (fun i (st : trunc_pol_t × ℚ) =>
    (st.1.set i (cst * xi g.U ((i : Int) - 1) N * st.2), st.2 * (1 - g.P))) (new, 1)
  -- Terms of the polynomials with degree higher than 'G' (if any).
  let st := forLoop (d + 1) (deg - d) (fun i (st : trunc_pol_t × ℚ) =>
    (st.1.set i (g.P * (1 - aN g.U N ((i : Int) - 1)) * st.2), st.2 * (1 - g.P))) st
  st.1

def new_trunc_pol_A (g : Params) (deg N : Nat) (tilde : Int) : Alloc trunc_pol_t :=
  if deg > g.K ∨ deg = 0 then internal_error 208
  else do
    let new ← handle_memory_error 213 new_zero_trunc_pol
    pure (fill_A g deg N tilde new)

def fill_B (g : Params) (deg N : Nat) (tilde : Int) (new : trunc_pol_t) : trunc_pol_t :=
  let cst := if tilde ≠ 0 then _OMEGA g.P g.U N else OMEGA g.P g.U N
  let denom := 1 - (1 - g.U / 3) ^ N
  let st := forLoop 1 deg (fun i (st : trunc_pol_t × ℚ) =>
    let numer := 1 - aN g.U N ((i : Int) - 1)
    (st.1.set i (cst * numer / denom * st.2), st.2 * (1 - g.P))) (new, 1)
  st.1

def new_trunc_pol_B (g : Params) (deg N : Nat) (tilde : Int) : Alloc trunc_pol_t :=
  if deg > g.K ∨ deg = 0 then internal_error 248
  else do
    let new ← handle_memory_error 253 new_zero_trunc_pol
    pure (fill_B g deg N tilde new)

def fill_C (g : Params) (deg N : Nat) (tilde : Int) (new : trunc_pol_t) : trunc_pol_t :=
  let j : Int := (g.G : Int) - (deg : Int)
  let denom := aN g.U N j - aN g.U N (j - 1) - gN g.U N j + dN g.U N (j - 1)
  let cst := if tilde ≠ 0 then _OMEGA g.P g.U N else OMEGA g.P g.U N
  let st := forLoop 1 deg (fun i (st : trunc_pol_t × ℚ) =>
    let numer := aN g.U N j - aN g.U N (j - 1) - bN g.U N j ((i : Int) + j - 1)
      + bN g.U N (j - 1) ((i : Int) + j - 1)
    (st.1.set i (cst * numer / denom * st.2), st.2 * (1 - g.P))) (new, 1)
  st.1

def new_trunc_pol_C (g : Params) (deg N : Nat) (tilde : Int) : Alloc trunc_pol_t :=
  -- Avoid division by zero when N = 1 (not a failure).
  if N = 1 then fun e => (none, e)
  else if deg > g.K ∨ deg = 0 then internal_error 287
  else do
    let new ← handle_memory_error 292 new_zero_trunc_pol
    pure (fill_C g deg N tilde new)

def fill_D (g : Params) (deg N : Nat) (tilde : Int) (new : trunc_pol_t) : trunc_pol_t :=
  let cst := if tilde ≠ 0 then _OMEGA g.P g.U N else OMEGA g.P g.U N
  let st := forLoop 1 deg (fun i (st : trunc_pol_t × ℚ) =>
    (st.1.set i (cst * st.2), st.2 * (1 - g.P))) (new, 1)
  st.1

def new_trunc_pol_D (g : Params) (deg N : Nat) (tilde : Int) : Alloc trunc_pol_t :=
  if deg > g.K ∨ deg = 0 then internal_error 324
  else do
    let new ← handle_memory_error 329 new_zero_trunc_pol
    pure (fill_D g deg N tilde new)

/-- The three statements `new->mono.deg = deg; new->mono.coeff = v;
new->coeff[deg] = new->mono.coeff` shared by `u`, `v`, `w`, `y` and by the
monomial branch of `trunc_pol_mult`. -/
def set_monomial (new : trunc_pol_t) (deg : Nat) (v : ℚ) : trunc_pol_t :=
  ({ new with mono := { deg := deg, coeff := v } } : trunc_pol_t).set deg v

def fill_u (g : Params) (deg N : Nat) (new : trunc_pol_t) : trunc_pol_t :=
  set_monomial new deg
    ((xi g.U ((deg - 1 : Nat) : Int) N - xi g.U (deg : Int) N) * (1 - g.P) ^ deg)

def new_trunc_pol_u (g : Params) (deg N : Nat) : Alloc trunc_pol_t :=
  if deg > g.K ∨ deg ≥ g.G ∨ deg = 0 then internal_error 357
  else do
    let new ← handle_memory_error 362 new_zero_trunc_pol
    pure (fill_u g deg N new)

def fill_v (g : Params) (deg N : Nat) (new : trunc_pol_t) : trunc_pol_t :=
  let numer := aN g.U N (deg : Int) - aN g.U N ((deg - 1 : Nat) : Int)
    - gN g.U N (deg : Int) + dN g.U N ((deg - 1 : Nat) : Int)
  let denom := 1 - (1 - g.U / 3) ^ N
  set_monomial new deg (numer / denom * (1 - g.P) ^ deg)

def new_trunc_pol_v (g : Params) (deg N : Nat) : Alloc trunc_pol_t :=
  if deg > g.K ∨ deg ≥ g.G ∨ deg = 0 then internal_error 387
  else do
    let new ← handle_memory_error 392 new_zero_trunc_pol
    pure (fill_v g deg N new)

def fill_w (g : Params) (deg N : Nat) (new : trunc_pol_t) : trunc_pol_t :=
  let numer := gN g.U N (deg : Int) - dN g.U N ((deg - 1 : Nat) : Int)
  let denom := 1 - (1 - g.U / 3) ^ N
  set_monomial new deg (numer / denom * (1 - g.P) ^ deg)

def new_trunc_pol_w (g : Params) (deg N : Nat) : Alloc trunc_pol_t :=
  if deg > g.K ∨ deg ≥ g.G ∨ deg = 0 then internal_error 419
  else do
    let new ← handle_memory_error 424 new_zero_trunc_pol
    pure (fill_w g deg N new)

def fill_y (g : Params) (j i : Int) (N : Nat) (new : trunc_pol_t) : trunc_pol_t :=
  let numer := bN g.U N j (j + i) - bN g.U N j (j + i - 1) - bN g.U N (j - 1) (i + j)
    + bN g.U N (j - 1) (j + i - 1)
  let denom := aN g.U N j - aN g.U N (j - 1) - gN g.U N j + dN g.U N (j - 1)
  set_monomial new i.toNat (numer / denom * (1 - g.P) ^ i)

/-- The arguments `j` and `i` are `int`s; in the comparisons with `K` and
`G` the C code converts `i` to `size_t`, which makes a negative `i` larger
than `K`. -/
def new_trunc_pol_y (g : Params) (j i : Int) (N : Nat) : Alloc trunc_pol_t :=
  -- Avoid division by zero when N = 1 (not a failure).
  if N = 1 then fun e => (none, e)
  else if i < 0 ∨ i > (g.K : Int) ∨ i ≥ (g.G : Int) ∨ i = 0 then internal_error 456
  else do
    let new ← handle_memory_error 461 new_zero_trunc_pol
    pure (fill_y g j i N new)

def fill_T_down (g : Params) (N : Nat) (new : trunc_pol_t) : trunc_pol_t :=
  let denom := 1 - (1 - g.U / 3) ^ N
  let st := forLoop 0 (g.HIGH + 1) (fun i (st : trunc_pol_t × ℚ) =>
    let numer := 1 - aN g.U N (i : Int)
    (st.1.set i (numer / denom * st.2), st.2 * (1 - g.P))) (new, 1)
  st.1

def new_trunc_pol_T_down (g : Params) (N : Nat) : Alloc trunc_pol_t := do
  let new ← handle_memory_error 486 new_zero_trunc_pol
  pure (fill_T_down g N new)

/-- The loop runs for `i = 0 .. G-1`; the function is only reached with
`G ≥ 1` (with `G = 0` the bound `G-1` would wrap around in `size_t`). -/
def fill_T_double_down (g : Params) (N : Nat) (new : trunc_pol_t) : trunc_pol_t :=
  let st := forLoop 0 (g.G - 1 + 1) (fun i (st : trunc_pol_t × ℚ) =>
    (st.1.set i (xi g.U (i : Int) N * st.2), st.2 * (1 - g.P))) (new, 1)
  st.1

def new_trunc_pol_T_double_down (g : Params) (N : Nat) : Alloc trunc_pol_t := do
  let new ← handle_memory_error 512 new_zero_trunc_pol
  pure (fill_T_double_down g N new)

def fill_T_up (g : Params) (deg : Nat) (new : trunc_pol_t) : trunc_pol_t :=
  let st := forLoop 0 (deg + 1) (fun i (st : trunc_pol_t × ℚ) =>
    (st.1.set i st.2, st.2 * (1 - g.P))) (new, 1)
  st.1

def new_trunc_pol_T_up (g : Params) (deg : Nat) (_N : Nat) : Alloc trunc_pol_t :=
  if deg > g.K ∨ deg ≥ g.G then internal_error 538
  else do
    let new ← handle_memory_error 543 new_zero_trunc_pol
    pure (fill_T_up g deg new)

def fill_T_sim (g : Params) (deg N : Nat) (new : trunc_pol_t) : trunc_pol_t :=
  let j : Int := (g.G : Int) - 1 - (deg : Int)
  let denom := aN g.U N j - aN g.U N (j - 1) - gN g.U N j + dN g.U N (j - 1)
  let st := forLoop 0 (deg + 1) (fun i (st : trunc_pol_t × ℚ) =>
    let numer := aN g.U N j - aN g.U N (j - 1) - bN g.U N j ((i : Int) + j)
      + bN g.U N (j - 1) ((i : Int) + j)
    (st.1.set i (numer / denom * st.2), st.2 * (1 - g.P))) (new, 1)
  st.1

def new_trunc_pol_T_sim (g : Params) (deg N : Nat) : Alloc trunc_pol_t :=
  -- Avoid division by zero when N = 1 (not a failure).
  if N = 1 then fun e => (none, e)
  else if deg > g.K ∨ deg ≥ g.G then internal_error 572
  else do
    let new ← handle_memory_error 577 new_zero_trunc_pol
    pure (fill_T_sim g deg N new)

/-! ## Matrices -/

/-- Create a matrix where all truncated polynomials are `NULL`. -/
def new_null_matrix (dim : Nat) : Alloc matrix_t :=
  handle_memory_error 609 (calloc { dim := dim, term := fun _ => none })

/-- Create a matrix where all terms are `trunc_pol_t` structs set to zero. -/
def new_zero_matrix (dim : Nat) : Alloc matrix_t := do
  let new ← handle_memory_error 652 (new_null_matrix dim)
  forLoopM 0 (dim * dim) (fun i (M : matrix_t) => do
    let t ← handle_memory_error 656 new_zero_trunc_pol
    pure (M.set i (some t))) new

/-- The statements `M->term[0*dim+1]->coeff[0] = 1.0;
M->term[0*dim+1]->mono.coeff = 1.0` on the fresh polynomial `new`. -/
def fill_one (new : trunc_pol_t) : trunc_pol_t :=
  { mono := { deg := new.mono.deg, coeff := 1 }, coeff := Function.update new.coeff 0 1 }

def new_matrix_M (g : Params) (N : Nat) : Alloc matrix_t := do
  let dim := 2 * g.G + 2
  let M ← handle_memory_error 678 (new_null_matrix dim)
  -- First row.
  let t ← handle_memory_error 682 new_zero_trunc_pol
  let M := M.set (0 * dim + 1) (some (fill_one t))
  -- Second row.
  let t ← handle_memory_error 688 (new_trunc_pol_A g g.G N NO)
  let M := M.set (1 * dim + 1) (some t)
  let t ← handle_memory_error 690 (new_trunc_pol_A g g.HIGH N YES)
  let M := M.set (1 * dim + 2) (some t)
  let M ← forLoopM 1 (g.G - 1) (fun j (M : matrix_t) => do
    let t ← handle_memory_error 693 (new_trunc_pol_u g j N)
    pure (M.set (1 * dim + (j + g.G + 1)) (some t))) M
  let t ← handle_memory_error 696 (new_trunc_pol_T_double_down g N)
  let M := M.set (1 * dim + dim - 1) (some t)
  -- Third row.
  let t ← handle_memory_error 700 (new_trunc_pol_B g g.HIGH N NO)
  let M := M.set (2 * dim + 1) (some t)
  let t ← handle_memory_error 702 (new_trunc_pol_B g g.HIGH N YES)
  let M := M.set (2 * dim + 2) (some t)
  let M ← forLoopM 1 (g.G - 1) (fun j (M : matrix_t) => do
    let t ← handle_memory_error 705 (new_trunc_pol_v g j N)
    pure (M.set (2 * dim + j + 2) (some t))) M
  let M ← forLoopM 1 (g.G - 1) (fun j (M : matrix_t) => do
    let t ← handle_memory_error 709 (new_trunc_pol_w g j N)
    pure (M.set (2 * dim + j + g.G + 1) (some t))) M
  let t ← handle_memory_error 712 (new_trunc_pol_T_down g N)
  let M := M.set (2 * dim + dim - 1) (some t)
  -- First series of middle rows.
  let M ← forLoopM 1 (g.G - 1) (fun j (M : matrix_t) => do
    let t ← handle_memory_error 717 (new_trunc_pol_C g (g.G - j) N NO)
    let M := M.set ((j + 2) * dim + 1) (some t)
    let t ← handle_memory_error 719 (new_trunc_pol_C g (g.G - j) N YES)
    let M := M.set ((j + 2) * dim + 2) (some t)
    let M ← forLoopM 1 (g.G - j - 1) (fun i (M : matrix_t) => do
      let t ← handle_memory_error 722 (new_trunc_pol_y g (j : Int) (i : Int) N)
      pure (M.set ((j + 2) * dim + g.G + j + i + 1) (some t))) M
    let t ← handle_memory_error 725 (new_trunc_pol_T_sim g (g.G - j - 1) N)
    pure (M.set ((j + 2) * dim + dim - 1) (some t))) M
  -- Second series of middle rows.
  let M ← forLoopM 1 (g.G - 1) (fun j (M : matrix_t) => do
    let t ← handle_memory_error 731 (new_trunc_pol_D g (g.G - j) N NO)
    let M := M.set ((j + g.G + 1) * dim + 1) (some t)
    let t ← handle_memory_error 733 (new_trunc_pol_D g (g.G - j) N YES)
    let M := M.set ((j + g.G + 1) * dim + 2) (some t)
    let t ← handle_memory_error 735 (new_trunc_pol_T_up g (g.G - j - 1) N)
    pure (M.set ((j + g.G + 1) * dim + dim - 1) (some t))) M
  -- Last row is null.
  pure M

/-! ## Truncated polynomial algebra -/

/-- The function `trunc_pol_mult(dest, a, b)`: the returned pointer (`NULL`
or `dest`, given by the content `dest` then has) and the content of `dest`
after the call. `dest` must not be one of the operands. -/
def trunc_pol_mult (K : Nat) (dest : trunc_pol_t) (a b : Option trunc_pol_t) :
    Option trunc_pol_t × trunc_pol_t :=
  match a, b with
  | some a, some b =>
    if a.mono.coeff ≠ 0 ∧ b.mono.coeff ≠ 0 then
      -- Both are monomials, just do one multiplication.
      if a.mono.deg + b.mono.deg > K then (none, zero_trunc_pol)
      else
        let dest := set_monomial zero_trunc_pol (a.mono.deg + b.mono.deg)
          (a.mono.coeff * b.mono.coeff)
        (some dest, dest)
    else if a.mono.coeff ≠ 0 then
      -- 'a' is a monomial, do one "row" of multiplications.
      let dest := forLoop a.mono.deg (K + 1 - a.mono.deg) (fun i (d : trunc_pol_t) =>
        d.set i (a.mono.coeff * b.coeff (i - a.mono.deg))) zero_trunc_pol
      (some dest, dest)
    else if b.mono.coeff ≠ 0 then
      -- 'b' is a monomial, do one "row" of multiplications.
      let dest := forLoop b.mono.deg (K + 1 - b.mono.deg) (fun i (d : trunc_pol_t) =>
        d.set i (b.mono.coeff * a.coeff (i - b.mono.deg))) zero_trunc_pol
      (some dest, dest)
    else
      -- Standard convolution product.
      let dest := forLoop 0 (K + 1) (fun i (d : trunc_pol_t) =>
        forLoop 1 i (fun j (d : trunc_pol_t) =>
          d.set i (d.coeff i + a.coeff j * b.coeff (i - j)))
          (d.set i (a.coeff 0 * b.coeff i))) dest
      (some dest, dest)
  | _, _ => (none, zero_trunc_pol)

/-- The function `trunc_pol_update_add(dest, a)`: the content of `dest` after
the call. -/
def trunc_pol_update_add (K : Nat) (dest : trunc_pol_t) (a : Option trunc_pol_t) :
    trunc_pol_t :=
  match a with
  | none => dest
  | some a => forLoop 0 (K + 1) (fun i (d : trunc_pol_t) =>
      d.set i (d.coeff i + a.coeff i)) dest

/-- What a call of `matrix_mult` leaves behind: the returned pointer (`NULL`
or `dest`), the content of `dest`, the scratch buffer and the error token. -/
structure MultOut where
  ret : Option matrix_t
  dest : matrix_t
  TEMP : Option trunc_pol_t
  ERRNO : Int

/-- The function `matrix_mult(dest, a, b)`, with `dest` an object of its own.
The result is `none` where the C code dereferences a null pointer (an entry
of `dest` that is not allocated, or no scratch buffer). -/
def matrix_mult (K : Nat) (dest a b : matrix_t) (TEMP : Option trunc_pol_t) (ERRNO : Int) :
    Option MultOut :=
  if a.dim ≠ dest.dim ∨ b.dim ≠ dest.dim then
    some { ret := none, dest := dest, TEMP := TEMP, ERRNO := 835 }
  else
    let dim := dest.dim
    (forLoopM 0 dim (fun i (st : matrix_t × Option trunc_pol_t) =>
      forLoopM 0 dim (fun j (st : matrix_t × Option trunc_pol_t) => do
        -- Erase destination entry.
        let _ ← st.1.term (i * dim + j)
        let st : matrix_t × Option trunc_pol_t :=
          (st.1.set (i * dim + j) (some zero_trunc_pol), st.2)
        forLoopM 0 dim (fun m (st : matrix_t × Option trunc_pol_t) => do
          let T ← st.2
          let d ← st.1.term (i * dim + j)
          let r := trunc_pol_mult K T (a.term (i * dim + m)) (b.term (m * dim + j))
          pure (st.1.set (i * dim + j) (some (trunc_pol_update_add K d r.1)), some r.2))
          st) st) (dest, TEMP)).map
      fun (st : matrix_t × Option trunc_pol_t) =>
        { ret := some st.1, dest := st.1, TEMP := st.2, ERRNO := ERRNO }

/-! ## Visible functions -/

def get_mem_prob_error_code (s : Session) : Int := s.ERRNO

def reset_mem_prob_error (s : Session) : Session := { s with ERRNO := 0 }

/-- Initialize the global variables from user-defined values. -/
def set_params_mem_prob (g k : Nat) (p u : ℚ) (s : Session) : Int × Session :=
  if p ≤ 0 ∨ p ≥ 1 then (FAILURE, { s with ERRNO := 136 })
  else if u ≤ 0 ∨ u ≥ 1 then (FAILURE, { s with ERRNO := 143 })
  else
    let s : Session := { s with
      G := g, K := k, P := p, U := u
      HIGH := if k > g then k else g
      KSZ := (16 + (k + 1) * 8) % 2 ^ 64
      ARRAY := fun _ => none }
    match handle_memory_error 167 new_zero_trunc_pol s.toEff with
    | (some t, e) => (SUCCESS, { s with TEMP := some t, toEff := e })
    | (none, e) => (FAILURE, { s with TEMP := none, toEff := e })

def clean_mem_prob (s : Session) : Session :=
  { s with TEMP := none, ARRAY := fun _ => none, ERRNO := 0 }

/-- The local variables of `compute_mem_prob` and the globals that change
while the series is summed. -/
structure Work where
  w : trunc_pol_t
  powM1 : matrix_t
  powM2 : matrix_t
  TEMP : Option trunc_pol_t
  ERRNO : Int

/-- One round of the loop at lines 905-910 of `compute_mem_prob`: two more
products, each followed by `trunc_pol_update_add(w, ..)`. -/
def power_round (K G : Nat) (M : matrix_t) (x : Work) : Option Work := do
  let r ← matrix_mult K x.powM2 x.powM1 M x.TEMP x.ERRNO
  let x : Work := { x with powM2 := r.dest, TEMP := r.TEMP, ERRNO := r.ERRNO }
  let x : Work := { x with w := trunc_pol_update_add K x.w (x.powM2.term (2 * G + 1)) }
  let r ← matrix_mult K x.powM1 x.powM2 M x.TEMP x.ERRNO
  let x : Work := { x with powM1 := r.dest, TEMP := r.TEMP, ERRNO := r.ERRNO }
  pure { x with w := trunc_pol_update_add K x.w (x.powM1.term (2 * G + 1)) }

/-- Lines 901-910 of `compute_mem_prob`: the product `M*M`, then ten rounds
of two more products, each followed by `trunc_pol_update_add(w, ..)`. -/
def sum_of_powers (K G : Nat) (M : matrix_t) (x : Work) : Option Work := do
  let r ← matrix_mult K x.powM1 M M x.TEMP x.ERRNO
  let x : Work := { x with powM1 := r.dest, TEMP := r.TEMP, ERRNO := r.ERRNO }
  let x : Work := { x with w := trunc_pol_update_add K x.w (x.powM1.term (2 * G + 1)) }
  -- FIXME: 10 must be replaced by a smart number.
  forLoopM 0 10 (fun _ (x : Work) => power_round K G M x) x

/-- Lines 892-899 of `compute_mem_prob`: the four allocations, each followed
by `handle_memory_error`. -/
def allocate_work (g : Params) (N : Nat) :
    Alloc (trunc_pol_t × matrix_t × matrix_t × matrix_t) := do
  let w ← handle_memory_error 893 new_zero_trunc_pol
  let M ← handle_memory_error 895 (new_matrix_M g N)
  let powM1 ← handle_memory_error 897 (new_zero_matrix (2 * g.G + 2))
  let powM2 ← handle_memory_error 899 (new_zero_matrix (2 * g.G + 2))
  pure (w, M, powM1, powM2)

/-- The function `compute_mem_prob(N, k)`. The returned `double` is `none`
for the `nan` of the failure exit. The outer `Option` is `none` where the C
code dereferences a null pointer (see `matrix_mult`). -/
def compute_mem_prob (N k : Nat) (s : Session) : Option (Option ℚ × Session) :=
  if N > MAXN - 1 then some (none, { s with ERRNO := 877 })
  else if k > s.K then some (none, { s with ERRNO := 885 })
  else
    match s.ARRAY N with
    | some w => some (some (w.coeff k), s)
    | none =>
      match allocate_work s.toParams N s.toEff with
      | (none, e) => some (none, { s with toEff := e })
      | (some (w, M, powM1, powM2), e) =>
        (sum_of_powers s.K s.G M
          { w := w, powM1 := powM1, powM2 := powM2, TEMP := s.TEMP, ERRNO := e.ERRNO }).map
          fun (x : Work) => (some (x.w.coeff k),
            { s with ERRNO := x.ERRNO, mem := e.mem, TEMP := x.TEMP,
                     ARRAY := Function.update s.ARRAY N (some x.w) })

end MemProb

namespace MemProb

/-! ## Specification: truncated polynomials and their matrices -/

/-- The coefficients of a matrix entry; a `NULL` entry is the zero
polynomial. -/
def coefO (p : Option trunc_pol_t) (c : Nat) : ℚ :=
  match p with
  | none => 0
  | some q => q.coeff c

/-- Product of two polynomials truncated at degree `K`:
`c[i] = Σ_{t ≤ i} a[t]·b[i−t]` for `i ≤ K`, nothing above. -/
def pol_mul (K : Nat) (a b : Nat → ℚ) (c : Nat) : ℚ :=
  if c ≤ K then ∑ t in Finset.range (c + 1), a t * b (c - t) else 0

/-- Product of two `dim × dim` matrices of truncated polynomials (given by
row, column and degree). -/
def mat_mul (K dim : Nat) (A B : Nat → Nat → Nat → ℚ) (i j c : Nat) : ℚ :=
  ∑ m in Finset.range dim, pol_mul K (A i m) (B m j) c

/-- Powers of a matrix of truncated polynomials, `A^(p+2) = A^(p+1) * A`. -/
def mat_pow (K dim : Nat) (A : Nat → Nat → Nat → ℚ) : Nat → Nat → Nat → Nat → ℚ
  | 0 => fun i j c => if i = j ∧ c = 0 then 1 else 0
  | 1 => A
  | p + 2 => mat_mul K dim (mat_pow K dim A (p + 1)) A

/-- The entries of a matrix by row, column and degree. -/
def cells (M : matrix_t) (i j c : Nat) : ℚ := coefO (M.term (i * M.dim + j)) c

/-- What `matrix_mult` leaves in the entry of flat index `x` of `dest`: no
monomial hint and the coefficients of the product. -/
def prod_cell (K dim : Nat) (a b : matrix_t) (x : Nat) : trunc_pol_t :=
  { mono := { deg := 0, coeff := 0 },
    coeff := mat_mul K dim (cells a) (cells b) (x / dim) (x % dim) }

/-- A monomial hint that is set (coefficient non-zero) tells the truth: the
coefficients `0..K` are those of the single term `coeff * x^deg`. -/
def hint_consistent (K : Nat) (p : trunc_pol_t) : Prop :=
  p.mono.coeff ≠ 0 → ∀ c, c ≤ K → p.coeff c = if c = p.mono.deg then p.mono.coeff else 0

/-- A `dim × dim` matrix all of whose entries are allocated. -/
def Allocated (dim : Nat) (D : matrix_t) : Prop :=
  D.dim = dim ∧ ∀ x, x < dim * dim → (D.term x).isSome

/-- A `dim × dim` matrix, entries allocated and without monomial hint, that
holds the `p`-th power of `M`. -/
def HoldsPower (K dim : Nat) (M A : matrix_t) (p : Nat) : Prop :=
  Allocated dim A ∧ (∀ x q, x < dim * dim → A.term x = some q → q.mono.coeff = 0) ∧
  ∀ i j, i < dim → j < dim → cells A i j = mat_pow K dim (cells M) p i j

/-! ## Runs without allocation failure -/

/-- Every coming `calloc` is served. -/
def Served (e : Eff) : Prop := ∀ b ∈ e.mem, b = true

/-- When no allocation fails, `m` returns `a` and leaves the error token
alone. -/
def Alloc.yields {α : Type} (m : Alloc α) (a : α) : Prop :=
  ∀ e, Served e → ∃ e1, m e = (some a, e1) ∧ Served e1 ∧ e1.ERRNO = e.ERRNO

/-- Whenever `m` returns a pointer that is not `NULL`, it points to `a` and
the error token is as before. -/
def Alloc.returns {α : Type} (m : Alloc α) (a : α) : Prop :=
  ∀ e e1 a1, m e = (some a1, e1) → a1 = a ∧ e1.ERRNO = e.ERRNO

/-- The matrix `new_zero_matrix(dim)` returns. -/
def zero_matrix (dim : Nat) : matrix_t :=
  forLoop 0 (dim * dim) (fun i (M : matrix_t) => M.set i (some zero_trunc_pol))
    { dim := dim, term := fun _ => none }

/-- The matrix `new_matrix_M(N)` assembles when every factory call succeeds:
the same assignments, in the same order, with the polynomials the factories
fill in. -/
def matrix_M (g : Params) (N : Nat) : matrix_t :=
  let dim := 2 * g.G + 2
  let M : matrix_t := { dim := dim, term := fun _ => none }
  let M := M.set (0 * dim + 1) (some (fill_one zero_trunc_pol))
  let M := M.set (1 * dim + 1) (some (fill_A g g.G N NO zero_trunc_pol))
  let M := M.set (1 * dim + 2) (some (fill_A g g.HIGH N YES zero_trunc_pol))
  let M := forLoop 1 (g.G - 1) (fun j (M : matrix_t) =>
    M.set (1 * dim + (j + g.G + 1)) (some (fill_u g j N zero_trunc_pol))) M
  let M := M.set (1 * dim + dim - 1) (some (fill_T_double_down g N zero_trunc_pol))
  let M := M.set (2 * dim + 1) (some (fill_B g g.HIGH N NO zero_trunc_pol))
  let M := M.set (2 * dim + 2) (some (fill_B g g.HIGH N YES zero_trunc_pol))
  let M := forLoop 1 (g.G - 1) (fun j (M : matrix_t) =>
    M.set (2 * dim + j + 2) (some (fill_v g j N zero_trunc_pol))) M
  let M := forLoop 1 (g.G - 1) (fun j (M : matrix_t) =>
    M.set (2 * dim + j + g.G + 1) (some (fill_w g j N zero_trunc_pol))) M
  let M := M.set (2 * dim + dim - 1) (some (fill_T_down g N zero_trunc_pol))
  let M := forLoop 1 (g.G - 1) (fun j (M : matrix_t) =>
    let M := M.set ((j + 2) * dim + 1) (some (fill_C g (g.G - j) N NO zero_trunc_pol))
    let M := M.set ((j + 2) * dim + 2) (some (fill_C g (g.G - j) N YES zero_trunc_pol))
    let M := forLoop 1 (g.G - j - 1) (fun i (M : matrix_t) =>
      M.set ((j + 2) * dim + g.G + j + i + 1)
        (some (fill_y g (j : Int) (i : Int) N zero_trunc_pol))) M
    M.set ((j + 2) * dim + dim - 1) (some (fill_T_sim g (g.G - j - 1) N zero_trunc_pol))) M
  let M := forLoop 1 (g.G - 1) (fun j (M : matrix_t) =>
    let M := M.set ((j + g.G + 1) * dim + 1) (some (fill_D g (g.G - j) N NO zero_trunc_pol))
    let M := M.set ((j + g.G + 1) * dim + 2) (some (fill_D g (g.G - j) N YES zero_trunc_pol))
    M.set ((j + g.G + 1) * dim + dim - 1) (some (fill_T_up g (g.G - j - 1) zero_trunc_pol))) M
  M

/-- The entry of `M(N)` in row `r` and column `c`, read off the assignments
of `new_matrix_M`. -/
def M_entry (g : Params) (N : Nat) (r c : Nat) : Option trunc_pol_t :=
  if r = 0 then
    if c = 1 then some (fill_one zero_trunc_pol) else none
  else if r = 1 then
    if c = 1 then some (fill_A g g.G N NO zero_trunc_pol)
    else if c = 2 then some (fill_A g g.HIGH N YES zero_trunc_pol)
    else if g.G + 2 ≤ c ∧ c ≤ 2 * g.G then some (fill_u g (c - g.G - 1) N zero_trunc_pol)
    else if c = 2 * g.G + 1 then some (fill_T_double_down g N zero_trunc_pol)
    else none
  else if r = 2 then
    if c = 1 then some (fill_B g g.HIGH N NO zero_trunc_pol)
    else if c = 2 then some (fill_B g g.HIGH N YES zero_trunc_pol)
    else if 3 ≤ c ∧ c ≤ g.G + 1 then some (fill_v g (c - 2) N zero_trunc_pol)
    else if g.G + 2 ≤ c ∧ c ≤ 2 * g.G then some (fill_w g (c - g.G - 1) N zero_trunc_pol)
    else if c = 2 * g.G + 1 then some (fill_T_down g N zero_trunc_pol)
    else none
  else if r ≤ g.G + 1 then
    if c = 1 then some (fill_C g (g.G - (r - 2)) N NO zero_trunc_pol)
    else if c = 2 then some (fill_C g (g.G - (r - 2)) N YES zero_trunc_pol)
    else if g.G + r ≤ c ∧ c ≤ 2 * g.G then
      some (fill_y g ((r - 2 : Nat) : Int) ((c - g.G - (r - 2) - 1 : Nat) : Int) N
        zero_trunc_pol)
    else if c = 2 * g.G + 1 then some (fill_T_sim g (g.G - (r - 2) - 1) N zero_trunc_pol)
    else none
  else if r ≤ 2 * g.G then
    if c = 1 then some (fill_D g (g.G - (r - g.G - 1)) N NO zero_trunc_pol)
    else if c = 2 then some (fill_D g (g.G - (r - g.G - 1)) N YES zero_trunc_pol)
    else if c = 2 * g.G + 1 then some (fill_T_up g (g.G - (r - g.G - 1) - 1) zero_trunc_pol)
    else none
  else none

/-! ## Sums of powers and the tails of the rows -/

/-- The sum of the first `n` powers of a matrix of truncated polynomials,
`A + A^2 + ... + A^n`. -/
def path_sum (K dim : Nat) (A : Nat → Nat → Nat → ℚ) (n : Nat) (i j c : Nat) : ℚ :=
  ∑ p in Finset.range n, mat_pow K dim A (p + 1) i j c

/-- The tail of row 1 without the power of `1-P`: the coefficient of degree
`t` of `T_double_down` is `tail_A t * (1-P)^t`. -/
def tail_A (g : Params) (N t : Nat) : ℚ := xi g.U (t : Int) N

/-- The tail of row 2 without the power of `1-P`: the coefficient of degree
`t` of `T_down` is `tail_B t * (1-P)^t`. -/
def tail_B (g : Params) (N t : Nat) : ℚ :=
  (1 - aN g.U N (t : Int)) / (1 - (1 - g.U / 3) ^ N)

/-- The tail of row `j + 3` without the power of `1-P`: the coefficient of
degree `t` of `T_sim(G - (j+1) - 1)` is `tail_C j t * (1-P)^t`. -/
def tail_C (g : Params) (N j t : Nat) : ℚ :=
  (aN g.U N ((j : Int) + 1) - aN g.U N ((j : Int) + 1 - 1)
      - bN g.U N ((j : Int) + 1) ((t : Int) + ((j : Int) + 1))
      + bN g.U N ((j : Int) + 1 - 1) ((t : Int) + ((j : Int) + 1)))
    / (aN g.U N ((j : Int) + 1) - aN g.U N ((j : Int) + 1 - 1) - gN g.U N ((j : Int) + 1)
      + dN g.U N ((j : Int) + 1 - 1))

/-- The support the factory promises for the families `A`, `B`, `C`, `D`: no
constant term, nothing above degree `deg` (up to `K`), and no monomial
hint. -/
def supported (deg K : Nat) (p : trunc_pol_t) : Prop :=
  p.coeff 0 = 0 ∧ (∀ i, deg < i → i ≤ K → p.coeff i = 0) ∧ p.mono.coeff = 0

/-! ## The listing of the cells of `M(N)` -/

/-- The items of the listing of the non-null cells of `M(N)`, named after the
polynomial each one holds; `j` and `i` are the indices of the listing. -/
inductive Cell where
  | head
  | A
  | A_tilde
  | u (j : Nat)
  | T_double_down
  | B
  | B_tilde
  | v (j : Nat)
  | w (j : Nat)
  | T_down
  | C (j : Nat)
  | C_tilde (j : Nat)
  | y (j i : Nat)
  | T_sim (j : Nat)
  | D (j : Nat)
  | D_tilde (j : Nat)
  | T_up (j : Nat)

/-- The ranges of the indices in the listing: `j` in `1..G-1`, and for `y`
also `i` in `1..G-j-1`. -/
def Cell.listed (G : Nat) : Cell → Prop
  | .u j => 1 ≤ j ∧ j ≤ G - 1
  | .v j => 1 ≤ j ∧ j ≤ G - 1
  | .w j => 1 ≤ j ∧ j ≤ G - 1
  | .C j => 1 ≤ j ∧ j ≤ G - 1
  | .C_tilde j => 1 ≤ j ∧ j ≤ G - 1
  | .y j i => (1 ≤ j ∧ j ≤ G - 1) ∧ 1 ≤ i ∧ i ≤ G - j - 1
  | .T_sim j => 1 ≤ j ∧ j ≤ G - 1
  | .D j => 1 ≤ j ∧ j ≤ G - 1
  | .D_tilde j => 1 ≤ j ∧ j ≤ G - 1
  | .T_up j => 1 ≤ j ∧ j ≤ G - 1
  | _ => True

/-- The row of an item of the listing. -/
def Cell.row (G : Nat) : Cell → Nat
  | .head => 0
  | .A => 1
  | .A_tilde => 1
  | .u _ => 1
  | .T_double_down => 1
  | .B => 2
  | .B_tilde => 2
  | .v _ => 2
  | .w _ => 2
  | .T_down => 2
  | .C j => j + 2
  | .C_tilde j => j + 2
  | .y j _ => j + 2
  | .T_sim j => j + 2
  | .D j => j + G + 1
  | .D_tilde j => j + G + 1
  | .T_up j => j + G + 1

/-- The column of an item of the listing. -/
def Cell.col (G : Nat) : Cell → Nat
  | .head => 1
  | .A => 1
  | .A_tilde => 2
  | .u j => G + 1 + j
  | .T_double_down => 2 * G + 1
  | .B => 1
  | .B_tilde => 2
  | .v j => 2 + j
  | .w j => G + 1 + j
  | .T_down => 2 * G + 1
  | .C _ => 1
  | .C_tilde _ => 2
  | .y j i => G + j + i + 1
  | .T_sim _ => 2 * G + 1
  | .D _ => 1
  | .D_tilde _ => 2
  | .T_up _ => 2 * G + 1

/-! ## Internal-error branches -/

/-- The adaptive summation the specification allows in place of the fixed
number of products: from the power `p` on, the entry `(i, j)` of the
successive powers is added to `acc` until the term to add is zero in every
coefficient of degree `≤ K`. `fuel` bounds the number of powers examined;
`none` says that the bound was reached before a zero term. -/
def adaptive_sum (K dim : Nat) (A : Nat → Nat → Nat → ℚ) (i j : Nat) :
    Nat → Nat → (Nat → ℚ) → Option (Nat → ℚ)
  | 0, _, _ => none
  | fuel + 1, p, acc =>
    if ∀ c ∈ Finset.range (K + 1), mat_pow K dim A p i j c = 0 then some acc
    else adaptive_sum K dim A i j fuel (p + 1) (fun c => acc c + mat_pow K dim A p i j c)

/-! ## Range of the stored results -/

/-- Every polynomial kept in the cache `ARRAY` has, at each degree `≤ K`, a
coefficient between 0 and 1: what a later query `(N, k)` on a cached `N`
hands back is in range. -/
def cache_in_range (s : Session) : Prop :=
  ∀ n w, s.ARRAY n = some w → ∀ c, c ≤ s.K → 0 ≤ w.coeff c ∧ w.coeff c ≤ 1

/-! ## Visiting order of `matrix_mult` -/

/-- One accumulation of `matrix_mult`, for the triple `t = (i, j, m)`: the
statement `trunc_pol_update_add(dest->term[i*dim+j], trunc_pol_mult(TEMP,
a->term[i*dim+m], b->term[m*dim+j]))` on the pair of `dest` and the scratch
buffer. -/
def accumulate_term (K dim : Nat) (a b : matrix_t) (st : matrix_t × Option trunc_pol_t)
    (t : Nat × Nat × Nat) : Option (matrix_t × Option trunc_pol_t) := do
  let T ← st.2
  let d ← st.1.term (t.1 * dim + t.2.1)
  let r := trunc_pol_mult K T (a.term (t.1 * dim + t.2.2)) (b.term (t.2.2 * dim + t.2.1))
  pure (st.1.set (t.1 * dim + t.2.1) (some (trunc_pol_update_add K d r.1)), some r.2)

/-- The statement `bzero(dest->term[x], KSZ)` of `matrix_mult` for every
entry `x < dim*dim` in turn. -/
def erase_entries (dim : Nat) (dest : matrix_t) : Option matrix_t :=
  forLoopM 0 (dim * dim) (fun x (D : matrix_t) => do
    let _ ← D.term x
    pure (D.set x (some zero_trunc_pol))) dest

/-- The statements of `matrix_mult` with the triples `(i, j, m)` visited in
the order of the list `order`: the same dimension check, every entry of
`dest` erased, then one accumulation per triple of the list. -/
def matrix_mult_in_order (K : Nat) (dest a b : matrix_t) (TEMP : Option trunc_pol_t)
    (ERRNO : Int) (order : List (Nat × Nat × Nat)) : Option MultOut :=
  if a.dim ≠ dest.dim ∨ b.dim ≠ dest.dim then
    some { ret := none, dest := dest, TEMP := TEMP, ERRNO := 835 }
  else
    ((erase_entries dest.dim dest).bind fun D =>
      order.foldlM (accumulate_term K dest.dim a b) (D, TEMP)).map
      fun (st : matrix_t × Option trunc_pol_t) =>
        { ret := some st.1, dest := st.1, TEMP := st.2, ERRNO := ERRNO }

/-- The list `order` visits every triple `(i, j, m)` below `dim` once and
nothing else. -/
def visits_each_once (dim : Nat) (order : List (Nat × Nat × Nat)) : Prop :=
  order.Nodup ∧ ∀ i j m, (i, j, m) ∈ order ↔ i < dim ∧ j < dim ∧ m < dim

/-- The order in which the three nested loops of `matrix_mult` visit the
triples: `i` outermost, then `j`, then `m`. -/
def source_order (dim : Nat) : List (Nat × Nat × Nat) :=
  List.product (List.range dim) (List.product (List.range dim) (List.range dim))

end MemProb

namespace MemProb
namespace IEEE

/-!
## The program over IEEE 754 doubles

The definitions above read a `double` as the rational it stands for. Here
the same functions are given once more with the arithmetic of the C type
`double` (IEEE 754 binary64, round to nearest, ties to even), in the same
order and with the same grouping as in the source text, so that statements
about the value the code returns can be made.

* A `double` is a NaN, an infinity or a finite value with its sign (there are
  two zeros).  `+`, `-`, `*` and `/` round the exact result; they produce the
  infinities and NaN as IEEE 754 says (`x/0`, `0/0`, `inf - inf`, `0 * inf`).
* `pow(x, y)` is only ever called with an integer `y` (an `int` or a `size_t`
  converted to `double`).  Its special cases are those of Annex F of the C
  standard (`pow(x, 0) = 1` for every `x`, `pow(1, y) = 1`, zeros and
  infinities); elsewhere the library function is taken to round the exact
  power.
* A condition `if (x)` on a `double` holds unless `x` is a zero; a NaN
  compares false with everything.
* Control flow, pointers, allocation and the error token are as above.
-/

/-! ### Doubles -/

/-- A value of the C type `double`: a NaN, an infinity with its sign, or the
finite value `(-1)^neg * mag` with `mag ≥ 0` (so `fin false 0` is `+0.0` and
`fin true 0` is `-0.0`). -/
inductive double where
  | nan : double
  | inf (neg : Bool) : double
  | fin (neg : Bool) (mag : ℚ) : double

/-- The rational `(-1)^neg * mag`. -/
def sval (neg : Bool) (mag : ℚ) : ℚ := if neg then -mag else mag

/-- Nearest integer, ties to even. -/
def rne (x : ℚ) : Int :=
  if x - ((⌊x⌋ : Int) : ℚ) < 1 / 2 then ⌊x⌋
  else if 1 / 2 < x - ((⌊x⌋ : Int) : ℚ) then ⌊x⌋ + 1
  else if ⌊x⌋ % 2 = 0 then ⌊x⌋ else ⌊x⌋ + 1

/-- Exponent of the unit in the last place of the binary64 values near
`q > 0`: 52 below the exponent of `q`, and `-1074` for the subnormals. -/
def quantum (q : ℚ) : Int := max (Int.log 2 q) (-1022) - 52

/-- The multiple of the unit in the last place nearest to `q > 0`. -/
def round_mag (q : ℚ) : ℚ := ((rne (q / 2 ^ quantum q) : Int) : ℚ) * 2 ^ quantum q

/-- Rounding of the exact result of sign `neg` and magnitude `q ≥ 0`: the
nearest binary64 value, an infinity on overflow, a zero on underflow. -/
def rnd (neg : Bool) (q : ℚ) : double :=
  if q = 0 then double.fin neg 0
  else if round_mag q < 2 ^ (1024 : Nat) then double.fin neg (round_mag q)
  else double.inf neg

/-- The C operator unary `-`. -/
def double.neg : double → double
  | double.nan => double.nan
  | double.inf s => double.inf (!s)
  | double.fin s x => double.fin (!s) x

/-- The C operator `+`. An exact sum that is zero is `+0.0`, except that
`-0.0 + -0.0` is `-0.0`. -/
def double.add : double → double → double
  | double.nan, _ => double.nan
  | _, double.nan => double.nan
  | double.inf s, double.inf t => if s = t then double.inf s else double.nan
  | double.inf s, double.fin _ _ => double.inf s
  | double.fin _ _, double.inf t => double.inf t
  | double.fin s x, double.fin t y =>
    if sval s x + sval t y = 0 then double.fin (s && t) 0
    else rnd (decide (sval s x + sval t y < 0)) |sval s x + sval t y|

/-- The C operator binary `-`. -/
def double.sub (x y : double) : double := double.add x (double.neg y)

/-- The C operator `*`. -/
def double.mul : double → double → double
  | double.nan, _ => double.nan
  | _, double.nan => double.nan
  | double.inf s, double.inf t => double.inf (xor s t)
  | double.inf s, double.fin t y => if y = 0 then double.nan else double.inf (xor s t)
  | double.fin s x, double.inf t => if x = 0 then double.nan else double.inf (xor s t)
  | double.fin s x, double.fin t y => rnd (xor s t) (x * y)

/-- The C operator `/`. -/
def double.div : double → double → double
  | double.nan, _ => double.nan
  | _, double.nan => double.nan
  | double.inf _, double.inf _ => double.nan
  | double.inf s, double.fin t _ => double.inf (xor s t)
  | double.fin s _, double.inf t => double.fin (xor s t) 0
  | double.fin s x, double.fin t y =>
    if y = 0 then (if x = 0 then double.nan else double.inf (xor s t))
    else rnd (xor s t) (x / y)

/-- The library function `pow(x, y)` for an integer `y = n`. -/
def double.pow (x : double) (n : Int) : double :=
  if n = 0 then double.fin false 1
  else
    match x with
    | double.nan => double.nan
    | double.inf s =>
      if n < 0 then double.fin (s && decide (n % 2 = 1)) 0
      else double.inf (s && decide (n % 2 = 1))
    | double.fin s x =>
      if x = 0 then
        (if n < 0 then double.inf (s && decide (n % 2 = 1))
         else double.fin (s && decide (n % 2 = 1)) 0)
      else if s = false ∧ x = 1 then double.fin false 1
      else rnd (s && decide (n % 2 = 1)) (x ^ n)

/-- A `double` used as a condition, `if (x)`: false for the two zeros only. -/
def double.nonzero : double → Bool
  | double.fin _ x => decide (x ≠ 0)
  | _ => true

/-- The C operator `<=`. -/
def double.le : double → double → Bool
  | double.nan, _ => false
  | _, double.nan => false
  | double.inf s, double.inf t => s || !t
  | double.inf s, double.fin _ _ => s
  | double.fin _ _, double.inf t => !t
  | double.fin s x, double.fin t y => decide (sval s x ≤ sval t y)

instance : Add double := ⟨double.add⟩
instance : Sub double := ⟨double.sub⟩
instance : Mul double := ⟨double.mul⟩
instance : Div double := ⟨double.div⟩

/-- The constants `0.0`, `1.0`, `3.0` (also the `int` constants `0`, `1`, `3`
converted to `double`). -/
instance : OfNat double 0 := ⟨double.fin false 0⟩
instance : OfNat double 1 := ⟨double.fin false 1⟩
instance : OfNat double 3 := ⟨double.fin false 3⟩

/-! ### Macros -/

/-- Macro `OMEGA`: `P*pow(1.0-U/3, N)`. -/
def OMEGA (P U : double) (N : Nat) : double := P * double.pow (1 - U / 3) N

/-- Macro `_OMEGA`: `P*(1-pow(1.0-U/3, N))`. -/
def _OMEGA (P U : double) (N : Nat) : double := P * (1 - double.pow (1 - U / 3) N)

/-- Macro `xi(i,m)`: `1.0 - pow(1.0 - pow(1.0-U,(i)), (m))`. -/
def xi (U : double) (i : Int) (m : Nat) : double :=
  1 - double.pow (1 - double.pow (1 - U) i) m

/-- Macro `aN(i)`: `pow(1.0 - pow(1.0-U,(i)) * U/3.0, N)`. -/
def aN (U : double) (N : Nat) (i : Int) : double :=
  double.pow (1 - double.pow (1 - U) i * U / 3) N

/-- Macro `gN(i)`: `pow(1.0 - pow(1.0-U,(i)), N)`. -/
def gN (U : double) (N : Nat) (i : Int) : double :=
  double.pow (1 - double.pow (1 - U) i) N

/-- Macro `dN(i)`: `pow(1.0 - (1.0 - U + U*U/3.0) * pow(1.0-U,(i)), N)`. -/
def dN (U : double) (N : Nat) (i : Int) : double :=
  double.pow (1 - (1 - U + U * U / 3) * double.pow (1 - U) i) N

/-- Macro `bN(j,i)`:
`pow(1.0 - pow(1.0-U,(j))*U/3.0 - pow(1.0-U,(i))*(1.0-U/3.0), N)`. -/
def bN (U : double) (N : Nat) (j i : Int) : double :=
  double.pow (1 - double.pow (1 - U) j * U / 3 - double.pow (1 - U) i * (1 - U / 3)) N

/-! ### Type declarations and globals -/

structure monomial_t where
  deg : Nat
  coeff : double

structure trunc_pol_t where
  mono : monomial_t
  coeff : Nat → double

structure matrix_t where
  dim : Nat
  term : Nat → Option trunc_pol_t

/-- The object `calloc(1, KSZ)` returns, which is also what `bzero(p, KSZ)`
leaves in `*p`: all bits zero, so header and coefficients are `+0.0`. -/
def zero_trunc_pol : trunc_pol_t := { mono := { deg := 0, coeff := 0 }, coeff := fun _ => 0 }

/-- The assignment `p->coeff[i] = v`. -/
def trunc_pol_t.set (p : trunc_pol_t) (i : Nat) (v : double) : trunc_pol_t :=
  { p with coeff := Function.update p.coeff i v }

/-- The assignment `M->term[i] = p`. -/
def matrix_t.set (M : matrix_t) (i : Nat) (p : Option trunc_pol_t) : matrix_t :=
  { M with term := Function.update M.term i p }

/-- The globals that only `set_params_mem_prob` assigns. -/
structure Params where
  G : Nat
  K : Nat
  HIGH : Nat
  P : double
  U : double
  KSZ : Nat

/-- The process-wide state. -/
structure Session extends Params, Eff where
  TEMP : Option trunc_pol_t
  ARRAY : Nat → Option trunc_pol_t

/-- The state at program start: the zero-initialised globals. -/
def Session.init (mem : List Bool) : Session :=
  { G := 0, K := 0, HIGH := 0, P := 0, U := 0, KSZ := 0, ERRNO := 0, mem := mem,
    TEMP := none, ARRAY := fun _ => none }

/-- Macro `new_zero_trunc_pol()`: `calloc(1, KSZ)`. -/
def new_zero_trunc_pol : Alloc trunc_pol_t := calloc zero_trunc_pol

/-! ### Polynomial factory -/

def fill_A (g : Params) (deg N : Nat) (tilde : Int) (new : trunc_pol_t) : trunc_pol_t :=
  let d := if deg ≤ g.G then deg else g.G
  let cst := if tilde ≠ 0 then _OMEGA g.P g.U N else OMEGA g.P g.U N
  let st := forLoop 1 d (fun i (st : trunc_pol_t × double) =>
    (st.1.set i (cst * xi g.U ((i : Int) - 1) N * st.2), st.2 * (1 - g.P))) (new, 1)
  -- Terms of the polynomials with degree higher than 'G' (if any).
  let st := forLoop (d + 1) (deg - d) (fun i (st : trunc_pol_t × double) =>
    (st.1.set i (g.P * (1 - aN g.U N ((i : Int) - 1)) * st.2), st.2 * (1 - g.P))) st
  st.1

def new_trunc_pol_A (g : Params) (deg N : Nat) (tilde : Int) : Alloc trunc_pol_t :=
  if deg > g.K ∨ deg = 0 then internal_error 208
  else do
    let new ← handle_memory_error 213 new_zero_trunc_pol
    pure (fill_A g deg N tilde new)

def fill_B (g : Params) (deg N : Nat) (tilde : Int) (new : trunc_pol_t) : trunc_pol_t :=
  let cst := if tilde ≠ 0 then _OMEGA g.P g.U N else OMEGA g.P g.U N
  let denom := 1 - double.pow (1 - g.U / 3) N
  let st := forLoop 1 deg (fun i (st : trunc_pol_t × double) =>
    let numer := 1 - aN g.U N ((i : Int) - 1)
    (st.1.set i (cst * numer / denom * st.2), st.2 * (1 - g.P))) (new, 1)
  st.1

def new_trunc_pol_B (g : Params) (deg N : Nat) (tilde : Int) : Alloc trunc_pol_t :=
  if deg > g.K ∨ deg = 0 then internal_error 248
  else do
    let new ← handle_memory_error 253 new_zero_trunc_pol
    pure (fill_B g deg N tilde new)

def fill_C (g : Params) (deg N : Nat) (tilde : Int) (new : trunc_pol_t) : trunc_pol_t :=
  let j : Int := (g.G : Int) - (deg : Int)
  let denom := aN g.U N j - aN g.U N (j - 1) - gN g.U N j + dN g.U N (j - 1)
  let cst := if tilde ≠ 0 then _OMEGA g.P g.U N else OMEGA g.P g.U N
  let st := forLoop 1 deg (fun i (st : trunc_pol_t × double) =>
    let numer := aN g.U N j - aN g.U N (j - 1) - bN g.U N j ((i : Int) + j - 1)
      + bN g.U N (j - 1) ((i : Int) + j - 1)
    (st.1.set i (cst * numer / denom * st.2), st.2 * (1 - g.P))) (new, 1)
  st.1

def new_trunc_pol_C (g : Params) (deg N : Nat) (tilde : Int) : Alloc trunc_pol_t :=
  -- Avoid division by zero when N = 1 (not a failure).
  if N = 1 then fun e => (none, e)
  else if deg > g.K ∨ deg = 0 then internal_error 287
  else do
    let new ← handle_memory_error 292 new_zero_trunc_pol
    pure (fill_C g deg N tilde new)

def fill_D (g : Params) (deg N : Nat) (tilde : Int) (new : trunc_pol_t) : trunc_pol_t :=
  let cst := if tilde ≠ 0 then _OMEGA g.P g.U N else OMEGA g.P g.U N
  let st := forLoop 1 deg (fun i (st : trunc_pol_t × double) =>
    (st.1.set i (cst * st.2), st.2 * (1 - g.P))) (new, 1)
  st.1

def new_trunc_pol_D (g : Params) (deg N : Nat) (tilde : Int) : Alloc trunc_pol_t :=
  if deg > g.K ∨ deg = 0 then internal_error 324
  else do
    let new ← handle_memory_error 329 new_zero_trunc_pol
    pure (fill_D g deg N tilde new)

/-- The three statements `new->mono.deg = deg; new->mono.coeff = v;
new->coeff[deg] = new->mono.coeff`. -/
def set_monomial (new : trunc_pol_t) (deg : Nat) (v : double) : trunc_pol_t :=
  ({ new with mono := { deg := deg, coeff := v } } : trunc_pol_t).set deg v

def fill_u (g : Params) (deg N : Nat) (new : trunc_pol_t) : trunc_pol_t :=
  set_monomial new deg
    ((xi g.U ((deg - 1 : Nat) : Int) N - xi g.U (deg : Int) N) * double.pow (1 - g.P) deg)

def new_trunc_pol_u (g : Params) (deg N : Nat) : Alloc trunc_pol_t :=
  if deg > g.K ∨ deg ≥ g.G ∨ deg = 0 then internal_error 357
  else do
    let new ← handle_memory_error 362 new_zero_trunc_pol
    pure (fill_u g deg N new)

def fill_v (g : Params) (deg N : Nat) (new : trunc_pol_t) : trunc_pol_t :=
  let numer := aN g.U N (deg : Int) - aN g.U N ((deg - 1 : Nat) : Int)
    - gN g.U N (deg : Int) + dN g.U N ((deg - 1 : Nat) : Int)
  let denom := 1 - double.pow (1 - g.U / 3) N
  set_monomial new deg (numer / denom * double.pow (1 - g.P) deg)

def new_trunc_pol_v (g : Params) (deg N : Nat) : Alloc trunc_pol_t :=
  if deg > g.K ∨ deg ≥ g.G ∨ deg = 0 then internal_error 387
  else do
    let new ← handle_memory_error 392 new_zero_trunc_pol
    pure (fill_v g deg N new)

def fill_w (g : Params) (deg N : Nat) (new : trunc_pol_t) : trunc_pol_t :=
  let numer := gN g.U N (deg : Int) - dN g.U N ((deg - 1 : Nat) : Int)
  let denom := 1 - double.pow (1 - g.U / 3) N
  set_monomial new deg (numer / denom * double.pow (1 - g.P) deg)

def new_trunc_pol_w (g : Params) (deg N : Nat) : Alloc trunc_pol_t :=
  if deg > g.K ∨ deg ≥ g.G ∨ deg = 0 then internal_error 419
  else do
    let new ← handle_memory_error 424 new_zero_trunc_pol
    pure (fill_w g deg N new)

def fill_y (g : Params) (j i : Int) (N : Nat) (new : trunc_pol_t) : trunc_pol_t :=
  let numer := bN g.U N j (j + i) - bN g.U N j (j + i - 1) - bN g.U N (j - 1) (i + j)
    + bN g.U N (j - 1) (j + i - 1)
  let denom := aN g.U N j - aN g.U N (j - 1) - gN g.U N j + dN g.U N (j - 1)
  set_monomial new i.toNat (numer / denom * double.pow (1 - g.P) i)

def new_trunc_pol_y (g : Params) (j i : Int) (N : Nat) : Alloc trunc_pol_t :=
  -- Avoid division by zero when N = 1 (not a failure).
  if N = 1 then fun e => (none, e)
  else if i < 0 ∨ i > (g.K : Int) ∨ i ≥ (g.G : Int) ∨ i = 0 then internal_error 456
  else do
    let new ← handle_memory_error 461 new_zero_trunc_pol
    pure (fill_y g j i N new)

def fill_T_down (g : Params) (N : Nat) (new : trunc_pol_t) : trunc_pol_t :=
  let denom := 1 - double.pow (1 - g.U / 3) N
  let st := forLoop 0 (g.HIGH + 1) (fun i (st : trunc_pol_t × double) =>
    let numer := 1 - aN g.U N (i : Int)
    (st.1.set i (numer / denom * st.2), st.2 * (1 - g.P))) (new, 1)
  st.1

def new_trunc_pol_T_down (g : Params) (N : Nat) : Alloc trunc_pol_t := do
  let new ← handle_memory_error 486 new_zero_trunc_pol
  pure (fill_T_down g N new)

def fill_T_double_down (g : Params) (N : Nat) (new : trunc_pol_t) : trunc_pol_t :=
  let st := forLoop 0 (g.G - 1 + 1) (fun i (st : trunc_pol_t × double) =>
    (st.1.set i (xi g.U (i : Int) N * st.2), st.2 * (1 - g.P))) (new, 1)
  st.1

def new_trunc_pol_T_double_down (g : Params) (N : Nat) : Alloc trunc_pol_t := do
  let new ← handle_memory_error 512 new_zero_trunc_pol
  pure (fill_T_double_down g N new)

def fill_T_up (g : Params) (deg : Nat) (new : trunc_pol_t) : trunc_pol_t :=
  let st := forLoop 0 (deg + 1) (fun i (st : trunc_pol_t × double) =>
    (st.1.set i st.2, st.2 * (1 - g.P))) (new, 1)
  st.1

def new_trunc_pol_T_up (g : Params) (deg : Nat) (_N : Nat) : Alloc trunc_pol_t :=
  if deg > g.K ∨ deg ≥ g.G then internal_error 538
  else do
    let new ← handle_memory_error 543 new_zero_trunc_pol
    pure (fill_T_up g deg new)

def fill_T_sim (g : Params) (deg N : Nat) (new : trunc_pol_t) : trunc_pol_t :=
  let j : Int := (g.G : Int) - 1 - (deg : Int)
  let denom := aN g.U N j - aN g.U N (j - 1) - gN g.U N j + dN g.U N (j - 1)
  let st := forLoop 0 (deg + 1) (fun i (st : trunc_pol_t × double) =>
    let numer := aN g.U N j - aN g.U N (j - 1) - bN g.U N j ((i : Int) + j)
      + bN g.U N (j - 1) ((i : Int) + j)
    (st.1.set i (numer / denom * st.2), st.2 * (1 - g.P))) (new, 1)
  st.1

def new_trunc_pol_T_sim (g : Params) (deg N : Nat) : Alloc trunc_pol_t :=
  -- Avoid division by zero when N = 1 (not a failure).
  if N = 1 then fun e => (none, e)
  else if deg > g.K ∨ deg ≥ g.G then internal_error 572
  else do
    let new ← handle_memory_error 577 new_zero_trunc_pol
    pure (fill_T_sim g deg N new)

/-! ### Matrices -/

/-- Create a matrix where all truncated polynomials are `NULL`. -/
def new_null_matrix (dim : Nat) : Alloc matrix_t :=
  handle_memory_error 609 (calloc { dim := dim, term := fun _ => none })

/-- Create a matrix where all terms are `trunc_pol_t` structs set to zero. -/
def new_zero_matrix (dim : Nat) : Alloc matrix_t := do
  let new ← handle_memory_error 652 (new_null_matrix dim)
  forLoopM 0 (dim * dim) (fun i (M : matrix_t) => do
    let t ← handle_memory_error 656 new_zero_trunc_pol
    pure (M.set i (some t))) new

/-- The statements `M->term[0*dim+1]->coeff[0] = 1.0;
M->term[0*dim+1]->mono.coeff = 1.0` on the fresh polynomial `new`. -/
def fill_one (new : trunc_pol_t) : trunc_pol_t :=
  { mono := { deg := new.mono.deg, coeff := 1 }, coeff := Function.update new.coeff 0 1 }

def new_matrix_M (g : Params) (N : Nat) : Alloc matrix_t := do
  let dim := 2 * g.G + 2
  let M ← handle_memory_error 678 (new_null_matrix dim)
  -- First row.
  let t ← handle_memory_error 682 new_zero_trunc_pol
  let M := M.set (0 * dim + 1) (some (fill_one t))
  -- Second row.
  let t ← handle_memory_error 688 (new_trunc_pol_A g g.G N NO)
  let M := M.set (1 * dim + 1) (some t)
  let t ← handle_memory_error 690 (new_trunc_pol_A g g.HIGH N YES)
  let M := M.set (1 * dim + 2) (some t)
  let M ← forLoopM 1 (g.G - 1) (fun j (M : matrix_t) => do
    let t ← handle_memory_error 693 (new_trunc_pol_u g j N)
    pure (M.set (1 * dim + (j + g.G + 1)) (some t))) M
  let t ← handle_memory_error 696 (new_trunc_pol_T_double_down g N)
  let M := M.set (1 * dim + dim - 1) (some t)
  -- Third row.
  let t ← handle_memory_error 700 (new_trunc_pol_B g g.HIGH N NO)
  let M := M.set (2 * dim + 1) (some t)
  let t ← handle_memory_error 702 (new_trunc_pol_B g g.HIGH N YES)
  let M := M.set (2 * dim + 2) (some t)
  let M ← forLoopM 1 (g.G - 1) (fun j (M : matrix_t) => do
    let t ← handle_memory_error 705 (new_trunc_pol_v g j N)
    pure (M.set (2 * dim + j + 2) (some t))) M
  let M ← forLoopM 1 (g.G - 1) (fun j (M : matrix_t) => do
    let t ← handle_memory_error 709 (new_trunc_pol_w g j N)
    pure (M.set (2 * dim + j + g.G + 1) (some t))) M
  let t ← handle_memory_error 712 (new_trunc_pol_T_down g N)
  let M := M.set (2 * dim + dim - 1) (some t)
  -- First series of middle rows.
  let M ← forLoopM 1 (g.G - 1) (fun j (M : matrix_t) => do
    let t ← handle_memory_error 717 (new_trunc_pol_C g (g.G - j) N NO)
    let M := M.set ((j + 2) * dim + 1) (some t)
    let t ← handle_memory_error 719 (new_trunc_pol_C g (g.G - j) N YES)
    let M := M.set ((j + 2) * dim + 2) (some t)
    let M ← forLoopM 1 (g.G - j - 1) (fun i (M : matrix_t) => do
      let t ← handle_memory_error 722 (new_trunc_pol_y g (j : Int) (i : Int) N)
      pure (M.set ((j + 2) * dim + g.G + j + i + 1) (some t))) M
    let t ← handle_memory_error 725 (new_trunc_pol_T_sim g (g.G - j - 1) N)
    pure (M.set ((j + 2) * dim + dim - 1) (some t))) M
  -- Second series of middle rows.
  let M ← forLoopM 1 (g.G - 1) (fun j (M : matrix_t) => do
    let t ← handle_memory_error 731 (new_trunc_pol_D g (g.G - j) N NO)
    let M := M.set ((j + g.G + 1) * dim + 1) (some t)
    let t ← handle_memory_error 733 (new_trunc_pol_D g (g.G - j) N YES)
    let M := M.set ((j + g.G + 1) * dim + 2) (some t)
    let t ← handle_memory_error 735 (new_trunc_pol_T_up g (g.G - j - 1) N)
    pure (M.set ((j + g.G + 1) * dim + dim - 1) (some t))) M
  -- Last row is null.
  pure M

/-! ### Truncated polynomial algebra -/

/-- The function `trunc_pol_mult(dest, a, b)`: the returned pointer (`NULL`
or `dest`, given by the content `dest` then has) and the content of `dest`
after the call. `dest` must not be one of the operands. -/
def trunc_pol_mult (K : Nat) (dest : trunc_pol_t) (a b : Option trunc_pol_t) :
    Option trunc_pol_t × trunc_pol_t :=
  match a, b with
  | some a, some b =>
    if a.mono.coeff.nonzero = true ∧ b.mono.coeff.nonzero = true then
      -- Both are monomials, just do one multiplication.
      if a.mono.deg + b.mono.deg > K then (none, zero_trunc_pol)
      else
        let dest := set_monomial zero_trunc_pol (a.mono.deg + b.mono.deg)
          (a.mono.coeff * b.mono.coeff)
        (some dest, dest)
    else if a.mono.coeff.nonzero = true then
      -- 'a' is a monomial, do one "row" of multiplications.
      let dest := forLoop a.mono.deg (K + 1 - a.mono.deg) (fun i (d : trunc_pol_t) =>
        d.set i (a.mono.coeff * b.coeff (i - a.mono.deg))) zero_trunc_pol
      (some dest, dest)
    else if b.mono.coeff.nonzero = true then
      -- 'b' is a monomial, do one "row" of multiplications.
      let dest := forLoop b.mono.deg (K + 1 - b.mono.deg) (fun i (d : trunc_pol_t) =>
        d.set i (b.mono.coeff * a.coeff (i - b.mono.deg))) zero_trunc_pol
      (some dest, dest)
    else
      -- Standard convolution product.
      let dest := forLoop 0 (K + 1) (fun i (d : trunc_pol_t) =>
        forLoop 1 i (fun j (d : trunc_pol_t) =>
          d.set i (d.coeff i + a.coeff j * b.coeff (i - j)))
          (d.set i (a.coeff 0 * b.coeff i))) dest
      (some dest, dest)
  | _, _ => (none, zero_trunc_pol)

/-- The function `trunc_pol_update_add(dest, a)`: the content of `dest` after
the call. -/
def trunc_pol_update_add (K : Nat) (dest : trunc_pol_t) (a : Option trunc_pol_t) :
    trunc_pol_t :=
  match a with
  | none => dest
  | some a => forLoop 0 (K + 1) (fun i (d : trunc_pol_t) =>
      d.set i (d.coeff i + a.coeff i)) dest

/-- What a call of `matrix_mult` leaves behind: the returned pointer (`NULL`
or `dest`), the content of `dest`, the scratch buffer and the error token. -/
structure MultOut where
  ret : Option matrix_t
  dest : matrix_t
  TEMP : Option trunc_pol_t
  ERRNO : Int

/-- The function `matrix_mult(dest, a, b)`, with `dest` an object of its own.
The result is `none` where the C code dereferences a null pointer (an entry
of `dest` that is not allocated, or no scratch buffer). -/
def matrix_mult (K : Nat) (dest a b : matrix_t) (TEMP : Option trunc_pol_t) (ERRNO : Int) :
    Option MultOut :=
  if a.dim ≠ dest.dim ∨ b.dim ≠ dest.dim then
    some { ret := none, dest := dest, TEMP := TEMP, ERRNO := 835 }
  else
    let dim := dest.dim
    (forLoopM 0 dim (fun i (st : matrix_t × Option trunc_pol_t) =>
      forLoopM 0 dim (fun j (st : matrix_t × Option trunc_pol_t) => do
        -- Erase destination entry.
        let _ ← st.1.term (i * dim + j)
        let st : matrix_t × Option trunc_pol_t :=
          (st.1.set (i * dim + j) (some zero_trunc_pol), st.2)
        forLoopM 0 dim (fun m (st : matrix_t × Option trunc_pol_t) => do
          let T ← st.2
          let d ← st.1.term (i * dim + j)
          let r := trunc_pol_mult K T (a.term (i * dim + m)) (b.term (m * dim + j))
          pure (st.1.set (i * dim + j) (some (trunc_pol_update_add K d r.1)), some r.2))
          st) st) (dest, TEMP)).map
      fun (st : matrix_t × Option trunc_pol_t) =>
        { ret := some st.1, dest := st.1, TEMP := st.2, ERRNO := ERRNO }

/-! ### Visible functions -/

/-- Initialize the global variables from user-defined values. -/
def set_params_mem_prob (g k : Nat) (p u : double) (s : Session) : Int × Session :=
  if double.le p 0 = true ∨ double.le 1 p = true then (FAILURE, { s with ERRNO := 136 })
  else if double.le u 0 = true ∨ double.le 1 u = true then (FAILURE, { s with ERRNO := 143 })
  else
    let s : Session := { s with
      G := g, K := k, P := p, U := u
      HIGH := if k > g then k else g
      KSZ := (16 + (k + 1) * 8) % 2 ^ 64
      ARRAY := fun _ => none }
    match handle_memory_error 167 new_zero_trunc_pol s.toEff with
    | (some t, e) => (SUCCESS, { s with TEMP := some t, toEff := e })
    | (none, e) => (FAILURE, { s with TEMP := none, toEff := e })

/-- The local variables of `compute_mem_prob` and the globals that change
while the series is summed. -/
structure Work where
  w : trunc_pol_t
  powM1 : matrix_t
  powM2 : matrix_t
  TEMP : Option trunc_pol_t
  ERRNO : Int

/-- One round of the loop at lines 905-910 of `compute_mem_prob`: two more
products, each followed by `trunc_pol_update_add(w, ..)`. -/
def power_round (K G : Nat) (M : matrix_t) (x : Work) : Option Work := do
  let r ← matrix_mult K x.powM2 x.powM1 M x.TEMP x.ERRNO
  let x : Work := { x with powM2 := r.dest, TEMP := r.TEMP, ERRNO := r.ERRNO }
  let x : Work := { x with w := trunc_pol_update_add K x.w (x.powM2.term (2 * G + 1)) }
  let r ← matrix_mult K x.powM1 x.powM2 M x.TEMP x.ERRNO
  let x : Work := { x with powM1 := r.dest, TEMP := r.TEMP, ERRNO := r.ERRNO }
  pure { x with w := trunc_pol_update_add K x.w (x.powM1.term (2 * G + 1)) }

/-- Lines 901-910 of `compute_mem_prob`: the product `M*M`, then ten rounds
of two more products, each followed by `trunc_pol_update_add(w, ..)`. -/
def sum_of_powers (K G : Nat) (M : matrix_t) (x : Work) : Option Work := do
  let r ← matrix_mult K x.powM1 M M x.TEMP x.ERRNO
  let x : Work := { x with powM1 := r.dest, TEMP := r.TEMP, ERRNO := r.ERRNO }
  let x : Work := { x with w := trunc_pol_update_add K x.w (x.powM1.term (2 * G + 1)) }
  -- FIXME: 10 must be replaced by a smart number.
  forLoopM 0 10 (fun _ (x : Work) => power_round K G M x) x

/-- Lines 892-899 of `compute_mem_prob`: the four allocations, each followed
by `handle_memory_error`. -/
def allocate_work (g : Params) (N : Nat) :
    Alloc (trunc_pol_t × matrix_t × matrix_t × matrix_t) := do
  let w ← handle_memory_error 893 new_zero_trunc_pol
  let M ← handle_memory_error 895 (new_matrix_M g N)
  let powM1 ← handle_memory_error 897 (new_zero_matrix (2 * g.G + 2))
  let powM2 ← handle_memory_error 899 (new_zero_matrix (2 * g.G + 2))
  pure (w, M, powM1, powM2)

/-- The function `compute_mem_prob(N, k)` with the `double` it returns. The
inner `Option` is `none` for the exit through `in_case_of_failure` (which
returns the NaN `0.0/0.0`), the outer one where the C code dereferences a
null pointer. -/
def compute_mem_prob (N k : Nat) (s : Session) : Option (Option double × Session) :=
  if N > MAXN - 1 then some (none, { s with ERRNO := 877 })
  else if k > s.K then some (none, { s with ERRNO := 885 })
  else
    match s.ARRAY N with
    | some w => some (some (w.coeff k), s)
    | none =>
      match allocate_work s.toParams N s.toEff with
      | (none, e) => some (none, { s with toEff := e })
      | (some (w, M, powM1, powM2), e) =>
        (sum_of_powers s.K s.G M
          { w := w, powM1 := powM1, powM2 := powM2, TEMP := s.TEMP, ERRNO := e.ERRNO }).map
          fun (x : Work) => (some (x.w.coeff k),
            { s with ERRNO := x.ERRNO, mem := e.mem, TEMP := x.TEMP,
                     ARRAY := Function.update s.ARRAY N (some x.w) })

/-- A `dim × dim` matrix all of whose entries are allocated and carry no
monomial hint: what `new_zero_matrix` returns and what `matrix_mult` leaves
in `dest`. -/
def Clean (dim : Nat) (D : matrix_t) : Prop :=
  D.dim = dim ∧ ∀ x, x < dim * dim → ∃ q, D.term x = some q ∧ q.mono = zero_trunc_pol.mono

end IEEE
end MemProb

namespace MemProb

/-! ## The `Alloc` monad -/

theorem Alloc.bind_run {α β : Type} (m : Alloc α) (f : α → Alloc β) (e : Eff) :
    (m >>= f) e = match m e with
      | (some a, e1) => f a e1
      | (none, e1) => (none, e1) := rfl

theorem Alloc.pure_run {α : Type} (a : α) (e : Eff) : (pure a : Alloc α) e = (some a, e) := rfl

theorem Alloc.bind_of_some {α β : Type} {m : Alloc α} {f : α → Alloc β} {e e1 : Eff} {a : α}
    (h : m e = (some a, e1)) : (m >>= f) e = f a e1 := by
  rw [Alloc.bind_run, h]

theorem Alloc.bind_of_none {α β : Type} {m : Alloc α} (f : α → Alloc β) {e e1 : Eff}
    (h : m e = (none, e1)) : (m >>= f) e = (none, e1) := by
  rw [Alloc.bind_run, h]

/-! ## `compute_mem_prob`: the shape of a call -/

theorem compute_mem_prob_of_cached {N k : Nat} {s : Session} {w : trunc_pol_t}
    (hN : N ≤ MAXN - 1) (hk : k ≤ s.K) (hw : s.ARRAY N = some w) :
    compute_mem_prob N k s = some (some (w.coeff k), s) := by
  unfold compute_mem_prob
  rw [if_neg (by omega), if_neg (by omega), hw]

/-- What a call that returns a number has done. -/
theorem compute_mem_prob_some_inv {N k : Nat} {s s' : Session} {v : ℚ}
    (h : compute_mem_prob N k s = some (some v, s')) :
    N ≤ MAXN - 1 ∧ k ≤ s.K ∧ s'.toParams = s.toParams ∧
      (∀ n, n ≠ N → s'.ARRAY n = s.ARRAY n) ∧
      ∃ w, s'.ARRAY N = some w ∧ v = w.coeff k := by
  unfold compute_mem_prob at h
  split_ifs at h with h1 h2
  · simp at h
  · simp at h
  · refine ⟨by omega, by omega, ?_⟩
    split at h
    · rename_i w hw
      simp only [Option.some.injEq, Prod.mk.injEq] at h
      obtain ⟨hv, hs⟩ := h
      subst hs
      exact ⟨rfl, fun _ _ => rfl, w, hw, hv.symm⟩
    · split at h
      · simp at h
      · rename_i w M p1 p2 e he
        cases hx : sum_of_powers s.K s.G M
            { w := w, powM1 := p1, powM2 := p2, TEMP := s.TEMP, ERRNO := e.ERRNO } with
        | none => rw [hx] at h; simp at h
        | some x =>
          rw [hx] at h
          simp only [Option.map_some', Option.some.injEq, Prod.mk.injEq] at h
          obtain ⟨hv, hs⟩ := h
          subst hs
          exact ⟨rfl, fun n hn => by simp [Function.update_apply, hn], x.w, by simp,
            hv.symm⟩

/-- What a call that returns `nan` has done. -/
theorem compute_mem_prob_none_inv {N k : Nat} {s s' : Session}
    (h : compute_mem_prob N k s = some (none, s')) :
    s'.toParams = s.toParams ∧ s'.ARRAY = s.ARRAY ∧ s'.TEMP = s.TEMP := by
  unfold compute_mem_prob at h
  split_ifs at h with h1 h2
  · simp only [Option.some.injEq, Prod.mk.injEq, true_and] at h
    subst h; exact ⟨rfl, rfl, rfl⟩
  · simp only [Option.some.injEq, Prod.mk.injEq, true_and] at h
    subst h; exact ⟨rfl, rfl, rfl⟩
  · split at h
    · simp at h
    · split at h
      · simp only [Option.some.injEq, Prod.mk.injEq, true_and] at h
        subst h; exact ⟨rfl, rfl, rfl⟩
      · rename_i w M p1 p2 e he
        cases hx : sum_of_powers s.K s.G M
            { w := w, powM1 := p1, powM2 := p2, TEMP := s.TEMP, ERRNO := e.ERRNO } with
        | none => rw [hx] at h; simp at h
        | some x => rw [hx] at h; simp at h

/-- Every exit through `in_case_of_failure` leaves a non-zero error token. -/
theorem handle_memory_error_none {α : Type} {line : Int} {x : Alloc α} {e e1 : Eff}
    (h : handle_memory_error line x e = (none, e1)) : e1.ERRNO = line := by
  unfold handle_memory_error at h
  split at h
  · simp at h
  · simp only [Prod.mk.injEq, true_and] at h
    subst h; rfl

theorem allocate_work_none {g : Params} {N : Nat} {e e1 : Eff}
    (h : allocate_work g N e = (none, e1)) : e1.ERRNO ≠ 0 := by
  unfold allocate_work at h
  rw [Alloc.bind_run] at h
  split at h
  · rw [Alloc.bind_run] at h
    split at h
    · rw [Alloc.bind_run] at h
      split at h
      · rw [Alloc.bind_run] at h
        split at h
        · cases h
        · rename_i h4; cases h; rw [handle_memory_error_none h4]; decide
      · rename_i h3; cases h; rw [handle_memory_error_none h3]; decide
    · rename_i h2; cases h; rw [handle_memory_error_none h2]; decide
  · rename_i h1; cases h; rw [handle_memory_error_none h1]; decide

end MemProb

namespace MemProb

/-! ## Loops -/

theorem forLoop_succ_last {σ : Type} (body : Nat → σ → σ) (n lo : Nat) (s : σ) :
    forLoop lo (n + 1) body s = body (lo + n) (forLoop lo n body s) := by
  induction n generalizing lo s with
  | zero => rfl
  | succ n ih =>
    show forLoop (lo + 1) (n + 1) body (body lo s) = _
    rw [ih]
    have h : lo + 1 + n = lo + (n + 1) := by omega
    rw [h]
    rfl

theorem trunc_pol_t.eq_of {p q : trunc_pol_t} (h1 : p.mono = q.mono)
    (h2 : ∀ i, p.coeff i = q.coeff i) : p = q := by
  cases p; cases q
  simp only [trunc_pol_t.mk.injEq]
  exact ⟨h1, funext h2⟩

@[simp] theorem trunc_pol_t.set_mono (p : trunc_pol_t) (i : Nat) (v : ℚ) :
    (p.set i v).mono = p.mono := rfl

theorem trunc_pol_t.set_coeff (p : trunc_pol_t) (i : Nat) (v : ℚ) (c : Nat) :
    (p.set i v).coeff c = if c = i then v else p.coeff c := by
  unfold trunc_pol_t.set
  simp only [Function.update_apply]

/-- A loop that stores `h i pow_of_q` at index `i` and multiplies the running
factor `pow_of_q` by `r`. -/
theorem fill_loop (h : Nat → ℚ → ℚ) (r : ℚ) (n lo : Nat) (p : trunc_pol_t) (q : ℚ) :
    forLoop lo n (fun i (st : trunc_pol_t × ℚ) => (st.1.set i (h i st.2), st.2 * r)) (p, q) =
      ({ mono := p.mono,
         coeff := fun i => if lo ≤ i ∧ i < lo + n then h i (q * r ^ (i - lo)) else p.coeff i },
        q * r ^ n) := by
  induction n generalizing lo p q with
  | zero =>
    show (p, q) = _
    refine Prod.ext (trunc_pol_t.eq_of rfl fun i => ?_) (by simp)
    simp only
    rw [if_neg (by omega)]
  | succ n ih =>
    show forLoop (lo + 1) n _ (p.set lo (h lo q), q * r) = _
    rw [ih]
    refine Prod.ext (trunc_pol_t.eq_of rfl fun i => ?_) ?_
    · simp only [trunc_pol_t.set_coeff, trunc_pol_t.set_mono]
      by_cases h1 : lo + 1 ≤ i ∧ i < lo + 1 + n
      · rw [if_pos h1, if_pos (by omega)]
        have : i - lo = (i - (lo + 1)) + 1 := by omega
        rw [this, pow_succ']
        ring_nf
      · rw [if_neg h1]
        by_cases h2 : i = lo
        · rw [if_pos h2, if_pos (by omega), h2]
          simp
        · rw [if_neg h2, if_neg (by omega)]
    · simp only
      rw [pow_succ']
      ring

/-- A loop that rewrites the entry at index `i` from its old value. -/
theorem pointwise_loop (F : Nat → ℚ → ℚ) (n lo : Nat) (p : trunc_pol_t) :
    forLoop lo n (fun i (d : trunc_pol_t) => d.set i (F i (d.coeff i))) p =
      { mono := p.mono,
        coeff := fun i => if lo ≤ i ∧ i < lo + n then F i (p.coeff i) else p.coeff i } := by
  induction n generalizing lo p with
  | zero =>
    show p = _
    refine trunc_pol_t.eq_of rfl fun i => ?_
    simp only
    rw [if_neg (by omega)]
  | succ n ih =>
    show forLoop (lo + 1) n _ (p.set lo (F lo (p.coeff lo))) = _
    rw [ih]
    refine trunc_pol_t.eq_of rfl fun i => ?_
    simp only [trunc_pol_t.set_coeff]
    by_cases h1 : lo + 1 ≤ i ∧ i < lo + 1 + n
    · have h2 : ¬ i = lo := by omega
      have h3 : lo ≤ i ∧ i < lo + (n + 1) := by omega
      rw [if_pos h1, if_neg h2, if_pos h3]
    · rw [if_neg h1]
      by_cases h2 : i = lo
      · have h3 : lo ≤ i ∧ i < lo + (n + 1) := by omega
        rw [if_pos h2, if_pos h3, h2]
      · have h3 : ¬ (lo ≤ i ∧ i < lo + (n + 1)) := by omega
        rw [if_neg h2, if_neg h3]

/-- A loop that keeps adding to the entry at one index `i`. -/
theorem accumulate_loop (i : Nat) (f : Nat → ℚ) (n lo : Nat) (d : trunc_pol_t) :
    forLoop lo n (fun j (d : trunc_pol_t) => d.set i (d.coeff i + f j)) d =
      d.set i (d.coeff i + ∑ j in Finset.range n, f (lo + j)) := by
  induction n generalizing lo d with
  | zero =>
    show d = _
    refine trunc_pol_t.eq_of rfl fun c => ?_
    rw [trunc_pol_t.set_coeff]
    by_cases h : c = i
    · rw [if_pos h, h]; simp
    · rw [if_neg h]
  | succ n ih =>
    show forLoop (lo + 1) n _ (d.set i (d.coeff i + f lo)) = _
    rw [ih]
    refine trunc_pol_t.eq_of rfl fun c => ?_
    simp only [trunc_pol_t.set_coeff]
    by_cases h : c = i
    · simp only [if_pos h, if_true]
      rw [Finset.sum_range_succ']
      have : ∀ j, lo + 1 + j = lo + (j + 1) := fun j => by omega
      simp only [this, Nat.add_zero]
      ring
    · simp only [if_neg h]

/-! ## Truncated polynomial algebra -/

theorem trunc_pol_update_add_mono (K : Nat) (d : trunc_pol_t) (a : Option trunc_pol_t) :
    (trunc_pol_update_add K d a).mono = d.mono := by
  cases a with
  | none => rfl
  | some a =>
    unfold trunc_pol_update_add
    simp only
    rw [pointwise_loop (fun i x => x + a.coeff i)]

theorem trunc_pol_update_add_coeff (K : Nat) (d : trunc_pol_t) (a : Option trunc_pol_t)
    (c : Nat) :
    (trunc_pol_update_add K d a).coeff c =
      if c ≤ K then d.coeff c + coefO a c else d.coeff c := by
  cases a with
  | none => simp [trunc_pol_update_add, coefO]
  | some a =>
    unfold trunc_pol_update_add
    simp only
    rw [pointwise_loop (fun i x => x + a.coeff i)]
    simp only [coefO]
    by_cases h : c ≤ K
    · rw [if_pos h, if_pos (by omega)]
    · rw [if_neg h, if_neg (by omega)]

theorem pol_mul_comm (K : Nat) (a b : Nat → ℚ) (c : Nat) :
    pol_mul K a b c = pol_mul K b a c := by
  unfold pol_mul
  split_ifs with h
  · rw [← Finset.sum_flip]
    refine Finset.sum_congr rfl fun t ht => ?_
    have ht' : t ≤ c := by
      have := Finset.mem_range.mp ht
      omega
    have : c - (c - t) = t := by omega
    rw [this, mul_comm]
  · rfl

theorem pol_mul_zero_left (K : Nat) (b : Nat → ℚ) (c : Nat) :
    pol_mul K (fun _ => 0) b c = 0 := by
  unfold pol_mul
  simp

theorem pol_mul_zero_right (K : Nat) (a : Nat → ℚ) (c : Nat) :
    pol_mul K a (fun _ => 0) c = 0 := by
  unfold pol_mul
  simp

/-- The product with a single term `x * X^d`. -/
theorem pol_mul_monomial (K : Nat) (a b : Nat → ℚ) (d : Nat) (x : ℚ) (c : Nat) (hc : c ≤ K)
    (ha : ∀ t, t ≤ K → a t = if t = d then x else 0) :
    pol_mul K a b c = if d ≤ c then x * b (c - d) else 0 := by
  unfold pol_mul
  rw [if_pos hc]
  have : ∀ t ∈ Finset.range (c + 1), a t * b (c - t) = if t = d then x * b (c - d) else 0 := by
    intro t ht
    have ht' : t ≤ K := by
      have := Finset.mem_range.mp ht
      omega
    rw [ha t ht']
    by_cases h : t = d
    · rw [if_pos h, if_pos h, h]
    · rw [if_neg h, if_neg h, zero_mul]
  rw [Finset.sum_congr rfl this, Finset.sum_ite_eq']
  simp only [Finset.mem_range]
  by_cases h : d ≤ c
  · rw [if_pos h, if_pos (by omega)]
  · rw [if_neg h, if_neg (by omega)]

end MemProb

namespace MemProb

theorem set_monomial_coeff (p : trunc_pol_t) (d : Nat) (v : ℚ) (c : Nat) :
    (set_monomial p d v).coeff c = if c = d then v else p.coeff c := by
  unfold set_monomial
  rw [trunc_pol_t.set_coeff]

theorem set_monomial_mono (p : trunc_pol_t) (d : Nat) (v : ℚ) :
    (set_monomial p d v).mono = { deg := d, coeff := v } := rfl

/-- The standard convolution product of `trunc_pol_mult`. -/
theorem convolution_loop (K : Nat) (a b : Nat → ℚ) (dest : trunc_pol_t) :
    forLoop 0 (K + 1) (fun i (d : trunc_pol_t) =>
        forLoop 1 i (fun j (d : trunc_pol_t) => d.set i (d.coeff i + a j * b (i - j)))
          (d.set i (a 0 * b i))) dest =
      { mono := dest.mono,
        coeff := fun i => if i ≤ K then ∑ t in Finset.range (i + 1), a t * b (i - t)
          else dest.coeff i } := by
  have hbody : (fun i (d : trunc_pol_t) =>
        forLoop 1 i (fun j (d : trunc_pol_t) => d.set i (d.coeff i + a j * b (i - j)))
          (d.set i (a 0 * b i))) =
      fun i (d : trunc_pol_t) =>
        d.set i ((fun i (_ : ℚ) => ∑ t in Finset.range (i + 1), a t * b (i - t)) i
          (d.coeff i)) := by
    funext i d
    rw [accumulate_loop i (fun j => a j * b (i - j))]
    refine trunc_pol_t.eq_of rfl fun c => ?_
    simp only [trunc_pol_t.set_coeff]
    by_cases h : c = i
    · simp only [if_pos h, if_true]
      rw [Finset.sum_range_succ']
      simp only [Nat.sub_zero]
      rw [add_comm]
      congr 1
      refine Finset.sum_congr rfl fun j _ => ?_
      rw [add_comm 1 j]
    · simp only [if_neg h, if_false]
  rw [hbody]
  refine (pointwise_loop (fun i (_ : ℚ) => ∑ t in Finset.range (i + 1), a t * b (i - t))
    (K + 1) 0 dest).trans ?_
  refine trunc_pol_t.eq_of rfl fun c => ?_
  simp only
  by_cases h : c ≤ K
  · rw [if_pos h, if_pos (by omega)]
  · rw [if_neg h, if_neg (by omega)]

/-- The row of multiplications of `trunc_pol_mult` when one operand is a
monomial. -/
theorem monomial_loop (K d : Nat) (x : ℚ) (b : Nat → ℚ) (c : Nat) (hc : c ≤ K) :
    (forLoop d (K + 1 - d) (fun i (p : trunc_pol_t) => p.set i (x * b (i - d)))
        zero_trunc_pol).coeff c = if d ≤ c then x * b (c - d) else 0 := by
  rw [pointwise_loop (fun i _ => x * b (i - d))]
  simp only
  by_cases h : d ≤ c
  · rw [if_pos h, if_pos (by omega)]
  · rw [if_neg h, if_neg (by omega)]
    rfl

/-- Whichever branch `trunc_pol_mult` takes, the
polynomial it returns (zero for `NULL`) has the coefficients of the truncated
convolution on the degrees `0..K`. -/
theorem trunc_pol_mult_coeff (K : Nat) (dest : trunc_pol_t) (a b : Option trunc_pol_t)
    (ha : ∀ p, a = some p → hint_consistent K p) (hb : ∀ p, b = some p → hint_consistent K p)
    (c : Nat) (hc : c ≤ K) :
    coefO (trunc_pol_mult K dest a b).1 c = pol_mul K (coefO a) (coefO b) c := by
  cases a with
  | none =>
    have : coefO (none : Option trunc_pol_t) = fun _ => 0 := rfl
    rw [this, pol_mul_zero_left]
    cases b <;> rfl
  | some a =>
    cases b with
    | none =>
      have : coefO (none : Option trunc_pol_t) = fun _ => 0 := rfl
      rw [this, pol_mul_zero_right]
      rfl
    | some b =>
      have ha' := ha a rfl
      have hb' := hb b rfl
      unfold trunc_pol_mult
      simp only
      have hca : coefO (some a) = a.coeff := rfl
      have hcb : coefO (some b) = b.coeff := rfl
      rw [hca, hcb]
      by_cases h1 : a.mono.coeff ≠ 0
      · have hva := ha' h1
        rw [pol_mul_monomial K a.coeff b.coeff a.mono.deg a.mono.coeff c hc hva]
        by_cases h2 : b.mono.coeff ≠ 0
        · have hvb := hb' h2
          rw [if_pos ⟨h1, h2⟩]
          by_cases h3 : a.mono.deg + b.mono.deg > K
          · rw [if_pos h3]
            show (0 : ℚ) = _
            by_cases h4 : a.mono.deg ≤ c
            · rw [if_pos h4, hvb _ (by omega), if_neg (by omega), mul_zero]
            · rw [if_neg h4]
          · rw [if_neg h3]
            show (set_monomial zero_trunc_pol _ _).coeff c = _
            rw [set_monomial_coeff]
            by_cases h4 : a.mono.deg ≤ c
            · rw [if_pos h4, hvb _ (by omega)]
              by_cases h5 : c = a.mono.deg + b.mono.deg
              · rw [if_pos h5, if_pos (by omega)]
              · rw [if_neg h5, if_neg (by omega), mul_zero]; rfl
            · rw [if_neg h4, if_neg (by omega)]; rfl
        · rw [if_neg (fun h => h2 h.2), if_pos h1]
          exact monomial_loop K _ _ _ c hc
      · by_cases h2 : b.mono.coeff ≠ 0
        · have hvb := hb' h2
          rw [if_neg (fun h => h1 h.1), if_neg h1, if_pos h2, pol_mul_comm,
            pol_mul_monomial K b.coeff a.coeff b.mono.deg b.mono.coeff c hc hvb]
          exact monomial_loop K _ _ _ c hc
        · rw [if_neg (fun h => h1 h.1), if_neg h1, if_neg h2]
          show (forLoop 0 (K + 1) _ dest).coeff c = _
          rw [convolution_loop]
          simp only
          rw [if_pos hc]
          unfold pol_mul
          rw [if_pos hc]

end MemProb

namespace MemProb

/-! ## `matrix_mult` -/

theorem forLoopM_option_inv {σ : Type} (Inv : Nat → σ → Prop) (body : Nat → σ → Option σ)
    (n lo : Nat) (s : σ) (h0 : Inv lo s)
    (hstep : ∀ i s, lo ≤ i → i < lo + n → Inv i s → ∃ s', body i s = some s' ∧ Inv (i + 1) s') :
    ∃ s', forLoopM lo n body s = some s' ∧ Inv (lo + n) s' := by
  induction n generalizing lo s with
  | zero => exact ⟨s, rfl, h0⟩
  | succ n ih =>
    obtain ⟨s1, hs1, hI1⟩ := hstep lo s (le_refl _) (by omega) h0
    obtain ⟨s2, hs2, hI2⟩ := ih (lo + 1) s1 hI1
      (fun i s hi1 hi2 hI => hstep i s (by omega) (by omega) hI)
    refine ⟨s2, ?_, ?_⟩
    · show (body lo s >>= fun s1 => forLoopM (lo + 1) n body s1) = some s2
      rw [hs1]
      exact hs2
    · have : lo + (n + 1) = lo + 1 + n := by omega
      rw [this]
      exact hI2

theorem flat_div {dim i j : Nat} (hj : j < dim) : (i * dim + j) / dim = i := by
  have hpos : 0 < dim := by omega
  rw [Nat.add_comm, Nat.add_mul_div_right _ _ hpos, Nat.div_eq_of_lt hj, Nat.zero_add]

theorem flat_mod {dim i j : Nat} (hj : j < dim) : (i * dim + j) % dim = j := by
  rw [Nat.add_comm, Nat.add_mul_mod_self_right, Nat.mod_eq_of_lt hj]

theorem flat_lt {dim i j : Nat} (hi : i < dim) (hj : j < dim) : i * dim + j < dim * dim := by
  have h1 : (i + 1) * dim ≤ dim * dim := Nat.mul_le_mul_right dim hi
  have h2 : (i + 1) * dim = i * dim + dim := by ring
  omega

theorem flat_inj {dim i j i' j' : Nat} (hj : j < dim) (hj' : j' < dim)
    (h : i * dim + j = i' * dim + j') : i = i' ∧ j = j' := by
  have h1 := flat_div (i := i) hj
  have h2 := flat_mod (i := i) hj
  rw [h, flat_div hj'] at h1
  rw [h, flat_mod hj'] at h2
  exact ⟨h1.symm, h2.symm⟩

theorem matrix_t.set_term (M : matrix_t) (x : Nat) (p : Option trunc_pol_t) (y : Nat) :
    (M.set x p).term y = if y = x then p else M.term y := by
  unfold matrix_t.set
  simp only [Function.update_apply]

@[simp] theorem matrix_t.set_dim (M : matrix_t) (x : Nat) (p : Option trunc_pol_t) :
    (M.set x p).dim = M.dim := rfl

theorem pol_mul_above (K : Nat) (a b : Nat → ℚ) (c : Nat) (hc : ¬ c ≤ K) :
    pol_mul K a b c = 0 := by
  unfold pol_mul
  rw [if_neg hc]

/-- The innermost loop of `matrix_mult`: it leaves the sum of the products
`a[i,m]*b[m,j]` in the entry `i*dim+j` and touches no other entry. -/
theorem matrix_mult_inner (K dim : Nat) (a b : matrix_t) (ha_dim : a.dim = dim)
    (hb_dim : b.dim = dim)
    (ha : ∀ x p, x < dim * dim → a.term x = some p → hint_consistent K p)
    (hb : ∀ x p, x < dim * dim → b.term x = some p → hint_consistent K p)
    (i j : Nat) (hi : i < dim) (hj : j < dim) (M1 : matrix_t) (T : Option trunc_pol_t) (hT : T.isSome)
    (h1 : M1.term (i * dim + j) = some zero_trunc_pol) :
    ∃ st : matrix_t × Option trunc_pol_t,
      forLoopM 0 dim (fun m (st : matrix_t × Option trunc_pol_t) => do
          let T ← st.2
          let d ← st.1.term (i * dim + j)
          let r := trunc_pol_mult K T (a.term (i * dim + m)) (b.term (m * dim + j))
          pure (st.1.set (i * dim + j) (some (trunc_pol_update_add K d r.1)), some r.2))
        (M1, T) = some st ∧
      st.2.isSome ∧ st.1.dim = M1.dim ∧ (∀ x, x ≠ i * dim + j → st.1.term x = M1.term x) ∧
      st.1.term (i * dim + j) = some (prod_cell K dim a b (i * dim + j)) := by
  have key := forLoopM_option_inv
    (fun m (st : matrix_t × Option trunc_pol_t) =>
      st.2.isSome ∧ st.1.dim = M1.dim ∧ (∀ x, x ≠ i * dim + j → st.1.term x = M1.term x) ∧
      st.1.term (i * dim + j) = some
        { mono := { deg := 0, coeff := 0 },
          coeff := fun c => ∑ m' in Finset.range m, pol_mul K (cells a i m') (cells b m' j) c })
    (fun m (st : matrix_t × Option trunc_pol_t) => do
          let T ← st.2
          let d ← st.1.term (i * dim + j)
          let r := trunc_pol_mult K T (a.term (i * dim + m)) (b.term (m * dim + j))
          pure (st.1.set (i * dim + j) (some (trunc_pol_update_add K d r.1)), some r.2))
    dim 0 (M1, T)
    ⟨hT, rfl, fun _ _ => rfl, by
      rw [h1]
      exact congrArg some (trunc_pol_t.eq_of rfl fun c => by simp [zero_trunc_pol])⟩
    (by
      rintro m ⟨Mx, Tx⟩ _ hm ⟨hTx, hdimx, hothers, hcell⟩
      simp only at hTx hdimx hothers hcell
      obtain ⟨T0, rfl⟩ := Option.isSome_iff_exists.mp hTx
      refine ⟨(Mx.set (i * dim + j) (some (trunc_pol_update_add K
          { mono := { deg := 0, coeff := 0 },
            coeff := fun c => ∑ m' in Finset.range m,
              pol_mul K (cells a i m') (cells b m' j) c }
          (trunc_pol_mult K T0 (a.term (i * dim + m)) (b.term (m * dim + j))).1)),
          some (trunc_pol_mult K T0 (a.term (i * dim + m)) (b.term (m * dim + j))).2),
        by simp only [hcell]; rfl, rfl, ?_, ?_, ?_⟩
      · simp only [matrix_t.set_dim]; exact hdimx
      · intro x hx
        simp only [matrix_t.set_term, if_neg hx]
        exact hothers x hx
      · simp only [matrix_t.set_term, if_true]
        refine congrArg some (trunc_pol_t.eq_of ?_ fun c => ?_)
        · rw [trunc_pol_update_add_mono]
        · rw [trunc_pol_update_add_coeff]
          simp only
          rw [Finset.sum_range_succ]
          by_cases hc : c ≤ K
          · rw [if_pos hc, trunc_pol_mult_coeff K T0 _ _
              (fun p => ha _ p (flat_lt hi (by simpa using hm)))
              (fun p => hb _ p (flat_lt (by simpa using hm) hj)) c hc]
            unfold cells
            rw [ha_dim, hb_dim]
          · rw [if_neg hc, pol_mul_above K _ _ c hc, add_zero])
  obtain ⟨st, hst, h2, h3, h4, h5⟩ := key
  refine ⟨st, hst, h2, h3, h4, ?_⟩
  rw [h5]
  refine congrArg some (trunc_pol_t.eq_of rfl fun c => ?_)
  simp only [prod_cell, mat_mul, flat_div hj, flat_mod hj, Nat.zero_add]

/-- With equal dimensions, a scratch buffer, every entry of
`dest` allocated and hint-consistent operands, `matrix_mult` returns `dest`,
whose entries hold the truncated products, whatever `dest` and the scratch
buffer held before. -/
theorem matrix_mult_spec (K : Nat) (dest a b : matrix_t) (TEMP : Option trunc_pol_t)
    (E : Int) (ha_dim : a.dim = dest.dim) (hb_dim : b.dim = dest.dim) (hT : TEMP.isSome)
    (hdest : ∀ x, x < dest.dim * dest.dim → (dest.term x).isSome)
    (ha : ∀ x p, x < dest.dim * dest.dim → a.term x = some p → hint_consistent K p)
    (hb : ∀ x p, x < dest.dim * dest.dim → b.term x = some p → hint_consistent K p) :
    ∃ out, matrix_mult K dest a b TEMP E = some out ∧ out.ret = some out.dest ∧
      out.ERRNO = E ∧ out.TEMP.isSome ∧ out.dest.dim = dest.dim ∧
      (∀ x, x < dest.dim * dest.dim →
        out.dest.term x = some (prod_cell K dest.dim a b x)) ∧
      (∀ x, dest.dim * dest.dim ≤ x → out.dest.term x = dest.term x) := by
  unfold matrix_mult
  rw [if_neg (by rw [ha_dim, hb_dim]; simp)]
  simp only
  generalize hdim : dest.dim = dim at *
  -- the entries are visited in the order of their flat index
  have key := forLoopM_option_inv
    (fun i (st : matrix_t × Option trunc_pol_t) =>
      st.2.isSome ∧ st.1.dim = dim ∧
      (∀ x, x < i * dim → st.1.term x = some (prod_cell K dim a b x)) ∧
      (∀ x, i * dim ≤ x → st.1.term x = dest.term x))
    (fun i (st : matrix_t × Option trunc_pol_t) =>
      forLoopM 0 dim (fun j (st : matrix_t × Option trunc_pol_t) => do
        let _ ← st.1.term (i * dim + j)
        let st : matrix_t × Option trunc_pol_t :=
          (st.1.set (i * dim + j) (some zero_trunc_pol), st.2)
        forLoopM 0 dim (fun m (st : matrix_t × Option trunc_pol_t) => do
          let T ← st.2
          let d ← st.1.term (i * dim + j)
          let r := trunc_pol_mult K T (a.term (i * dim + m)) (b.term (m * dim + j))
          pure (st.1.set (i * dim + j) (some (trunc_pol_update_add K d r.1)), some r.2))
          st) st)
    dim 0 (dest, TEMP)
    ⟨hT, hdim, fun x hx => absurd hx (by omega), fun _ _ => rfl⟩
    (by
      intro i st0 _ hi hInv0
      simp only [Nat.zero_add] at hi
      have row := forLoopM_option_inv
        (fun j (st : matrix_t × Option trunc_pol_t) =>
          st.2.isSome ∧ st.1.dim = dim ∧
          (∀ x, x < i * dim + j → st.1.term x = some (prod_cell K dim a b x)) ∧
          (∀ x, i * dim + j ≤ x → st.1.term x = dest.term x))
        (fun j (st : matrix_t × Option trunc_pol_t) => do
          let _ ← st.1.term (i * dim + j)
          let st : matrix_t × Option trunc_pol_t :=
            (st.1.set (i * dim + j) (some zero_trunc_pol), st.2)
          forLoopM 0 dim (fun m (st : matrix_t × Option trunc_pol_t) => do
            let T ← st.2
            let d ← st.1.term (i * dim + j)
            let r := trunc_pol_mult K T (a.term (i * dim + m)) (b.term (m * dim + j))
            pure (st.1.set (i * dim + j) (some (trunc_pol_update_add K d r.1)), some r.2))
            st)
        dim 0 st0
        (by simpa using hInv0)
        (by
          rintro j ⟨Mx, Tx⟩ _ hj ⟨hTx, hdimx, hdone, hrest⟩
          simp only [Nat.zero_add] at hj
          simp only at hTx hdimx hdone hrest
          have hlt : i * dim + j < dim * dim := flat_lt hi hj
          obtain ⟨q, hq⟩ := Option.isSome_iff_exists.mp (hdest _ hlt)
          have hcur : Mx.term (i * dim + j) = some q := by rw [hrest _ (le_refl _), hq]
          obtain ⟨st, hst, h2, h3, h4, h5⟩ := matrix_mult_inner K dim a b
            (ha_dim) (hb_dim) ha hb i j hi hj
            (Mx.set (i * dim + j) (some zero_trunc_pol)) Tx hTx
            (by simp [matrix_t.set_term])
          refine ⟨st, ?_, h2, ?_, ?_, ?_⟩
          · simp only [hcur]
            exact hst
          · rw [h3]; exact hdimx
          · intro x hx
            by_cases hxe : x = i * dim + j
            · rw [hxe, h5]
            · rw [h4 x hxe, matrix_t.set_term, if_neg hxe]
              exact hdone x (by omega)
          · intro x hx
            have hxe : x ≠ i * dim + j := by omega
            rw [h4 x hxe, matrix_t.set_term, if_neg hxe]
            exact hrest x (by omega))
      obtain ⟨st, hst, h2, h3, h4, h5⟩ := row
      have hnext : (i + 1) * dim = i * dim + dim := by ring
      refine ⟨st, hst, h2, h3, ?_, ?_⟩
      · intro x hx; exact h4 x (by omega)
      · intro x hx; exact h5 x (by omega))
  obtain ⟨st, hst, h2, h3, h4, h5⟩ := key
  simp only [Nat.zero_add] at h4 h5
  refine ⟨_, by rw [hst]; rfl, rfl, rfl, h2, h3, h4, h5⟩

end MemProb

namespace MemProb

/-! ## The sum of powers -/

theorem mat_pow_succ (K dim : Nat) (A : Nat → Nat → Nat → ℚ) (p : Nat) (hp : 1 ≤ p) :
    mat_pow K dim A (p + 1) = mat_mul K dim (mat_pow K dim A p) A := by
  obtain ⟨q, rfl⟩ : ∃ q, p = q + 1 := ⟨p - 1, by omega⟩
  rfl

theorem mat_mul_above (K dim : Nat) (A B : Nat → Nat → Nat → ℚ) (i j c : Nat) (hc : ¬ c ≤ K) :
    mat_mul K dim A B i j c = 0 := by
  unfold mat_mul
  exact Finset.sum_eq_zero fun m _ => pol_mul_above K _ _ c hc

theorem mat_pow_above (K dim : Nat) (A : Nat → Nat → Nat → ℚ) (p : Nat) (hp : 2 ≤ p)
    (i j c : Nat) (hc : ¬ c ≤ K) : mat_pow K dim A p i j c = 0 := by
  obtain ⟨q, rfl⟩ : ∃ q, p = q + 1 := ⟨p - 1, by omega⟩
  rw [mat_pow_succ K dim A q (by omega)]
  exact mat_mul_above K dim _ _ i j c hc

theorem mat_mul_congr (K dim : Nat) (A A' B B' : Nat → Nat → Nat → ℚ) (i j : Nat)
    (hA : ∀ m, m < dim → A i m = A' i m) (hB : ∀ m, m < dim → B m j = B' m j) :
    mat_mul K dim A B i j = mat_mul K dim A' B' i j := by
  funext c
  unfold mat_mul
  refine Finset.sum_congr rfl fun m hm => ?_
  rw [hA m (Finset.mem_range.mp hm), hB m (Finset.mem_range.mp hm)]

/-- One product by `M`: from the `p`-th power in `a` to the `(p+1)`-th in
`dest`. -/
theorem power_step (K dim : Nat) (M a D : matrix_t) (T : Option trunc_pol_t) (E : Int)
    (p : Nat) (hp : 1 ≤ p) (hMdim : M.dim = dim)
    (hM : ∀ x q, x < dim * dim → M.term x = some q → hint_consistent K q)
    (hadim : a.dim = dim)
    (ha : ∀ x q, x < dim * dim → a.term x = some q → hint_consistent K q)
    (hap : ∀ i j, i < dim → j < dim → cells a i j = mat_pow K dim (cells M) p i j)
    (hD : Allocated dim D) (hT : T.isSome) :
    ∃ out, matrix_mult K D a M T E = some out ∧ out.ERRNO = E ∧ out.TEMP.isSome ∧
      HoldsPower K dim M out.dest (p + 1) := by
  obtain ⟨hDdim, hDall⟩ := hD
  subst hDdim
  obtain ⟨out, hout, _, hE, hT', hdim', hcells, _⟩ :=
    matrix_mult_spec K D a M T E hadim hMdim hT hDall ha hM
  refine ⟨out, hout, hE, hT', ⟨hdim', fun x hx => ?_⟩, fun x q hx hq => ?_, fun i j hi hj => ?_⟩
  · rw [hcells x hx]; rfl
  · rw [hcells x hx] at hq
    cases hq
    rfl
  · rw [mat_pow_succ K _ _ p hp, ← mat_mul_congr K D.dim (cells a) _ (cells M) (cells M) i j
      (fun m hm => hap i m hi hm) (fun _ _ => rfl)]
    funext c
    unfold cells
    rw [hdim', hcells _ (flat_lt hi hj)]
    show (prod_cell K D.dim a M (i * D.dim + j)).coeff c = _
    unfold prod_cell
    simp only [flat_div hj, flat_mod hj]
    rfl

theorem HoldsPower.hint {K dim : Nat} {M A : matrix_t} {p : Nat} (h : HoldsPower K dim M A p) :
    ∀ x q, x < dim * dim → A.term x = some q → hint_consistent K q := by
  intro x q hx hq hne
  exact absurd (h.2.1 x q hx hq) hne

/-- The statement `trunc_pol_update_add(w, pow->term[2*G+1])` adds the entry
in row 0 and column `2G+1` of the power. -/
theorem add_power_entry (K G : Nat) (M A : matrix_t) (p : Nat) (hp : 2 ≤ p)
    (h : HoldsPower K (2 * G + 2) M A p) (w : trunc_pol_t) :
    (trunc_pol_update_add K w (A.term (2 * G + 1))).mono = w.mono ∧
    ∀ c, (trunc_pol_update_add K w (A.term (2 * G + 1))).coeff c =
      w.coeff c + mat_pow K (2 * G + 2) (cells M) p 0 (2 * G + 1) c := by
  refine ⟨trunc_pol_update_add_mono K w _, fun c => ?_⟩
  rw [trunc_pol_update_add_coeff]
  have hc := congrFun (h.2.2 0 (2 * G + 1) (by omega) (by omega)) c
  rw [show cells A 0 (2 * G + 1) c = coefO (A.term (2 * G + 1)) c from by simp [cells]] at hc
  by_cases hK : c ≤ K
  · rw [if_pos hK, hc]
  · rw [if_neg hK, mat_pow_above K _ _ p hp _ _ c hK, add_zero]

/-- One round of the loop: two more powers added to `w`. -/
theorem power_round_spec (K G : Nat) (M : matrix_t) (x : Work) (p : Nat) (hp : 2 ≤ p)
    (hMdim : M.dim = 2 * G + 2)
    (hM : ∀ x q, x < (2 * G + 2) * (2 * G + 2) → M.term x = some q → hint_consistent K q)
    (h1 : HoldsPower K (2 * G + 2) M x.powM1 p) (h2 : Allocated (2 * G + 2) x.powM2)
    (hT : x.TEMP.isSome) :
    ∃ y, power_round K G M x = some y ∧ y.ERRNO = x.ERRNO ∧ y.TEMP.isSome ∧
      HoldsPower K (2 * G + 2) M y.powM1 (p + 2) ∧ Allocated (2 * G + 2) y.powM2 ∧
      y.w.mono = x.w.mono ∧
      ∀ c, y.w.coeff c = x.w.coeff c + mat_pow K (2 * G + 2) (cells M) (p + 1) 0 (2 * G + 1) c
        + mat_pow K (2 * G + 2) (cells M) (p + 2) 0 (2 * G + 1) c := by
  obtain ⟨o1, ho1, hE1, hT1, hP1⟩ := power_step K (2 * G + 2) M x.powM1 x.powM2 x.TEMP x.ERRNO p
    (by omega) hMdim hM h1.1.1 h1.hint h1.2.2 h2 hT
  obtain ⟨o2, ho2, hE2, hT2, hP2⟩ := power_step K (2 * G + 2) M o1.dest x.powM1 o1.TEMP o1.ERRNO
    (p + 1) (by omega) hMdim hM hP1.1.1 hP1.hint hP1.2.2 h1.1 hT1
  have hw1 := add_power_entry K G M o1.dest (p + 1) (by omega) hP1 x.w
  have hw2 := add_power_entry K G M o2.dest (p + 2) (by omega) hP2
    (trunc_pol_update_add K x.w (o1.dest.term (2 * G + 1)))
  refine ⟨{ w := trunc_pol_update_add K
                (trunc_pol_update_add K x.w (o1.dest.term (2 * G + 1)))
                (o2.dest.term (2 * G + 1))
            powM1 := o2.dest
            powM2 := o1.dest
            TEMP := o2.TEMP
            ERRNO := o2.ERRNO }, ?_, ?_, hT2, hP2, hP1.1, ?_, ?_⟩
  · unfold power_round
    simp only [ho1, Option.bind_eq_bind, Option.some_bind, ho2]
    rfl
  · show o2.ERRNO = x.ERRNO
    rw [hE2, hE1]
  · show (trunc_pol_update_add K (trunc_pol_update_add K x.w _) _).mono = _
    rw [hw2.1, hw1.1]
  · intro c
    show (trunc_pol_update_add K (trunc_pol_update_add K x.w _) _).coeff c = _
    rw [hw2.2, hw1.2]

/-- Lines 901-910: `w` receives the entries in row 0, column `2G+1` of the
powers 2 to 22 of `M`. -/
theorem sum_of_powers_spec (K G : Nat) (M : matrix_t) (x : Work)
    (hMdim : M.dim = 2 * G + 2)
    (hM : ∀ x q, x < (2 * G + 2) * (2 * G + 2) → M.term x = some q → hint_consistent K q)
    (h1 : Allocated (2 * G + 2) x.powM1) (h2 : Allocated (2 * G + 2) x.powM2)
    (hT : x.TEMP.isSome) :
    ∃ y, sum_of_powers K G M x = some y ∧ y.ERRNO = x.ERRNO ∧ y.TEMP.isSome ∧
      y.w.mono = x.w.mono ∧
      ∀ c, y.w.coeff c = x.w.coeff c +
        ∑ p in Finset.Icc 2 22, mat_pow K (2 * G + 2) (cells M) p 0 (2 * G + 1) c := by
  obtain ⟨o1, ho1, hE1, hT1, hP1⟩ := power_step K (2 * G + 2) M M x.powM1 x.TEMP x.ERRNO 1
    (le_refl _) hMdim hM hMdim hM (fun _ _ _ _ => rfl) h1 hT
  have hw1 := add_power_entry K G M o1.dest 2 (le_refl _) hP1 x.w
  have key := forLoopM_option_inv
    (fun t (y : Work) => y.ERRNO = x.ERRNO ∧ y.TEMP.isSome ∧
      HoldsPower K (2 * G + 2) M y.powM1 (2 * t + 2) ∧ Allocated (2 * G + 2) y.powM2 ∧
      y.w.mono = x.w.mono ∧
      ∀ c, y.w.coeff c = x.w.coeff c +
        ∑ p in Finset.Icc 2 (2 * t + 2), mat_pow K (2 * G + 2) (cells M) p 0 (2 * G + 1) c)
    (fun _ (x : Work) => power_round K G M x) 10 0
    { x with powM1 := o1.dest, TEMP := o1.TEMP, ERRNO := o1.ERRNO,
             w := trunc_pol_update_add K x.w (o1.dest.term (2 * G + 1)) }
    ⟨hE1, hT1, hP1, h2, hw1.1, fun c => by
      rw [hw1.2 c]
      simp⟩
    (by
      rintro t y _ _ ⟨hE, hTy, hP, hA, hmono, hw⟩
      obtain ⟨z, hz, hzE, hzT, hzP, hzA, hzmono, hzw⟩ :=
        power_round_spec K G M y (2 * t + 2) (by omega) hMdim hM hP hA hTy
      refine ⟨z, hz, by rw [hzE, hE], hzT, ?_, hzA, by rw [hzmono, hmono], fun c => ?_⟩
      · have : 2 * (t + 1) + 2 = 2 * t + 2 + 2 := by ring
        rw [this]; exact hzP
      · rw [hzw c, hw c]
        have e1 : 2 * (t + 1) + 2 = (2 * t + 2 + 1) + 1 := by ring
        rw [e1, Finset.sum_Icc_succ_top (a := 2) (b := 2 * t + 2 + 1) (by omega),
          Finset.sum_Icc_succ_top (a := 2) (b := 2 * t + 2) (by omega)]
        ring)
  obtain ⟨y, hy, hyE, hyT, _, _, hymono, hyw⟩ := key
  refine ⟨y, ?_, hyE, hyT, hymono, hyw⟩
  unfold sum_of_powers
  simp only [ho1, Option.bind_eq_bind, Option.some_bind]
  exact hy

end MemProb

namespace MemProb

/-! ## Allocation: what a run returns -/

theorem Served.pop {e : Eff} {rest : List Bool} {b : Bool} (h : Served e)
    (hm : e.mem = b :: rest) : b = true ∧ Served { e with mem := rest } := by
  unfold Served at h ⊢
  rw [hm] at h
  exact ⟨h b (List.mem_cons_self _ _), fun x hx => h x (List.mem_cons_of_mem _ hx)⟩

theorem yields_pure {α : Type} (a : α) : (pure a : Alloc α).yields a :=
  fun e he => ⟨e, rfl, he, rfl⟩

theorem yields_bind {α β : Type} {m : Alloc α} {f : α → Alloc β} {a : α} {b : β}
    (hm : m.yields a) (hf : (f a).yields b) : (m >>= f).yields b := by
  intro e he
  obtain ⟨e1, h1, hs1, hE1⟩ := hm e he
  obtain ⟨e2, h2, hs2, hE2⟩ := hf e1 hs1
  exact ⟨e2, by rw [Alloc.bind_of_some h1, h2], hs2, by rw [hE2, hE1]⟩

theorem yields_handle {α : Type} {line : Int} {m : Alloc α} {a : α} (hm : m.yields a) :
    (handle_memory_error line m).yields a := by
  intro e he
  obtain ⟨e1, h1, hs1, hE1⟩ := hm e he
  exact ⟨e1, by unfold handle_memory_error; rw [h1], hs1, hE1⟩

theorem yields_calloc {α : Type} (z : α) : (calloc z).yields z := by
  intro e he
  unfold calloc
  cases hm : e.mem with
  | nil => exact ⟨e, rfl, he, rfl⟩
  | cons b rest =>
    obtain ⟨hb, hrest⟩ := he.pop hm
    subst hb
    exact ⟨_, rfl, hrest, rfl⟩

theorem yields_forLoopM {σ : Type} (body : Nat → σ → Alloc σ) (pbody : Nat → σ → σ)
    (n lo : Nat) (s : σ)
    (h : ∀ i s, lo ≤ i → i < lo + n → (body i s).yields (pbody i s)) :
    (forLoopM lo n body s).yields (forLoop lo n pbody s) := by
  induction n generalizing lo s with
  | zero => exact yields_pure s
  | succ n ih =>
    exact yields_bind (h lo s (le_refl _) (by omega))
      (ih (lo + 1) (pbody lo s) fun i s h1 h2 => h i s (by omega) (by omega))

theorem returns_pure {α : Type} (a : α) : (pure a : Alloc α).returns a := by
  intro e e1 a1 h
  cases h
  exact ⟨rfl, rfl⟩

theorem returns_bind {α β : Type} {m : Alloc α} {f : α → Alloc β} {a : α} {b : β}
    (hm : m.returns a) (hf : (f a).returns b) : (m >>= f).returns b := by
  intro e e2 b1 h
  rw [Alloc.bind_run] at h
  split at h
  · rename_i a1 e1 h1
    obtain ⟨rfl, hE1⟩ := hm e e1 a1 h1
    obtain ⟨hb, hE2⟩ := hf e1 e2 b1 h
    exact ⟨hb, by rw [hE2, hE1]⟩
  · cases h

theorem returns_handle {α : Type} {line : Int} {m : Alloc α} {a : α} (hm : m.returns a) :
    (handle_memory_error line m).returns a := by
  intro e e1 a1 h
  unfold handle_memory_error at h
  split at h
  · rename_i a2 e2 h2
    cases h
    exact hm e e1 a1 h2
  · cases h

theorem returns_calloc {α : Type} (z : α) : (calloc z).returns z := by
  intro e e1 a1 h
  unfold calloc at h
  split at h
  · cases h; exact ⟨rfl, rfl⟩
  · rename_i b rest hm
    cases b with
    | true => cases h; exact ⟨rfl, rfl⟩
    | false => simp at h

theorem returns_internal_error {α : Type} (line : Int) (a : α) :
    (internal_error line : Alloc α).returns a := by
  intro e e1 a1 h
  cases h

theorem returns_null {α : Type} (a : α) :
    Alloc.returns (fun e => (none, e) : Alloc α) a := by
  intro e e1 a1 h
  cases h

theorem returns_ite {α : Type} {c : Prop} [Decidable c] {m1 m2 : Alloc α} {a : α}
    (h1 : m1.returns a) (h2 : m2.returns a) : (if c then m1 else m2).returns a := by
  split_ifs
  · exact h1
  · exact h2

theorem returns_forLoopM {σ : Type} (body : Nat → σ → Alloc σ) (pbody : Nat → σ → σ)
    (n lo : Nat) (s : σ) (h : ∀ i s, (body i s).returns (pbody i s)) :
    (forLoopM lo n body s).returns (forLoop lo n pbody s) := by
  induction n generalizing lo s with
  | zero => exact returns_pure s
  | succ n ih => exact returns_bind (h lo s) (ih (lo + 1) (pbody lo s))

/-! ### The factories -/

theorem new_zero_trunc_pol_returns : new_zero_trunc_pol.returns zero_trunc_pol :=
  returns_calloc _

theorem new_zero_trunc_pol_yields : new_zero_trunc_pol.yields zero_trunc_pol :=
  yields_calloc _

theorem new_trunc_pol_A_returns (g : Params) (deg N : Nat) (tilde : Int) :
    (new_trunc_pol_A g deg N tilde).returns (fill_A g deg N tilde zero_trunc_pol) :=
  returns_ite (returns_internal_error _ _)
    (returns_bind (returns_handle new_zero_trunc_pol_returns) (returns_pure _))

theorem new_trunc_pol_B_returns (g : Params) (deg N : Nat) (tilde : Int) :
    (new_trunc_pol_B g deg N tilde).returns (fill_B g deg N tilde zero_trunc_pol) :=
  returns_ite (returns_internal_error _ _)
    (returns_bind (returns_handle new_zero_trunc_pol_returns) (returns_pure _))

theorem new_trunc_pol_C_returns (g : Params) (deg N : Nat) (tilde : Int) :
    (new_trunc_pol_C g deg N tilde).returns (fill_C g deg N tilde zero_trunc_pol) :=
  returns_ite (returns_null _) (returns_ite (returns_internal_error _ _)
    (returns_bind (returns_handle new_zero_trunc_pol_returns) (returns_pure _)))

theorem new_trunc_pol_D_returns (g : Params) (deg N : Nat) (tilde : Int) :
    (new_trunc_pol_D g deg N tilde).returns (fill_D g deg N tilde zero_trunc_pol) :=
  returns_ite (returns_internal_error _ _)
    (returns_bind (returns_handle new_zero_trunc_pol_returns) (returns_pure _))

theorem new_trunc_pol_u_returns (g : Params) (deg N : Nat) :
    (new_trunc_pol_u g deg N).returns (fill_u g deg N zero_trunc_pol) :=
  returns_ite (returns_internal_error _ _)
    (returns_bind (returns_handle new_zero_trunc_pol_returns) (returns_pure _))

theorem new_trunc_pol_v_returns (g : Params) (deg N : Nat) :
    (new_trunc_pol_v g deg N).returns (fill_v g deg N zero_trunc_pol) :=
  returns_ite (returns_internal_error _ _)
    (returns_bind (returns_handle new_zero_trunc_pol_returns) (returns_pure _))

theorem new_trunc_pol_w_returns (g : Params) (deg N : Nat) :
    (new_trunc_pol_w g deg N).returns (fill_w g deg N zero_trunc_pol) :=
  returns_ite (returns_internal_error _ _)
    (returns_bind (returns_handle new_zero_trunc_pol_returns) (returns_pure _))

theorem new_trunc_pol_y_returns (g : Params) (j i : Int) (N : Nat) :
    (new_trunc_pol_y g j i N).returns (fill_y g j i N zero_trunc_pol) :=
  returns_ite (returns_null _) (returns_ite (returns_internal_error _ _)
    (returns_bind (returns_handle new_zero_trunc_pol_returns) (returns_pure _)))

theorem new_trunc_pol_T_down_returns (g : Params) (N : Nat) :
    (new_trunc_pol_T_down g N).returns (fill_T_down g N zero_trunc_pol) :=
  returns_bind (returns_handle new_zero_trunc_pol_returns) (returns_pure _)

theorem new_trunc_pol_T_double_down_returns (g : Params) (N : Nat) :
    (new_trunc_pol_T_double_down g N).returns (fill_T_double_down g N zero_trunc_pol) :=
  returns_bind (returns_handle new_zero_trunc_pol_returns) (returns_pure _)

theorem new_trunc_pol_T_up_returns (g : Params) (deg N : Nat) :
    (new_trunc_pol_T_up g deg N).returns (fill_T_up g deg zero_trunc_pol) :=
  returns_ite (returns_internal_error _ _)
    (returns_bind (returns_handle new_zero_trunc_pol_returns) (returns_pure _))

theorem new_trunc_pol_T_sim_returns (g : Params) (deg N : Nat) :
    (new_trunc_pol_T_sim g deg N).returns (fill_T_sim g deg N zero_trunc_pol) :=
  returns_ite (returns_null _) (returns_ite (returns_internal_error _ _)
    (returns_bind (returns_handle new_zero_trunc_pol_returns) (returns_pure _)))

theorem new_null_matrix_returns (dim : Nat) :
    (new_null_matrix dim).returns { dim := dim, term := fun _ => none } :=
  returns_handle (returns_calloc _)

theorem new_zero_matrix_returns (dim : Nat) :
    (new_zero_matrix dim).returns (zero_matrix dim) :=
  returns_bind (returns_handle (new_null_matrix_returns dim))
    (returns_forLoopM _ _ _ _ _ fun _ _ =>
      returns_bind (returns_handle new_zero_trunc_pol_returns) (returns_pure _))

theorem new_matrix_M_returns (g : Params) (N : Nat) :
    (new_matrix_M g N).returns (matrix_M g N) := by
  unfold new_matrix_M matrix_M
  refine returns_bind (returns_handle (new_null_matrix_returns _)) ?_
  refine returns_bind (returns_handle new_zero_trunc_pol_returns) ?_
  refine returns_bind (returns_handle (new_trunc_pol_A_returns _ _ _ _)) ?_
  refine returns_bind (returns_handle (new_trunc_pol_A_returns _ _ _ _)) ?_
  refine returns_bind (returns_forLoopM _ _ _ _ _ fun j M =>
    returns_bind (returns_handle (new_trunc_pol_u_returns _ _ _)) (returns_pure _)) ?_
  refine returns_bind (returns_handle (new_trunc_pol_T_double_down_returns _ _)) ?_
  refine returns_bind (returns_handle (new_trunc_pol_B_returns _ _ _ _)) ?_
  refine returns_bind (returns_handle (new_trunc_pol_B_returns _ _ _ _)) ?_
  refine returns_bind (returns_forLoopM _ _ _ _ _ fun j M =>
    returns_bind (returns_handle (new_trunc_pol_v_returns _ _ _)) (returns_pure _)) ?_
  refine returns_bind (returns_forLoopM _ _ _ _ _ fun j M =>
    returns_bind (returns_handle (new_trunc_pol_w_returns _ _ _)) (returns_pure _)) ?_
  refine returns_bind (returns_handle (new_trunc_pol_T_down_returns _ _)) ?_
  refine returns_bind (returns_forLoopM _ _ _ _ _ fun j M =>
    returns_bind (returns_handle (new_trunc_pol_C_returns _ _ _ _))
      (returns_bind (returns_handle (new_trunc_pol_C_returns _ _ _ _))
        (returns_bind (returns_forLoopM _ _ _ _ _ fun i M =>
            returns_bind (returns_handle (new_trunc_pol_y_returns _ _ _ _)) (returns_pure _))
          (returns_bind (returns_handle (new_trunc_pol_T_sim_returns _ _ _))
            (returns_pure _))))) ?_
  refine returns_bind (returns_forLoopM _ _ _ _ _ fun j M =>
    returns_bind (returns_handle (new_trunc_pol_D_returns _ _ _ _))
      (returns_bind (returns_handle (new_trunc_pol_D_returns _ _ _ _))
        (returns_bind (returns_handle (new_trunc_pol_T_up_returns _ _ _))
          (returns_pure _)))) ?_
  exact returns_pure _

end MemProb

namespace MemProb

/-! ## Loops over a matrix -/

theorem forLoop_inv {σ : Type} (P : σ → Prop) (body : Nat → σ → σ) (n lo : Nat) (s : σ)
    (h0 : P s) (h : ∀ j s, lo ≤ j → j < lo + n → P s → P (body j s)) :
    P (forLoop lo n body s) := by
  induction n generalizing lo s with
  | zero => exact h0
  | succ n ih =>
    exact ih (lo + 1) (body lo s) (h lo s (le_refl _) (by omega) h0)
      fun j s h1 h2 => h j s (by omega) (by omega)

theorem forLoop_term_miss (body : Nat → matrix_t → matrix_t) (n lo : Nat) (M : matrix_t)
    (y : Nat) (h : ∀ j M, lo ≤ j → j < lo + n → (body j M).term y = M.term y) :
    (forLoop lo n body M).term y = M.term y := by
  induction n generalizing lo M with
  | zero => rfl
  | succ n ih =>
    show (forLoop (lo + 1) n body (body lo M)).term y = _
    rw [ih (lo + 1) (body lo M) fun j M h1 h2 => h j M (by omega) (by omega)]
    exact h lo M (le_refl _) (by omega)

theorem forLoop_term_hit (body : Nat → matrix_t → matrix_t) (n lo : Nat) (M : matrix_t)
    (y : Nat) (v : Option trunc_pol_t) (j0 : Nat) (h0 : lo ≤ j0) (h1 : j0 < lo + n)
    (hhit : ∀ M, (body j0 M).term y = v)
    (hmiss : ∀ j M, j0 < j → j < lo + n → (body j M).term y = M.term y) :
    (forLoop lo n body M).term y = v := by
  induction n generalizing M with
  | zero => omega
  | succ n ih =>
    rw [forLoop_succ_last]
    by_cases hj : j0 = lo + n
    · rw [← hj]; exact hhit _
    · rw [hmiss (lo + n) _ (by omega) (by omega)]
      exact ih M (by omega) fun j M h2 h3 => hmiss j M h2 (by omega)

theorem forLoop_dim (body : Nat → matrix_t → matrix_t) (n lo : Nat) (M : matrix_t)
    (h : ∀ j M, (body j M).dim = M.dim) : (forLoop lo n body M).dim = M.dim :=
  forLoop_inv (fun X => X.dim = M.dim) body n lo M rfl fun j X _ _ hX => (h j X).trans hX

theorem zero_matrix_allocated (dim : Nat) : Allocated dim (zero_matrix dim) := by
  unfold zero_matrix
  refine ⟨?_, fun x hx => ?_⟩
  · exact forLoop_dim _ _ _ _ fun _ _ => rfl
  · rw [forLoop_term_hit _ _ 0 _ x (some zero_trunc_pol) x (Nat.zero_le _) (by omega)
      (fun M => by simp [matrix_t.set_term])
      (fun j M hj _ => by rw [matrix_t.set_term, if_neg (by omega)])]
    rfl

/-! ## The polynomials of the factory: header -/

theorem fill_loop_mono (h : Nat → ℚ → ℚ) (r : ℚ) (n lo : Nat) (p : trunc_pol_t) (q : ℚ) :
    (forLoop lo n (fun i (st : trunc_pol_t × ℚ) => (st.1.set i (h i st.2), st.2 * r))
      (p, q)).1.mono = p.mono := by
  rw [fill_loop]

theorem hint_consistent_of_mono {K : Nat} {p : trunc_pol_t} (h : p.mono.coeff = 0) :
    hint_consistent K p := fun hne => absurd h hne

theorem fill_A_mono (g : Params) (deg N : Nat) (tilde : Int) (new : trunc_pol_t) :
    (fill_A g deg N tilde new).mono = new.mono := by
  unfold fill_A
  simp only
  rw [fill_loop (fun i q => (if tilde ≠ 0 then _OMEGA g.P g.U N else OMEGA g.P g.U N)
      * xi g.U ((i : Int) - 1) N * q),
    fill_loop (fun i q => g.P * (1 - aN g.U N ((i : Int) - 1)) * q)]

theorem fill_B_mono (g : Params) (deg N : Nat) (tilde : Int) (new : trunc_pol_t) :
    (fill_B g deg N tilde new).mono = new.mono := by
  unfold fill_B
  simp only
  rw [fill_loop (fun i q => (if tilde ≠ 0 then _OMEGA g.P g.U N else OMEGA g.P g.U N)
      * (1 - aN g.U N ((i : Int) - 1)) / (1 - (1 - g.U / 3) ^ N) * q)]

theorem fill_C_mono (g : Params) (deg N : Nat) (tilde : Int) (new : trunc_pol_t) :
    (fill_C g deg N tilde new).mono = new.mono := by
  unfold fill_C
  exact fill_loop_mono (fun i q => (if tilde ≠ 0 then _OMEGA g.P g.U N else OMEGA g.P g.U N)
      * (aN g.U N ((g.G : Int) - deg) - aN g.U N ((g.G : Int) - deg - 1)
          - bN g.U N ((g.G : Int) - deg) ((i : Int) + ((g.G : Int) - deg) - 1)
          + bN g.U N ((g.G : Int) - deg - 1) ((i : Int) + ((g.G : Int) - deg) - 1))
      / (aN g.U N ((g.G : Int) - deg) - aN g.U N ((g.G : Int) - deg - 1)
          - gN g.U N ((g.G : Int) - deg) + dN g.U N ((g.G : Int) - deg - 1)) * q) _ _ _ _ _

theorem fill_D_mono (g : Params) (deg N : Nat) (tilde : Int) (new : trunc_pol_t) :
    (fill_D g deg N tilde new).mono = new.mono := by
  unfold fill_D
  exact fill_loop_mono (fun _ q =>
    (if tilde ≠ 0 then _OMEGA g.P g.U N else OMEGA g.P g.U N) * q) _ _ _ _ _

theorem fill_T_down_mono (g : Params) (N : Nat) (new : trunc_pol_t) :
    (fill_T_down g N new).mono = new.mono := by
  unfold fill_T_down
  exact fill_loop_mono (fun i q =>
    (1 - aN g.U N (i : Int)) / (1 - (1 - g.U / 3) ^ N) * q) _ _ _ _ _

theorem fill_T_double_down_mono (g : Params) (N : Nat) (new : trunc_pol_t) :
    (fill_T_double_down g N new).mono = new.mono := by
  unfold fill_T_double_down
  exact fill_loop_mono (fun i q => xi g.U (i : Int) N * q) _ _ _ _ _

theorem fill_T_up_mono (g : Params) (deg : Nat) (new : trunc_pol_t) :
    (fill_T_up g deg new).mono = new.mono := by
  unfold fill_T_up
  exact fill_loop_mono (fun _ q => q) _ _ _ _ _

theorem fill_T_sim_mono (g : Params) (deg N : Nat) (new : trunc_pol_t) :
    (fill_T_sim g deg N new).mono = new.mono := by
  unfold fill_T_sim
  exact fill_loop_mono (fun i q =>
      (aN g.U N ((g.G : Int) - 1 - deg) - aN g.U N ((g.G : Int) - 1 - deg - 1)
          - bN g.U N ((g.G : Int) - 1 - deg) ((i : Int) + ((g.G : Int) - 1 - deg))
          + bN g.U N ((g.G : Int) - 1 - deg - 1) ((i : Int) + ((g.G : Int) - 1 - deg)))
      / (aN g.U N ((g.G : Int) - 1 - deg) - aN g.U N ((g.G : Int) - 1 - deg - 1)
          - gN g.U N ((g.G : Int) - 1 - deg) + dN g.U N ((g.G : Int) - 1 - deg - 1)) * q)
    _ _ _ _ _

theorem set_monomial_hint (K d : Nat) (v : ℚ) :
    hint_consistent K (set_monomial zero_trunc_pol d v) := by
  intro _ c _
  rw [set_monomial_coeff]
  rfl

theorem fill_one_hint (K : Nat) : hint_consistent K (fill_one zero_trunc_pol) := by
  intro _ c _
  unfold fill_one
  simp only [Function.update_apply]
  rfl

/-! ## The matrix `M(N)`: dimension and hints -/

theorem dim_loop {d : Nat} (body : Nat → matrix_t → matrix_t) (n lo : Nat) (M : matrix_t)
    (hM : M.dim = d) (h : ∀ j M, M.dim = d → (body j M).dim = d) :
    (forLoop lo n body M).dim = d :=
  forLoop_inv (fun X => X.dim = d) body n lo M hM fun j X _ _ hX => h j X hX

theorem matrix_M_dim (g : Params) (N : Nat) : (matrix_M g N).dim = 2 * g.G + 2 := by
  unfold matrix_M
  simp only
  refine dim_loop _ _ _ _ ?_ fun j M hM => hM
  refine dim_loop _ _ _ _ ?_ fun j M hM => dim_loop _ _ _ _ hM fun i M hM => hM
  refine dim_loop _ _ _ _ (dim_loop _ _ _ _ ?_ fun j M hM => hM) fun j M hM => hM
  exact dim_loop _ _ _ _ rfl fun j M hM => hM

theorem hints_set {K : Nat} {M : matrix_t} {x : Nat} {p : trunc_pol_t}
    (hM : ∀ y q, M.term y = some q → hint_consistent K q) (hp : hint_consistent K p) :
    ∀ y q, (M.set x (some p)).term y = some q → hint_consistent K q := by
  intro y q hq
  rw [matrix_t.set_term] at hq
  split_ifs at hq
  · cases hq; exact hp
  · exact hM y q hq

theorem hints_loop {K : Nat} (body : Nat → matrix_t → matrix_t) (n lo : Nat) (M : matrix_t)
    (hM : ∀ y q, M.term y = some q → hint_consistent K q)
    (h : ∀ j M, (∀ y q, M.term y = some q → hint_consistent K q) →
      ∀ y q, (body j M).term y = some q → hint_consistent K q) :
    ∀ y q, (forLoop lo n body M).term y = some q → hint_consistent K q :=
  forLoop_inv (fun X => ∀ y q, X.term y = some q → hint_consistent K q) body n lo M hM
    fun j X _ _ hX => h j X hX

/-- Every entry of `M(N)` is `NULL` or carries a truthful hint. -/
theorem matrix_M_hints (K : Nat) (g : Params) (N : Nat) :
    ∀ y q, (matrix_M g N).term y = some q → hint_consistent K q := by
  unfold matrix_M
  simp only
  have hA : ∀ deg tilde, hint_consistent K (fill_A g deg N tilde zero_trunc_pol) :=
    fun _ _ => hint_consistent_of_mono (by rw [fill_A_mono]; rfl)
  have hB : ∀ deg tilde, hint_consistent K (fill_B g deg N tilde zero_trunc_pol) :=
    fun _ _ => hint_consistent_of_mono (by rw [fill_B_mono]; rfl)
  have hC : ∀ deg tilde, hint_consistent K (fill_C g deg N tilde zero_trunc_pol) :=
    fun _ _ => hint_consistent_of_mono (by rw [fill_C_mono]; rfl)
  have hD : ∀ deg tilde, hint_consistent K (fill_D g deg N tilde zero_trunc_pol) :=
    fun _ _ => hint_consistent_of_mono (by rw [fill_D_mono]; rfl)
  have hu : ∀ deg, hint_consistent K (fill_u g deg N zero_trunc_pol) :=
    fun _ => set_monomial_hint K _ _
  have hv : ∀ deg, hint_consistent K (fill_v g deg N zero_trunc_pol) :=
    fun _ => set_monomial_hint K _ _
  have hw : ∀ deg, hint_consistent K (fill_w g deg N zero_trunc_pol) :=
    fun _ => set_monomial_hint K _ _
  have hy : ∀ j i, hint_consistent K (fill_y g j i N zero_trunc_pol) :=
    fun _ _ => set_monomial_hint K _ _
  have hTd : hint_consistent K (fill_T_down g N zero_trunc_pol) :=
    hint_consistent_of_mono (by rw [fill_T_down_mono]; rfl)
  have hTdd : hint_consistent K (fill_T_double_down g N zero_trunc_pol) :=
    hint_consistent_of_mono (by rw [fill_T_double_down_mono]; rfl)
  have hTu : ∀ deg, hint_consistent K (fill_T_up g deg zero_trunc_pol) :=
    fun _ => hint_consistent_of_mono (by rw [fill_T_up_mono]; rfl)
  have hTs : ∀ deg, hint_consistent K (fill_T_sim g deg N zero_trunc_pol) :=
    fun _ => hint_consistent_of_mono (by rw [fill_T_sim_mono]; rfl)
  refine hints_loop _ _ _ _ ?_ fun j M hM =>
    hints_set (hints_set (hints_set hM (hD _ _)) (hD _ _)) (hTu _)
  refine hints_loop _ _ _ _ ?_ fun j M hM =>
    hints_set (hints_loop _ _ _ _ (hints_set (hints_set hM (hC _ _)) (hC _ _))
      fun i M hM => hints_set hM (hy _ _)) (hTs _)
  refine hints_set ?_ hTd
  refine hints_loop _ _ _ _ ?_ fun j M hM => hints_set hM (hw _)
  refine hints_loop _ _ _ _ ?_ fun j M hM => hints_set hM (hv _)
  refine hints_set (hints_set ?_ (hB _ _)) (hB _ _)
  refine hints_set ?_ hTdd
  refine hints_loop _ _ _ _ ?_ fun j M hM => hints_set hM (hu _)
  refine hints_set (hints_set (hints_set ?_ (fill_one_hint K)) (hA _ _)) (hA _ _)
  intro y q hq
  cases hq

end MemProb

namespace MemProb

/-! ## Runs in which every allocation is served -/

theorem yields_guarded {α : Type} {c : Prop} [Decidable c] {line : Int} {m : Alloc α} {a : α}
    (hc : ¬ c) (hm : m.yields a) : (if c then internal_error line else m).yields a := by
  rw [if_neg hc]; exact hm

theorem yields_filled {f : trunc_pol_t → trunc_pol_t} {line : Int} :
    Alloc.yields (handle_memory_error line new_zero_trunc_pol >>= fun new => pure (f new))
      (f zero_trunc_pol) :=
  yields_bind (yields_handle new_zero_trunc_pol_yields) (yields_pure _)

theorem new_trunc_pol_A_yields (g : Params) (deg N : Nat) (tilde : Int) (h1 : deg ≤ g.K)
    (h2 : deg ≠ 0) :
    (new_trunc_pol_A g deg N tilde).yields (fill_A g deg N tilde zero_trunc_pol) :=
  yields_guarded (by omega) yields_filled

theorem new_trunc_pol_B_yields (g : Params) (deg N : Nat) (tilde : Int) (h1 : deg ≤ g.K)
    (h2 : deg ≠ 0) :
    (new_trunc_pol_B g deg N tilde).yields (fill_B g deg N tilde zero_trunc_pol) :=
  yields_guarded (by omega) yields_filled

theorem new_trunc_pol_C_yields (g : Params) (deg N : Nat) (tilde : Int) (hN : N ≠ 1)
    (h1 : deg ≤ g.K) (h2 : deg ≠ 0) :
    (new_trunc_pol_C g deg N tilde).yields (fill_C g deg N tilde zero_trunc_pol) := by
  unfold new_trunc_pol_C
  rw [if_neg hN]
  exact yields_guarded (by omega) yields_filled

theorem new_trunc_pol_D_yields (g : Params) (deg N : Nat) (tilde : Int) (h1 : deg ≤ g.K)
    (h2 : deg ≠ 0) :
    (new_trunc_pol_D g deg N tilde).yields (fill_D g deg N tilde zero_trunc_pol) :=
  yields_guarded (by omega) yields_filled

theorem new_trunc_pol_u_yields (g : Params) (deg N : Nat) (h1 : deg ≤ g.K) (h2 : deg < g.G)
    (h3 : deg ≠ 0) : (new_trunc_pol_u g deg N).yields (fill_u g deg N zero_trunc_pol) :=
  yields_guarded (by omega) yields_filled

theorem new_trunc_pol_v_yields (g : Params) (deg N : Nat) (h1 : deg ≤ g.K) (h2 : deg < g.G)
    (h3 : deg ≠ 0) : (new_trunc_pol_v g deg N).yields (fill_v g deg N zero_trunc_pol) :=
  yields_guarded (by omega) yields_filled

theorem new_trunc_pol_w_yields (g : Params) (deg N : Nat) (h1 : deg ≤ g.K) (h2 : deg < g.G)
    (h3 : deg ≠ 0) : (new_trunc_pol_w g deg N).yields (fill_w g deg N zero_trunc_pol) :=
  yields_guarded (by omega) yields_filled

theorem new_trunc_pol_y_yields (g : Params) (j i : Int) (N : Nat) (hN : N ≠ 1)
    (h1 : i ≤ g.K) (h2 : i < g.G) (h3 : 0 < i) :
    (new_trunc_pol_y g j i N).yields (fill_y g j i N zero_trunc_pol) := by
  unfold new_trunc_pol_y
  rw [if_neg hN]
  exact yields_guarded (by omega) yields_filled

theorem new_trunc_pol_T_down_yields (g : Params) (N : Nat) :
    (new_trunc_pol_T_down g N).yields (fill_T_down g N zero_trunc_pol) :=
  yields_filled

theorem new_trunc_pol_T_double_down_yields (g : Params) (N : Nat) :
    (new_trunc_pol_T_double_down g N).yields (fill_T_double_down g N zero_trunc_pol) :=
  yields_filled

theorem new_trunc_pol_T_up_yields (g : Params) (deg N : Nat) (h1 : deg ≤ g.K)
    (h2 : deg < g.G) :
    (new_trunc_pol_T_up g deg N).yields (fill_T_up g deg zero_trunc_pol) :=
  yields_guarded (by omega) yields_filled

theorem new_trunc_pol_T_sim_yields (g : Params) (deg N : Nat) (hN : N ≠ 1) (h1 : deg ≤ g.K)
    (h2 : deg < g.G) :
    (new_trunc_pol_T_sim g deg N).yields (fill_T_sim g deg N zero_trunc_pol) := by
  unfold new_trunc_pol_T_sim
  rw [if_neg hN]
  exact yields_guarded (by omega) yields_filled

theorem new_null_matrix_yields (dim : Nat) :
    (new_null_matrix dim).yields { dim := dim, term := fun _ => none } :=
  yields_handle (yields_calloc _)

theorem new_zero_matrix_yields (dim : Nat) : (new_zero_matrix dim).yields (zero_matrix dim) :=
  yields_bind (yields_handle (new_null_matrix_yields dim))
    (yields_forLoopM _ _ _ _ _ fun _ _ _ _ =>
      yields_bind (yields_handle new_zero_trunc_pol_yields) (yields_pure _))

/-- When no allocation fails, `1 ≤ G ≤ K`, `1 ≤ HIGH ≤ K`, and `N ≠ 1` or
`G = 1`, `new_matrix_M(N)` returns the matrix `matrix_M`. -/
theorem new_matrix_M_yields (g : Params) (N : Nat) (hG : 1 ≤ g.G) (hGK : g.G ≤ g.K)
    (hH : g.HIGH ≤ g.K) (hH0 : g.HIGH ≠ 0) (hN : N ≠ 1 ∨ g.G = 1) :
    (new_matrix_M g N).yields (matrix_M g N) := by
  unfold new_matrix_M matrix_M
  refine yields_bind (yields_handle (new_null_matrix_yields _)) ?_
  refine yields_bind (yields_handle new_zero_trunc_pol_yields) ?_
  refine yields_bind (yields_handle (new_trunc_pol_A_yields _ _ _ _ hGK (by omega))) ?_
  refine yields_bind (yields_handle (new_trunc_pol_A_yields _ _ _ _ hH hH0)) ?_
  refine yields_bind (yields_forLoopM _ _ _ _ _ fun j M h1 h2 =>
    yields_bind (yields_handle (new_trunc_pol_u_yields _ _ _ (by omega) (by omega) (by omega)))
      (yields_pure _)) ?_
  refine yields_bind (yields_handle (new_trunc_pol_T_double_down_yields _ _)) ?_
  refine yields_bind (yields_handle (new_trunc_pol_B_yields _ _ _ _ hH hH0)) ?_
  refine yields_bind (yields_handle (new_trunc_pol_B_yields _ _ _ _ hH hH0)) ?_
  refine yields_bind (yields_forLoopM _ _ _ _ _ fun j M h1 h2 =>
    yields_bind (yields_handle (new_trunc_pol_v_yields _ _ _ (by omega) (by omega) (by omega)))
      (yields_pure _)) ?_
  refine yields_bind (yields_forLoopM _ _ _ _ _ fun j M h1 h2 =>
    yields_bind (yields_handle (new_trunc_pol_w_yields _ _ _ (by omega) (by omega) (by omega)))
      (yields_pure _)) ?_
  refine yields_bind (yields_handle (new_trunc_pol_T_down_yields _ _)) ?_
  refine yields_bind (yields_forLoopM _ _ _ _ _ fun j M h1 h2 =>
    yields_bind
      (yields_handle (new_trunc_pol_C_yields _ _ _ _ (hN.resolve_right (by omega))
        (by omega) (by omega)))
      (yields_bind (yields_handle (new_trunc_pol_C_yields _ _ _ _
          (hN.resolve_right (by omega)) (by omega) (by omega)))
        (yields_bind (yields_forLoopM _ _ _ _ _ fun i M h3 h4 =>
            yields_bind (yields_handle (new_trunc_pol_y_yields _ _ _ _
              (hN.resolve_right (by omega)) (by omega) (by omega) (by omega)))
              (yields_pure _))
          (yields_bind (yields_handle (new_trunc_pol_T_sim_yields _ _ _
              (hN.resolve_right (by omega)) (by omega) (by omega))) (yields_pure _))))) ?_
  refine yields_bind (yields_forLoopM _ _ _ _ _ fun j M h1 h2 =>
    yields_bind (yields_handle (new_trunc_pol_D_yields _ _ _ _ (by omega) (by omega)))
      (yields_bind (yields_handle (new_trunc_pol_D_yields _ _ _ _ (by omega) (by omega)))
        (yields_bind (yields_handle (new_trunc_pol_T_up_yields _ _ _ (by omega) (by omega)))
          (yields_pure _)))) ?_
  exact yields_pure _

theorem allocate_work_returns (g : Params) (N : Nat) :
    (allocate_work g N).returns
      (zero_trunc_pol, matrix_M g N, zero_matrix (2 * g.G + 2), zero_matrix (2 * g.G + 2)) :=
  returns_bind (returns_handle new_zero_trunc_pol_returns)
    (returns_bind (returns_handle (new_matrix_M_returns g N))
      (returns_bind (returns_handle (new_zero_matrix_returns _))
        (returns_bind (returns_handle (new_zero_matrix_returns _)) (returns_pure _))))

theorem allocate_work_yields (g : Params) (N : Nat) (hG : 1 ≤ g.G) (hGK : g.G ≤ g.K)
    (hH : g.HIGH ≤ g.K) (hH0 : g.HIGH ≠ 0) (hN : N ≠ 1 ∨ g.G = 1) :
    (allocate_work g N).yields
      (zero_trunc_pol, matrix_M g N, zero_matrix (2 * g.G + 2), zero_matrix (2 * g.G + 2)) :=
  yields_bind (yields_handle new_zero_trunc_pol_yields)
    (yields_bind (yields_handle (new_matrix_M_yields g N hG hGK hH hH0 hN))
      (yields_bind (yields_handle (new_zero_matrix_yields _))
        (yields_bind (yields_handle (new_zero_matrix_yields _)) (yields_pure _))))

/-! ## `compute_mem_prob`: the computing branch -/

/-- The series of a first query: defined whenever there is a scratch buffer,
and `w` then holds the sum of the entries in row 0 and column `2G+1` of the
powers 2 to 22 of `M(N)`. -/
theorem sum_of_powers_fresh (g : Params) (N : Nat) (T : Option trunc_pol_t) (E : Int)
    (hT : T.isSome) :
    ∃ y, sum_of_powers g.K g.G (matrix_M g N)
        { w := zero_trunc_pol, powM1 := zero_matrix (2 * g.G + 2),
          powM2 := zero_matrix (2 * g.G + 2), TEMP := T, ERRNO := E } = some y ∧
      y.ERRNO = E ∧ y.TEMP.isSome ∧ y.w.mono = zero_trunc_pol.mono ∧
      ∀ c, y.w.coeff c = ∑ p in Finset.Icc 2 22,
        mat_pow g.K (2 * g.G + 2) (cells (matrix_M g N)) p 0 (2 * g.G + 1) c := by
  obtain ⟨y, hy, hE, hT', hmono, hw⟩ := sum_of_powers_spec g.K g.G (matrix_M g N)
    { w := zero_trunc_pol, powM1 := zero_matrix (2 * g.G + 2),
      powM2 := zero_matrix (2 * g.G + 2), TEMP := T, ERRNO := E }
    (matrix_M_dim g N) (fun x q _ => matrix_M_hints g.K g N x q)
    (zero_matrix_allocated _) (zero_matrix_allocated _) hT
  refine ⟨y, hy, hE, hT', hmono, fun c => ?_⟩
  rw [hw c]
  show (0 : ℚ) + _ = _
  rw [zero_add]

/-- A query for an `N` that is not in the table, in a session with a scratch
buffer: either an allocation or a factory fails and the call returns `nan`
with the table as it was, or `w(N)` is stored and its coefficient returned. -/
theorem compute_mem_prob_fresh (N k : Nat) (s : Session) (hN : N ≤ MAXN - 1) (hk : k ≤ s.K)
    (hA : s.ARRAY N = none) (hT : s.TEMP.isSome) :
    (∃ e, allocate_work s.toParams N s.toEff = (none, e) ∧
      compute_mem_prob N k s = some (none, { s with toEff := e })) ∨
    (∃ e w T, allocate_work s.toParams N s.toEff =
        (some (zero_trunc_pol, matrix_M s.toParams N, zero_matrix (2 * s.G + 2),
          zero_matrix (2 * s.G + 2)), e) ∧ e.ERRNO = s.ERRNO ∧
      compute_mem_prob N k s = some (some (w.coeff k),
        { s with mem := e.mem, TEMP := some T,
                 ARRAY := Function.update s.ARRAY N (some w) }) ∧
      w.mono = zero_trunc_pol.mono ∧
      ∀ c, w.coeff c = ∑ p in Finset.Icc 2 22,
        mat_pow s.K (2 * s.G + 2) (cells (matrix_M s.toParams N)) p 0 (2 * s.G + 1) c) := by
  unfold compute_mem_prob
  rw [if_neg (by omega), if_neg (by omega), hA]
  simp only
  rcases hr : allocate_work s.toParams N s.toEff with ⟨r, e⟩
  cases r with
  | none => exact Or.inl ⟨e, rfl, rfl⟩
  | some x =>
    obtain ⟨hx, hE⟩ := allocate_work_returns s.toParams N s.toEff e x hr
    subst hx
    obtain ⟨y, hy, hyE, hyT, hmono, hw⟩ := sum_of_powers_fresh s.toParams N s.TEMP e.ERRNO hT
    obtain ⟨T, hT'⟩ := Option.isSome_iff_exists.mp hyT
    refine Or.inr ⟨e, y.w, T, rfl, hE, ?_, hmono, hw⟩
    simp only
    rw [hy]
    simp only [Option.map_some', hyE, hT', hE]

end MemProb

namespace MemProb

/-! ## `compute_mem_prob`: total runs and failing runs -/

/-- A first query in a configured session in which no allocation fails
(`1 ≤ G ≤ K`, `HIGH = max(G, K)`, `N ≤ MAXN-1`, `N ≠ 1` or `G = 1`, `k ≤ K`)
returns a number: the matrix is built, `w(N)` is stored and the error token
keeps its value. -/
theorem compute_mem_prob_total (N k : Nat) (s : Session) (hG : 1 ≤ s.G) (hGK : s.G ≤ s.K)
    (hH : s.HIGH = max s.G s.K) (hN1 : N ≠ 1 ∨ s.G = 1) (hN : N ≤ MAXN - 1) (hk : k ≤ s.K)
    (hA : s.ARRAY N = none) (hT : s.TEMP.isSome) (hmem : Served s.toEff) :
    ∃ w T mem, compute_mem_prob N k s = some (some (w.coeff k),
        { s with mem := mem, TEMP := some T, ARRAY := Function.update s.ARRAY N (some w) }) ∧
      w.mono = zero_trunc_pol.mono ∧
      ∀ c, w.coeff c = ∑ p in Finset.Icc 2 22,
        mat_pow s.K (2 * s.G + 2) (cells (matrix_M s.toParams N)) p 0 (2 * s.G + 1) c := by
  have hHK : s.HIGH = s.K := by rw [hH]; exact max_eq_right hGK
  obtain ⟨e1, he1, _, _⟩ := allocate_work_yields s.toParams N hG hGK (by rw [hHK])
    (by rw [hHK]; omega) hN1 s.toEff hmem
  rcases compute_mem_prob_fresh N k s hN hk hA hT with ⟨e, he, _⟩ | ⟨e, w, T, _, _, hc, hm, hw⟩
  · rw [he1] at he
    cases he
  · exact ⟨w, T, e.mem, hc, hm, hw⟩

theorem forLoopM_succ {m : Type → Type} [Monad m] {σ : Type} (lo n : Nat)
    (body : Nat → σ → m σ) (s : σ) :
    forLoopM lo (n + 1) body s = body lo s >>= fun s1 => forLoopM (lo + 1) n body s1 := rfl

theorem fst_none_of_bind_left {α β : Type} {m : Alloc α} (f : α → Alloc β) {e : Eff}
    (h : (m e).1 = none) : ((m >>= f) e).1 = none := by
  rw [Alloc.bind_run]
  rcases hm : m e with ⟨r, e1⟩
  rw [hm] at h
  cases r with
  | none => rfl
  | some a => cases h

theorem fst_none_of_bind_right {α β : Type} (m : Alloc α) {f : α → Alloc β}
    (h : ∀ a e, (f a e).1 = none) (e : Eff) : ((m >>= f) e).1 = none := by
  rw [Alloc.bind_run]
  rcases m e with ⟨r, e1⟩
  cases r with
  | none => rfl
  | some a => exact h a e1

theorem fst_none_of_handle {α : Type} (line : Int) {m : Alloc α} {e : Eff}
    (h : (m e).1 = none) : (handle_memory_error line m e).1 = none := by
  unfold handle_memory_error
  rcases hm : m e with ⟨r, e1⟩
  rw [hm] at h
  cases r with
  | none => rfl
  | some a => cases h

/-- With `N = 1` and `G ≥ 2`, `new_matrix_M` always returns `NULL`: the first
`new_trunc_pol_C` returns `NULL` ("not a failure"), which the
`handle_memory_error` that follows takes for a failed allocation. -/
theorem new_matrix_M_one_fails (g : Params) (hG : 2 ≤ g.G) (e : Eff) :
    (new_matrix_M g 1 e).1 = none := by
  obtain ⟨n, hn⟩ : ∃ n, g.G - 1 = n + 1 := ⟨g.G - 2, by omega⟩
  unfold new_matrix_M
  rw [hn]
  refine fst_none_of_bind_right _ (fun M e => ?_) e
  refine fst_none_of_bind_right _ (fun t e => ?_) e
  refine fst_none_of_bind_right _ (fun t e => ?_) e
  refine fst_none_of_bind_right _ (fun t e => ?_) e
  refine fst_none_of_bind_right _ (fun M e => ?_) e
  refine fst_none_of_bind_right _ (fun t e => ?_) e
  refine fst_none_of_bind_right _ (fun t e => ?_) e
  refine fst_none_of_bind_right _ (fun t e => ?_) e
  refine fst_none_of_bind_right _ (fun M e => ?_) e
  refine fst_none_of_bind_right _ (fun M e => ?_) e
  refine fst_none_of_bind_right _ (fun t e => ?_) e
  refine fst_none_of_bind_left _ ?_
  rw [forLoopM_succ]
  refine fst_none_of_bind_left _ ?_
  refine fst_none_of_bind_left _ ?_
  refine fst_none_of_handle _ ?_
  unfold new_trunc_pol_C
  rw [if_pos rfl]

theorem allocate_work_one_fails (g : Params) (hG : 2 ≤ g.G) (e : Eff) :
    (allocate_work g 1 e).1 = none := by
  unfold allocate_work
  refine fst_none_of_bind_right _ (fun w e => ?_) e
  refine fst_none_of_bind_left _ ?_
  exact fst_none_of_handle _ (new_matrix_M_one_fails g hG e)

/-- With `G ≥ 2`, every query `compute_mem_prob(1, k)`, `k ≤ K`, that finds
no `w(1)` in the table returns `nan` through the failure exit, with a
non-zero error token and the table unchanged. -/
theorem compute_mem_prob_one_fails (k : Nat) (s : Session) (hG : 2 ≤ s.G) (hk : k ≤ s.K)
    (hA : s.ARRAY 1 = none) :
    ∃ s', compute_mem_prob 1 k s = some (none, s') ∧ s'.ERRNO ≠ 0 ∧ s'.ARRAY = s.ARRAY := by
  unfold compute_mem_prob
  rw [if_neg (by unfold MAXN; omega), if_neg (by omega), hA]
  simp only
  have h := allocate_work_one_fails s.toParams hG s.toEff
  rcases hr : allocate_work s.toParams 1 s.toEff with ⟨r, e⟩
  rw [hr] at h
  simp only at h
  subst h
  exact ⟨_, rfl, allocate_work_none hr, rfl⟩

/-- The session after the first `set_params_mem_prob` of a program whose
allocations are all served. -/
theorem set_params_mem_prob_init (g k : Nat) (p u : ℚ) (hp0 : 0 < p) (hp1 : p < 1)
    (hu0 : 0 < u) (hu1 : u < 1) :
    set_params_mem_prob g k p u (Session.init []) =
      (SUCCESS, { G := g, K := k, HIGH := if k > g then k else g, P := p, U := u,
                  KSZ := (16 + (k + 1) * 8) % 2 ^ 64, ERRNO := 0, mem := [],
                  TEMP := some zero_trunc_pol, ARRAY := fun _ => none }) := by
  unfold set_params_mem_prob
  rw [if_neg (by rintro (h | h) <;> linarith), if_neg (by rintro (h | h) <;> linarith)]
  rfl

end MemProb

namespace MemProb

/-! ## The layout of `M(N)` -/

theorem set_cell (dim : Nat) (M : matrix_t) (r0 c0 : Nat) (p : Option trunc_pol_t) (r c : Nat)
    (hc : c < dim) (hc0 : c0 < dim) :
    (M.set (r0 * dim + c0) p).term (r * dim + c) =
      if r = r0 ∧ c = c0 then p else M.term (r * dim + c) := by
  rw [matrix_t.set_term]
  by_cases h : r = r0 ∧ c = c0
  · rw [if_pos h, if_pos (by rw [h.1, h.2])]
  · rw [if_neg h, if_neg (fun he => h (flat_inj hc hc0 he))]

theorem loop_term_at (body : Nat → matrix_t → matrix_t) (Q : Nat → Prop) [DecidablePred Q]
    (V : Nat → Option trunc_pol_t) (j0 n lo : Nat) (M : matrix_t) (y : Nat)
    (hbody : ∀ j M, lo ≤ j → j < lo + n →
      (body j M).term y = if Q j then V j else M.term y)
    (hsel : ∀ j, lo ≤ j → j < lo + n → Q j → j = j0) :
    (forLoop lo n body M).term y =
      if lo ≤ j0 ∧ j0 < lo + n ∧ Q j0 then V j0 else M.term y := by
  by_cases h : lo ≤ j0 ∧ j0 < lo + n ∧ Q j0
  · rw [if_pos h]
    refine forLoop_term_hit body n lo M y (V j0) j0 h.1 h.2.1
      (fun M => by rw [hbody j0 M h.1 h.2.1, if_pos h.2.2])
      (fun j M h1 h2 => ?_)
    rw [hbody j M (by omega) h2, if_neg]
    intro hQ
    have := hsel j (by omega) h2 hQ
    omega
  · rw [if_neg h]
    refine forLoop_term_miss body n lo M y fun j M h1 h2 => ?_
    rw [hbody j M h1 h2, if_neg]
    intro hQ
    have := hsel j h1 h2 hQ
    subst this
    exact h ⟨h1, h2, hQ⟩

/-- A loop that fills the columns `c0 + j` of row `r0`. -/
theorem row_loop_cell (dim r0 c0 : Nat) (v : Nat → Option trunc_pol_t) (n lo : Nat)
    (M : matrix_t) (r c : Nat) (hc : c < dim) (hn : c0 + lo + n ≤ dim) :
    (forLoop lo n (fun j (M : matrix_t) => M.set (r0 * dim + (c0 + j)) (v j)) M).term
        (r * dim + c) =
      if r = r0 ∧ c0 + lo ≤ c ∧ c < c0 + lo + n then v (c - c0) else M.term (r * dim + c) := by
  rw [loop_term_at _ (fun j => r = r0 ∧ c = c0 + j) v (c - c0) n lo M _
    (fun j M h1 h2 => set_cell dim M r0 (c0 + j) (v j) r c hc (by omega))
    (fun j _ _ hQ => by omega)]
  by_cases h : r = r0 ∧ c0 + lo ≤ c ∧ c < c0 + lo + n
  · rw [if_pos h, if_pos ⟨by omega, by omega, h.1, by omega⟩]
  · rw [if_neg h, if_neg (fun h' => h ⟨h'.2.2.1, by omega, by omega⟩)]

theorem loopU_cell (g : Params) (hG : 1 ≤ g.G) (N : Nat) (M : matrix_t) (r c : Nat)
    (hc : c < 2 * g.G + 2) :
    (forLoop 1 (g.G - 1) (fun j (M : matrix_t) =>
        M.set (1 * (2 * g.G + 2) + (j + g.G + 1)) (some (fill_u g j N zero_trunc_pol))) M).term
        (r * (2 * g.G + 2) + c) =
      if r = 1 ∧ g.G + 2 ≤ c ∧ c ≤ 2 * g.G then some (fill_u g (c - g.G - 1) N zero_trunc_pol)
      else M.term (r * (2 * g.G + 2) + c) := by
  have hfun : (fun j (M : matrix_t) =>
        M.set (1 * (2 * g.G + 2) + (j + g.G + 1)) (some (fill_u g j N zero_trunc_pol))) =
      fun j (M : matrix_t) => M.set (1 * (2 * g.G + 2) + ((g.G + 1) + j))
        ((fun j => some (fill_u g j N zero_trunc_pol)) j) := by
    funext j M
    rw [show j + g.G + 1 = g.G + 1 + j from by omega]
  rw [hfun, row_loop_cell (2 * g.G + 2) 1 (g.G + 1) _ (g.G - 1) 1 M r c hc (by omega)]
  rw [Nat.sub_sub]
  split_ifs <;> first | rfl | (exfalso; omega)

theorem loopV_cell (g : Params) (hG : 1 ≤ g.G) (N : Nat) (M : matrix_t) (r c : Nat)
    (hc : c < 2 * g.G + 2) :
    (forLoop 1 (g.G - 1) (fun j (M : matrix_t) =>
        M.set (2 * (2 * g.G + 2) + j + 2) (some (fill_v g j N zero_trunc_pol))) M).term
        (r * (2 * g.G + 2) + c) =
      if r = 2 ∧ 3 ≤ c ∧ c ≤ g.G + 1 then some (fill_v g (c - 2) N zero_trunc_pol)
      else M.term (r * (2 * g.G + 2) + c) := by
  have hfun : (fun j (M : matrix_t) =>
        M.set (2 * (2 * g.G + 2) + j + 2) (some (fill_v g j N zero_trunc_pol))) =
      fun j (M : matrix_t) => M.set (2 * (2 * g.G + 2) + (2 + j))
        ((fun j => some (fill_v g j N zero_trunc_pol)) j) := by
    funext j M
    rw [show 2 * (2 * g.G + 2) + j + 2 = 2 * (2 * g.G + 2) + (2 + j) from by omega]
  rw [hfun, row_loop_cell (2 * g.G + 2) 2 2 _ (g.G - 1) 1 M r c hc (by omega)]
  split_ifs <;> first | rfl | (exfalso; omega)

theorem loopW_cell (g : Params) (hG : 1 ≤ g.G) (N : Nat) (M : matrix_t) (r c : Nat)
    (hc : c < 2 * g.G + 2) :
    (forLoop 1 (g.G - 1) (fun j (M : matrix_t) =>
        M.set (2 * (2 * g.G + 2) + j + g.G + 1) (some (fill_w g j N zero_trunc_pol))) M).term
        (r * (2 * g.G + 2) + c) =
      if r = 2 ∧ g.G + 2 ≤ c ∧ c ≤ 2 * g.G then some (fill_w g (c - g.G - 1) N zero_trunc_pol)
      else M.term (r * (2 * g.G + 2) + c) := by
  have hfun : (fun j (M : matrix_t) =>
        M.set (2 * (2 * g.G + 2) + j + g.G + 1) (some (fill_w g j N zero_trunc_pol))) =
      fun j (M : matrix_t) => M.set (2 * (2 * g.G + 2) + ((g.G + 1) + j))
        ((fun j => some (fill_w g j N zero_trunc_pol)) j) := by
    funext j M
    rw [show 2 * (2 * g.G + 2) + j + g.G + 1 = 2 * (2 * g.G + 2) + (g.G + 1 + j) from by omega]
  rw [hfun, row_loop_cell (2 * g.G + 2) 2 (g.G + 1) _ (g.G - 1) 1 M r c hc (by omega)]
  rw [Nat.sub_sub]
  split_ifs <;> first | rfl | (exfalso; omega)

/-- One round of the second series of middle rows. -/
theorem bodyD_cell (g : Params) (hG : 1 ≤ g.G) (N j : Nat) (M : matrix_t) (r c : Nat)
    (hc : c < 2 * g.G + 2) :
    ((((M.set ((j + g.G + 1) * (2 * g.G + 2) + 1)
          (some (fill_D g (g.G - j) N NO zero_trunc_pol))).set
        ((j + g.G + 1) * (2 * g.G + 2) + 2)
          (some (fill_D g (g.G - j) N YES zero_trunc_pol))).set
        ((j + g.G + 1) * (2 * g.G + 2) + (2 * g.G + 2) - 1)
          (some (fill_T_up g (g.G - j - 1) zero_trunc_pol)))).term (r * (2 * g.G + 2) + c) =
      if r = j + g.G + 1 ∧ (c = 1 ∨ c = 2 ∨ c = 2 * g.G + 1) then
        (if c = 1 then some (fill_D g (g.G - j) N NO zero_trunc_pol)
         else if c = 2 then some (fill_D g (g.G - j) N YES zero_trunc_pol)
         else some (fill_T_up g (g.G - j - 1) zero_trunc_pol))
      else M.term (r * (2 * g.G + 2) + c) := by
  rw [show (j + g.G + 1) * (2 * g.G + 2) + (2 * g.G + 2) - 1
      = (j + g.G + 1) * (2 * g.G + 2) + (2 * g.G + 1) from by omega,
    set_cell _ _ _ _ _ _ _ hc (by omega), set_cell _ _ _ _ _ _ _ hc (by omega),
    set_cell _ _ _ _ _ _ _ hc (by omega)]
  split_ifs <;> first | rfl | (exfalso; omega)

theorem loopD_cell (g : Params) (hG : 1 ≤ g.G) (N : Nat) (M : matrix_t) (r c : Nat)
    (hc : c < 2 * g.G + 2) :
    (forLoop 1 (g.G - 1) (fun j (M : matrix_t) =>
        let M := M.set ((j + g.G + 1) * (2 * g.G + 2) + 1)
          (some (fill_D g (g.G - j) N NO zero_trunc_pol))
        let M := M.set ((j + g.G + 1) * (2 * g.G + 2) + 2)
          (some (fill_D g (g.G - j) N YES zero_trunc_pol))
        M.set ((j + g.G + 1) * (2 * g.G + 2) + (2 * g.G + 2) - 1)
          (some (fill_T_up g (g.G - j - 1) zero_trunc_pol))) M).term
        (r * (2 * g.G + 2) + c) =
      if g.G + 2 ≤ r ∧ r ≤ 2 * g.G ∧ (c = 1 ∨ c = 2 ∨ c = 2 * g.G + 1) then
        (if c = 1 then some (fill_D g (g.G - (r - g.G - 1)) N NO zero_trunc_pol)
         else if c = 2 then some (fill_D g (g.G - (r - g.G - 1)) N YES zero_trunc_pol)
         else some (fill_T_up g (g.G - (r - g.G - 1) - 1) zero_trunc_pol))
      else M.term (r * (2 * g.G + 2) + c) := by
  rw [loop_term_at _ (fun j => r = j + g.G + 1 ∧ (c = 1 ∨ c = 2 ∨ c = 2 * g.G + 1))
    (fun j => if c = 1 then some (fill_D g (g.G - j) N NO zero_trunc_pol)
         else if c = 2 then some (fill_D g (g.G - j) N YES zero_trunc_pol)
         else some (fill_T_up g (g.G - j - 1) zero_trunc_pol)) (r - g.G - 1) (g.G - 1) 1 M _
    (fun j M _ _ => bodyD_cell g hG N j M r c hc) (fun j _ _ hQ => by omega)]
  split_ifs <;> first | rfl | (exfalso; omega)

/-- One round of the first series of middle rows. -/
theorem bodyC_cell (g : Params) (hG : 1 ≤ g.G) (N j : Nat) (hj : 1 ≤ j) (hjG : j ≤ g.G - 1)
    (M : matrix_t) (r c : Nat) (hc : c < 2 * g.G + 2) :
    (((forLoop 1 (g.G - j - 1) (fun i (M : matrix_t) =>
          M.set ((j + 2) * (2 * g.G + 2) + g.G + j + i + 1)
            (some (fill_y g (j : Int) (i : Int) N zero_trunc_pol)))
        ((M.set ((j + 2) * (2 * g.G + 2) + 1)
          (some (fill_C g (g.G - j) N NO zero_trunc_pol))).set
          ((j + 2) * (2 * g.G + 2) + 2)
          (some (fill_C g (g.G - j) N YES zero_trunc_pol)))).set
        ((j + 2) * (2 * g.G + 2) + (2 * g.G + 2) - 1)
          (some (fill_T_sim g (g.G - j - 1) N zero_trunc_pol)))).term
        (r * (2 * g.G + 2) + c) =
      if r = j + 2 ∧ (c = 1 ∨ c = 2 ∨ (g.G + r ≤ c ∧ c ≤ 2 * g.G) ∨ c = 2 * g.G + 1) then
        (if c = 1 then some (fill_C g (g.G - j) N NO zero_trunc_pol)
         else if c = 2 then some (fill_C g (g.G - j) N YES zero_trunc_pol)
         else if g.G + r ≤ c ∧ c ≤ 2 * g.G then
          some (fill_y g (j : Int) ((c - g.G - j - 1 : Nat) : Int) N zero_trunc_pol)
         else some (fill_T_sim g (g.G - j - 1) N zero_trunc_pol))
      else M.term (r * (2 * g.G + 2) + c) := by
  have hfun : (fun i (M : matrix_t) =>
          M.set ((j + 2) * (2 * g.G + 2) + g.G + j + i + 1)
            (some (fill_y g (j : Int) (i : Int) N zero_trunc_pol))) =
      fun i (M : matrix_t) => M.set ((j + 2) * (2 * g.G + 2) + ((g.G + j + 1) + i))
        ((fun i : Nat => some (fill_y g (j : Int) (i : Int) N zero_trunc_pol)) i) := by
    funext i M
    rw [show (j + 2) * (2 * g.G + 2) + g.G + j + i + 1
      = (j + 2) * (2 * g.G + 2) + (g.G + j + 1 + i) from by omega]
  rw [show (j + 2) * (2 * g.G + 2) + (2 * g.G + 2) - 1
      = (j + 2) * (2 * g.G + 2) + (2 * g.G + 1) from by omega,
    set_cell _ _ _ _ _ _ _ hc (by omega), hfun,
    row_loop_cell (2 * g.G + 2) (j + 2) (g.G + j + 1) _ (g.G - j - 1) 1 _ r c hc (by omega),
    set_cell _ _ _ _ _ _ _ hc (by omega), set_cell _ _ _ _ _ _ _ hc (by omega)]
  split_ifs <;> first | rfl | (exfalso; omega) | skip
  all_goals rw [show c - (g.G + j + 1) = c - g.G - j - 1 from by omega]

theorem loopC_cell (g : Params) (hG : 1 ≤ g.G) (N : Nat) (M : matrix_t) (r c : Nat)
    (hc : c < 2 * g.G + 2) :
    (forLoop 1 (g.G - 1) (fun j (M : matrix_t) =>
        let M := M.set ((j + 2) * (2 * g.G + 2) + 1)
          (some (fill_C g (g.G - j) N NO zero_trunc_pol))
        let M := M.set ((j + 2) * (2 * g.G + 2) + 2)
          (some (fill_C g (g.G - j) N YES zero_trunc_pol))
        let M := forLoop 1 (g.G - j - 1) (fun i (M : matrix_t) =>
          M.set ((j + 2) * (2 * g.G + 2) + g.G + j + i + 1)
            (some (fill_y g (j : Int) (i : Int) N zero_trunc_pol))) M
        M.set ((j + 2) * (2 * g.G + 2) + (2 * g.G + 2) - 1)
          (some (fill_T_sim g (g.G - j - 1) N zero_trunc_pol))) M).term
        (r * (2 * g.G + 2) + c) =
      if 3 ≤ r ∧ r ≤ g.G + 1 ∧
          (c = 1 ∨ c = 2 ∨ (g.G + r ≤ c ∧ c ≤ 2 * g.G) ∨ c = 2 * g.G + 1) then
        (if c = 1 then some (fill_C g (g.G - (r - 2)) N NO zero_trunc_pol)
         else if c = 2 then some (fill_C g (g.G - (r - 2)) N YES zero_trunc_pol)
         else if g.G + r ≤ c ∧ c ≤ 2 * g.G then
          some (fill_y g ((r - 2 : Nat) : Int) ((c - g.G - (r - 2) - 1 : Nat) : Int) N
            zero_trunc_pol)
         else some (fill_T_sim g (g.G - (r - 2) - 1) N zero_trunc_pol))
      else M.term (r * (2 * g.G + 2) + c) := by
  rw [loop_term_at _
    (fun j => r = j + 2 ∧ (c = 1 ∨ c = 2 ∨ (g.G + r ≤ c ∧ c ≤ 2 * g.G) ∨ c = 2 * g.G + 1))
    (fun j => if c = 1 then some (fill_C g (g.G - j) N NO zero_trunc_pol)
         else if c = 2 then some (fill_C g (g.G - j) N YES zero_trunc_pol)
         else if g.G + r ≤ c ∧ c ≤ 2 * g.G then
          some (fill_y g (j : Int) ((c - g.G - j - 1 : Nat) : Int) N zero_trunc_pol)
         else some (fill_T_sim g (g.G - j - 1) N zero_trunc_pol)) (r - 2) (g.G - 1) 1 M _
    (fun j M h1 h2 => bodyC_cell g hG N j h1 (by omega) M r c hc)
    (fun j _ _ hQ => by omega)]
  split_ifs <;> first | rfl | (exfalso; omega)

/-- The entry of `M(N)` in row `r` and column `c`. -/
theorem matrix_M_entry (g : Params) (N : Nat) (hG : 1 ≤ g.G) (r c : Nat)
    (hc : c < 2 * g.G + 2) :
    (matrix_M g N).term (r * (2 * g.G + 2) + c) = M_entry g N r c := by
  unfold matrix_M
  simp only
  rw [loopD_cell g hG N _ r c hc, loopC_cell g hG N _ r c hc,
    show 2 * (2 * g.G + 2) + (2 * g.G + 2) - 1 = 2 * (2 * g.G + 2) + (2 * g.G + 1) from by omega,
    set_cell _ _ _ _ _ _ _ hc (by omega),
    loopW_cell g hG N _ r c hc, loopV_cell g hG N _ r c hc,
    set_cell _ _ _ _ _ _ _ hc (by omega), set_cell _ _ _ _ _ _ _ hc (by omega),
    show 1 * (2 * g.G + 2) + (2 * g.G + 2) - 1 = 1 * (2 * g.G + 2) + (2 * g.G + 1) from by omega,
    set_cell _ _ _ _ _ _ _ hc (by omega),
    loopU_cell g hG N _ r c hc,
    set_cell _ _ _ _ _ _ _ hc (by omega), set_cell _ _ _ _ _ _ _ hc (by omega),
    set_cell _ _ _ _ _ _ _ hc (by omega)]
  unfold M_entry
  have hrow : r = 0 ∨ r = 1 ∨ r = 2 ∨ (3 ≤ r ∧ r ≤ g.G + 1) ∨ (g.G + 2 ≤ r ∧ r ≤ 2 * g.G) ∨
      2 * g.G + 1 ≤ r := by omega
  rcases hrow with h | h | h | h | h | h
  · have f0 : (r = 0) = True := eq_true (by omega)
    have f1 : (r = 1) = False := eq_false (by omega)
    have f2 : (r = 2) = False := eq_false (by omega)
    have f3 : (3 ≤ r) = False := eq_false (by omega)
    have f4 : (r ≤ g.G + 1) = True := eq_true (by omega)
    have f5 : (g.G + 2 ≤ r) = False := eq_false (by omega)
    have f6 : (r ≤ 2 * g.G) = True := eq_true (by omega)
    simp only [f0, f1, f2, f3, f4, f5, f6, false_and, true_and, if_false, if_true]
  · have f0 : (r = 0) = False := eq_false (by omega)
    have f1 : (r = 1) = True := eq_true (by omega)
    have f2 : (r = 2) = False := eq_false (by omega)
    have f3 : (3 ≤ r) = False := eq_false (by omega)
    have f4 : (r ≤ g.G + 1) = True := eq_true (by omega)
    have f5 : (g.G + 2 ≤ r) = False := eq_false (by omega)
    have f6 : (r ≤ 2 * g.G) = True := eq_true (by omega)
    simp only [f0, f1, f2, f3, f4, f5, f6, false_and, true_and, if_false, if_true]
    split_ifs <;> first | rfl | (exfalso; omega)
  · have f0 : (r = 0) = False := eq_false (by omega)
    have f1 : (r = 1) = False := eq_false (by omega)
    have f2 : (r = 2) = True := eq_true (by omega)
    have f3 : (3 ≤ r) = False := eq_false (by omega)
    have f4 : (r ≤ g.G + 1) = True := eq_true (by omega)
    have f5 : (g.G + 2 ≤ r) = False := eq_false (by omega)
    have f6 : (r ≤ 2 * g.G) = True := eq_true (by omega)
    simp only [f0, f1, f2, f3, f4, f5, f6, false_and, true_and, if_false, if_true]
    split_ifs <;> first | rfl | (exfalso; omega)
  · have f0 : (r = 0) = False := eq_false (by omega)
    have f1 : (r = 1) = False := eq_false (by omega)
    have f2 : (r = 2) = False := eq_false (by omega)
    have f3 : (3 ≤ r) = True := eq_true (by omega)
    have f4 : (r ≤ g.G + 1) = True := eq_true (by omega)
    have f5 : (g.G + 2 ≤ r) = False := eq_false (by omega)
    have f6 : (r ≤ 2 * g.G) = True := eq_true (by omega)
    simp only [f0, f1, f2, f3, f4, f5, f6, false_and, true_and, if_false, if_true]
    split_ifs <;> first | rfl | (exfalso; omega)
  · have f0 : (r = 0) = False := eq_false (by omega)
    have f1 : (r = 1) = False := eq_false (by omega)
    have f2 : (r = 2) = False := eq_false (by omega)
    have f3 : (3 ≤ r) = True := eq_true (by omega)
    have f4 : (r ≤ g.G + 1) = False := eq_false (by omega)
    have f5 : (g.G + 2 ≤ r) = True := eq_true (by omega)
    have f6 : (r ≤ 2 * g.G) = True := eq_true (by omega)
    simp only [f0, f1, f2, f3, f4, f5, f6, false_and, true_and, if_false, if_true]
    split_ifs <;> first | rfl | (exfalso; omega)
  · have f0 : (r = 0) = False := eq_false (by omega)
    have f1 : (r = 1) = False := eq_false (by omega)
    have f2 : (r = 2) = False := eq_false (by omega)
    have f3 : (3 ≤ r) = True := eq_true (by omega)
    have f4 : (r ≤ g.G + 1) = False := eq_false (by omega)
    have f5 : (g.G + 2 ≤ r) = True := eq_true (by omega)
    have f6 : (r ≤ 2 * g.G) = False := eq_false (by omega)
    simp only [f0, f1, f2, f3, f4, f5, f6, false_and, true_and, if_false, if_true]

end MemProb

namespace MemProb

/-! ## Truncated products are associative -/

theorem pol_mul_eq_coeff (K : Nat) (a b : Nat → ℚ) (c : Nat) (hc : c ≤ K) :
    pol_mul K a b c = PowerSeries.coeff ℚ c (PowerSeries.mk a * PowerSeries.mk b) := by
  unfold pol_mul
  rw [if_pos hc, PowerSeries.coeff_mul, Finset.Nat.sum_antidiagonal_eq_sum_range_succ_mk]
  simp only [PowerSeries.coeff_mk]

theorem pol_mul_congr (K : Nat) (a a' b b' : Nat → ℚ) (c : Nat)
    (ha : ∀ t, t ≤ c → a t = a' t) (hb : ∀ t, t ≤ c → b t = b' t) :
    pol_mul K a b c = pol_mul K a' b' c := by
  unfold pol_mul
  split_ifs
  · refine Finset.sum_congr rfl fun t ht => ?_
    have := Finset.mem_range.mp ht
    rw [ha t (by omega), hb (c - t) (by omega)]
  · rfl

theorem pol_mul_assoc (K : Nat) (a b d : Nat → ℚ) (c : Nat) :
    pol_mul K (pol_mul K a b) d c = pol_mul K a (pol_mul K b d) c := by
  by_cases hc : c ≤ K
  · rw [pol_mul_congr K (pol_mul K a b)
        (fun t => PowerSeries.coeff ℚ t (PowerSeries.mk a * PowerSeries.mk b)) d d c
        (fun t ht => pol_mul_eq_coeff K a b t (by omega)) (fun _ _ => rfl),
      pol_mul_congr K a a (pol_mul K b d)
        (fun t => PowerSeries.coeff ℚ t (PowerSeries.mk b * PowerSeries.mk d)) c
        (fun _ _ => rfl) (fun t ht => pol_mul_eq_coeff K b d t (by omega)),
      pol_mul_eq_coeff K _ _ c hc, pol_mul_eq_coeff K _ _ c hc]
    have e1 : PowerSeries.mk (fun t =>
        PowerSeries.coeff ℚ t (PowerSeries.mk a * PowerSeries.mk b))
        = PowerSeries.mk a * PowerSeries.mk b := by
      ext n; simp only [PowerSeries.coeff_mk]
    have e2 : PowerSeries.mk (fun t =>
        PowerSeries.coeff ℚ t (PowerSeries.mk b * PowerSeries.mk d))
        = PowerSeries.mk b * PowerSeries.mk d := by
      ext n; simp only [PowerSeries.coeff_mk]
    rw [e1, e2, mul_assoc]
  · rw [pol_mul_above K _ _ c hc, pol_mul_above K _ _ c hc]

theorem pol_mul_sum_left {ι : Type} (K : Nat) (s : Finset ι) (a : ι → Nat → ℚ) (b : Nat → ℚ)
    (c : Nat) :
    pol_mul K (fun t => ∑ l in s, a l t) b c = ∑ l in s, pol_mul K (a l) b c := by
  unfold pol_mul
  split_ifs
  · rw [Finset.sum_comm]
    refine Finset.sum_congr rfl fun t _ => ?_
    rw [Finset.sum_mul]
  · rw [Finset.sum_const_zero]

theorem pol_mul_sum_right {ι : Type} (K : Nat) (s : Finset ι) (a : Nat → ℚ) (b : ι → Nat → ℚ)
    (c : Nat) :
    pol_mul K a (fun t => ∑ l in s, b l t) c = ∑ l in s, pol_mul K a (b l) c := by
  unfold pol_mul
  split_ifs
  · rw [Finset.sum_comm]
    refine Finset.sum_congr rfl fun t _ => ?_
    rw [Finset.mul_sum]
  · rw [Finset.sum_const_zero]

theorem mat_mul_assoc (K dim : Nat) (A B C : Nat → Nat → Nat → ℚ) :
    mat_mul K dim (mat_mul K dim A B) C = mat_mul K dim A (mat_mul K dim B C) := by
  funext i j c
  show ∑ m in Finset.range dim,
      pol_mul K (fun t => ∑ l in Finset.range dim, pol_mul K (A i l) (B l m) t) (C m j) c =
    ∑ l in Finset.range dim,
      pol_mul K (A i l) (fun t => ∑ m in Finset.range dim, pol_mul K (B l m) (C m j) t) c
  simp only [pol_mul_sum_left, pol_mul_sum_right]
  rw [Finset.sum_comm]
  refine Finset.sum_congr rfl fun l _ => Finset.sum_congr rfl fun m _ => ?_
  exact pol_mul_assoc K _ _ _ c

/-- The powers can also be taken by multiplying on the left. -/
theorem mat_pow_succ_left (K dim : Nat) (A : Nat → Nat → Nat → ℚ) (p : Nat) (hp : 1 ≤ p) :
    mat_pow K dim A (p + 1) = mat_mul K dim A (mat_pow K dim A p) := by
  induction p with
  | zero => omega
  | succ p ih =>
    by_cases h : p = 0
    · subst h; rfl
    · rw [mat_pow_succ K dim A (p + 1) (by omega), ih (by omega), mat_mul_assoc,
        ← mat_pow_succ K dim A p (by omega), ih (by omega)]

/-- A row of `NULL` entries stays zero in every power. -/
theorem mat_pow_null_row (K dim : Nat) (A : Nat → Nat → Nat → ℚ) (i : Nat)
    (hA : ∀ m, m < dim → ∀ c, A i m c = 0) (p : Nat) (hp : 1 ≤ p) (j : Nat) (hj : j < dim)
    (c : Nat) : mat_pow K dim A p i j c = 0 := by
  obtain ⟨q, rfl⟩ : ∃ q, p = q + 1 := ⟨p - 1, by omega⟩
  by_cases h : q = 0
  · subst h; exact hA j hj c
  · rw [mat_pow_succ_left K dim A q (by omega)]
    unfold mat_mul
    refine Finset.sum_eq_zero fun m hm => ?_
    have : A i m = fun _ => 0 := funext fun t => hA m (Finset.mem_range.mp hm) t
    rw [this, pol_mul_zero_left]

end MemProb

namespace MemProb

/-! ## The polynomials of the factory: coefficients -/

theorem fill_loop_coeff (h : Nat → ℚ → ℚ) (r : ℚ) (n lo : Nat) (c : Nat) :
    (forLoop lo n (fun i (st : trunc_pol_t × ℚ) => (st.1.set i (h i st.2), st.2 * r))
      (zero_trunc_pol, 1)).1.coeff c =
      if lo ≤ c ∧ c < lo + n then h c (r ^ (c - lo)) else 0 := by
  rw [fill_loop]
  simp only [one_mul]
  rfl

theorem fill_A_coeff (g : Params) (deg N : Nat) (tilde : Int) (c : Nat) :
    (fill_A g deg N tilde zero_trunc_pol).coeff c =
      if 1 ≤ c ∧ c ≤ (if deg ≤ g.G then deg else g.G) then
        (if tilde ≠ 0 then _OMEGA g.P g.U N else OMEGA g.P g.U N)
          * xi g.U ((c : Int) - 1) N * (1 - g.P) ^ (c - 1)
      else if (if deg ≤ g.G then deg else g.G) < c ∧ c ≤ deg then
        g.P * (1 - aN g.U N ((c : Int) - 1)) * (1 - g.P) ^ (c - 1)
      else 0 := by
  unfold fill_A
  simp only
  rw [fill_loop (fun i q => (if tilde ≠ 0 then _OMEGA g.P g.U N else OMEGA g.P g.U N)
      * xi g.U ((i : Int) - 1) N * q),
    fill_loop (fun i q => g.P * (1 - aN g.U N ((i : Int) - 1)) * q)]
  simp only [one_mul]
  generalize (if deg ≤ g.G then deg else g.G) = d
  generalize (if tilde ≠ 0 then _OMEGA g.P g.U N else OMEGA g.P g.U N) = cst
  by_cases h1 : d + 1 ≤ c ∧ c < d + 1 + (deg - d)
  · have h2 : ¬ (1 ≤ c ∧ c ≤ d) := by omega
    have h3 : d < c ∧ c ≤ deg := by omega
    rw [if_pos h1, if_neg h2, if_pos h3, mul_assoc, ← pow_add]
    have h4 : d + (c - (d + 1)) = c - 1 := by omega
    rw [h4, mul_assoc]
  · rw [if_neg h1]
    by_cases h2 : 1 ≤ c ∧ c < 1 + d
    · have h3 : 1 ≤ c ∧ c ≤ d := by omega
      rw [if_pos h2, if_pos h3]
    · have h3 : ¬ (1 ≤ c ∧ c ≤ d) := by omega
      have h4 : ¬ (d < c ∧ c ≤ deg) := by omega
      rw [if_neg h2, if_neg h3, if_neg h4]
      rfl

theorem fill_B_coeff (g : Params) (deg N : Nat) (tilde : Int) (c : Nat) :
    (fill_B g deg N tilde zero_trunc_pol).coeff c =
      if 1 ≤ c ∧ c < 1 + deg then
        (if tilde ≠ 0 then _OMEGA g.P g.U N else OMEGA g.P g.U N)
          * (1 - aN g.U N ((c : Int) - 1)) / (1 - (1 - g.U / 3) ^ N) * (1 - g.P) ^ (c - 1)
      else 0 := by
  unfold fill_B
  exact fill_loop_coeff (fun i q => (if tilde ≠ 0 then _OMEGA g.P g.U N else OMEGA g.P g.U N)
      * (1 - aN g.U N ((i : Int) - 1)) / (1 - (1 - g.U / 3) ^ N) * q) _ _ _ _

theorem fill_C_coeff (g : Params) (deg N : Nat) (tilde : Int) (c : Nat) :
    (fill_C g deg N tilde zero_trunc_pol).coeff c =
      if 1 ≤ c ∧ c < 1 + deg then
        (if tilde ≠ 0 then _OMEGA g.P g.U N else OMEGA g.P g.U N)
          * (aN g.U N ((g.G : Int) - deg) - aN g.U N ((g.G : Int) - deg - 1)
              - bN g.U N ((g.G : Int) - deg) ((c : Int) + ((g.G : Int) - deg) - 1)
              + bN g.U N ((g.G : Int) - deg - 1) ((c : Int) + ((g.G : Int) - deg) - 1))
          / (aN g.U N ((g.G : Int) - deg) - aN g.U N ((g.G : Int) - deg - 1)
              - gN g.U N ((g.G : Int) - deg) + dN g.U N ((g.G : Int) - deg - 1))
          * (1 - g.P) ^ (c - 1)
      else 0 := by
  unfold fill_C
  exact fill_loop_coeff (fun i q => (if tilde ≠ 0 then _OMEGA g.P g.U N else OMEGA g.P g.U N)
      * (aN g.U N ((g.G : Int) - deg) - aN g.U N ((g.G : Int) - deg - 1)
          - bN g.U N ((g.G : Int) - deg) ((i : Int) + ((g.G : Int) - deg) - 1)
          + bN g.U N ((g.G : Int) - deg - 1) ((i : Int) + ((g.G : Int) - deg) - 1))
      / (aN g.U N ((g.G : Int) - deg) - aN g.U N ((g.G : Int) - deg - 1)
          - gN g.U N ((g.G : Int) - deg) + dN g.U N ((g.G : Int) - deg - 1)) * q) _ _ _ _

theorem fill_D_coeff (g : Params) (deg N : Nat) (tilde : Int) (c : Nat) :
    (fill_D g deg N tilde zero_trunc_pol).coeff c =
      if 1 ≤ c ∧ c < 1 + deg then
        (if tilde ≠ 0 then _OMEGA g.P g.U N else OMEGA g.P g.U N) * (1 - g.P) ^ (c - 1)
      else 0 := by
  unfold fill_D
  exact fill_loop_coeff (fun _ q =>
    (if tilde ≠ 0 then _OMEGA g.P g.U N else OMEGA g.P g.U N) * q) _ _ _ _

theorem fill_T_down_coeff (g : Params) (N : Nat) (c : Nat) :
    (fill_T_down g N zero_trunc_pol).coeff c =
      if 0 ≤ c ∧ c < 0 + (g.HIGH + 1) then
        (1 - aN g.U N (c : Int)) / (1 - (1 - g.U / 3) ^ N) * (1 - g.P) ^ (c - 0)
      else 0 := by
  unfold fill_T_down
  exact fill_loop_coeff (fun i q =>
    (1 - aN g.U N (i : Int)) / (1 - (1 - g.U / 3) ^ N) * q) _ _ _ _

theorem fill_T_double_down_coeff (g : Params) (N : Nat) (c : Nat) :
    (fill_T_double_down g N zero_trunc_pol).coeff c =
      if 0 ≤ c ∧ c < 0 + (g.G - 1 + 1) then xi g.U (c : Int) N * (1 - g.P) ^ (c - 0)
      else 0 := by
  unfold fill_T_double_down
  exact fill_loop_coeff (fun i q => xi g.U (i : Int) N * q) _ _ _ _

theorem fill_T_up_coeff (g : Params) (deg : Nat) (c : Nat) :
    (fill_T_up g deg zero_trunc_pol).coeff c =
      if 0 ≤ c ∧ c < 0 + (deg + 1) then (1 - g.P) ^ (c - 0) else 0 := by
  unfold fill_T_up
  exact fill_loop_coeff (fun _ q => q) _ _ _ _

theorem fill_T_sim_coeff (g : Params) (deg N : Nat) (c : Nat) :
    (fill_T_sim g deg N zero_trunc_pol).coeff c =
      if 0 ≤ c ∧ c < 0 + (deg + 1) then
        (aN g.U N ((g.G : Int) - 1 - deg) - aN g.U N ((g.G : Int) - 1 - deg - 1)
            - bN g.U N ((g.G : Int) - 1 - deg) ((c : Int) + ((g.G : Int) - 1 - deg))
            + bN g.U N ((g.G : Int) - 1 - deg - 1) ((c : Int) + ((g.G : Int) - 1 - deg)))
          / (aN g.U N ((g.G : Int) - 1 - deg) - aN g.U N ((g.G : Int) - 1 - deg - 1)
            - gN g.U N ((g.G : Int) - 1 - deg) + dN g.U N ((g.G : Int) - 1 - deg - 1))
          * (1 - g.P) ^ (c - 0)
      else 0 := by
  unfold fill_T_sim
  exact fill_loop_coeff (fun i q =>
      (aN g.U N ((g.G : Int) - 1 - deg) - aN g.U N ((g.G : Int) - 1 - deg - 1)
          - bN g.U N ((g.G : Int) - 1 - deg) ((i : Int) + ((g.G : Int) - 1 - deg))
          + bN g.U N ((g.G : Int) - 1 - deg - 1) ((i : Int) + ((g.G : Int) - 1 - deg)))
      / (aN g.U N ((g.G : Int) - 1 - deg) - aN g.U N ((g.G : Int) - 1 - deg - 1)
          - gN g.U N ((g.G : Int) - 1 - deg) + dN g.U N ((g.G : Int) - 1 - deg - 1)) * q)
    _ _ _ _

theorem fill_one_coeff (c : Nat) :
    (fill_one zero_trunc_pol).coeff c = if c = 0 then 1 else 0 := by
  unfold fill_one
  simp only [Function.update_apply]
  rfl

theorem fill_u_coeff (g : Params) (deg N : Nat) (c : Nat) :
    (fill_u g deg N zero_trunc_pol).coeff c =
      if c = deg then
        (xi g.U ((deg - 1 : Nat) : Int) N - xi g.U (deg : Int) N) * (1 - g.P) ^ deg
      else 0 := by
  unfold fill_u
  rw [set_monomial_coeff]
  rfl

theorem fill_v_coeff (g : Params) (deg N : Nat) (c : Nat) :
    (fill_v g deg N zero_trunc_pol).coeff c =
      if c = deg then
        (aN g.U N (deg : Int) - aN g.U N ((deg - 1 : Nat) : Int)
          - gN g.U N (deg : Int) + dN g.U N ((deg - 1 : Nat) : Int))
          / (1 - (1 - g.U / 3) ^ N) * (1 - g.P) ^ deg
      else 0 := by
  unfold fill_v
  simp only
  rw [set_monomial_coeff]
  rfl

theorem fill_w_coeff (g : Params) (deg N : Nat) (c : Nat) :
    (fill_w g deg N zero_trunc_pol).coeff c =
      if c = deg then
        (gN g.U N (deg : Int) - dN g.U N ((deg - 1 : Nat) : Int))
          / (1 - (1 - g.U / 3) ^ N) * (1 - g.P) ^ deg
      else 0 := by
  unfold fill_w
  simp only
  rw [set_monomial_coeff]
  rfl

theorem fill_y_coeff (g : Params) (j i : Int) (N : Nat) (c : Nat) :
    (fill_y g j i N zero_trunc_pol).coeff c =
      if c = i.toNat then
        (bN g.U N j (j + i) - bN g.U N j (j + i - 1) - bN g.U N (j - 1) (i + j)
          + bN g.U N (j - 1) (j + i - 1))
          / (aN g.U N j - aN g.U N (j - 1) - gN g.U N j + dN g.U N (j - 1)) * (1 - g.P) ^ i
      else 0 := by
  unfold fill_y
  simp only
  rw [set_monomial_coeff]
  rfl

end MemProb

namespace MemProb

/-! ## The scalar kernels -/

theorem OMEGA_add (P U : ℚ) (N : Nat) : OMEGA P U N + _OMEGA P U N = P := by
  unfold OMEGA _OMEGA
  ring

theorem third_lt_one {U : ℚ} (hU0 : 0 < U) (hU1 : U < 1) (N : Nat) (hN : 1 ≤ N) :
    (1 - U / 3) ^ N < 1 :=
  pow_lt_one₀ (by linarith) (by linarith) (by omega)

theorem denom_pos {U : ℚ} (hU0 : 0 < U) (hU1 : U < 1) (N : Nat) (hN : 1 ≤ N) :
    0 < 1 - (1 - U / 3) ^ N := by
  have := third_lt_one hU0 hU1 N hN
  linarith

theorem OMEGA_nonneg {P U : ℚ} (hP : 0 ≤ P) (hU0 : 0 < U) (hU1 : U < 1) (N : Nat) :
    0 ≤ OMEGA P U N := by
  unfold OMEGA
  exact mul_nonneg hP (pow_nonneg (by linarith) N)

theorem OMEGA_pos {P U : ℚ} (hP : 0 < P) (hU0 : 0 < U) (hU1 : U < 1) (N : Nat) :
    0 < OMEGA P U N := by
  unfold OMEGA
  exact mul_pos hP (pow_pos (by linarith) N)

theorem _OMEGA_nonneg {P U : ℚ} (hP : 0 ≤ P) (hU0 : 0 < U) (hU1 : U < 1) (N : Nat) :
    0 ≤ _OMEGA P U N := by
  unfold _OMEGA
  refine mul_nonneg hP ?_
  have : (1 - U / 3) ^ N ≤ 1 := pow_le_one₀ (by linarith) (by linarith)
  linarith

/-- The increment `(x + c)^N - x^N` grows with `x`. -/
theorem pow_increment_mono (N : Nat) {x y c : ℚ} (hy : 0 ≤ y) (hyx : y ≤ x) (hc : 0 ≤ c) :
    0 ≤ (y + c) ^ N - y ^ N ∧ (y + c) ^ N - y ^ N ≤ (x + c) ^ N - x ^ N := by
  induction N with
  | zero => simp
  | succ N ih =>
    obtain ⟨ih0, ih1⟩ := ih
    have hx : 0 ≤ x := le_trans hy hyx
    have e : ∀ z : ℚ, (z + c) ^ (N + 1) - z ^ (N + 1) = (z + c) * ((z + c) ^ N - z ^ N) + c * z ^ N :=
      fun z => by ring
    have hpow : y ^ N ≤ x ^ N := pow_le_pow_left₀ hy hyx N
    have hx0 : 0 ≤ (x + c) ^ N - x ^ N := le_trans ih0 ih1
    constructor
    · rw [e]
      exact add_nonneg (mul_nonneg (by linarith) ih0) (mul_nonneg hc (pow_nonneg hy N))
    · rw [e, e]
      have h1 : (y + c) * ((y + c) ^ N - y ^ N) ≤ (x + c) * ((x + c) ^ N - x ^ N) :=
        mul_le_mul (by linarith) ih1 ih0 (by linarith)
      have h2 : c * y ^ N ≤ c * x ^ N := mul_le_mul_of_nonneg_left hpow hc
      linarith

theorem pow_increment_strict (N : Nat) (hN : 2 ≤ N) {x y c : ℚ} (hy : 0 ≤ y) (hyx : y < x)
    (hc : 0 < c) : (y + c) ^ N - y ^ N < (x + c) ^ N - x ^ N := by
  obtain ⟨M, rfl⟩ : ∃ M, N = M + 1 := ⟨N - 1, by omega⟩
  obtain ⟨ih0, ih1⟩ := pow_increment_mono M hy (le_of_lt hyx) (le_of_lt hc)
  have e : ∀ z : ℚ, (z + c) ^ (M + 1) - z ^ (M + 1) = (z + c) * ((z + c) ^ M - z ^ M) + c * z ^ M :=
    fun z => by ring
  rw [e, e]
  have h1 : (y + c) * ((y + c) ^ M - y ^ M) ≤ (x + c) * ((x + c) ^ M - x ^ M) :=
    mul_le_mul (by linarith) ih1 ih0 (by linarith)
  have hpow : y ^ M < x ^ M := pow_lt_pow_left₀ hyx hy (by omega)
  have h2 : c * y ^ M < c * x ^ M := mul_lt_mul_of_pos_left hpow hc
  linarith

theorem zpow_unit_interval {U : ℚ} (hU0 : 0 < U) (hU1 : U < 1) (j : Nat) :
    0 < (1 - U) ^ (j : Int) ∧ (1 - U) ^ (j : Int) ≤ 1 := by
  rw [zpow_natCast]
  exact ⟨pow_pos (by linarith) j, pow_le_one₀ (by linarith) (by linarith)⟩

theorem zpow_succ_cast {U : ℚ} (hU1 : U < 1) (j : Nat) :
    (1 - U) ^ ((j : Int) + 1) = (1 - U) ^ (j : Int) * (1 - U) :=
  zpow_add_one₀ (by linarith) _

/-- The common denominator of the `C`, `y` and `T~` families, written for the
state `j + 1`: it is not negative, and positive as soon as `N ≥ 2`. -/
theorem den_nonneg {U : ℚ} (hU0 : 0 < U) (hU1 : U < 1) (N j : Nat) :
    0 ≤ aN U N ((j : Int) + 1) - aN U N ((j : Int) + 1 - 1) - gN U N ((j : Int) + 1)
      + dN U N ((j : Int) + 1 - 1) := by
  obtain ⟨ha0, ha1⟩ := zpow_unit_interval hU0 hU1 j
  unfold aN gN dN
  rw [add_sub_cancel_right, zpow_succ_cast hU1]
  generalize (1 - U) ^ (j : Int) = a at ha0 ha1
  have hq := mul_pos ha0 (mul_pos hU0 hU0)
  have h := (pow_increment_mono N (x := 1 - a * (1 - U)) (y := 1 - (1 - U + U * U / 3) * a)
    (c := a * (1 - U) * (1 - U / 3)) (by nlinarith) (by nlinarith)
    (by have := mul_pos ha0 (show (0 : ℚ) < 1 - U by linarith)
        exact le_of_lt (mul_pos this (by linarith)))).2
  have e1 : 1 - a * (1 - U) + a * (1 - U) * (1 - U / 3) = 1 - a * (1 - U) * U / 3 := by ring
  have e2 : 1 - (1 - U + U * U / 3) * a + a * (1 - U) * (1 - U / 3) = 1 - a * U / 3 := by ring
  rw [e1, e2] at h
  linarith

theorem den_pos {U : ℚ} (hU0 : 0 < U) (hU1 : U < 1) (N : Nat) (hN : 2 ≤ N) (j : Nat) :
    0 < aN U N ((j : Int) + 1) - aN U N ((j : Int) + 1 - 1) - gN U N ((j : Int) + 1)
      + dN U N ((j : Int) + 1 - 1) := by
  obtain ⟨ha0, ha1⟩ := zpow_unit_interval hU0 hU1 j
  unfold aN gN dN
  rw [add_sub_cancel_right, zpow_succ_cast hU1]
  generalize (1 - U) ^ (j : Int) = a at ha0 ha1
  have hq := mul_pos ha0 (mul_pos hU0 hU0)
  have h := pow_increment_strict N hN (x := 1 - a * (1 - U)) (y := 1 - (1 - U + U * U / 3) * a)
    (c := a * (1 - U) * (1 - U / 3)) (by nlinarith) (by nlinarith)
    (mul_pos (mul_pos ha0 (by linarith)) (by linarith))
  have e1 : 1 - a * (1 - U) + a * (1 - U) * (1 - U / 3) = 1 - a * (1 - U) * U / 3 := by ring
  have e2 : 1 - (1 - U + U * U / 3) * a + a * (1 - U) * (1 - U / 3) = 1 - a * U / 3 := by ring
  rw [e1, e2] at h
  linarith

/-- The numerator of `C` at degree 1 and of `T~` at degree 0 is the
denominator. -/
theorem numer_first {U : ℚ} (hU1 : U < 1) (N j : Nat) :
    aN U N ((j : Int) + 1) - aN U N ((j : Int) + 1 - 1)
        - bN U N ((j : Int) + 1) ((j : Int) + 1) + bN U N ((j : Int) + 1 - 1) ((j : Int) + 1) =
      aN U N ((j : Int) + 1) - aN U N ((j : Int) + 1 - 1) - gN U N ((j : Int) + 1)
        + dN U N ((j : Int) + 1 - 1) := by
  unfold aN gN dN bN
  rw [add_sub_cancel_right, zpow_succ_cast hU1]
  generalize (1 - U) ^ (j : Int) = a
  rw [show 1 - a * (1 - U) * U / 3 - a * (1 - U) * (1 - U / 3) = 1 - a * (1 - U) from by ring,
    show 1 - a * U / 3 - a * (1 - U) * (1 - U / 3) = 1 - (1 - U + U * U / 3) * a from by ring]

/-- The numerator of `y(j+1, i+1)` is not negative. -/
theorem numer_y_nonneg {U : ℚ} (hU0 : 0 < U) (hU1 : U < 1) (N j i : Nat) :
    0 ≤ bN U N ((j : Int) + 1) ((j : Int) + 1 + ((i : Int) + 1))
      - bN U N ((j : Int) + 1) ((j : Int) + 1 + ((i : Int) + 1) - 1)
      - bN U N ((j : Int) + 1 - 1) ((i : Int) + 1 + ((j : Int) + 1))
      + bN U N ((j : Int) + 1 - 1) ((j : Int) + 1 + ((i : Int) + 1) - 1) := by
  obtain ⟨ha0, ha1⟩ := zpow_unit_interval hU0 hU1 j
  obtain ⟨hb0, hb1⟩ := zpow_unit_interval hU0 hU1 (j + 1 + i)
  unfold bN
  have x1 : (j : Int) + 1 + ((i : Int) + 1) = ((j + 1 + i : Nat) : Int) + 1 := by push_cast; ring
  have x2 : (i : Int) + 1 + ((j : Int) + 1) = ((j + 1 + i : Nat) : Int) + 1 := by push_cast; ring
  rw [x1, x2, add_sub_cancel_right, add_sub_cancel_right, zpow_succ_cast hU1,
    zpow_succ_cast hU1]
  generalize (1 - U) ^ (j : Int) = a at ha0 ha1
  generalize (1 - U) ^ ((j + 1 + i : Nat) : Int) = b at hb0 hb1
  have hc : 0 ≤ b * U * (1 - U / 3) := by
    have := mul_pos hb0 hU0
    exact le_of_lt (mul_pos this (by linarith))
  have h := (pow_increment_mono N (x := 1 - a * (1 - U) * U / 3 - b * (1 - U / 3))
    (y := 1 - a * U / 3 - b * (1 - U / 3)) (c := b * U * (1 - U / 3))
    (by nlinarith [mul_nonneg (sub_nonneg.2 ha1) (le_of_lt hU0),
      mul_nonneg (sub_nonneg.2 hb1) (show (0 : ℚ) ≤ 1 - U / 3 by linarith)])
    (by nlinarith [mul_pos ha0 (mul_pos hU0 hU0)]) hc).2
  have e1 : 1 - a * (1 - U) * U / 3 - b * (1 - U / 3) + b * U * (1 - U / 3)
      = 1 - a * (1 - U) * U / 3 - b * (1 - U) * (1 - U / 3) := by ring
  have e2 : 1 - a * U / 3 - b * (1 - U / 3) + b * U * (1 - U / 3)
      = 1 - a * U / 3 - b * (1 - U) * (1 - U / 3) := by ring
  rw [e1, e2] at h
  linarith

theorem xi_zero (U : ℚ) (N : Nat) (hN : 1 ≤ N) : xi U ((0 : Nat) : Int) N = 1 := by
  unfold xi
  simp only [Nat.cast_zero, zpow_zero, sub_self]
  rw [zero_pow (by omega), sub_zero]

theorem aN_zero (U : ℚ) (N : Nat) : aN U N ((0 : Nat) : Int) = (1 - U / 3) ^ N := by
  unfold aN
  simp only [Nat.cast_zero, zpow_zero, one_mul]

/-- The coefficient of `u_(j+1)` is not negative. -/
theorem numer_u_nonneg {U : ℚ} (hU0 : 0 < U) (hU1 : U < 1) (N j : Nat) :
    0 ≤ xi U (j : Int) N - xi U ((j : Int) + 1) N := by
  obtain ⟨ha0, ha1⟩ := zpow_unit_interval hU0 hU1 j
  unfold xi
  rw [zpow_succ_cast hU1]
  generalize (1 - U) ^ (j : Int) = a at ha0 ha1
  have : (1 - a) ^ N ≤ (1 - a * (1 - U)) ^ N := pow_le_pow_left₀ (by linarith) (by nlinarith) N
  linarith

/-- The numerator of `w_(j+1)` is not negative. -/
theorem numer_w_nonneg {U : ℚ} (hU0 : 0 < U) (hU1 : U < 1) (N j : Nat) :
    0 ≤ gN U N ((j : Int) + 1) - dN U N ((j : Int) + 1 - 1) := by
  obtain ⟨ha0, ha1⟩ := zpow_unit_interval hU0 hU1 j
  unfold gN dN
  rw [add_sub_cancel_right, zpow_succ_cast hU1]
  generalize (1 - U) ^ (j : Int) = a at ha0 ha1
  have : (1 - (1 - U + U * U / 3) * a) ^ N ≤ (1 - a * (1 - U)) ^ N :=
    pow_le_pow_left₀ (by nlinarith [mul_pos ha0 hU0, mul_pos ha0 (mul_pos hU0 hU0)])
      (by nlinarith [mul_pos ha0 (mul_pos hU0 hU0)]) N
  linarith

end MemProb

namespace MemProb

/-! ## The rows of `M(N)` -/

theorem cells_matrix_M (g : Params) (N : Nat) (hG : 1 ≤ g.G) (r m : Nat)
    (hm : m < 2 * g.G + 2) : cells (matrix_M g N) r m = coefO (M_entry g N r m) := by
  funext c
  unfold cells
  rw [matrix_M_dim, matrix_M_entry g N hG r m hm]

/-- The columns of `M(N)` by family: head, the two states without offset,
the lower and the upper offset states, tail. -/
theorem sum_cols (G : Nat) (hG : 1 ≤ G) (F : Nat → ℚ) :
    ∑ m in Finset.range (2 * G + 2), F m =
      F 0 + F 1 + F 2 + ∑ j in Finset.range (G - 1), F (j + 3)
        + ∑ j in Finset.range (G - 1), F (j + G + 2) + F (2 * G + 1) := by
  obtain ⟨n, rfl⟩ : ∃ n, G = n + 1 := ⟨G - 1, by omega⟩
  rw [show 2 * (n + 1) + 2 = ((3 + n) + n) + 1 from by omega, Finset.sum_range_succ,
    Finset.sum_range_add, Finset.sum_range_add, Nat.add_sub_cancel,
    show 2 * (n + 1) + 1 = 3 + n + n from by omega]
  simp only [Finset.sum_range_succ, Finset.sum_range_zero, zero_add]
  congr 2
  · congr 1
    refine Finset.sum_congr rfl fun j _ => ?_
    rw [Nat.add_comm]
  · refine Finset.sum_congr rfl fun j _ => ?_
    rw [show 3 + n + j = j + (n + 1) + 2 from by omega]

theorem M_entry_row0 (g : Params) (N : Nat) (m : Nat) :
    M_entry g N 0 m = if m = 1 then some (fill_one zero_trunc_pol) else none := by
  unfold M_entry
  rw [if_pos rfl]

theorem M_entry_at1 (g : Params) (N : Nat) (m : Nat) :
    M_entry g N 1 m =
      if m = 1 then some (fill_A g g.G N NO zero_trunc_pol)
      else if m = 2 then some (fill_A g g.HIGH N YES zero_trunc_pol)
      else if g.G + 2 ≤ m ∧ m ≤ 2 * g.G then some (fill_u g (m - g.G - 1) N zero_trunc_pol)
      else if m = 2 * g.G + 1 then some (fill_T_double_down g N zero_trunc_pol)
      else none := by
  unfold M_entry
  rw [if_neg (show ¬ (1 = 0) from by omega), if_pos rfl]

theorem M_entry_row1 (g : Params) (N : Nat) (hG : 1 ≤ g.G) :
    M_entry g N 1 0 = none ∧
    M_entry g N 1 1 = some (fill_A g g.G N NO zero_trunc_pol) ∧
    M_entry g N 1 2 = some (fill_A g g.HIGH N YES zero_trunc_pol) ∧
    (∀ j, j < g.G - 1 → M_entry g N 1 (j + 3) = none) ∧
    (∀ j, j < g.G - 1 →
      M_entry g N 1 (j + g.G + 2) = some (fill_u g (j + 1) N zero_trunc_pol)) ∧
    M_entry g N 1 (2 * g.G + 1) = some (fill_T_double_down g N zero_trunc_pol) := by
  refine ⟨?_, ?_, ?_, fun j hj => ?_, fun j hj => ?_, ?_⟩ <;> rw [M_entry_at1]
  · rw [if_neg (by omega), if_neg (by omega), if_neg (by omega), if_neg (by omega)]
  · rw [if_pos rfl]
  · rw [if_neg (by omega), if_pos rfl]
  · rw [if_neg (by omega), if_neg (by omega), if_neg (by omega), if_neg (by omega)]
  · rw [if_neg (by omega), if_neg (by omega), if_pos (by omega),
      show j + g.G + 2 - g.G - 1 = j + 1 from by omega]
  · rw [if_neg (by omega), if_neg (by omega), if_neg (by omega), if_pos rfl]

theorem M_entry_at2 (g : Params) (N : Nat) (m : Nat) :
    M_entry g N 2 m =
      if m = 1 then some (fill_B g g.HIGH N NO zero_trunc_pol)
      else if m = 2 then some (fill_B g g.HIGH N YES zero_trunc_pol)
      else if 3 ≤ m ∧ m ≤ g.G + 1 then some (fill_v g (m - 2) N zero_trunc_pol)
      else if g.G + 2 ≤ m ∧ m ≤ 2 * g.G then some (fill_w g (m - g.G - 1) N zero_trunc_pol)
      else if m = 2 * g.G + 1 then some (fill_T_down g N zero_trunc_pol)
      else none := by
  unfold M_entry
  rw [if_neg (show ¬ (2 = 0) from by omega), if_neg (show ¬ (2 = 1) from by omega), if_pos rfl]

theorem M_entry_row2 (g : Params) (N : Nat) (hG : 1 ≤ g.G) :
    M_entry g N 2 0 = none ∧
    M_entry g N 2 1 = some (fill_B g g.HIGH N NO zero_trunc_pol) ∧
    M_entry g N 2 2 = some (fill_B g g.HIGH N YES zero_trunc_pol) ∧
    (∀ j, j < g.G - 1 → M_entry g N 2 (j + 3) = some (fill_v g (j + 1) N zero_trunc_pol)) ∧
    (∀ j, j < g.G - 1 →
      M_entry g N 2 (j + g.G + 2) = some (fill_w g (j + 1) N zero_trunc_pol)) ∧
    M_entry g N 2 (2 * g.G + 1) = some (fill_T_down g N zero_trunc_pol) := by
  refine ⟨?_, ?_, ?_, fun j hj => ?_, fun j hj => ?_, ?_⟩ <;> rw [M_entry_at2]
  · rw [if_neg (by omega), if_neg (by omega), if_neg (by omega), if_neg (by omega),
      if_neg (by omega)]
  · rw [if_pos rfl]
  · rw [if_neg (by omega), if_pos rfl]
  · rw [if_neg (by omega), if_neg (by omega), if_pos (by omega)]
    rfl
  · rw [if_neg (by omega), if_neg (by omega), if_neg (by omega), if_pos (by omega),
      show j + g.G + 2 - g.G - 1 = j + 1 from by omega]
  · rw [if_neg (by omega), if_neg (by omega), if_neg (by omega), if_neg (by omega),
      if_pos rfl]

theorem M_entry_atC (g : Params) (N : Nat) (j0 : Nat) (hj0 : j0 + 3 ≤ g.G + 1) (m : Nat) :
    M_entry g N (j0 + 3) m =
      if m = 1 then some (fill_C g (g.G - (j0 + 1)) N NO zero_trunc_pol)
      else if m = 2 then some (fill_C g (g.G - (j0 + 1)) N YES zero_trunc_pol)
      else if g.G + (j0 + 3) ≤ m ∧ m ≤ 2 * g.G then
        some (fill_y g ((j0 + 1 : Nat) : Int) ((m - g.G - (j0 + 1) - 1 : Nat) : Int) N
          zero_trunc_pol)
      else if m = 2 * g.G + 1 then some (fill_T_sim g (g.G - (j0 + 1) - 1) N zero_trunc_pol)
      else none := by
  unfold M_entry
  rw [if_neg (show ¬ (j0 + 3 = 0) from by omega), if_neg (show ¬ (j0 + 3 = 1) from by omega),
    if_neg (show ¬ (j0 + 3 = 2) from by omega), if_pos hj0]
  rfl

/-- Row `j0 + 3`, the lower offset state of offset `j0 + 1`. -/
theorem M_entry_rowC (g : Params) (N : Nat) (hG : 1 ≤ g.G) (j0 : Nat) (hj0 : j0 + 3 ≤ g.G + 1) :
    M_entry g N (j0 + 3) 0 = none ∧
    M_entry g N (j0 + 3) 1 = some (fill_C g (g.G - (j0 + 1)) N NO zero_trunc_pol) ∧
    M_entry g N (j0 + 3) 2 = some (fill_C g (g.G - (j0 + 1)) N YES zero_trunc_pol) ∧
    (∀ j, j < g.G - 1 → M_entry g N (j0 + 3) (j + 3) = none) ∧
    (∀ j, j < g.G - 1 → M_entry g N (j0 + 3) (j + g.G + 2) =
      if j0 + 1 ≤ j then
        some (fill_y g ((j0 + 1 : Nat) : Int) ((j - j0 : Nat) : Int) N zero_trunc_pol)
      else none) ∧
    M_entry g N (j0 + 3) (2 * g.G + 1) =
      some (fill_T_sim g (g.G - (j0 + 1) - 1) N zero_trunc_pol) := by
  refine ⟨?_, ?_, ?_, fun j hj => ?_, fun j hj => ?_, ?_⟩ <;> rw [M_entry_atC g N j0 hj0]
  · rw [if_neg (by omega), if_neg (by omega), if_neg (by omega), if_neg (by omega)]
  · rw [if_pos rfl]
  · rw [if_neg (by omega), if_pos rfl]
  · rw [if_neg (by omega), if_neg (by omega), if_neg (by omega), if_neg (by omega)]
  · rw [if_neg (by omega), if_neg (by omega)]
    by_cases h : j0 + 1 ≤ j
    · rw [if_pos (by omega), if_pos h,
        show j + g.G + 2 - g.G - (j0 + 1) - 1 = j - j0 from by omega]
    · rw [if_neg (by omega), if_neg (by omega), if_neg h]
  · rw [if_neg (by omega), if_neg (by omega), if_neg (by omega), if_pos rfl]

theorem M_entry_atD (g : Params) (N : Nat) (hG : 1 ≤ g.G) (j0 : Nat) (hj0 : j0 + 2 ≤ g.G)
    (m : Nat) :
    M_entry g N (j0 + g.G + 2) m =
      if m = 1 then some (fill_D g (g.G - (j0 + 1)) N NO zero_trunc_pol)
      else if m = 2 then some (fill_D g (g.G - (j0 + 1)) N YES zero_trunc_pol)
      else if m = 2 * g.G + 1 then some (fill_T_up g (g.G - (j0 + 1) - 1) zero_trunc_pol)
      else none := by
  unfold M_entry
  rw [if_neg (show ¬ (j0 + g.G + 2 = 0) from by omega),
    if_neg (show ¬ (j0 + g.G + 2 = 1) from by omega),
    if_neg (show ¬ (j0 + g.G + 2 = 2) from by omega),
    if_neg (show ¬ (j0 + g.G + 2 ≤ g.G + 1) from by omega),
    if_pos (show j0 + g.G + 2 ≤ 2 * g.G from by omega),
    show j0 + g.G + 2 - g.G - 1 = j0 + 1 from by omega]

/-- Row `j0 + G + 2`, the upper offset state of offset `j0 + 1`. -/
theorem M_entry_rowD (g : Params) (N : Nat) (hG : 1 ≤ g.G) (j0 : Nat) (hj0 : j0 + 2 ≤ g.G) :
    M_entry g N (j0 + g.G + 2) 0 = none ∧
    M_entry g N (j0 + g.G + 2) 1 = some (fill_D g (g.G - (j0 + 1)) N NO zero_trunc_pol) ∧
    M_entry g N (j0 + g.G + 2) 2 = some (fill_D g (g.G - (j0 + 1)) N YES zero_trunc_pol) ∧
    (∀ j, j < g.G - 1 → M_entry g N (j0 + g.G + 2) (j + 3) = none) ∧
    (∀ j, j < g.G - 1 → M_entry g N (j0 + g.G + 2) (j + g.G + 2) = none) ∧
    M_entry g N (j0 + g.G + 2) (2 * g.G + 1) =
      some (fill_T_up g (g.G - (j0 + 1) - 1) zero_trunc_pol) := by
  refine ⟨?_, ?_, ?_, fun j hj => ?_, fun j hj => ?_, ?_⟩ <;> rw [M_entry_atD g N hG j0 hj0]
  · rw [if_neg (by omega), if_neg (by omega), if_neg (by omega)]
  · rw [if_pos rfl]
  · rw [if_neg (by omega), if_pos rfl]
  · rw [if_neg (by omega), if_neg (by omega), if_neg (by omega)]
  · rw [if_neg (by omega), if_neg (by omega), if_neg (by omega)]
  · rw [if_neg (by omega), if_neg (by omega), if_pos rfl]

theorem M_entry_last (g : Params) (N : Nat) (hG : 1 ≤ g.G) (m : Nat) :
    M_entry g N (2 * g.G + 1) m = none := by
  unfold M_entry
  rw [if_neg (show ¬ (2 * g.G + 1 = 0) from by omega),
    if_neg (show ¬ (2 * g.G + 1 = 1) from by omega),
    if_neg (show ¬ (2 * g.G + 1 = 2) from by omega),
    if_neg (show ¬ (2 * g.G + 1 ≤ g.G + 1) from by omega),
    if_neg (show ¬ (2 * g.G + 1 ≤ 2 * g.G) from by omega)]

/-! ### A row as a sum over its entries -/

theorem row0_expand (g : Params) (N : Nat) (hG : 1 ≤ g.G) (Ψ : Nat → Option trunc_pol_t → ℚ)
    (hΨ : ∀ m, Ψ m none = 0) :
    ∑ m in Finset.range (2 * g.G + 2), Ψ m (M_entry g N 0 m) =
      Ψ 1 (some (fill_one zero_trunc_pol)) := by
  rw [Finset.sum_eq_single 1]
  · rw [M_entry_row0, if_pos rfl]
  · intro m _ hm
    rw [M_entry_row0, if_neg hm, hΨ]
  · intro h
    exact absurd (Finset.mem_range.mpr (by omega)) h

theorem row1_expand (g : Params) (N : Nat) (hG : 1 ≤ g.G) (Ψ : Nat → Option trunc_pol_t → ℚ)
    (hΨ : ∀ m, Ψ m none = 0) :
    ∑ m in Finset.range (2 * g.G + 2), Ψ m (M_entry g N 1 m) =
      Ψ 1 (some (fill_A g g.G N NO zero_trunc_pol))
        + Ψ 2 (some (fill_A g g.HIGH N YES zero_trunc_pol))
        + ∑ j in Finset.range (g.G - 1),
            Ψ (j + g.G + 2) (some (fill_u g (j + 1) N zero_trunc_pol))
        + Ψ (2 * g.G + 1) (some (fill_T_double_down g N zero_trunc_pol)) := by
  obtain ⟨h0, h1, h2, h3, h4, h5⟩ := M_entry_row1 g N hG
  rw [sum_cols g.G hG, h0, h1, h2, h5, hΨ,
    Finset.sum_eq_zero (fun j hj => by rw [h3 j (Finset.mem_range.mp hj), hΨ]),
    Finset.sum_congr rfl (fun j hj => by rw [h4 j (Finset.mem_range.mp hj)])]
  ring

theorem row2_expand (g : Params) (N : Nat) (hG : 1 ≤ g.G) (Ψ : Nat → Option trunc_pol_t → ℚ)
    (hΨ : ∀ m, Ψ m none = 0) :
    ∑ m in Finset.range (2 * g.G + 2), Ψ m (M_entry g N 2 m) =
      Ψ 1 (some (fill_B g g.HIGH N NO zero_trunc_pol))
        + Ψ 2 (some (fill_B g g.HIGH N YES zero_trunc_pol))
        + ∑ j in Finset.range (g.G - 1), Ψ (j + 3) (some (fill_v g (j + 1) N zero_trunc_pol))
        + ∑ j in Finset.range (g.G - 1),
            Ψ (j + g.G + 2) (some (fill_w g (j + 1) N zero_trunc_pol))
        + Ψ (2 * g.G + 1) (some (fill_T_down g N zero_trunc_pol)) := by
  obtain ⟨h0, h1, h2, h3, h4, h5⟩ := M_entry_row2 g N hG
  have e3 : ∑ j in Finset.range (g.G - 1), Ψ (j + 3) (M_entry g N 2 (j + 3)) =
      ∑ j in Finset.range (g.G - 1), Ψ (j + 3) (some (fill_v g (j + 1) N zero_trunc_pol)) :=
    Finset.sum_congr rfl (fun j hj => by rw [h3 j (Finset.mem_range.mp hj)])
  have e4 : ∑ j in Finset.range (g.G - 1), Ψ (j + g.G + 2) (M_entry g N 2 (j + g.G + 2)) =
      ∑ j in Finset.range (g.G - 1),
        Ψ (j + g.G + 2) (some (fill_w g (j + 1) N zero_trunc_pol)) :=
    Finset.sum_congr rfl (fun j hj => by rw [h4 j (Finset.mem_range.mp hj)])
  rw [sum_cols g.G hG, h0, h1, h2, h5, hΨ, e3, e4]
  ring

theorem rowC_expand (g : Params) (N : Nat) (hG : 1 ≤ g.G) (j0 : Nat) (hj0 : j0 + 3 ≤ g.G + 1)
    (Ψ : Nat → Option trunc_pol_t → ℚ) (hΨ : ∀ m, Ψ m none = 0) :
    ∑ m in Finset.range (2 * g.G + 2), Ψ m (M_entry g N (j0 + 3) m) =
      Ψ 1 (some (fill_C g (g.G - (j0 + 1)) N NO zero_trunc_pol))
        + Ψ 2 (some (fill_C g (g.G - (j0 + 1)) N YES zero_trunc_pol))
        + ∑ j in Finset.range (g.G - 1),
            (if j0 + 1 ≤ j then
              Ψ (j + g.G + 2)
                (some (fill_y g ((j0 + 1 : Nat) : Int) ((j - j0 : Nat) : Int) N zero_trunc_pol))
            else 0)
        + Ψ (2 * g.G + 1) (some (fill_T_sim g (g.G - (j0 + 1) - 1) N zero_trunc_pol)) := by
  obtain ⟨h0, h1, h2, h3, h4, h5⟩ := M_entry_rowC g N hG j0 hj0
  rw [sum_cols g.G hG, h0, h1, h2, h5, hΨ,
    Finset.sum_eq_zero (fun j hj => by rw [h3 j (Finset.mem_range.mp hj), hΨ]),
    Finset.sum_congr rfl (fun j hj => by
      rw [h4 j (Finset.mem_range.mp hj), apply_ite (Ψ (j + g.G + 2)), hΨ])]
  ring

theorem rowD_expand (g : Params) (N : Nat) (hG : 1 ≤ g.G) (j0 : Nat) (hj0 : j0 + 2 ≤ g.G)
    (Ψ : Nat → Option trunc_pol_t → ℚ) (hΨ : ∀ m, Ψ m none = 0) :
    ∑ m in Finset.range (2 * g.G + 2), Ψ m (M_entry g N (j0 + g.G + 2) m) =
      Ψ 1 (some (fill_D g (g.G - (j0 + 1)) N NO zero_trunc_pol))
        + Ψ 2 (some (fill_D g (g.G - (j0 + 1)) N YES zero_trunc_pol))
        + Ψ (2 * g.G + 1) (some (fill_T_up g (g.G - (j0 + 1) - 1) zero_trunc_pol)) := by
  obtain ⟨h0, h1, h2, h3, h4, h5⟩ := M_entry_rowD g N hG j0 hj0
  rw [sum_cols g.G hG, h0, h1, h2, h5, hΨ,
    Finset.sum_eq_zero (fun j hj => by rw [h3 j (Finset.mem_range.mp hj), hΨ]),
    Finset.sum_eq_zero (fun j hj => by rw [h4 j (Finset.mem_range.mp hj), hΨ])]
  ring

end MemProb

namespace MemProb

/-! ## Renewal: every row of `M(N)` sums to one -/

theorem coefO_none : coefO none = fun _ => 0 := funext fun _ => rfl

/-- A product with a polynomial without constant term, against a series
whose coefficients below `c` are all one. -/
theorem pol_mul_unit (K : Nat) (a b : Nat → ℚ) (c : Nat) (hc : c ≤ K) (ha0 : a 0 = 0)
    (hb : ∀ t, t < c → b t = 1) : pol_mul K a b c = ∑ t in Finset.range c, a (t + 1) := by
  unfold pol_mul
  rw [if_pos hc, Finset.sum_range_succ', ha0, zero_mul, add_zero]
  refine Finset.sum_congr rfl fun t ht => ?_
  have := Finset.mem_range.mp ht
  rw [hb (c - (t + 1)) (by omega), mul_one]

/-- A sum over a window `[a, a + c)` of the indices. -/
theorem window_sum (n a c : Nat) (h : a + c ≤ n) (X : Nat → ℚ) :
    ∑ j in Finset.range n, (if a ≤ j ∧ j < a + c then X (j - a) else 0) =
      ∑ t in Finset.range c, X t := by
  induction c with
  | zero =>
    rw [Finset.sum_range_zero]
    exact Finset.sum_eq_zero fun j _ => if_neg (by omega)
  | succ c ih =>
    rw [Finset.sum_range_succ, ← ih (by omega)]
    have e : ∀ j ∈ Finset.range n, (if a ≤ j ∧ j < a + (c + 1) then X (j - a) else 0) =
        (if a ≤ j ∧ j < a + c then X (j - a) else 0) + (if j = a + c then X c else 0) := by
      intro j _
      by_cases h1 : j = a + c
      · subst h1
        rw [if_pos (by omega), if_neg (by omega), if_pos rfl, zero_add, Nat.add_sub_cancel_left]
      · by_cases h2 : a ≤ j ∧ j < a + c
        · rw [if_pos (by omega), if_pos h2, if_neg h1, add_zero]
        · rw [if_neg (by omega), if_neg h2, if_neg h1, add_zero]
    rw [Finset.sum_congr rfl e, Finset.sum_add_distrib,
      Finset.sum_ite_eq' (Finset.range n) (a + c) (fun _ => X c),
      if_pos (Finset.mem_range.mpr (by omega))]

/-- The telescoping sum behind every row: with `f 0 = 1`, the tail
`f c * r^c`, the returns `(1-r) * f t * r^t` and the moves
`(f t - f (t+1)) * r^(t+1)` add up to one. -/
theorem renewal_sum (f : Nat → ℚ) (r : ℚ) (hf : f 0 = 1) (c : Nat) :
    f c * r ^ c + ∑ t in Finset.range c,
      ((1 - r) * f t * r ^ t + (f t - f (t + 1)) * r ^ (t + 1)) = 1 := by
  induction c with
  | zero => rw [Finset.sum_range_zero, hf, pow_zero, mul_one, add_zero]
  | succ c ih =>
    rw [Finset.sum_range_succ]
    linear_combination ih

/-! ### Coefficients of the entries, by tail -/

theorem tail_A_zero (g : Params) (N : Nat) (hN : 1 ≤ N) : tail_A g N 0 = 1 :=
  xi_zero g.U N hN

theorem tail_B_zero (g : Params) (N : Nat) (hU0 : 0 < g.U) (hU1 : g.U < 1) (hN : 1 ≤ N) :
    tail_B g N 0 = 1 := by
  unfold tail_B
  rw [aN_zero]
  exact div_self (ne_of_gt (denom_pos hU0 hU1 N hN))

theorem tail_C_zero (g : Params) (N : Nat) (hU0 : 0 < g.U) (hU1 : g.U < 1) (hN : 2 ≤ N)
    (j : Nat) : tail_C g N j 0 = 1 := by
  unfold tail_C
  rw [show ((0 : Nat) : Int) + ((j : Int) + 1) = (j : Int) + 1 from by push_cast; ring,
    numer_first hU1]
  exact div_self (ne_of_gt (den_pos hU0 hU1 N hN j))

theorem coef_A_zero (g : Params) (deg N : Nat) (tilde : Int) :
    (fill_A g deg N tilde zero_trunc_pol).coeff 0 = 0 := by
  rw [fill_A_coeff, if_neg (by omega), if_neg (by omega)]

theorem coef_A_succ (g : Params) (deg N : Nat) (tilde : Int) (hd : g.G ≤ deg) (t : Nat)
    (ht : t + 1 ≤ g.G) :
    (fill_A g deg N tilde zero_trunc_pol).coeff (t + 1) =
      (if tilde ≠ 0 then _OMEGA g.P g.U N else OMEGA g.P g.U N) * tail_A g N t
        * (1 - g.P) ^ t := by
  have h : (if deg ≤ g.G then deg else g.G) = g.G := by
    split_ifs <;> omega
  rw [fill_A_coeff, h, if_pos ⟨by omega, ht⟩, Nat.add_sub_cancel,
    show ((t + 1 : Nat) : Int) - 1 = (t : Int) from by push_cast; ring]
  rfl

theorem coef_B_zero (g : Params) (deg N : Nat) (tilde : Int) :
    (fill_B g deg N tilde zero_trunc_pol).coeff 0 = 0 := by
  rw [fill_B_coeff, if_neg (by omega)]

theorem coef_B_succ (g : Params) (deg N : Nat) (tilde : Int) (t : Nat) (ht : t + 1 ≤ deg) :
    (fill_B g deg N tilde zero_trunc_pol).coeff (t + 1) =
      (if tilde ≠ 0 then _OMEGA g.P g.U N else OMEGA g.P g.U N) * tail_B g N t
        * (1 - g.P) ^ t := by
  rw [fill_B_coeff, if_pos ⟨by omega, by omega⟩, Nat.add_sub_cancel,
    show ((t + 1 : Nat) : Int) - 1 = (t : Int) from by push_cast; ring]
  unfold tail_B
  ring

theorem coef_C_zero (g : Params) (deg N : Nat) (tilde : Int) :
    (fill_C g deg N tilde zero_trunc_pol).coeff 0 = 0 := by
  rw [fill_C_coeff, if_neg (by omega)]

theorem coef_C_succ (g : Params) (N : Nat) (tilde : Int) (j t : Nat)
    (ht : t + j + 2 ≤ g.G) :
    (fill_C g (g.G - (j + 1)) N tilde zero_trunc_pol).coeff (t + 1) =
      (if tilde ≠ 0 then _OMEGA g.P g.U N else OMEGA g.P g.U N) * tail_C g N j t
        * (1 - g.P) ^ t := by
  rw [fill_C_coeff, if_pos ⟨by omega, by omega⟩, Nat.add_sub_cancel,
    show (g.G : Int) - ((g.G - (j + 1) : Nat) : Int) = (j : Int) + 1 from by omega,
    show ((t + 1 : Nat) : Int) + ((j : Int) + 1) - 1 = (t : Int) + ((j : Int) + 1) from by
      push_cast; ring]
  unfold tail_C
  ring

theorem coef_D_zero (g : Params) (deg N : Nat) (tilde : Int) :
    (fill_D g deg N tilde zero_trunc_pol).coeff 0 = 0 := by
  rw [fill_D_coeff, if_neg (by omega)]

theorem coef_D_succ (g : Params) (deg N : Nat) (tilde : Int) (t : Nat) (ht : t + 1 ≤ deg) :
    (fill_D g deg N tilde zero_trunc_pol).coeff (t + 1) =
      (if tilde ≠ 0 then _OMEGA g.P g.U N else OMEGA g.P g.U N) * (1 - g.P) ^ t := by
  rw [fill_D_coeff, if_pos ⟨by omega, by omega⟩, Nat.add_sub_cancel]

theorem coef_T_double_down (g : Params) (N : Nat) (c : Nat) (hc : c < g.G) :
    (fill_T_double_down g N zero_trunc_pol).coeff c = tail_A g N c * (1 - g.P) ^ c := by
  rw [fill_T_double_down_coeff, if_pos ⟨by omega, by omega⟩]
  rfl

theorem coef_T_down (g : Params) (N : Nat) (c : Nat) (hc : c ≤ g.HIGH) :
    (fill_T_down g N zero_trunc_pol).coeff c = tail_B g N c * (1 - g.P) ^ c := by
  rw [fill_T_down_coeff, if_pos ⟨by omega, by omega⟩]
  rfl

theorem coef_T_sim (g : Params) (N : Nat) (j c : Nat) (hc : c + j + 2 ≤ g.G) :
    (fill_T_sim g (g.G - (j + 1) - 1) N zero_trunc_pol).coeff c =
      tail_C g N j c * (1 - g.P) ^ c := by
  rw [fill_T_sim_coeff, if_pos ⟨by omega, by omega⟩,
    show (g.G : Int) - 1 - ((g.G - (j + 1) - 1 : Nat) : Int) = (j : Int) + 1 from by omega]
  rfl

theorem coef_T_up (g : Params) (deg : Nat) (c : Nat) (hc : c ≤ deg) :
    (fill_T_up g deg zero_trunc_pol).coeff c = (1 - g.P) ^ c := by
  rw [fill_T_up_coeff, if_pos ⟨by omega, by omega⟩]
  rfl

theorem coef_u (g : Params) (N : Nat) (j t : Nat) :
    (fill_u g (j + 1) N zero_trunc_pol).coeff t =
      if t = j + 1 then (tail_A g N j - tail_A g N (j + 1)) * (1 - g.P) ^ (j + 1) else 0 := by
  rw [fill_u_coeff]
  rfl

/-- The moves `v` and `w` of row 2 to the two states of offset `j + 1`
together carry `tail_B j - tail_B (j+1)`. -/
theorem coef_v_add_w (g : Params) (N : Nat) (j : Nat) :
    (aN g.U N ((j + 1 : Nat) : Int) - aN g.U N ((j + 1 - 1 : Nat) : Int)
          - gN g.U N ((j + 1 : Nat) : Int) + dN g.U N ((j + 1 - 1 : Nat) : Int))
          / (1 - (1 - g.U / 3) ^ N) * (1 - g.P) ^ (j + 1)
      + (gN g.U N ((j + 1 : Nat) : Int) - dN g.U N ((j + 1 - 1 : Nat) : Int))
          / (1 - (1 - g.U / 3) ^ N) * (1 - g.P) ^ (j + 1) =
      (tail_B g N j - tail_B g N (j + 1)) * (1 - g.P) ^ (j + 1) := by
  unfold tail_B
  rw [Nat.add_sub_cancel]
  ring

theorem coef_y (g : Params) (N : Nat) (j i t : Nat) :
    (fill_y g ((j + 1 : Nat) : Int) ((i + 1 : Nat) : Int) N zero_trunc_pol).coeff t =
      if t = i + 1 then (tail_C g N j i - tail_C g N j (i + 1)) * (1 - g.P) ^ (i + 1)
      else 0 := by
  rw [fill_y_coeff, Int.toNat_ofNat, zpow_natCast]
  unfold tail_C
  rw [show ((j + 1 : Nat) : Int) = (j : Int) + 1 from by push_cast; ring,
    show (j : Int) + 1 + ((i + 1 : Nat) : Int) = ((i + 1 : Nat) : Int) + ((j : Int) + 1) from by
      ring,
    show ((i + 1 : Nat) : Int) + ((j : Int) + 1) - 1 = (i : Int) + ((j : Int) + 1) from by
      push_cast; ring]
  split_ifs
  · ring
  · rfl

end MemProb

namespace MemProb

/-! ### One step of the sum of powers -/

theorem path_sum_succ (K dim : Nat) (A : Nat → Nat → Nat → ℚ) (n : Nat) (i j c : Nat) :
    path_sum K dim A (n + 1) i j c =
      A i j c + ∑ m in Finset.range dim, pol_mul K (A i m) (path_sum K dim A n m j) c := by
  unfold path_sum
  rw [Finset.sum_range_succ', add_comm]
  congr 1
  have e : ∀ p ∈ Finset.range n, mat_pow K dim A (p + 1 + 1) i j c =
      ∑ m in Finset.range dim, pol_mul K (A i m) (mat_pow K dim A (p + 1) m j) c := by
    intro p _
    rw [mat_pow_succ_left K dim A (p + 1) (by omega)]
    rfl
  rw [Finset.sum_congr rfl e, Finset.sum_comm]
  refine Finset.sum_congr rfl fun m _ => ?_
  exact (pol_mul_sum_right K (Finset.range n) (A i m)
    (fun p => mat_pow K dim A (p + 1) m j) c).symm

theorem path_sum_null_row (K dim : Nat) (A : Nat → Nat → Nat → ℚ) (i : Nat)
    (hA : ∀ m, m < dim → ∀ c, A i m c = 0) (n : Nat) (j : Nat) (hj : j < dim) (c : Nat) :
    path_sum K dim A n i j c = 0 := by
  unfold path_sum
  exact Finset.sum_eq_zero fun p _ => mat_pow_null_row K dim A i hA (p + 1) (by omega) j hj c

theorem cst_NO (a b : ℚ) : (if NO ≠ 0 then a else b) = b := if_neg (by decide)

theorem cst_YES (a b : ℚ) : (if YES ≠ 0 then a else b) = a := if_pos (by decide)

/-- The shape shared by the rows: a tail, two returns to the states without
offset, and moves to offset states. -/
theorem generic_row (K : Nat) (f : Nat → ℚ) (r o o' : ℚ) (hf : f 0 = 1) (c : Nat)
    (hc : c ≤ K) (T a1 a2 b1 b2 : Nat → ℚ) (S : ℚ)
    (hT : T c = f c * r ^ c)
    (ha1 : a1 0 = 0) (ha1s : ∀ t, t < c → a1 (t + 1) = o * f t * r ^ t)
    (ha2 : a2 0 = 0) (ha2s : ∀ t, t < c → a2 (t + 1) = o' * f t * r ^ t)
    (hb1 : ∀ t, t < c → b1 t = 1) (hb2 : ∀ t, t < c → b2 t = 1)
    (hS : S = ∑ t in Finset.range c, (f t - f (t + 1)) * r ^ (t + 1))
    (ho : o + o' = 1 - r) :
    T c + (pol_mul K a1 b1 c + pol_mul K a2 b2 c + S) = 1 := by
  rw [pol_mul_unit K a1 b1 c hc ha1 hb1, pol_mul_unit K a2 b2 c hc ha2 hb2, hS, hT,
    ← Finset.sum_add_distrib, ← Finset.sum_add_distrib]
  refine Eq.trans ?_ (renewal_sum f r hf c)
  refine congrArg (fun z => f c * r ^ c + z) (Finset.sum_congr rfl fun t ht => ?_)
  have := Finset.mem_range.mp ht
  rw [ha1s t this, ha2s t this]
  linear_combination (f t * r ^ t) * ho

/-- The moves of a row: single terms of degree `j - a + 1` towards the
state `st j`, for `j ≥ a`. -/
theorem moves_sum (K n a c : Nat) (h : a + c ≤ n) (hc : c ≤ K) (q : Nat → Nat → ℚ)
    (B : Nat → Nat → ℚ) (st : Nat → Nat) (X : Nat → ℚ)
    (hq : ∀ j t, a ≤ j → q j t = if t = j - a + 1 then X (j - a) else 0)
    (hB : ∀ i, i < c → B (st (a + i)) (c - (i + 1)) = 1) :
    ∑ j in Finset.range n, (if a ≤ j then pol_mul K (q j) (B (st j)) c else 0) =
      ∑ t in Finset.range c, X t := by
  rw [← window_sum n a c h X]
  refine Finset.sum_congr rfl fun j _ => ?_
  by_cases h1 : a ≤ j
  · rw [if_pos h1, pol_mul_monomial K (q j) (B (st j)) (j - a + 1) (X (j - a)) c hc
      (fun t _ => hq j t h1)]
    by_cases h2 : j < a + c
    · have := hB (j - a) (by omega)
      rw [show a + (j - a) = j from by omega] at this
      rw [if_pos (by omega), if_pos ⟨h1, h2⟩, this, mul_one]
    · rw [if_neg (by omega), if_neg (by omega)]
  · rw [if_neg h1, if_neg (by omega)]

theorem moves_sum_zero (K n c : Nat) (h : c ≤ n) (hc : c ≤ K) (q : Nat → Nat → ℚ)
    (B : Nat → Nat → ℚ) (st : Nat → Nat) (X : Nat → ℚ)
    (hq : ∀ j t, q j t = if t = j + 1 then X j else 0)
    (hB : ∀ i, i < c → B (st i) (c - (i + 1)) = 1) :
    ∑ j in Finset.range n, pol_mul K (q j) (B (st j)) c = ∑ t in Finset.range c, X t := by
  rw [← moves_sum K n 0 c (by omega) hc q B st X (fun j t _ => hq j t)
    (fun i hi => by rw [Nat.zero_add]; exact hB i hi)]
  exact Finset.sum_congr rfl fun j _ => (if_pos (Nat.zero_le j)).symm

/-! ### The four kinds of rows -/

theorem row1_step (g : Params) (N : Nat) (hG : 1 ≤ g.G) (hK : g.G ≤ g.K) (hH : g.G ≤ g.HIGH)
    (hN : 1 ≤ N) (B : Nat → Nat → ℚ) (c : Nat) (hc : c < g.G)
    (hL : ∀ t, B (2 * g.G + 1) t = 0)
    (h1 : ∀ t, t < c → B 1 t = 1) (h2 : ∀ t, t < c → B 2 t = 1)
    (hu : ∀ i, i < c → B (i + g.G + 2) (c - (i + 1)) = 1) :
    coefO (M_entry g N 1 (2 * g.G + 1)) c
      + ∑ m in Finset.range (2 * g.G + 2), pol_mul g.K (coefO (M_entry g N 1 m)) (B m) c
      = 1 := by
  have e := row1_expand g N hG (fun m p => pol_mul g.K (coefO p) (B m) c)
    (fun m => by
      show pol_mul g.K (coefO none) (B m) c = 0
      rw [coefO_none, pol_mul_zero_left])
  simp only at e
  rw [e, (M_entry_row1 g N hG).2.2.2.2.2, show B (2 * g.G + 1) = fun _ => 0 from funext hL,
    pol_mul_zero_right, add_zero]
  refine generic_row g.K (tail_A g N) (1 - g.P) (OMEGA g.P g.U N) (_OMEGA g.P g.U N)
    (tail_A_zero g N hN) c (by omega) _ _ _ _ _ _ (coef_T_double_down g N c hc)
    (coef_A_zero _ _ _ _) (fun t ht => ?_) (coef_A_zero _ _ _ _) (fun t ht => ?_) h1 h2 ?_
    (by rw [OMEGA_add]; ring)
  · exact (coef_A_succ g g.G N NO (le_refl _) t (by omega)).trans (by rw [cst_NO])
  · exact (coef_A_succ g g.HIGH N YES hH t (by omega)).trans (by rw [cst_YES])
  · exact moves_sum_zero g.K (g.G - 1) c (by omega) (by omega)
      (fun j => coefO (some (fill_u g (j + 1) N zero_trunc_pol))) B (fun j => j + g.G + 2)
      (fun t => (tail_A g N t - tail_A g N (t + 1)) * (1 - g.P) ^ (t + 1))
      (fun j t => coef_u g N j t) hu

theorem row2_step (g : Params) (N : Nat) (hG : 1 ≤ g.G) (hK : g.G ≤ g.K) (hH : g.G ≤ g.HIGH)
    (hU0 : 0 < g.U) (hU1 : g.U < 1) (hN : 1 ≤ N) (B : Nat → Nat → ℚ) (c : Nat) (hc : c < g.G)
    (hL : ∀ t, B (2 * g.G + 1) t = 0)
    (h1 : ∀ t, t < c → B 1 t = 1) (h2 : ∀ t, t < c → B 2 t = 1)
    (hv : ∀ i, i < c → B (i + 3) (c - (i + 1)) = 1)
    (hw : ∀ i, i < c → B (i + g.G + 2) (c - (i + 1)) = 1) :
    coefO (M_entry g N 2 (2 * g.G + 1)) c
      + ∑ m in Finset.range (2 * g.G + 2), pol_mul g.K (coefO (M_entry g N 2 m)) (B m) c
      = 1 := by
  have e := row2_expand g N hG (fun m p => pol_mul g.K (coefO p) (B m) c)
    (fun m => by
      show pol_mul g.K (coefO none) (B m) c = 0
      rw [coefO_none, pol_mul_zero_left])
  simp only at e
  rw [e, (M_entry_row2 g N hG).2.2.2.2.2, show B (2 * g.G + 1) = fun _ => 0 from funext hL,
    pol_mul_zero_right, add_zero, add_assoc (_ + _)]
  refine generic_row g.K (tail_B g N) (1 - g.P) (OMEGA g.P g.U N) (_OMEGA g.P g.U N)
    (tail_B_zero g N hU0 hU1 hN) c (by omega) _ _ _ _ _ _ (coef_T_down g N c (by omega))
    (coef_B_zero _ _ _ _) (fun t ht => ?_) (coef_B_zero _ _ _ _) (fun t ht => ?_) h1 h2 ?_
    (by rw [OMEGA_add]; ring)
  · exact (coef_B_succ g g.HIGH N NO t (by omega)).trans (by rw [cst_NO])
  · exact (coef_B_succ g g.HIGH N YES t (by omega)).trans (by rw [cst_YES])
  · rw [moves_sum_zero g.K (g.G - 1) c (by omega) (by omega)
        (fun j => coefO (some (fill_v g (j + 1) N zero_trunc_pol))) B (fun j => j + 3)
        _ (fun j t => fill_v_coeff g (j + 1) N t) hv,
      moves_sum_zero g.K (g.G - 1) c (by omega) (by omega)
        (fun j => coefO (some (fill_w g (j + 1) N zero_trunc_pol))) B (fun j => j + g.G + 2)
        _ (fun j t => fill_w_coeff g (j + 1) N t) hw,
      ← Finset.sum_add_distrib]
    exact Finset.sum_congr rfl fun t _ => coef_v_add_w g N t

theorem rowC_step (g : Params) (N : Nat) (hG : 1 ≤ g.G) (hK : g.G ≤ g.K)
    (hU0 : 0 < g.U) (hU1 : g.U < 1) (hN : 2 ≤ N) (j0 : Nat) (B : Nat → Nat → ℚ) (c : Nat)
    (hc : c + j0 + 2 ≤ g.G)
    (hL : ∀ t, B (2 * g.G + 1) t = 0)
    (h1 : ∀ t, t < c → B 1 t = 1) (h2 : ∀ t, t < c → B 2 t = 1)
    (hy : ∀ i, i < c → B (j0 + 1 + i + g.G + 2) (c - (i + 1)) = 1) :
    coefO (M_entry g N (j0 + 3) (2 * g.G + 1)) c
      + ∑ m in Finset.range (2 * g.G + 2),
          pol_mul g.K (coefO (M_entry g N (j0 + 3) m)) (B m) c
      = 1 := by
  have e := rowC_expand g N hG j0 (by omega) (fun m p => pol_mul g.K (coefO p) (B m) c)
    (fun m => by
      show pol_mul g.K (coefO none) (B m) c = 0
      rw [coefO_none, pol_mul_zero_left])
  simp only at e
  rw [e, (M_entry_rowC g N hG j0 (by omega)).2.2.2.2.2,
    show B (2 * g.G + 1) = fun _ => 0 from funext hL, pol_mul_zero_right, add_zero]
  refine generic_row g.K (tail_C g N j0) (1 - g.P) (OMEGA g.P g.U N) (_OMEGA g.P g.U N)
    (tail_C_zero g N hU0 hU1 hN j0) c (by omega) _ _ _ _ _ _ (coef_T_sim g N j0 c (by omega))
    (coef_C_zero _ _ _ _) (fun t ht => ?_) (coef_C_zero _ _ _ _) (fun t ht => ?_) h1 h2 ?_
    (by rw [OMEGA_add]; ring)
  · exact (coef_C_succ g N NO j0 t (by omega)).trans (by rw [cst_NO])
  · exact (coef_C_succ g N YES j0 t (by omega)).trans (by rw [cst_YES])
  · refine moves_sum g.K (g.G - 1) (j0 + 1) c (by omega) (by omega)
      (fun j => coefO (some (fill_y g ((j0 + 1 : Nat) : Int) ((j - j0 : Nat) : Int) N
        zero_trunc_pol))) B (fun j => j + g.G + 2)
      (fun t => (tail_C g N j0 t - tail_C g N j0 (t + 1)) * (1 - g.P) ^ (t + 1))
      (fun j t hj => ?_) hy
    show (fill_y g ((j0 + 1 : Nat) : Int) ((j - j0 : Nat) : Int) N zero_trunc_pol).coeff t = _
    rw [show j - j0 = (j - (j0 + 1)) + 1 from by omega]
    exact coef_y g N j0 (j - (j0 + 1)) t

theorem rowD_step (g : Params) (N : Nat) (hG : 1 ≤ g.G) (hK : g.G ≤ g.K) (j0 : Nat)
    (B : Nat → Nat → ℚ) (c : Nat) (hc : c + j0 + 2 ≤ g.G)
    (hL : ∀ t, B (2 * g.G + 1) t = 0)
    (h1 : ∀ t, t < c → B 1 t = 1) (h2 : ∀ t, t < c → B 2 t = 1) :
    coefO (M_entry g N (j0 + g.G + 2) (2 * g.G + 1)) c
      + ∑ m in Finset.range (2 * g.G + 2),
          pol_mul g.K (coefO (M_entry g N (j0 + g.G + 2) m)) (B m) c
      = 1 := by
  have e := rowD_expand g N hG j0 (by omega) (fun m p => pol_mul g.K (coefO p) (B m) c)
    (fun m => by
      show pol_mul g.K (coefO none) (B m) c = 0
      rw [coefO_none, pol_mul_zero_left])
  simp only at e
  rw [e, (M_entry_rowD g N hG j0 (by omega)).2.2.2.2.2,
    show B (2 * g.G + 1) = fun _ => 0 from funext hL, pol_mul_zero_right,
    ← add_zero (pol_mul g.K _ (B 1) c + pol_mul g.K _ (B 2) c), add_assoc (_ + _), add_zero]
  refine generic_row g.K (fun _ => 1) (1 - g.P) (OMEGA g.P g.U N) (_OMEGA g.P g.U N)
    rfl c (by omega) _ _ _ _ _ _
    ((coef_T_up g _ c (by omega)).trans (one_mul _).symm)
    (coef_D_zero _ _ _ _) (fun t ht => ?_) (coef_D_zero _ _ _ _) (fun t ht => ?_) h1 h2 ?_
    (by rw [OMEGA_add]; ring)
  · exact (coef_D_succ g _ N NO t (by omega)).trans (by rw [cst_NO, mul_one])
  · exact (coef_D_succ g _ N YES t (by omega)).trans (by rw [cst_YES, mul_one])
  · simp only [sub_self, zero_mul, Finset.sum_const_zero]

/-! ### The sum of the powers below the seed length -/

/-- From every state and at every degree the search cannot have ended
before, the first `n` powers carry total weight one once `n` exceeds the
degree. -/
theorem path_sum_one (g : Params) (N : Nat) (hG : 1 ≤ g.G) (hK : g.G ≤ g.K)
    (hH : g.G ≤ g.HIGH) (hU0 : 0 < g.U) (hU1 : g.U < 1) (hN1 : 1 ≤ N)
    (hN : 2 ≤ N ∨ g.G = 1) (n : Nat) :
    (∀ c, c < n → c < g.G →
      path_sum g.K (2 * g.G + 2) (cells (matrix_M g N)) n 1 (2 * g.G + 1) c = 1) ∧
    (∀ c, c < n → c < g.G →
      path_sum g.K (2 * g.G + 2) (cells (matrix_M g N)) n 2 (2 * g.G + 1) c = 1) ∧
    (∀ j0 c, c < n → c + j0 + 2 ≤ g.G →
      path_sum g.K (2 * g.G + 2) (cells (matrix_M g N)) n (j0 + 3) (2 * g.G + 1) c = 1) ∧
    (∀ j0 c, c < n → c + j0 + 2 ≤ g.G →
      path_sum g.K (2 * g.G + 2) (cells (matrix_M g N)) n (j0 + g.G + 2) (2 * g.G + 1) c
        = 1) := by
  have hstep : ∀ n r c, path_sum g.K (2 * g.G + 2) (cells (matrix_M g N)) (n + 1) r
      (2 * g.G + 1) c = coefO (M_entry g N r (2 * g.G + 1)) c
        + ∑ m in Finset.range (2 * g.G + 2), pol_mul g.K (coefO (M_entry g N r m))
            (path_sum g.K (2 * g.G + 2) (cells (matrix_M g N)) n m (2 * g.G + 1)) c := by
    intro n r c
    rw [path_sum_succ, cells_matrix_M g N hG r _ (by omega)]
    congr 1
    refine Finset.sum_congr rfl fun m hm => ?_
    rw [cells_matrix_M g N hG r m (Finset.mem_range.mp hm)]
  have hL : ∀ n t, path_sum g.K (2 * g.G + 2) (cells (matrix_M g N)) n (2 * g.G + 1)
      (2 * g.G + 1) t = 0 := by
    intro n t
    refine path_sum_null_row _ _ _ _ (fun m hm c => ?_) n _ (by omega) t
    rw [cells_matrix_M g N hG _ m hm, M_entry_last g N hG]
    rfl
  induction n with
  | zero =>
    exact ⟨fun c h => absurd h (by omega), fun c h => absurd h (by omega),
      fun j0 c h => absurd h (by omega), fun j0 c h => absurd h (by omega)⟩
  | succ n ih =>
    obtain ⟨i1, i2, i3, i4⟩ := ih
    refine ⟨fun c hc hcG => ?_, fun c hc hcG => ?_, fun j0 c hc hcG => ?_,
      fun j0 c hc hcG => ?_⟩
    · rw [hstep]
      exact row1_step g N hG hK hH hN1 _ c hcG (hL n)
        (fun t ht => i1 t (by omega) (by omega)) (fun t ht => i2 t (by omega) (by omega))
        (fun i hi => i4 i (c - (i + 1)) (by omega) (by omega))
    · rw [hstep]
      exact row2_step g N hG hK hH hU0 hU1 hN1 _ c hcG (hL n)
        (fun t ht => i1 t (by omega) (by omega)) (fun t ht => i2 t (by omega) (by omega))
        (fun i hi => i3 i (c - (i + 1)) (by omega) (by omega))
        (fun i hi => i4 i (c - (i + 1)) (by omega) (by omega))
    · rw [hstep]
      exact rowC_step g N hG hK hU0 hU1 (hN.resolve_right (by omega)) j0 _ c hcG (hL n)
        (fun t ht => i1 t (by omega) (by omega)) (fun t ht => i2 t (by omega) (by omega))
        (fun i hi => i4 (j0 + 1 + i) (c - (i + 1)) (by omega) (by omega))
    · rw [hstep]
      exact rowD_step g N hG hK j0 _ c hcG (hL n)
        (fun t ht => i1 t (by omega) (by omega)) (fun t ht => i2 t (by omega) (by omega))

/-- Row 0 only leads to state 1: the powers from `2` to `n + 1` read in row
0 are the first `n` powers read in row 1. -/
theorem head_row (g : Params) (N : Nat) (hG : 1 ≤ g.G) (n : Nat) (j c : Nat) (hc : c ≤ g.K) :
    ∑ p in Finset.Icc 2 (n + 1), mat_pow g.K (2 * g.G + 2) (cells (matrix_M g N)) p 0 j c =
      path_sum g.K (2 * g.G + 2) (cells (matrix_M g N)) n 1 j c := by
  unfold path_sum
  rw [show Finset.Icc 2 (n + 1) = Finset.Ico 2 (n + 2) from by
      ext x; simp only [Finset.mem_Icc, Finset.mem_Ico]; omega,
    Finset.sum_Ico_eq_sum_range, Nat.add_sub_cancel]
  refine Finset.sum_congr rfl fun p _ => ?_
  rw [show 2 + p = (p + 1) + 1 from by omega, mat_pow_succ_left _ _ _ (p + 1) (by omega)]
  unfold mat_mul
  have e : ∀ m ∈ Finset.range (2 * g.G + 2),
      pol_mul g.K (cells (matrix_M g N) 0 m)
          (mat_pow g.K (2 * g.G + 2) (cells (matrix_M g N)) (p + 1) m j) c =
        (fun m q => pol_mul g.K (coefO q)
          (mat_pow g.K (2 * g.G + 2) (cells (matrix_M g N)) (p + 1) m j) c) m
          (M_entry g N 0 m) := by
    intro m hm
    rw [cells_matrix_M g N hG 0 m (Finset.mem_range.mp hm)]
  refine (Finset.sum_congr rfl e).trans ?_
  refine (row0_expand g N hG (fun m q => pol_mul g.K (coefO q)
    (mat_pow g.K (2 * g.G + 2) (cells (matrix_M g N)) (p + 1) m j) c) (fun m => by
      show pol_mul g.K (coefO none) _ c = 0
      rw [coefO_none, pol_mul_zero_left])).trans ?_
  show pol_mul g.K (fill_one zero_trunc_pol).coeff _ c = _
  rw [pol_mul_monomial g.K _ _ 0 1 c hc (fun t _ => fill_one_coeff t), if_pos (Nat.zero_le _),
    one_mul, Nat.sub_zero]

end MemProb

namespace MemProb

/-! ## The first power left out -/

/-- In the power `q + 1` the paths from an inner state to the last column
have degree at least `q`, their part of degree exactly `q` is not negative,
and from state 1 it is at least the weight of the path that returns to
state 1 `q` times. Inner states are `1..L-1`; row `L` and column 0 are
empty; inner entries have no constant term. -/
theorem lowest_degree (K L dim : Nat) (hdim : dim = L + 1) (h1L : 1 < L)
    (A : Nat → Nat → Nat → ℚ)
    (hcol0 : ∀ m, 1 ≤ m → m < L → ∀ t, A m 0 t = 0)
    (hL : ∀ m, m < dim → ∀ t, A L m t = 0)
    (hZ : ∀ m m', 1 ≤ m → m < L → 1 ≤ m' → m' < L → A m m' 0 = 0)
    (hNN : ∀ m m', 1 ≤ m → m < L → 1 ≤ m' → m' < L → 0 ≤ A m m' 1)
    (hT : ∀ m, 1 ≤ m → m < L → 0 ≤ A m L 0) (q : Nat) :
    (∀ m, 1 ≤ m → m < L → ∀ c, c < q → mat_pow K dim A (q + 1) m L c = 0) ∧
    (∀ m, 1 ≤ m → m < L → 0 ≤ mat_pow K dim A (q + 1) m L q) ∧
    (q ≤ K → (A 1 1 1) ^ q * A 1 L 0 ≤ mat_pow K dim A (q + 1) 1 L q) := by
  induction q with
  | zero =>
    refine ⟨fun m _ _ c hc => absurd hc (by omega), fun m h1 h2 => hT m h1 h2, fun _ => ?_⟩
    rw [pow_zero, one_mul]
    exact le_refl _
  | succ q ih =>
    obtain ⟨ih1, ih2, ih3⟩ := ih
    have hstep : ∀ m c, mat_pow K dim A (q + 1 + 1) m L c =
        ∑ m' in Finset.range dim, pol_mul K (A m m') (mat_pow K dim A (q + 1) m' L) c := by
      intro m c
      rw [mat_pow_succ_left K dim A (q + 1) (by omega)]
      rfl
    have hend : ∀ m m', 1 ≤ m → m < L → (m' = 0 ∨ m' = L) → ∀ c,
        pol_mul K (A m m') (mat_pow K dim A (q + 1) m' L) c = 0 := by
      intro m m' h1 h2 hm' c
      rcases hm' with rfl | rfl
      · rw [show A m 0 = fun _ => 0 from funext (hcol0 m h1 h2), pol_mul_zero_left]
      · rw [show mat_pow K dim A (q + 1) m' m' = fun _ => 0 from
          funext (mat_pow_null_row K dim A m' hL (q + 1) (by omega) m' (by omega)),
          pol_mul_zero_right]
    have hlow : ∀ m m', 1 ≤ m → m < L → 1 ≤ m' → m' < L → ∀ c, c ≤ q →
        pol_mul K (A m m') (mat_pow K dim A (q + 1) m' L) c = 0 := by
      intro m m' h1 h2 h3 h4 c hc
      unfold pol_mul
      split_ifs
      · refine Finset.sum_eq_zero fun t ht => ?_
        have := Finset.mem_range.mp ht
        by_cases h0 : t = 0
        · rw [h0, hZ m m' h1 h2 h3 h4, zero_mul]
        · rw [ih1 m' h3 h4 (c - t) (by omega), mul_zero]
      · rfl
    have htop : ∀ m m', 1 ≤ m → m < L → 1 ≤ m' → m' < L → q + 1 ≤ K →
        pol_mul K (A m m') (mat_pow K dim A (q + 1) m' L) (q + 1) =
          A m m' 1 * mat_pow K dim A (q + 1) m' L q := by
      intro m m' h1 h2 h3 h4 hK
      unfold pol_mul
      rw [if_pos hK, Finset.sum_eq_single 1]
      · rw [Nat.add_sub_cancel]
      · intro t ht ht1
        have := Finset.mem_range.mp ht
        by_cases h0 : t = 0
        · rw [h0, hZ m m' h1 h2 h3 h4, zero_mul]
        · rw [ih1 m' h3 h4 (q + 1 - t) (by omega), mul_zero]
      · intro h
        exact absurd (Finset.mem_range.mpr (by omega)) h
    have hnn : ∀ m m', 1 ≤ m → m < L → m' < dim →
        0 ≤ pol_mul K (A m m') (mat_pow K dim A (q + 1) m' L) (q + 1) := by
      intro m m' h1 h2 hm'
      by_cases he : m' = 0 ∨ m' = L
      · rw [hend m m' h1 h2 he]
      · by_cases hK : q + 1 ≤ K
        · rw [htop m m' h1 h2 (by omega) (by omega) hK]
          exact mul_nonneg (hNN m m' h1 h2 (by omega) (by omega)) (ih2 m' (by omega) (by omega))
        · rw [pol_mul_above K _ _ _ hK]
    refine ⟨fun m h1 h2 c hc => ?_, fun m h1 h2 => ?_, fun hK => ?_⟩
    · rw [hstep]
      refine Finset.sum_eq_zero fun m' hm' => ?_
      have := Finset.mem_range.mp hm'
      by_cases he : m' = 0 ∨ m' = L
      · exact hend m m' h1 h2 he c
      · exact hlow m m' h1 h2 (by omega) (by omega) c (by omega)
    · rw [hstep]
      exact Finset.sum_nonneg fun m' hm' => hnn m m' h1 h2 (Finset.mem_range.mp hm')
    · rw [hstep]
      have h11 : 0 ≤ A 1 1 1 := hNN 1 1 (le_refl _) h1L (le_refl _) h1L
      refine le_trans ?_ (Finset.single_le_sum
        (fun m' hm' => hnn 1 m' (le_refl _) h1L (Finset.mem_range.mp hm'))
        (Finset.mem_range.mpr (show 1 < dim by omega)))
      rw [htop 1 1 (le_refl _) h1L (le_refl _) h1L hK, pow_succ, mul_comm _ (A 1 1 1), mul_assoc]
      exact mul_le_mul_of_nonneg_left (ih3 (by omega)) h11

/-! ### The entries of `M(N)` between inner states -/

theorem cst_nonneg (g : Params) (N : Nat) (tilde : Int) (hP0 : 0 ≤ g.P) (hU0 : 0 < g.U)
    (hU1 : g.U < 1) : 0 ≤ (if tilde ≠ 0 then _OMEGA g.P g.U N else OMEGA g.P g.U N) := by
  split_ifs
  · exact _OMEGA_nonneg hP0 hU0 hU1 N
  · exact OMEGA_nonneg hP0 hU0 hU1 N

theorem step_A (g : Params) (deg N : Nat) (tilde : Int) (hG : 1 ≤ g.G) (hd : g.G ≤ deg)
    (hP0 : 0 ≤ g.P) (hU0 : 0 < g.U) (hU1 : g.U < 1) (hN : 1 ≤ N) :
    (fill_A g deg N tilde zero_trunc_pol).coeff 0 = 0 ∧
      0 ≤ (fill_A g deg N tilde zero_trunc_pol).coeff 1 := by
  have h : (fill_A g deg N tilde zero_trunc_pol).coeff 1 = _ :=
    coef_A_succ g deg N tilde hd 0 (by omega)
  rw [h, tail_A_zero g N hN, mul_one, pow_zero, mul_one]
  exact ⟨coef_A_zero _ _ _ _, cst_nonneg g N tilde hP0 hU0 hU1⟩

theorem step_B (g : Params) (deg N : Nat) (tilde : Int) (hd : 1 ≤ deg)
    (hP0 : 0 ≤ g.P) (hU0 : 0 < g.U) (hU1 : g.U < 1) (hN : 1 ≤ N) :
    (fill_B g deg N tilde zero_trunc_pol).coeff 0 = 0 ∧
      0 ≤ (fill_B g deg N tilde zero_trunc_pol).coeff 1 := by
  have h : (fill_B g deg N tilde zero_trunc_pol).coeff 1 = _ :=
    coef_B_succ g deg N tilde 0 (by omega)
  rw [h, tail_B_zero g N hU0 hU1 hN, mul_one, pow_zero, mul_one]
  exact ⟨coef_B_zero _ _ _ _, cst_nonneg g N tilde hP0 hU0 hU1⟩

theorem step_C (g : Params) (N : Nat) (tilde : Int) (j : Nat) (hj : j + 2 ≤ g.G)
    (hP0 : 0 ≤ g.P) (hU0 : 0 < g.U) (hU1 : g.U < 1) (hN : 2 ≤ N) :
    (fill_C g (g.G - (j + 1)) N tilde zero_trunc_pol).coeff 0 = 0 ∧
      0 ≤ (fill_C g (g.G - (j + 1)) N tilde zero_trunc_pol).coeff 1 := by
  have h : (fill_C g (g.G - (j + 1)) N tilde zero_trunc_pol).coeff 1 = _ :=
    coef_C_succ g N tilde j 0 (by omega)
  rw [h, tail_C_zero g N hU0 hU1 hN, mul_one, pow_zero, mul_one]
  exact ⟨coef_C_zero _ _ _ _, cst_nonneg g N tilde hP0 hU0 hU1⟩

theorem step_D (g : Params) (deg N : Nat) (tilde : Int) (hd : 1 ≤ deg)
    (hP0 : 0 ≤ g.P) (hU0 : 0 < g.U) (hU1 : g.U < 1) :
    (fill_D g deg N tilde zero_trunc_pol).coeff 0 = 0 ∧
      0 ≤ (fill_D g deg N tilde zero_trunc_pol).coeff 1 := by
  have h : (fill_D g deg N tilde zero_trunc_pol).coeff 1 = _ :=
    coef_D_succ g deg N tilde 0 (by omega)
  rw [h, pow_zero, mul_one]
  exact ⟨coef_D_zero _ _ _ _, cst_nonneg g N tilde hP0 hU0 hU1⟩

theorem step_u (g : Params) (N : Nat) (j : Nat) (hP1 : g.P ≤ 1) (hU0 : 0 < g.U)
    (hU1 : g.U < 1) :
    (fill_u g (j + 1) N zero_trunc_pol).coeff 0 = 0 ∧
      0 ≤ (fill_u g (j + 1) N zero_trunc_pol).coeff 1 := by
  rw [coef_u, coef_u, if_neg (by omega)]
  refine ⟨rfl, ?_⟩
  split_ifs
  · refine mul_nonneg ?_ (pow_nonneg (by linarith) _)
    unfold tail_A
    rw [show ((j + 1 : Nat) : Int) = (j : Int) + 1 from by push_cast; ring]
    exact numer_u_nonneg hU0 hU1 N j
  · exact le_refl _

theorem step_v (g : Params) (N : Nat) (j : Nat) (hP1 : g.P ≤ 1) (hU0 : 0 < g.U)
    (hU1 : g.U < 1) (hN : 1 ≤ N) :
    (fill_v g (j + 1) N zero_trunc_pol).coeff 0 = 0 ∧
      0 ≤ (fill_v g (j + 1) N zero_trunc_pol).coeff 1 := by
  rw [fill_v_coeff, fill_v_coeff, if_neg (by omega)]
  refine ⟨rfl, ?_⟩
  split_ifs
  · refine mul_nonneg (div_nonneg ?_ (le_of_lt (denom_pos hU0 hU1 N hN)))
      (pow_nonneg (by linarith) _)
    rw [show ((j + 1 : Nat) : Int) = (j : Int) + 1 from by push_cast; ring,
      show ((j + 1 - 1 : Nat) : Int) = (j : Int) + 1 - 1 from by omega]
    exact den_nonneg hU0 hU1 N j
  · exact le_refl _

theorem step_w (g : Params) (N : Nat) (j : Nat) (hP1 : g.P ≤ 1) (hU0 : 0 < g.U)
    (hU1 : g.U < 1) (hN : 1 ≤ N) :
    (fill_w g (j + 1) N zero_trunc_pol).coeff 0 = 0 ∧
      0 ≤ (fill_w g (j + 1) N zero_trunc_pol).coeff 1 := by
  rw [fill_w_coeff, fill_w_coeff, if_neg (by omega)]
  refine ⟨rfl, ?_⟩
  split_ifs
  · refine mul_nonneg (div_nonneg ?_ (le_of_lt (denom_pos hU0 hU1 N hN)))
      (pow_nonneg (by linarith) _)
    rw [show ((j + 1 : Nat) : Int) = (j : Int) + 1 from by push_cast; ring,
      show ((j + 1 - 1 : Nat) : Int) = (j : Int) + 1 - 1 from by omega]
    exact numer_w_nonneg hU0 hU1 N j
  · exact le_refl _

theorem tail_C_antitone (g : Params) (N : Nat) (j i : Nat) (hU0 : 0 < g.U) (hU1 : g.U < 1)
    (hN : 2 ≤ N) : 0 ≤ tail_C g N j i - tail_C g N j (i + 1) := by
  unfold tail_C
  rw [← sub_div]
  refine div_nonneg ?_ (le_of_lt (den_pos hU0 hU1 N hN j))
  have h := numer_y_nonneg hU0 hU1 N j i
  rw [show (j : Int) + 1 + ((i : Int) + 1) = ((i + 1 : Nat) : Int) + ((j : Int) + 1) from by
      push_cast; ring,
    show ((i + 1 : Nat) : Int) + ((j : Int) + 1) - 1 = (i : Int) + ((j : Int) + 1) from by
      push_cast; ring,
    show (i : Int) + 1 + ((j : Int) + 1) = ((i + 1 : Nat) : Int) + ((j : Int) + 1) from by
      push_cast; ring] at h
  linarith

theorem step_y (g : Params) (N : Nat) (j i : Nat) (hP1 : g.P ≤ 1) (hU0 : 0 < g.U)
    (hU1 : g.U < 1) (hN : 2 ≤ N) :
    (fill_y g ((j + 1 : Nat) : Int) ((i + 1 : Nat) : Int) N zero_trunc_pol).coeff 0 = 0 ∧
      0 ≤ (fill_y g ((j + 1 : Nat) : Int) ((i + 1 : Nat) : Int) N zero_trunc_pol).coeff 1 := by
  rw [coef_y, coef_y, if_neg (by omega)]
  refine ⟨rfl, ?_⟩
  split_ifs
  · exact mul_nonneg (tail_C_antitone g N j i hU0 hU1 hN) (pow_nonneg (by linarith) _)
  · exact le_refl _

theorem inner_cases (G r : Nat) (h1 : 1 ≤ r) (h2 : r ≤ 2 * G) :
    r = 1 ∨ r = 2 ∨ (∃ j, r = j + 3 ∧ j + 2 ≤ G) ∨ (∃ j, r = j + G + 2 ∧ j + 2 ≤ G) := by
  by_cases a : r = 1
  · exact Or.inl a
  by_cases b : r = 2
  · exact Or.inr (Or.inl b)
  by_cases c : r ≤ G + 1
  · exact Or.inr (Or.inr (Or.inl ⟨r - 3, by omega, by omega⟩))
  · exact Or.inr (Or.inr (Or.inr ⟨r - G - 2, by omega, by omega⟩))

/-- An entry of `M(N)` between inner states has no constant term and a
coefficient of degree 1 that is not negative. -/
theorem inner_entry (g : Params) (N : Nat) (hG : 1 ≤ g.G) (hH : g.G ≤ g.HIGH)
    (hP0 : 0 ≤ g.P) (hP1 : g.P ≤ 1) (hU0 : 0 < g.U) (hU1 : g.U < 1) (hN1 : 1 ≤ N)
    (hN : 2 ≤ N ∨ g.G = 1) (r m : Nat) (hr1 : 1 ≤ r) (hr2 : r ≤ 2 * g.G) (hm1 : 1 ≤ m)
    (hm2 : m ≤ 2 * g.G) :
    coefO (M_entry g N r m) 0 = 0 ∧ 0 ≤ coefO (M_entry g N r m) 1 := by
  have hnone : coefO none 0 = 0 ∧ (0 : ℚ) ≤ coefO none 1 := ⟨rfl, le_refl _⟩
  rcases inner_cases g.G m hm1 hm2 with rfl | rfl | ⟨j, rfl, hj⟩ | ⟨j, rfl, hj⟩ <;>
    rcases inner_cases g.G r hr1 hr2 with rfl | rfl | ⟨j0, rfl, hj0⟩ | ⟨j0, rfl, hj0⟩
  · rw [(M_entry_row1 g N hG).2.1]
    exact step_A g _ N _ hG (le_refl _) hP0 hU0 hU1 hN1
  · rw [(M_entry_row2 g N hG).2.1]
    exact step_B g _ N _ (by omega) hP0 hU0 hU1 hN1
  · rw [(M_entry_rowC g N hG j0 (by omega)).2.1]
    exact step_C g N _ j0 hj0 hP0 hU0 hU1 (hN.resolve_right (by omega))
  · rw [(M_entry_rowD g N hG j0 hj0).2.1]
    exact step_D g _ N _ (by omega) hP0 hU0 hU1
  · rw [(M_entry_row1 g N hG).2.2.1]
    exact step_A g _ N _ hG hH hP0 hU0 hU1 hN1
  · rw [(M_entry_row2 g N hG).2.2.1]
    exact step_B g _ N _ (by omega) hP0 hU0 hU1 hN1
  · rw [(M_entry_rowC g N hG j0 (by omega)).2.2.1]
    exact step_C g N _ j0 hj0 hP0 hU0 hU1 (hN.resolve_right (by omega))
  · rw [(M_entry_rowD g N hG j0 hj0).2.2.1]
    exact step_D g _ N _ (by omega) hP0 hU0 hU1
  · rw [(M_entry_row1 g N hG).2.2.2.1 j (by omega)]
    exact hnone
  · rw [(M_entry_row2 g N hG).2.2.2.1 j (by omega)]
    exact step_v g N j hP1 hU0 hU1 hN1
  · rw [(M_entry_rowC g N hG j0 (by omega)).2.2.2.1 j (by omega)]
    exact hnone
  · rw [(M_entry_rowD g N hG j0 hj0).2.2.2.1 j (by omega)]
    exact hnone
  · rw [(M_entry_row1 g N hG).2.2.2.2.1 j (by omega)]
    exact step_u g N j hP1 hU0 hU1
  · rw [(M_entry_row2 g N hG).2.2.2.2.1 j (by omega)]
    exact step_w g N j hP1 hU0 hU1 hN1
  · rw [(M_entry_rowC g N hG j0 (by omega)).2.2.2.2.1 j (by omega)]
    by_cases h : j0 + 1 ≤ j
    · rw [if_pos h, show j - j0 = (j - j0 - 1) + 1 from by omega]
      exact step_y g N j0 (j - j0 - 1) hP1 hU0 hU1 (hN.resolve_right (by omega))
    · rw [if_neg h]
      exact hnone
  · rw [(M_entry_rowD g N hG j0 hj0).2.2.2.2.1 j (by omega)]
    exact hnone

/-- No inner state leads back to the head. -/
theorem inner_col0 (g : Params) (N : Nat) (hG : 1 ≤ g.G) (r : Nat) (hr1 : 1 ≤ r)
    (hr2 : r ≤ 2 * g.G) : M_entry g N r 0 = none := by
  rcases inner_cases g.G r hr1 hr2 with rfl | rfl | ⟨j0, rfl, hj0⟩ | ⟨j0, rfl, hj0⟩
  · exact (M_entry_row1 g N hG).1
  · exact (M_entry_row2 g N hG).1
  · exact (M_entry_rowC g N hG j0 (by omega)).1
  · exact (M_entry_rowD g N hG j0 hj0).1

/-- Every inner state ends the search at once with weight one. -/
theorem inner_tail (g : Params) (N : Nat) (hG : 1 ≤ g.G) (hU0 : 0 < g.U) (hU1 : g.U < 1)
    (hN1 : 1 ≤ N) (hN : 2 ≤ N ∨ g.G = 1) (r : Nat) (hr1 : 1 ≤ r) (hr2 : r ≤ 2 * g.G) :
    coefO (M_entry g N r (2 * g.G + 1)) 0 = 1 := by
  rcases inner_cases g.G r hr1 hr2 with rfl | rfl | ⟨j0, rfl, hj0⟩ | ⟨j0, rfl, hj0⟩
  · rw [(M_entry_row1 g N hG).2.2.2.2.2]
    exact (coef_T_double_down g N 0 (by omega)).trans
      (by rw [tail_A_zero g N hN1, pow_zero, mul_one])
  · rw [(M_entry_row2 g N hG).2.2.2.2.2]
    exact (coef_T_down g N 0 (by omega)).trans
      (by rw [tail_B_zero g N hU0 hU1 hN1, pow_zero, mul_one])
  · rw [(M_entry_rowC g N hG j0 (by omega)).2.2.2.2.2]
    exact (coef_T_sim g N j0 0 (by omega)).trans
      (by rw [tail_C_zero g N hU0 hU1 (hN.resolve_right (by omega)), pow_zero, mul_one])
  · rw [(M_entry_rowD g N hG j0 hj0).2.2.2.2.2]
    exact (coef_T_up g _ 0 (by omega)).trans (pow_zero _)

/-- The power `q + 1` gives degree `q` at least the weight of the path that
returns to state 1 `q` times. -/
theorem first_left_out (g : Params) (N : Nat) (hG : 1 ≤ g.G) (hH : g.G ≤ g.HIGH)
    (hP0 : 0 ≤ g.P) (hP1 : g.P ≤ 1) (hU0 : 0 < g.U) (hU1 : g.U < 1) (hN1 : 1 ≤ N)
    (hN : 2 ≤ N ∨ g.G = 1) (q : Nat) (hq : q ≤ g.K) :
    (OMEGA g.P g.U N) ^ q ≤
      mat_pow g.K (2 * g.G + 2) (cells (matrix_M g N)) (q + 1) 1 (2 * g.G + 1) q := by
  have hc : ∀ r m, m < 2 * g.G + 2 → cells (matrix_M g N) r m = coefO (M_entry g N r m) :=
    fun r m hm => cells_matrix_M g N hG r m hm
  have h := (lowest_degree g.K (2 * g.G + 1) (2 * g.G + 2) rfl (by omega)
    (cells (matrix_M g N))
    (fun m h1 h2 t => by
      rw [hc m 0 (by omega), inner_col0 g N hG m h1 (by omega)]
      rfl)
    (fun m hm t => by
      rw [hc _ m hm, M_entry_last g N hG]
      rfl)
    (fun m m' h1 h2 h3 h4 => by
      rw [hc m m' (by omega)]
      exact (inner_entry g N hG hH hP0 hP1 hU0 hU1 hN1 hN m m' h1 (by omega) h3 (by omega)).1)
    (fun m m' h1 h2 h3 h4 => by
      rw [hc m m' (by omega)]
      exact (inner_entry g N hG hH hP0 hP1 hU0 hU1 hN1 hN m m' h1 (by omega) h3 (by omega)).2)
    (fun m h1 h2 => by
      rw [hc m _ (by omega), inner_tail g N hG hU0 hU1 hN1 hN m h1 (by omega)]
      exact zero_le_one)
    q).2.2 hq
  rw [hc 1 1 (by omega), hc 1 _ (by omega), inner_tail g N hG hU0 hU1 hN1 hN 1 (le_refl _)
    (by omega), mul_one, (M_entry_row1 g N hG).2.1] at h
  have e : (fill_A g g.G N NO zero_trunc_pol).coeff 1 = OMEGA g.P g.U N := by
    have h' : (fill_A g g.G N NO zero_trunc_pol).coeff 1 = _ :=
      coef_A_succ g g.G N NO (le_refl _) 0 (by omega)
    rw [h', tail_A_zero g N hN1, cst_NO, mul_one, pow_zero, mul_one]
  rw [show coefO (some (fill_A g g.G N NO zero_trunc_pol)) 1 =
    (fill_A g g.G N NO zero_trunc_pol).coeff 1 from rfl, e] at h
  exact h

/-- The powers `2..n+1` leave out part of the coefficient of degree `n`:
when `n < G` the sum stored falls short of one by at least
`OMEGA^n`. -/
theorem power_sum_short (g : Params) (N : Nat) (hG : 1 ≤ g.G) (hK : g.G ≤ g.K)
    (hH : g.G ≤ g.HIGH) (hP0 : 0 ≤ g.P) (hP1 : g.P ≤ 1) (hU0 : 0 < g.U) (hU1 : g.U < 1)
    (hN1 : 1 ≤ N) (hN : 2 ≤ N ∨ g.G = 1) (n : Nat) (hn : n < g.G) :
    ∑ p in Finset.Icc 2 (n + 1),
        mat_pow g.K (2 * g.G + 2) (cells (matrix_M g N)) p 0 (2 * g.G + 1) n
      ≤ 1 - (OMEGA g.P g.U N) ^ n := by
  rw [head_row g N hG n _ n (by omega)]
  have h1 := (path_sum_one g N hG hK hH hU0 hU1 hN1 hN (n + 1)).1 n (by omega) hn
  have h2 := first_left_out g N hG hH hP0 hP1 hU0 hU1 hN1 hN n (by omega)
  unfold path_sum at h1 ⊢
  rw [Finset.sum_range_succ] at h1
  linarith

/-- Below the seed length and below the number of powers, the sum stored is
one. -/
theorem power_sum_one (g : Params) (N : Nat) (hG : 1 ≤ g.G) (hK : g.G ≤ g.K)
    (hH : g.G ≤ g.HIGH) (hU0 : 0 < g.U) (hU1 : g.U < 1)
    (hN1 : 1 ≤ N) (hN : 2 ≤ N ∨ g.G = 1) (n c : Nat) (hc : c < g.G) (hcn : c < n) :
    ∑ p in Finset.Icc 2 (n + 1),
        mat_pow g.K (2 * g.G + 2) (cells (matrix_M g N)) p 0 (2 * g.G + 1) c = 1 := by
  rw [head_row g N hG n _ c (by omega)]
  exact (path_sum_one g N hG hK hH hU0 hU1 hN1 hN n).1 c hcn hc

end MemProb

namespace MemProb

/-! ## `trunc_pol_mult` and `trunc_pol_update_add`: the destination -/

/-- The standard convolution branch: the header of `dest` is left as it was. -/
theorem trunc_pol_mult_plain (K : Nat) (dest a b : trunc_pol_t) (ha : a.mono.coeff = 0)
    (hb : b.mono.coeff = 0) :
    (trunc_pol_mult K dest (some a) (some b)).2 =
      { mono := dest.mono,
        coeff := fun i => if i ≤ K then ∑ t in Finset.range (i + 1), a.coeff t * b.coeff (i - t)
          else dest.coeff i } := by
  unfold trunc_pol_mult
  simp only
  rw [if_neg (fun h => h.1 ha), if_neg (fun h => h ha), if_neg (fun h => h hb)]
  exact convolution_loop K a.coeff b.coeff dest

/-- In the three branches that start with `bzero(dest, KSZ)`, and in the
standard convolution when `dest` had no hint, `dest` is hint-consistent after
the call. -/
theorem trunc_pol_mult_hint (K : Nat) (dest a b : trunc_pol_t)
    (h : dest.mono.coeff = 0 ∨ a.mono.coeff ≠ 0 ∨ b.mono.coeff ≠ 0) :
    hint_consistent K (trunc_pol_mult K dest (some a) (some b)).2 := by
  by_cases h1 : a.mono.coeff ≠ 0
  · by_cases h2 : b.mono.coeff ≠ 0
    · unfold trunc_pol_mult
      simp only
      rw [if_pos ⟨h1, h2⟩]
      split_ifs
      · exact hint_consistent_of_mono rfl
      · exact set_monomial_hint K _ _
    · unfold trunc_pol_mult
      simp only
      rw [if_neg (fun h => h2 h.2), if_pos h1]
      refine hint_consistent_of_mono ?_
      show (forLoop _ _ _ zero_trunc_pol).mono.coeff = 0
      rw [pointwise_loop (fun i _ => a.mono.coeff * b.coeff (i - a.mono.deg))]
      rfl
  · by_cases h2 : b.mono.coeff ≠ 0
    · unfold trunc_pol_mult
      simp only
      rw [if_neg (fun h => h1 h.1), if_neg h1, if_pos h2]
      refine hint_consistent_of_mono ?_
      show (forLoop _ _ _ zero_trunc_pol).mono.coeff = 0
      rw [pointwise_loop (fun i _ => b.mono.coeff * a.coeff (i - b.mono.deg))]
      rfl
    · rw [trunc_pol_mult_plain K dest a b (not_not.mp h1) (not_not.mp h2)]
      refine hint_consistent_of_mono ?_
      rcases h with h | h | h
      · exact h
      · exact absurd h h1
      · exact absurd h h2

/-! ## Support of the families `A`, `B`, `C`, `D` -/

theorem fill_A_supported (g : Params) (deg N : Nat) (tilde : Int) :
    supported deg g.K (fill_A g deg N tilde zero_trunc_pol) := by
  have hd : (if deg ≤ g.G then deg else g.G) ≤ deg := by
    split_ifs <;> omega
  refine ⟨coef_A_zero g deg N tilde, fun i hi _ => ?_, ?_⟩
  · rw [fill_A_coeff, if_neg (by omega), if_neg (by omega)]
  · rw [fill_A_mono]
    rfl

theorem fill_B_supported (g : Params) (deg N : Nat) (tilde : Int) :
    supported deg g.K (fill_B g deg N tilde zero_trunc_pol) := by
  refine ⟨coef_B_zero g deg N tilde, fun i hi _ => ?_, ?_⟩
  · rw [fill_B_coeff, if_neg (by omega)]
  · rw [fill_B_mono]
    rfl

theorem fill_C_supported (g : Params) (deg N : Nat) (tilde : Int) :
    supported deg g.K (fill_C g deg N tilde zero_trunc_pol) := by
  refine ⟨coef_C_zero g deg N tilde, fun i hi _ => ?_, ?_⟩
  · rw [fill_C_coeff, if_neg (by omega)]
  · rw [fill_C_mono]
    rfl

theorem fill_D_supported (g : Params) (deg N : Nat) (tilde : Int) :
    supported deg g.K (fill_D g deg N tilde zero_trunc_pol) := by
  refine ⟨coef_D_zero g deg N tilde, fun i hi _ => ?_, ?_⟩
  · rw [fill_D_coeff, if_neg (by omega)]
  · rw [fill_D_mono]
    rfl

end MemProb

namespace MemProb

/-! ## The layout of `M(N)` -/

theorem cell_injective (G : Nat) (hG : 1 ≤ G) (s s' : Cell) (h : s.listed G) (h' : s'.listed G)
    (hr : s.row G = s'.row G) (hc : s.col G = s'.col G) : s = s' := by
  cases s <;> cases s' <;> simp only [Cell.listed, Cell.row, Cell.col] at h h' hr hc <;>
    first
    | rfl
    | (exfalso; omega)
    | (congr 1 <;> omega)

theorem isSome_none_elim {α : Type} {p : Prop} (h : (none : Option α).isSome = true) : p :=
  absurd h (by simp)

/-- Every item of the listing is a non-null cell. -/
theorem M_entry_of_listed (g : Params) (N : Nat) (hG : 1 ≤ g.G) (s : Cell)
    (hs : s.listed g.G) : (M_entry g N (s.row g.G) (s.col g.G)).isSome := by
  cases s with
  | head =>
    show (M_entry g N 0 1).isSome
    rw [M_entry_row0, if_pos rfl]
    rfl
  | A =>
    show (M_entry g N 1 1).isSome
    rw [(M_entry_row1 g N hG).2.1]
    rfl
  | A_tilde =>
    show (M_entry g N 1 2).isSome
    rw [(M_entry_row1 g N hG).2.2.1]
    rfl
  | u j =>
    have hs' : 1 ≤ j ∧ j ≤ g.G - 1 := hs
    show (M_entry g N 1 (g.G + 1 + j)).isSome
    rw [show g.G + 1 + j = (j - 1) + g.G + 2 from by omega,
      (M_entry_row1 g N hG).2.2.2.2.1 (j - 1) (by omega)]
    rfl
  | T_double_down =>
    show (M_entry g N 1 (2 * g.G + 1)).isSome
    rw [(M_entry_row1 g N hG).2.2.2.2.2]
    rfl
  | B =>
    show (M_entry g N 2 1).isSome
    rw [(M_entry_row2 g N hG).2.1]
    rfl
  | B_tilde =>
    show (M_entry g N 2 2).isSome
    rw [(M_entry_row2 g N hG).2.2.1]
    rfl
  | v j =>
    have hs' : 1 ≤ j ∧ j ≤ g.G - 1 := hs
    show (M_entry g N 2 (2 + j)).isSome
    rw [show 2 + j = (j - 1) + 3 from by omega,
      (M_entry_row2 g N hG).2.2.2.1 (j - 1) (by omega)]
    rfl
  | w j =>
    have hs' : 1 ≤ j ∧ j ≤ g.G - 1 := hs
    show (M_entry g N 2 (g.G + 1 + j)).isSome
    rw [show g.G + 1 + j = (j - 1) + g.G + 2 from by omega,
      (M_entry_row2 g N hG).2.2.2.2.1 (j - 1) (by omega)]
    rfl
  | T_down =>
    show (M_entry g N 2 (2 * g.G + 1)).isSome
    rw [(M_entry_row2 g N hG).2.2.2.2.2]
    rfl
  | C j =>
    have hs' : 1 ≤ j ∧ j ≤ g.G - 1 := hs
    show (M_entry g N (j + 2) 1).isSome
    rw [show j + 2 = (j - 1) + 3 from by omega,
      (M_entry_rowC g N hG (j - 1) (by omega)).2.1]
    rfl
  | C_tilde j =>
    have hs' : 1 ≤ j ∧ j ≤ g.G - 1 := hs
    show (M_entry g N (j + 2) 2).isSome
    rw [show j + 2 = (j - 1) + 3 from by omega,
      (M_entry_rowC g N hG (j - 1) (by omega)).2.2.1]
    rfl
  | y j i =>
    have hs' : (1 ≤ j ∧ j ≤ g.G - 1) ∧ 1 ≤ i ∧ i ≤ g.G - j - 1 := hs
    show (M_entry g N (j + 2) (g.G + j + i + 1)).isSome
    rw [show j + 2 = (j - 1) + 3 from by omega,
      show g.G + j + i + 1 = (j + i - 1) + g.G + 2 from by omega,
      (M_entry_rowC g N hG (j - 1) (by omega)).2.2.2.2.1 (j + i - 1) (by omega),
      if_pos (by omega)]
    rfl
  | T_sim j =>
    have hs' : 1 ≤ j ∧ j ≤ g.G - 1 := hs
    show (M_entry g N (j + 2) (2 * g.G + 1)).isSome
    rw [show j + 2 = (j - 1) + 3 from by omega,
      (M_entry_rowC g N hG (j - 1) (by omega)).2.2.2.2.2]
    rfl
  | D j =>
    have hs' : 1 ≤ j ∧ j ≤ g.G - 1 := hs
    show (M_entry g N (j + g.G + 1) 1).isSome
    rw [show j + g.G + 1 = (j - 1) + g.G + 2 from by omega,
      (M_entry_rowD g N hG (j - 1) (by omega)).2.1]
    rfl
  | D_tilde j =>
    have hs' : 1 ≤ j ∧ j ≤ g.G - 1 := hs
    show (M_entry g N (j + g.G + 1) 2).isSome
    rw [show j + g.G + 1 = (j - 1) + g.G + 2 from by omega,
      (M_entry_rowD g N hG (j - 1) (by omega)).2.2.1]
    rfl
  | T_up j =>
    have hs' : 1 ≤ j ∧ j ≤ g.G - 1 := hs
    show (M_entry g N (j + g.G + 1) (2 * g.G + 1)).isSome
    rw [show j + g.G + 1 = (j - 1) + g.G + 2 from by omega,
      (M_entry_rowD g N hG (j - 1) (by omega)).2.2.2.2.2]
    rfl

/-- Every non-null cell is an item of the listing. -/
theorem listed_of_M_entry (g : Params) (N : Nat) (hG : 1 ≤ g.G) (r c : Nat)
    (hr : r < 2 * g.G + 2) (h : (M_entry g N r c).isSome) :
    ∃ s : Cell, s.listed g.G ∧ s.row g.G = r ∧ s.col g.G = c := by
  by_cases hr0 : r = 0
  · subst hr0
    rw [M_entry_row0] at h
    by_cases h1 : c = 1
    · exact ⟨.head, trivial, rfl, h1.symm⟩
    · rw [if_neg h1] at h
      exact isSome_none_elim h
  by_cases hrL : r = 2 * g.G + 1
  · subst hrL
    rw [M_entry_last g N hG] at h
    exact isSome_none_elim h
  rcases inner_cases g.G r (by omega) (by omega) with rfl | rfl | ⟨j0, rfl, hj0⟩ | ⟨j0, rfl, hj0⟩
  · rw [M_entry_at1] at h
    by_cases h1 : c = 1
    · exact ⟨.A, trivial, rfl, h1.symm⟩
    rw [if_neg h1] at h
    by_cases h2 : c = 2
    · exact ⟨.A_tilde, trivial, rfl, h2.symm⟩
    rw [if_neg h2] at h
    by_cases h3 : g.G + 2 ≤ c ∧ c ≤ 2 * g.G
    · exact ⟨.u (c - g.G - 1), ⟨by omega, by omega⟩, rfl,
        show g.G + 1 + (c - g.G - 1) = c from by omega⟩
    rw [if_neg h3] at h
    by_cases h4 : c = 2 * g.G + 1
    · exact ⟨.T_double_down, trivial, rfl, h4.symm⟩
    rw [if_neg h4] at h
    exact isSome_none_elim h
  · rw [M_entry_at2] at h
    by_cases h1 : c = 1
    · exact ⟨.B, trivial, rfl, h1.symm⟩
    rw [if_neg h1] at h
    by_cases h2 : c = 2
    · exact ⟨.B_tilde, trivial, rfl, h2.symm⟩
    rw [if_neg h2] at h
    by_cases h3 : 3 ≤ c ∧ c ≤ g.G + 1
    · exact ⟨.v (c - 2), ⟨by omega, by omega⟩, rfl, show 2 + (c - 2) = c from by omega⟩
    rw [if_neg h3] at h
    by_cases h3' : g.G + 2 ≤ c ∧ c ≤ 2 * g.G
    · exact ⟨.w (c - g.G - 1), ⟨by omega, by omega⟩, rfl,
        show g.G + 1 + (c - g.G - 1) = c from by omega⟩
    rw [if_neg h3'] at h
    by_cases h4 : c = 2 * g.G + 1
    · exact ⟨.T_down, trivial, rfl, h4.symm⟩
    rw [if_neg h4] at h
    exact isSome_none_elim h
  · rw [M_entry_atC g N j0 (by omega)] at h
    by_cases h1 : c = 1
    · exact ⟨.C (j0 + 1), ⟨by omega, by omega⟩, rfl, h1.symm⟩
    rw [if_neg h1] at h
    by_cases h2 : c = 2
    · exact ⟨.C_tilde (j0 + 1), ⟨by omega, by omega⟩, rfl, h2.symm⟩
    rw [if_neg h2] at h
    by_cases h3 : g.G + (j0 + 3) ≤ c ∧ c ≤ 2 * g.G
    · exact ⟨.y (j0 + 1) (c - g.G - (j0 + 1) - 1),
        ⟨⟨by omega, by omega⟩, by omega, by omega⟩, rfl,
        show g.G + (j0 + 1) + (c - g.G - (j0 + 1) - 1) + 1 = c from by omega⟩
    rw [if_neg h3] at h
    by_cases h4 : c = 2 * g.G + 1
    · exact ⟨.T_sim (j0 + 1), ⟨by omega, by omega⟩, rfl, h4.symm⟩
    rw [if_neg h4] at h
    exact isSome_none_elim h
  · rw [M_entry_atD g N hG j0 hj0] at h
    by_cases h1 : c = 1
    · exact ⟨.D (j0 + 1), ⟨by omega, by omega⟩,
        show j0 + 1 + g.G + 1 = j0 + g.G + 2 from by omega, h1.symm⟩
    rw [if_neg h1] at h
    by_cases h2 : c = 2
    · exact ⟨.D_tilde (j0 + 1), ⟨by omega, by omega⟩,
        show j0 + 1 + g.G + 1 = j0 + g.G + 2 from by omega, h2.symm⟩
    rw [if_neg h2] at h
    by_cases h4 : c = 2 * g.G + 1
    · exact ⟨.T_up (j0 + 1), ⟨by omega, by omega⟩,
        show j0 + 1 + g.G + 1 = j0 + g.G + 2 from by omega, h4.symm⟩
    rw [if_neg h4] at h
    exact isSome_none_elim h

/-- Column 0 of `M(N)` is empty. -/
theorem M_entry_col0 (g : Params) (N : Nat) (hG : 1 ≤ g.G) (r : Nat) (hr : r < 2 * g.G + 2) :
    M_entry g N r 0 = none := by
  by_cases hr0 : r = 0
  · subst hr0
    rw [M_entry_row0, if_neg (by omega)]
  by_cases hrL : r = 2 * g.G + 1
  · subst hrL
    exact M_entry_last g N hG 0
  exact inner_col0 g N hG r (by omega) (by omega)

/-! ## Degree bounds of the factory calls -/

/-- With `G > K` the first factory call of `new_matrix_M`,
`new_trunc_pol_A(G, N, NO)`, is out of bounds, and `new_matrix_M` returns
`NULL` whatever the allocator does. -/
theorem new_matrix_M_fails_of_lt (g : Params) (N : Nat) (hGK : g.K < g.G) (e : Eff) :
    (new_matrix_M g N e).1 = none := by
  unfold new_matrix_M
  refine fst_none_of_bind_right _ (fun M e => ?_) e
  refine fst_none_of_bind_right _ (fun t e => ?_) e
  refine fst_none_of_bind_left _ ?_
  refine fst_none_of_handle _ ?_
  unfold new_trunc_pol_A
  rw [if_pos (Or.inl hGK)]
  rfl

theorem compute_mem_prob_fails_of_matrix (N k : Nat) (s : Session) (hN : N ≤ MAXN - 1)
    (hk : k ≤ s.K) (hA : s.ARRAY N = none)
    (h : ∀ e, (new_matrix_M s.toParams N e).1 = none) :
    ∃ s', compute_mem_prob N k s = some (none, s') ∧ s'.ERRNO ≠ 0 := by
  unfold compute_mem_prob
  rw [if_neg (by omega), if_neg (by omega), hA]
  simp only
  have h1 : (allocate_work s.toParams N s.toEff).1 = none := by
    unfold allocate_work
    refine fst_none_of_bind_right _ (fun w e => ?_) _
    refine fst_none_of_bind_left _ ?_
    exact fst_none_of_handle _ (h e)
  rcases hr : allocate_work s.toParams N s.toEff with ⟨r, e⟩
  rw [hr] at h1
  simp only at h1
  subst h1
  exact ⟨_, rfl, allocate_work_none hr⟩

end MemProb

namespace MemProb

/-! ## Truncation depth -/

/-- In the power `q + 1` the paths from an inner state to the last column
have degree at least `q`: inner entries have no constant term. -/
theorem power_valuation (K L dim : Nat) (hdim : dim = L + 1)
    (A : Nat → Nat → Nat → ℚ)
    (hcol0 : ∀ m, 1 ≤ m → m < L → ∀ t, A m 0 t = 0)
    (hL : ∀ m, m < dim → ∀ t, A L m t = 0)
    (hZ : ∀ m m', 1 ≤ m → m < L → 1 ≤ m' → m' < L → A m m' 0 = 0) (q : Nat) :
    ∀ m, 1 ≤ m → m < L → ∀ c, c < q → mat_pow K dim A (q + 1) m L c = 0 := by
  induction q with
  | zero => exact fun m _ _ c hc => absurd hc (by omega)
  | succ q ih =>
    intro m h1 h2 c hc
    rw [mat_pow_succ_left K dim A (q + 1) (by omega)]
    show ∑ m' in Finset.range dim, pol_mul K (A m m') (mat_pow K dim A (q + 1) m' L) c = 0
    refine Finset.sum_eq_zero fun m' hm' => ?_
    have hm'' := Finset.mem_range.mp hm'
    by_cases h0 : m' = 0
    · subst h0
      rw [show A m 0 = fun _ => 0 from funext (hcol0 m h1 h2), pol_mul_zero_left]
    by_cases hl : m' = L
    · subst hl
      rw [show mat_pow K dim A (q + 1) m' m' = fun _ => 0 from
        funext (mat_pow_null_row K dim A m' hL (q + 1) (by omega) m' (by omega)),
        pol_mul_zero_right]
    unfold pol_mul
    split_ifs
    · refine Finset.sum_eq_zero fun t ht => ?_
      have := Finset.mem_range.mp ht
      by_cases ht0 : t = 0
      · rw [ht0, hZ m m' h1 h2 (by omega) (by omega), zero_mul]
      · rw [ih m' (by omega) (by omega) (c - t) (by omega), mul_zero]
    · rfl

/-- An entry of `M(N)` between inner states has no constant term. -/
theorem inner_entry_zero (g : Params) (N : Nat) (hG : 1 ≤ g.G) (r m : Nat) (hr1 : 1 ≤ r)
    (hr2 : r ≤ 2 * g.G) (hm1 : 1 ≤ m) (hm2 : m ≤ 2 * g.G) :
    coefO (M_entry g N r m) 0 = 0 := by
  have hnone : coefO none 0 = 0 := rfl
  rcases inner_cases g.G m hm1 hm2 with rfl | rfl | ⟨j, rfl, hj⟩ | ⟨j, rfl, hj⟩ <;>
    rcases inner_cases g.G r hr1 hr2 with rfl | rfl | ⟨j0, rfl, hj0⟩ | ⟨j0, rfl, hj0⟩
  · rw [(M_entry_row1 g N hG).2.1]
    exact coef_A_zero _ _ _ _
  · rw [(M_entry_row2 g N hG).2.1]
    exact coef_B_zero _ _ _ _
  · rw [(M_entry_rowC g N hG j0 (by omega)).2.1]
    exact coef_C_zero _ _ _ _
  · rw [(M_entry_rowD g N hG j0 hj0).2.1]
    exact coef_D_zero _ _ _ _
  · rw [(M_entry_row1 g N hG).2.2.1]
    exact coef_A_zero _ _ _ _
  · rw [(M_entry_row2 g N hG).2.2.1]
    exact coef_B_zero _ _ _ _
  · rw [(M_entry_rowC g N hG j0 (by omega)).2.2.1]
    exact coef_C_zero _ _ _ _
  · rw [(M_entry_rowD g N hG j0 hj0).2.2.1]
    exact coef_D_zero _ _ _ _
  · rw [(M_entry_row1 g N hG).2.2.2.1 j (by omega)]
    exact hnone
  · rw [(M_entry_row2 g N hG).2.2.2.1 j (by omega)]
    exact (fill_v_coeff g (j + 1) N 0).trans (if_neg (by omega))
  · rw [(M_entry_rowC g N hG j0 (by omega)).2.2.2.1 j (by omega)]
    exact hnone
  · rw [(M_entry_rowD g N hG j0 hj0).2.2.2.1 j (by omega)]
    exact hnone
  · rw [(M_entry_row1 g N hG).2.2.2.2.1 j (by omega)]
    exact (coef_u g N j 0).trans (if_neg (by omega))
  · rw [(M_entry_row2 g N hG).2.2.2.2.1 j (by omega)]
    exact (fill_w_coeff g (j + 1) N 0).trans (if_neg (by omega))
  · rw [(M_entry_rowC g N hG j0 (by omega)).2.2.2.2.1 j (by omega)]
    by_cases h : j0 + 1 ≤ j
    · rw [if_pos h, show j - j0 = (j - j0 - 1) + 1 from by omega]
      exact (coef_y g N j0 (j - j0 - 1) 0).trans (if_neg (by omega))
    · rw [if_neg h]
      exact hnone
  · rw [(M_entry_rowD g N hG j0 hj0).2.2.2.2.1 j (by omega)]
    exact hnone

/-- Row 0 only leads to state 1: the power `p + 1` read in row 0 is the
power `p` read in row 1. -/
theorem head_power (g : Params) (N : Nat) (hG : 1 ≤ g.G) (p : Nat) (hp : 1 ≤ p) (j c : Nat)
    (hc : c ≤ g.K) :
    mat_pow g.K (2 * g.G + 2) (cells (matrix_M g N)) (p + 1) 0 j c =
      mat_pow g.K (2 * g.G + 2) (cells (matrix_M g N)) p 1 j c := by
  rw [mat_pow_succ_left _ _ _ p hp]
  unfold mat_mul
  have e : ∀ m ∈ Finset.range (2 * g.G + 2),
      pol_mul g.K (cells (matrix_M g N) 0 m)
          (mat_pow g.K (2 * g.G + 2) (cells (matrix_M g N)) p m j) c =
        (fun m q => pol_mul g.K (coefO q)
          (mat_pow g.K (2 * g.G + 2) (cells (matrix_M g N)) p m j) c) m
          (M_entry g N 0 m) := by
    intro m hm
    rw [cells_matrix_M g N hG 0 m (Finset.mem_range.mp hm)]
  refine (Finset.sum_congr rfl e).trans ?_
  refine (row0_expand g N hG (fun m q => pol_mul g.K (coefO q)
    (mat_pow g.K (2 * g.G + 2) (cells (matrix_M g N)) p m j) c) (fun m => by
      show pol_mul g.K (coefO none) _ c = 0
      rw [coefO_none, pol_mul_zero_left])).trans ?_
  show pol_mul g.K (fill_one zero_trunc_pol).coeff _ c = _
  rw [pol_mul_monomial g.K _ _ 0 1 c hc (fun t _ => fill_one_coeff t), if_pos (Nat.zero_le _),
    one_mul, Nat.sub_zero]

/-- The entry `compute_mem_prob` accumulates, in the power `p`: its
coefficients below `p - 2` vanish. -/
theorem accumulated_valuation (g : Params) (N : Nat) (hG : 1 ≤ g.G) (p : Nat) (hp : 2 ≤ p)
    (c : Nat) (hc : c + 2 < p) (hcK : c ≤ g.K) :
    mat_pow g.K (2 * g.G + 2) (cells (matrix_M g N)) p 0 (2 * g.G + 1) c = 0 := by
  obtain ⟨q, rfl⟩ : ∃ q, p = q + 1 + 1 := ⟨p - 2, by omega⟩
  rw [head_power g N hG (q + 1) (by omega) _ c hcK]
  have hcell : ∀ r m, m < 2 * g.G + 2 →
      cells (matrix_M g N) r m = coefO (M_entry g N r m) :=
    fun r m hm => cells_matrix_M g N hG r m hm
  refine power_valuation g.K (2 * g.G + 1) (2 * g.G + 2) rfl (cells (matrix_M g N))
    (fun m h1 h2 t => ?_) (fun m hm t => ?_) (fun m m' h1 h2 h3 h4 => ?_) q 1 (le_refl _)
    (by omega) c (by omega)
  · rw [hcell m 0 (by omega), inner_col0 g N hG m h1 (by omega)]
    rfl
  · rw [hcell _ m hm, M_entry_last g N hG]
    rfl
  · rw [hcell m m' (by omega)]
    exact inner_entry_zero g N hG m m' h1 (by omega) h3 (by omega)

/-- The entry `compute_mem_prob` accumulates, in the power `p`: its
coefficient of degree `p - 2` is at least `OMEGA^(p-2)`. -/
theorem accumulated_lowest (g : Params) (N : Nat) (hG : 1 ≤ g.G) (hH : g.G ≤ g.HIGH)
    (hP0 : 0 ≤ g.P) (hP1 : g.P ≤ 1) (hU0 : 0 < g.U) (hU1 : g.U < 1) (hN1 : 1 ≤ N)
    (hN : 2 ≤ N ∨ g.G = 1) (q : Nat) (hq : q ≤ g.K) :
    (OMEGA g.P g.U N) ^ q ≤
      mat_pow g.K (2 * g.G + 2) (cells (matrix_M g N)) (q + 2) 0 (2 * g.G + 1) q := by
  rw [head_power g N hG (q + 1) (by omega) _ q hq]
  exact first_left_out g N hG hH hP0 hP1 hU0 hU1 hN1 hN q hq

/-! ## Adaptive termination -/

/-- A run of `adaptive_sum`: `n` non-zero terms, then a zero term. Any fuel
above `n` gives the result. -/
theorem adaptive_sum_run (K dim : Nat) (A : Nat → Nat → Nat → ℚ) (i j : Nat) (n f : Nat) :
    ∀ (p0 : Nat) (acc : Nat → ℚ),
      (∀ t, t < n → ¬ ∀ c ∈ Finset.range (K + 1), mat_pow K dim A (p0 + t) i j c = 0) →
      (∀ c ∈ Finset.range (K + 1), mat_pow K dim A (p0 + n) i j c = 0) →
      adaptive_sum K dim A i j (n + 1 + f) p0 acc =
        some (fun c => acc c + ∑ t in Finset.range n, mat_pow K dim A (p0 + t) i j c) := by
  induction n with
  | zero =>
    intro p0 acc _ hz
    have hz' : ∀ c ∈ Finset.range (K + 1), mat_pow K dim A p0 i j c = 0 := hz
    rw [show 0 + 1 + f = f + 1 from by omega, adaptive_sum, if_pos hz']
    simp only [Finset.range_zero, Finset.sum_empty, add_zero]
  | succ n ih =>
    intro p0 acc hnz hz
    rw [show n + 1 + 1 + f = (n + 1 + f) + 1 from by omega, adaptive_sum,
      if_neg (by simpa using hnz 0 (by omega)),
      ih (p0 + 1) _ (fun t ht => by
        rw [show p0 + 1 + t = p0 + (t + 1) from by omega]
        exact hnz (t + 1) (by omega))
        (by rw [show p0 + 1 + n = p0 + (n + 1) from by omega]; exact hz)]
    congr 1
    funext c
    rw [Finset.sum_range_succ', add_assoc, Nat.add_zero, add_comm (mat_pow K dim A p0 i j c)]
    congr 2
    refine Finset.sum_congr rfl fun t _ => ?_
    rw [show p0 + 1 + t = p0 + (t + 1) from by omega]

/-- The adaptive summation of the entry `compute_mem_prob` accumulates: it
adds the powers `2..K+2` and stops at the power `K+3`. -/
theorem adaptive_sum_eq (g : Params) (N : Nat) (hG : 1 ≤ g.G) (hH : g.G ≤ g.HIGH)
    (hP0 : 0 < g.P) (hP1 : g.P ≤ 1) (hU0 : 0 < g.U) (hU1 : g.U < 1) (hN1 : 1 ≤ N)
    (hN : 2 ≤ N ∨ g.G = 1) (f : Nat) :
    adaptive_sum g.K (2 * g.G + 2) (cells (matrix_M g N)) 0 (2 * g.G + 1) (g.K + 2 + f) 2
        (fun _ => 0) =
      some (fun c => ∑ t in Finset.range (g.K + 1),
        mat_pow g.K (2 * g.G + 2) (cells (matrix_M g N)) (2 + t) 0 (2 * g.G + 1) c) := by
  rw [show g.K + 2 + f = (g.K + 1) + 1 + f from by omega,
    adaptive_sum_run g.K _ _ 0 _ (g.K + 1) f 2 (fun _ => 0)]
  · simp only [zero_add]
  · intro t ht hall
    have h1 := hall t (Finset.mem_range.mpr (by omega))
    have h2 := accumulated_lowest g N hG hH (le_of_lt hP0) hP1 hU0 hU1 hN1 hN t (by omega)
    rw [show t + 2 = 2 + t from by omega, h1] at h2
    exact absurd h2 (not_le.mpr (pow_pos (OMEGA_pos hP0 hU0 hU1 N) t))
  · intro c hc
    have := Finset.mem_range.mp hc
    exact accumulated_valuation g N hG _ (by omega) c (by omega) (by omega)

/-- The fixed sum of the powers `2..22` as a sum over a range. -/
theorem fixed_sum_range (F : Nat → ℚ) :
    ∑ p in Finset.Icc 2 22, F p = ∑ t in Finset.range 21, F (2 + t) := by
  rw [show Finset.Icc 2 22 = Finset.Ico 2 23 from by
      ext x; simp only [Finset.mem_Icc, Finset.mem_Ico]; omega,
    Finset.sum_Ico_eq_sum_range]

/-- With `K ≤ 20` the fixed sum of the powers `2..22` has, on the degrees
`0..K`, the coefficients of the adaptive sum. -/
theorem fixed_sum_adaptive (g : Params) (N : Nat) (hG : 1 ≤ g.G) (hK : g.K ≤ 20) (c : Nat)
    (hc : c ≤ g.K) :
    ∑ p in Finset.Icc 2 22,
        mat_pow g.K (2 * g.G + 2) (cells (matrix_M g N)) p 0 (2 * g.G + 1) c =
      ∑ t in Finset.range (g.K + 1),
        mat_pow g.K (2 * g.G + 2) (cells (matrix_M g N)) (2 + t) 0 (2 * g.G + 1) c := by
  rw [fixed_sum_range, show 21 = (g.K + 1) + (20 - g.K) from by omega, Finset.sum_range_add,
    add_right_eq_self]
  refine Finset.sum_eq_zero fun x _ => ?_
  exact accumulated_valuation g N hG _ (by omega) c (by omega) hc

end MemProb

namespace MemProb

/-! ## Range: the kernels -/

theorem aN_base_unit {U : ℚ} (hU0 : 0 < U) (hU1 : U < 1) (t : Nat) :
    0 ≤ 1 - (1 - U) ^ (t : Int) * U / 3 ∧ 1 - (1 - U) ^ (t : Int) * U / 3 ≤ 1 := by
  obtain ⟨ha0, ha1⟩ := zpow_unit_interval hU0 hU1 t
  generalize (1 - U) ^ (t : Int) = a at ha0 ha1
  have := mul_pos ha0 hU0
  constructor <;> nlinarith

theorem aN_le_one {U : ℚ} (hU0 : 0 < U) (hU1 : U < 1) (N t : Nat) :
    aN U N (t : Int) ≤ 1 := by
  unfold aN
  exact pow_le_one₀ (aN_base_unit hU0 hU1 t).1 (aN_base_unit hU0 hU1 t).2

theorem tail_A_nonneg (g : Params) (N t : Nat) (hU0 : 0 < g.U) (hU1 : g.U < 1) :
    0 ≤ tail_A g N t := by
  obtain ⟨ha0, ha1⟩ := zpow_unit_interval hU0 hU1 t
  unfold tail_A xi
  have : (1 - (1 - g.U) ^ (t : Int)) ^ N ≤ 1 := pow_le_one₀ (by linarith) (by linarith)
  linarith

theorem tail_A_antitone (g : Params) (N t : Nat) (hU0 : 0 < g.U) (hU1 : g.U < 1) :
    0 ≤ tail_A g N t - tail_A g N (t + 1) := by
  unfold tail_A
  rw [show ((t + 1 : Nat) : Int) = (t : Int) + 1 from by push_cast; ring]
  exact numer_u_nonneg hU0 hU1 N t

theorem tail_B_nonneg (g : Params) (N t : Nat) (hU0 : 0 < g.U) (hU1 : g.U < 1)
    (hN : 1 ≤ N) : 0 ≤ tail_B g N t := by
  unfold tail_B
  exact div_nonneg (sub_nonneg.mpr (aN_le_one hU0 hU1 N t))
    (le_of_lt (denom_pos hU0 hU1 N hN))

theorem aN_mono {U : ℚ} (hU0 : 0 < U) (hU1 : U < 1) (N t : Nat) :
    aN U N (t : Int) ≤ aN U N ((t + 1 : Nat) : Int) := by
  obtain ⟨ha0, ha1⟩ := zpow_unit_interval hU0 hU1 t
  have hb := (aN_base_unit hU0 hU1 t).1
  unfold aN at hb ⊢
  rw [show ((t + 1 : Nat) : Int) = (t : Int) + 1 from by push_cast; ring,
    zpow_succ_cast hU1] at *
  generalize (1 - U) ^ (t : Int) = a at ha0 ha1 hb
  refine pow_le_pow_left₀ hb ?_ N
  have := mul_pos ha0 (mul_pos hU0 hU0)
  nlinarith

theorem tail_B_antitone (g : Params) (N t : Nat) (hU0 : 0 < g.U) (hU1 : g.U < 1)
    (hN : 1 ≤ N) : 0 ≤ tail_B g N t - tail_B g N (t + 1) := by
  unfold tail_B
  rw [← sub_div]
  refine div_nonneg ?_ (le_of_lt (denom_pos hU0 hU1 N hN))
  have := aN_mono hU0 hU1 N t
  linarith

/-- The late terms of `A~` are below the early ones: `1 - aN(t) ≤ xi(t)`. -/
theorem one_sub_aN_le_tail_A (g : Params) (N t : Nat) (hU0 : 0 < g.U) (hU1 : g.U < 1) :
    1 - aN g.U N (t : Int) ≤ tail_A g N t := by
  obtain ⟨ha0, ha1⟩ := zpow_unit_interval hU0 hU1 t
  unfold tail_A xi aN
  generalize (1 - g.U) ^ (t : Int) = a at ha0 ha1
  have : (1 - a) ^ N ≤ (1 - a * g.U / 3) ^ N :=
    pow_le_pow_left₀ (by linarith) (by nlinarith [mul_pos ha0 hU0]) N
  linarith

/-- The numerator of `C` and of `T~` is not negative. -/
theorem numer_C_nonneg {U : ℚ} (hU0 : 0 < U) (hU1 : U < 1) (N j t : Nat) :
    0 ≤ aN U N ((j : Int) + 1) - aN U N ((j : Int) + 1 - 1)
      - bN U N ((j : Int) + 1) ((t : Int) + ((j : Int) + 1))
      + bN U N ((j : Int) + 1 - 1) ((t : Int) + ((j : Int) + 1)) := by
  obtain ⟨ha0, ha1⟩ := zpow_unit_interval hU0 hU1 j
  obtain ⟨hb0, hb1⟩ := zpow_unit_interval hU0 hU1 (t + (j + 1))
  unfold aN bN
  rw [show (t : Int) + ((j : Int) + 1) = ((t + (j + 1) : Nat) : Int) from by push_cast; ring,
    add_sub_cancel_right, zpow_succ_cast hU1]
  generalize (1 - U) ^ (j : Int) = a at ha0 ha1
  generalize (1 - U) ^ ((t + (j + 1) : Nat) : Int) = b at hb0 hb1
  have hc : 0 ≤ b * (1 - U / 3) := mul_nonneg (le_of_lt hb0) (by linarith)
  have h := (pow_increment_mono N (x := 1 - a * (1 - U) * U / 3 - b * (1 - U / 3))
    (y := 1 - a * U / 3 - b * (1 - U / 3)) (c := b * (1 - U / 3))
    (by nlinarith [mul_nonneg (sub_nonneg.2 ha1) (le_of_lt hU0),
      mul_nonneg (sub_nonneg.2 hb1) (show (0 : ℚ) ≤ 1 - U / 3 by linarith)])
    (by nlinarith [mul_pos ha0 (mul_pos hU0 hU0)]) hc).2
  have e1 : 1 - a * (1 - U) * U / 3 - b * (1 - U / 3) + b * (1 - U / 3)
      = 1 - a * (1 - U) * U / 3 := by ring
  have e2 : 1 - a * U / 3 - b * (1 - U / 3) + b * (1 - U / 3) = 1 - a * U / 3 := by ring
  rw [e1, e2] at h
  linarith

theorem tail_C_nonneg (g : Params) (N j t : Nat) (hU0 : 0 < g.U) (hU1 : g.U < 1)
    (hN : 2 ≤ N) : 0 ≤ tail_C g N j t := by
  unfold tail_C
  exact div_nonneg (numer_C_nonneg hU0 hU1 N j t) (le_of_lt (den_pos hU0 hU1 N hN j))

/-! ## Range: the coefficients at every degree -/

theorem coef_A_all (g : Params) (deg N : Nat) (tilde : Int) (hd : g.G ≤ deg) (t : Nat) :
    (fill_A g deg N tilde zero_trunc_pol).coeff (t + 1) =
      if t + 1 ≤ g.G then
        (if tilde ≠ 0 then _OMEGA g.P g.U N else OMEGA g.P g.U N) * tail_A g N t
          * (1 - g.P) ^ t
      else if t + 1 ≤ deg then g.P * (1 - aN g.U N (t : Int)) * (1 - g.P) ^ t
      else 0 := by
  have h : (if deg ≤ g.G then deg else g.G) = g.G := by
    split_ifs <;> omega
  by_cases h1 : t + 1 ≤ g.G
  · rw [if_pos h1]
    exact coef_A_succ g deg N tilde hd t h1
  · rw [if_neg h1, fill_A_coeff, h, if_neg (by omega), Nat.add_sub_cancel,
      show ((t + 1 : Nat) : Int) - 1 = (t : Int) from by push_cast; ring]
    by_cases h2 : t + 1 ≤ deg
    · rw [if_pos ⟨by omega, h2⟩, if_pos h2]
    · rw [if_neg (by omega), if_neg h2]

theorem coef_B_all (g : Params) (deg N : Nat) (tilde : Int) (t : Nat) :
    (fill_B g deg N tilde zero_trunc_pol).coeff (t + 1) =
      if t + 1 ≤ deg then
        (if tilde ≠ 0 then _OMEGA g.P g.U N else OMEGA g.P g.U N) * tail_B g N t
          * (1 - g.P) ^ t
      else 0 := by
  by_cases h1 : t + 1 ≤ deg
  · rw [if_pos h1]
    exact coef_B_succ g deg N tilde t h1
  · rw [if_neg h1, fill_B_coeff, if_neg (by omega)]

theorem coef_C_all (g : Params) (N : Nat) (tilde : Int) (j t : Nat) (hj : j + 2 ≤ g.G) :
    (fill_C g (g.G - (j + 1)) N tilde zero_trunc_pol).coeff (t + 1) =
      if t + j + 2 ≤ g.G then
        (if tilde ≠ 0 then _OMEGA g.P g.U N else OMEGA g.P g.U N) * tail_C g N j t
          * (1 - g.P) ^ t
      else 0 := by
  by_cases h1 : t + j + 2 ≤ g.G
  · rw [if_pos h1]
    exact coef_C_succ g N tilde j t h1
  · rw [if_neg h1, fill_C_coeff, if_neg (by omega)]

theorem coef_D_all (g : Params) (deg N : Nat) (tilde : Int) (t : Nat) :
    (fill_D g deg N tilde zero_trunc_pol).coeff (t + 1) =
      if t + 1 ≤ deg then
        (if tilde ≠ 0 then _OMEGA g.P g.U N else OMEGA g.P g.U N) * (1 - g.P) ^ t
      else 0 := by
  by_cases h1 : t + 1 ≤ deg
  · rw [if_pos h1]
    exact coef_D_succ g deg N tilde t h1
  · rw [if_neg h1, fill_D_coeff, if_neg (by omega)]

theorem coef_T_double_down_all (g : Params) (N : Nat) (hG : 1 ≤ g.G) (c : Nat) :
    (fill_T_double_down g N zero_trunc_pol).coeff c =
      if c < g.G then tail_A g N c * (1 - g.P) ^ c else 0 := by
  by_cases h1 : c < g.G
  · rw [if_pos h1]
    exact coef_T_double_down g N c h1
  · rw [if_neg h1, fill_T_double_down_coeff, if_neg (by omega)]

theorem coef_T_down_all (g : Params) (N : Nat) (c : Nat) :
    (fill_T_down g N zero_trunc_pol).coeff c =
      if c ≤ g.HIGH then tail_B g N c * (1 - g.P) ^ c else 0 := by
  by_cases h1 : c ≤ g.HIGH
  · rw [if_pos h1]
    exact coef_T_down g N c h1
  · rw [if_neg h1, fill_T_down_coeff, if_neg (by omega)]

theorem coef_T_sim_all (g : Params) (N : Nat) (j c : Nat) (hj : j + 2 ≤ g.G) :
    (fill_T_sim g (g.G - (j + 1) - 1) N zero_trunc_pol).coeff c =
      if c + j + 2 ≤ g.G then tail_C g N j c * (1 - g.P) ^ c else 0 := by
  by_cases h1 : c + j + 2 ≤ g.G
  · rw [if_pos h1]
    exact coef_T_sim g N j c h1
  · rw [if_neg h1, fill_T_sim_coeff, if_neg (by omega)]

theorem coef_T_up_all (g : Params) (deg : Nat) (c : Nat) :
    (fill_T_up g deg zero_trunc_pol).coeff c = if c ≤ deg then (1 - g.P) ^ c else 0 := by
  by_cases h1 : c ≤ deg
  · rw [if_pos h1]
    exact coef_T_up g deg c h1
  · rw [if_neg h1, fill_T_up_coeff, if_neg (by omega)]

/-! ## Range: sub-stochastic rows -/

/-- A product with a polynomial without constant term and without negative
coefficients, against a series between 0 and 1. -/
theorem pol_mul_bounds (K : Nat) (a b : Nat → ℚ) (c : Nat) (hc : c ≤ K) (ha0 : a 0 = 0)
    (ha : ∀ t, t < c → 0 ≤ a (t + 1))
    (hb : ∀ t, t < c → 0 ≤ b t ∧ b t ≤ 1) :
    0 ≤ pol_mul K a b c ∧ pol_mul K a b c ≤ ∑ t in Finset.range c, a (t + 1) := by
  unfold pol_mul
  rw [if_pos hc, Finset.sum_range_succ', ha0, zero_mul, add_zero]
  constructor
  · refine Finset.sum_nonneg fun t ht => ?_
    have := Finset.mem_range.mp ht
    exact mul_nonneg (ha t this) (hb (c - (t + 1)) (by omega)).1
  · refine Finset.sum_le_sum fun t ht => ?_
    have := Finset.mem_range.mp ht
    have h1 := ha t this
    have h2 := (hb (c - (t + 1)) (by omega)).2
    nlinarith

theorem window_sum_le (n a c : Nat) (X : Nat → ℚ) (hX : ∀ t, 0 ≤ X t) :
    ∑ j in Finset.range n, (if a ≤ j ∧ j < a + c then X (j - a) else 0) ≤
      ∑ t in Finset.range c, X t := by
  by_cases h : a + c ≤ n
  · exact le_of_eq (window_sum n a c h X)
  · have e : ∀ j ∈ Finset.range n, (if a ≤ j ∧ j < a + c then X (j - a) else 0) =
        (if a ≤ j ∧ j < a + (n - a) then X (j - a) else 0) := by
      intro j hj
      have := Finset.mem_range.mp hj
      by_cases h1 : a ≤ j
      · rw [if_pos ⟨h1, by omega⟩, if_pos ⟨h1, by omega⟩]
      · rw [if_neg (fun h => h1 h.1), if_neg (fun h => h1 h.1)]
    by_cases h2 : a ≤ n
    · rw [Finset.sum_congr rfl e, window_sum n a (n - a) (by omega) X]
      exact Finset.sum_le_sum_of_subset_of_nonneg
        (Finset.range_subset.mpr (by omega)) (fun t _ _ => hX t)
    · rw [Finset.sum_eq_zero (fun j hj => by
        have := Finset.mem_range.mp hj
        exact if_neg (by omega))]
      exact Finset.sum_nonneg fun t _ => hX t

/-- The moves of a row against series between 0 and 1. -/
theorem moves_sum_bounds (K n a c : Nat) (hc : c ≤ K) (q : Nat → Nat → ℚ)
    (B : Nat → Nat → ℚ) (st : Nat → Nat) (X : Nat → ℚ)
    (hq : ∀ j t, a ≤ j → q j t = if t = j - a + 1 then X (j - a) else 0)
    (hX : ∀ t, 0 ≤ X t)
    (hB : ∀ j, a ≤ j → j < n → ∀ t, t ≤ c → 0 ≤ B (st j) t ∧ B (st j) t ≤ 1) :
    0 ≤ ∑ j in Finset.range n, (if a ≤ j then pol_mul K (q j) (B (st j)) c else 0) ∧
    ∑ j in Finset.range n, (if a ≤ j then pol_mul K (q j) (B (st j)) c else 0) ≤
      ∑ t in Finset.range c, X t := by
  have e : ∀ j ∈ Finset.range n, (if a ≤ j then pol_mul K (q j) (B (st j)) c else 0) =
      (if a ≤ j ∧ j < a + c then X (j - a) * B (st j) (c - (j - a + 1)) else 0) := by
    intro j _
    by_cases h1 : a ≤ j
    · rw [if_pos h1, pol_mul_monomial K (q j) (B (st j)) (j - a + 1) (X (j - a)) c hc
        (fun t _ => hq j t h1)]
      by_cases h2 : j < a + c
      · rw [if_pos (by omega), if_pos ⟨h1, h2⟩]
      · rw [if_neg (by omega), if_neg (by omega)]
    · rw [if_neg h1, if_neg (by omega)]
  rw [Finset.sum_congr rfl e]
  constructor
  · refine Finset.sum_nonneg fun j hj => ?_
    have := Finset.mem_range.mp hj
    split_ifs with h
    · exact mul_nonneg (hX _) (hB j h.1 this _ (by omega)).1
    · exact le_refl _
  · refine le_trans (Finset.sum_le_sum fun j hj => ?_) (window_sum_le n a c X hX)
    have := Finset.mem_range.mp hj
    split_ifs with h
    · have h1 := hX (j - a)
      have h2 := (hB j h.1 this (c - (j - a + 1)) (by omega)).2
      nlinarith
    · exact le_refl _

/-- The shape shared by the rows, as a bound: a tail, two returns to the
states without offset and moves to offset states weigh at most one. -/
theorem generic_row_bounds (K : Nat) (f : Nat → ℚ) (r : ℚ) (hf : f 0 = 1) (c : Nat)
    (hc : c ≤ K) (T a1 a2 b1 b2 : Nat → ℚ) (S : ℚ)
    (hT0 : 0 ≤ T c) (hT : T c ≤ f c * r ^ c)
    (ha1 : a1 0 = 0) (ha1n : ∀ t, t < c → 0 ≤ a1 (t + 1))
    (ha2 : a2 0 = 0) (ha2n : ∀ t, t < c → 0 ≤ a2 (t + 1))
    (ha : ∀ t, t < c → a1 (t + 1) + a2 (t + 1) ≤ (1 - r) * f t * r ^ t)
    (hb1 : ∀ t, t < c → 0 ≤ b1 t ∧ b1 t ≤ 1) (hb2 : ∀ t, t < c → 0 ≤ b2 t ∧ b2 t ≤ 1)
    (hS0 : 0 ≤ S) (hS : S ≤ ∑ t in Finset.range c, (f t - f (t + 1)) * r ^ (t + 1)) :
    0 ≤ T c + (pol_mul K a1 b1 c + pol_mul K a2 b2 c + S) ∧
    T c + (pol_mul K a1 b1 c + pol_mul K a2 b2 c + S) ≤ 1 := by
  obtain ⟨h1n, h1⟩ := pol_mul_bounds K a1 b1 c hc ha1 ha1n hb1
  obtain ⟨h2n, h2⟩ := pol_mul_bounds K a2 b2 c hc ha2 ha2n hb2
  refine ⟨by linarith, ?_⟩
  have hsum : ∑ t in Finset.range c, a1 (t + 1) + ∑ t in Finset.range c, a2 (t + 1) ≤
      ∑ t in Finset.range c, (1 - r) * f t * r ^ t := by
    rw [← Finset.sum_add_distrib]
    exact Finset.sum_le_sum fun t ht => ha t (Finset.mem_range.mp ht)
  have hren := renewal_sum f r hf c
  rw [Finset.sum_add_distrib] at hren
  linarith

end MemProb

namespace MemProb

/-! ## Range: the entries of each row -/

theorem OMEGA_sum_mul (g : Params) (N : Nat) (x : ℚ) :
    OMEGA g.P g.U N * x + _OMEGA g.P g.U N * x = (1 - (1 - g.P)) * x := by
  have := OMEGA_add g.P g.U N
  linear_combination x * this

theorem returns_A (g : Params) (N : Nat) (hH : g.G ≤ g.HIGH) (hP0 : 0 ≤ g.P) (hP1 : g.P ≤ 1)
    (hU0 : 0 < g.U) (hU1 : g.U < 1) (t : Nat) :
    0 ≤ (fill_A g g.G N NO zero_trunc_pol).coeff (t + 1) ∧
    0 ≤ (fill_A g g.HIGH N YES zero_trunc_pol).coeff (t + 1) ∧
    (fill_A g g.G N NO zero_trunc_pol).coeff (t + 1)
        + (fill_A g g.HIGH N YES zero_trunc_pol).coeff (t + 1) ≤
      (1 - (1 - g.P)) * tail_A g N t * (1 - g.P) ^ t := by
  have hr : (0 : ℚ) ≤ (1 - g.P) ^ t := pow_nonneg (by linarith) t
  have hf := tail_A_nonneg g N t hU0 hU1
  have ho := OMEGA_nonneg hP0 hU0 hU1 N
  have ho' := _OMEGA_nonneg hP0 hU0 hU1 N
  have hx : 0 ≤ tail_A g N t * (1 - g.P) ^ t := mul_nonneg hf hr
  have hsum := OMEGA_sum_mul g N (tail_A g N t * (1 - g.P) ^ t)
  have hlate : 0 ≤ g.P * (1 - aN g.U N (t : Int)) * (1 - g.P) ^ t ∧
      g.P * (1 - aN g.U N (t : Int)) * (1 - g.P) ^ t ≤
        (1 - (1 - g.P)) * tail_A g N t * (1 - g.P) ^ t := by
    have h1 := aN_le_one hU0 hU1 N t
    have h2 := one_sub_aN_le_tail_A g N t hU0 hU1
    constructor
    · exact mul_nonneg (mul_nonneg hP0 (by linarith)) hr
    · have : g.P * (1 - aN g.U N (t : Int)) ≤ g.P * tail_A g N t :=
        mul_le_mul_of_nonneg_left h2 hP0
      have := mul_le_mul_of_nonneg_right this hr
      linarith
  rw [coef_A_all g g.G N NO (le_refl _) t, coef_A_all g g.HIGH N YES hH t, cst_NO, cst_YES]
  by_cases h1 : t + 1 ≤ g.G
  · rw [if_pos h1, if_pos h1]
    refine ⟨by nlinarith, by nlinarith, ?_⟩
    linarith
  · rw [if_neg h1, if_neg h1, if_neg h1]
    by_cases h2 : t + 1 ≤ g.HIGH
    · rw [if_pos h2, zero_add]
      exact ⟨le_refl _, hlate.1, hlate.2⟩
    · rw [if_neg h2, zero_add]
      refine ⟨le_refl _, le_refl _, ?_⟩
      nlinarith

theorem returns_B (g : Params) (N : Nat) (deg : Nat) (hP0 : 0 ≤ g.P) (hP1 : g.P ≤ 1)
    (hU0 : 0 < g.U) (hU1 : g.U < 1) (hN : 1 ≤ N) (t : Nat) :
    0 ≤ (fill_B g deg N NO zero_trunc_pol).coeff (t + 1) ∧
    0 ≤ (fill_B g deg N YES zero_trunc_pol).coeff (t + 1) ∧
    (fill_B g deg N NO zero_trunc_pol).coeff (t + 1)
        + (fill_B g deg N YES zero_trunc_pol).coeff (t + 1) ≤
      (1 - (1 - g.P)) * tail_B g N t * (1 - g.P) ^ t := by
  have hr : (0 : ℚ) ≤ (1 - g.P) ^ t := pow_nonneg (by linarith) t
  have hf := tail_B_nonneg g N t hU0 hU1 hN
  have ho := OMEGA_nonneg hP0 hU0 hU1 N
  have ho' := _OMEGA_nonneg hP0 hU0 hU1 N
  have hx : 0 ≤ tail_B g N t * (1 - g.P) ^ t := mul_nonneg hf hr
  have hsum := OMEGA_sum_mul g N (tail_B g N t * (1 - g.P) ^ t)
  rw [coef_B_all, coef_B_all, cst_NO, cst_YES]
  by_cases h1 : t + 1 ≤ deg
  · rw [if_pos h1, if_pos h1]
    refine ⟨by nlinarith, by nlinarith, ?_⟩
    linarith
  · rw [if_neg h1, if_neg h1, zero_add]
    refine ⟨le_refl _, le_refl _, ?_⟩
    nlinarith

theorem returns_C (g : Params) (N : Nat) (j : Nat) (hj : j + 2 ≤ g.G) (hP0 : 0 ≤ g.P)
    (hP1 : g.P ≤ 1) (hU0 : 0 < g.U) (hU1 : g.U < 1) (hN : 2 ≤ N) (t : Nat) :
    0 ≤ (fill_C g (g.G - (j + 1)) N NO zero_trunc_pol).coeff (t + 1) ∧
    0 ≤ (fill_C g (g.G - (j + 1)) N YES zero_trunc_pol).coeff (t + 1) ∧
    (fill_C g (g.G - (j + 1)) N NO zero_trunc_pol).coeff (t + 1)
        + (fill_C g (g.G - (j + 1)) N YES zero_trunc_pol).coeff (t + 1) ≤
      (1 - (1 - g.P)) * tail_C g N j t * (1 - g.P) ^ t := by
  have hr : (0 : ℚ) ≤ (1 - g.P) ^ t := pow_nonneg (by linarith) t
  have hf := tail_C_nonneg g N j t hU0 hU1 hN
  have ho := OMEGA_nonneg hP0 hU0 hU1 N
  have ho' := _OMEGA_nonneg hP0 hU0 hU1 N
  have hx : 0 ≤ tail_C g N j t * (1 - g.P) ^ t := mul_nonneg hf hr
  have hsum := OMEGA_sum_mul g N (tail_C g N j t * (1 - g.P) ^ t)
  rw [coef_C_all g N NO j t hj, coef_C_all g N YES j t hj, cst_NO, cst_YES]
  by_cases h1 : t + j + 2 ≤ g.G
  · rw [if_pos h1, if_pos h1]
    refine ⟨by nlinarith, by nlinarith, ?_⟩
    linarith
  · rw [if_neg h1, if_neg h1, zero_add]
    refine ⟨le_refl _, le_refl _, ?_⟩
    nlinarith

theorem returns_D (g : Params) (N : Nat) (deg : Nat) (hP0 : 0 ≤ g.P) (hP1 : g.P ≤ 1)
    (hU0 : 0 < g.U) (hU1 : g.U < 1) (t : Nat) :
    0 ≤ (fill_D g deg N NO zero_trunc_pol).coeff (t + 1) ∧
    0 ≤ (fill_D g deg N YES zero_trunc_pol).coeff (t + 1) ∧
    (fill_D g deg N NO zero_trunc_pol).coeff (t + 1)
        + (fill_D g deg N YES zero_trunc_pol).coeff (t + 1) ≤
      (1 - (1 - g.P)) * (fun _ => (1 : ℚ)) t * (1 - g.P) ^ t := by
  have hr : (0 : ℚ) ≤ (1 - g.P) ^ t := pow_nonneg (by linarith) t
  have ho := OMEGA_nonneg hP0 hU0 hU1 N
  have ho' := _OMEGA_nonneg hP0 hU0 hU1 N
  have hsum := OMEGA_sum_mul g N ((1 - g.P) ^ t)
  rw [coef_D_all, coef_D_all, cst_NO, cst_YES]
  simp only [mul_one]
  by_cases h1 : t + 1 ≤ deg
  · rw [if_pos h1, if_pos h1]
    refine ⟨mul_nonneg ho hr, mul_nonneg ho' hr, ?_⟩
    linarith
  · rw [if_neg h1, if_neg h1, zero_add]
    refine ⟨le_refl _, le_refl _, ?_⟩
    nlinarith

/-! ## Range: the rows weigh at most one -/

theorem tail_bounds (f : ℚ) (x : ℚ) (hf : 0 ≤ f) (hx : 0 ≤ x) (p : Prop) [Decidable p] :
    0 ≤ (if p then f * x else 0) ∧ (if p then f * x else 0) ≤ f * x := by
  split_ifs
  · exact ⟨mul_nonneg hf hx, le_refl _⟩
  · exact ⟨le_refl _, mul_nonneg hf hx⟩

theorem row1_bounds (g : Params) (N : Nat) (hG : 1 ≤ g.G) (hH : g.G ≤ g.HIGH)
    (hP0 : 0 ≤ g.P) (hP1 : g.P ≤ 1) (hU0 : 0 < g.U) (hU1 : g.U < 1) (hN : 1 ≤ N)
    (B : Nat → Nat → ℚ) (c : Nat) (hc : c ≤ g.K)
    (hL : ∀ t, B (2 * g.G + 1) t = 0)
    (hB : ∀ m, 1 ≤ m → m ≤ 2 * g.G → ∀ t, t ≤ c → 0 ≤ B m t ∧ B m t ≤ 1) :
    0 ≤ coefO (M_entry g N 1 (2 * g.G + 1)) c
      + ∑ m in Finset.range (2 * g.G + 2), pol_mul g.K (coefO (M_entry g N 1 m)) (B m) c ∧
    coefO (M_entry g N 1 (2 * g.G + 1)) c
      + ∑ m in Finset.range (2 * g.G + 2), pol_mul g.K (coefO (M_entry g N 1 m)) (B m) c
      ≤ 1 := by
  have e := row1_expand g N hG (fun m p => pol_mul g.K (coefO p) (B m) c)
    (fun m => by
      show pol_mul g.K (coefO none) (B m) c = 0
      rw [coefO_none, pol_mul_zero_left])
  simp only at e
  rw [e, (M_entry_row1 g N hG).2.2.2.2.2, show B (2 * g.G + 1) = fun _ => 0 from funext hL,
    pol_mul_zero_right, add_zero]
  have hr : 0 ≤ 1 - g.P := by linarith
  have hmv := moves_sum_bounds g.K (g.G - 1) 0 c hc
    (fun j => coefO (some (fill_u g (j + 1) N zero_trunc_pol))) B (fun j => j + g.G + 2)
    (fun t => (tail_A g N t - tail_A g N (t + 1)) * (1 - g.P) ^ (t + 1))
    (fun j t _ => coef_u g N j t)
    (fun t => mul_nonneg (tail_A_antitone g N t hU0 hU1) (pow_nonneg hr _))
    (fun j _ hj t ht => hB (j + g.G + 2) (by omega) (by omega) t ht)
  rw [Finset.sum_congr rfl (fun j _ => if_pos (Nat.zero_le j))] at hmv
  have hT := tail_bounds (tail_A g N c) ((1 - g.P) ^ c) (tail_A_nonneg g N c hU0 hU1)
    (pow_nonneg hr c) (c < g.G)
  rw [← coef_T_double_down_all g N hG c] at hT
  exact generic_row_bounds g.K (tail_A g N) (1 - g.P) (tail_A_zero g N hN) c hc _ _ _ _ _ _
    hT.1 hT.2 (coef_A_zero _ _ _ _) (fun t _ => (returns_A g N hH hP0 hP1 hU0 hU1 t).1)
    (coef_A_zero _ _ _ _) (fun t _ => (returns_A g N hH hP0 hP1 hU0 hU1 t).2.1)
    (fun t _ => (returns_A g N hH hP0 hP1 hU0 hU1 t).2.2)
    (fun t ht => hB 1 (le_refl _) (by omega) t (by omega))
    (fun t ht => hB 2 (by omega) (by omega) t (by omega)) hmv.1 hmv.2

theorem row2_bounds (g : Params) (N : Nat) (hG : 1 ≤ g.G)
    (hP0 : 0 ≤ g.P) (hP1 : g.P ≤ 1) (hU0 : 0 < g.U) (hU1 : g.U < 1) (hN : 1 ≤ N)
    (B : Nat → Nat → ℚ) (c : Nat) (hc : c ≤ g.K)
    (hL : ∀ t, B (2 * g.G + 1) t = 0)
    (hB : ∀ m, 1 ≤ m → m ≤ 2 * g.G → ∀ t, t ≤ c → 0 ≤ B m t ∧ B m t ≤ 1) :
    0 ≤ coefO (M_entry g N 2 (2 * g.G + 1)) c
      + ∑ m in Finset.range (2 * g.G + 2), pol_mul g.K (coefO (M_entry g N 2 m)) (B m) c ∧
    coefO (M_entry g N 2 (2 * g.G + 1)) c
      + ∑ m in Finset.range (2 * g.G + 2), pol_mul g.K (coefO (M_entry g N 2 m)) (B m) c
      ≤ 1 := by
  have e := row2_expand g N hG (fun m p => pol_mul g.K (coefO p) (B m) c)
    (fun m => by
      show pol_mul g.K (coefO none) (B m) c = 0
      rw [coefO_none, pol_mul_zero_left])
  simp only at e
  rw [e, (M_entry_row2 g N hG).2.2.2.2.2, show B (2 * g.G + 1) = fun _ => 0 from funext hL,
    pol_mul_zero_right, add_zero, add_assoc (_ + _)]
  have hr : 0 ≤ 1 - g.P := by linarith
  have hd := denom_pos hU0 hU1 N hN
  have hv := moves_sum_bounds g.K (g.G - 1) 0 c hc
    (fun j => coefO (some (fill_v g (j + 1) N zero_trunc_pol))) B (fun j => j + 3)
    (fun t => (aN g.U N ((t + 1 : Nat) : Int) - aN g.U N ((t + 1 - 1 : Nat) : Int)
          - gN g.U N ((t + 1 : Nat) : Int) + dN g.U N ((t + 1 - 1 : Nat) : Int))
          / (1 - (1 - g.U / 3) ^ N) * (1 - g.P) ^ (t + 1))
    (fun j t _ => fill_v_coeff g (j + 1) N t)
    (fun t => mul_nonneg (div_nonneg (by
      rw [show ((t + 1 : Nat) : Int) = (t : Int) + 1 from by push_cast; ring,
        show ((t + 1 - 1 : Nat) : Int) = (t : Int) + 1 - 1 from by omega]
      exact den_nonneg hU0 hU1 N t) (le_of_lt hd)) (pow_nonneg hr _))
    (fun j _ hj t ht => hB (j + 3) (by omega) (by omega) t ht)
  have hw := moves_sum_bounds g.K (g.G - 1) 0 c hc
    (fun j => coefO (some (fill_w g (j + 1) N zero_trunc_pol))) B (fun j => j + g.G + 2)
    (fun t => (gN g.U N ((t + 1 : Nat) : Int) - dN g.U N ((t + 1 - 1 : Nat) : Int))
          / (1 - (1 - g.U / 3) ^ N) * (1 - g.P) ^ (t + 1))
    (fun j t _ => fill_w_coeff g (j + 1) N t)
    (fun t => mul_nonneg (div_nonneg (by
      rw [show ((t + 1 : Nat) : Int) = (t : Int) + 1 from by push_cast; ring,
        show ((t + 1 - 1 : Nat) : Int) = (t : Int) + 1 - 1 from by omega]
      exact numer_w_nonneg hU0 hU1 N t) (le_of_lt hd)) (pow_nonneg hr _))
    (fun j _ hj t ht => hB (j + g.G + 2) (by omega) (by omega) t ht)
  rw [Finset.sum_congr rfl (fun j _ => if_pos (Nat.zero_le j))] at hv hw
  beta_reduce at hv hw
  have hS := (add_le_add hv.2 hw.2).trans (le_of_eq (Finset.sum_add_distrib.symm.trans
    (Finset.sum_congr rfl fun t _ => coef_v_add_w g N t)))
  have hT := tail_bounds (tail_B g N c) ((1 - g.P) ^ c) (tail_B_nonneg g N c hU0 hU1 hN)
    (pow_nonneg hr c) (c ≤ g.HIGH)
  rw [← coef_T_down_all g N c] at hT
  exact generic_row_bounds g.K (tail_B g N) (1 - g.P) (tail_B_zero g N hU0 hU1 hN) c hc
    _ _ _ _ _ _
    hT.1 hT.2 (coef_B_zero _ _ _ _) (fun t _ => (returns_B g N _ hP0 hP1 hU0 hU1 hN t).1)
    (coef_B_zero _ _ _ _) (fun t _ => (returns_B g N _ hP0 hP1 hU0 hU1 hN t).2.1)
    (fun t _ => (returns_B g N _ hP0 hP1 hU0 hU1 hN t).2.2)
    (fun t ht => hB 1 (le_refl _) (by omega) t (by omega))
    (fun t ht => hB 2 (by omega) (by omega) t (by omega)) (add_nonneg hv.1 hw.1) hS

theorem rowC_bounds (g : Params) (N : Nat) (hG : 1 ≤ g.G)
    (hP0 : 0 ≤ g.P) (hP1 : g.P ≤ 1) (hU0 : 0 < g.U) (hU1 : g.U < 1) (hN : 2 ≤ N)
    (j0 : Nat) (hj0 : j0 + 2 ≤ g.G)
    (B : Nat → Nat → ℚ) (c : Nat) (hc : c ≤ g.K)
    (hL : ∀ t, B (2 * g.G + 1) t = 0)
    (hB : ∀ m, 1 ≤ m → m ≤ 2 * g.G → ∀ t, t ≤ c → 0 ≤ B m t ∧ B m t ≤ 1) :
    0 ≤ coefO (M_entry g N (j0 + 3) (2 * g.G + 1)) c
      + ∑ m in Finset.range (2 * g.G + 2),
          pol_mul g.K (coefO (M_entry g N (j0 + 3) m)) (B m) c ∧
    coefO (M_entry g N (j0 + 3) (2 * g.G + 1)) c
      + ∑ m in Finset.range (2 * g.G + 2),
          pol_mul g.K (coefO (M_entry g N (j0 + 3) m)) (B m) c
      ≤ 1 := by
  have e := rowC_expand g N hG j0 (by omega) (fun m p => pol_mul g.K (coefO p) (B m) c)
    (fun m => by
      show pol_mul g.K (coefO none) (B m) c = 0
      rw [coefO_none, pol_mul_zero_left])
  simp only at e
  rw [e, (M_entry_rowC g N hG j0 (by omega)).2.2.2.2.2,
    show B (2 * g.G + 1) = fun _ => 0 from funext hL, pol_mul_zero_right, add_zero]
  have hr : 0 ≤ 1 - g.P := by linarith
  have hmv := moves_sum_bounds g.K (g.G - 1) (j0 + 1) c hc
    (fun j => coefO (some (fill_y g ((j0 + 1 : Nat) : Int) ((j - j0 : Nat) : Int) N
      zero_trunc_pol))) B (fun j => j + g.G + 2)
    (fun t => (tail_C g N j0 t - tail_C g N j0 (t + 1)) * (1 - g.P) ^ (t + 1))
    (fun j t hj => by
      show (fill_y g ((j0 + 1 : Nat) : Int) ((j - j0 : Nat) : Int) N zero_trunc_pol).coeff t
        = _
      rw [show j - j0 = (j - (j0 + 1)) + 1 from by omega]
      exact coef_y g N j0 (j - (j0 + 1)) t)
    (fun t => mul_nonneg (tail_C_antitone g N j0 t hU0 hU1 hN) (pow_nonneg hr _))
    (fun j _ hj t ht => hB (j + g.G + 2) (by omega) (by omega) t ht)
  have hT := tail_bounds (tail_C g N j0 c) ((1 - g.P) ^ c)
    (tail_C_nonneg g N j0 c hU0 hU1 hN) (pow_nonneg hr c) (c + j0 + 2 ≤ g.G)
  rw [← coef_T_sim_all g N j0 c hj0] at hT
  exact generic_row_bounds g.K (tail_C g N j0) (1 - g.P) (tail_C_zero g N hU0 hU1 hN j0) c hc
    _ _ _ _ _ _
    hT.1 hT.2 (coef_C_zero _ _ _ _)
    (fun t _ => (returns_C g N j0 hj0 hP0 hP1 hU0 hU1 hN t).1)
    (coef_C_zero _ _ _ _) (fun t _ => (returns_C g N j0 hj0 hP0 hP1 hU0 hU1 hN t).2.1)
    (fun t _ => (returns_C g N j0 hj0 hP0 hP1 hU0 hU1 hN t).2.2)
    (fun t ht => hB 1 (le_refl _) (by omega) t (by omega))
    (fun t ht => hB 2 (by omega) (by omega) t (by omega)) hmv.1 hmv.2

theorem rowD_bounds (g : Params) (N : Nat) (hG : 1 ≤ g.G)
    (hP0 : 0 ≤ g.P) (hP1 : g.P ≤ 1) (hU0 : 0 < g.U) (hU1 : g.U < 1)
    (j0 : Nat) (hj0 : j0 + 2 ≤ g.G)
    (B : Nat → Nat → ℚ) (c : Nat) (hc : c ≤ g.K)
    (hL : ∀ t, B (2 * g.G + 1) t = 0)
    (hB : ∀ m, 1 ≤ m → m ≤ 2 * g.G → ∀ t, t ≤ c → 0 ≤ B m t ∧ B m t ≤ 1) :
    0 ≤ coefO (M_entry g N (j0 + g.G + 2) (2 * g.G + 1)) c
      + ∑ m in Finset.range (2 * g.G + 2),
          pol_mul g.K (coefO (M_entry g N (j0 + g.G + 2) m)) (B m) c ∧
    coefO (M_entry g N (j0 + g.G + 2) (2 * g.G + 1)) c
      + ∑ m in Finset.range (2 * g.G + 2),
          pol_mul g.K (coefO (M_entry g N (j0 + g.G + 2) m)) (B m) c
      ≤ 1 := by
  have e := rowD_expand g N hG j0 hj0 (fun m p => pol_mul g.K (coefO p) (B m) c)
    (fun m => by
      show pol_mul g.K (coefO none) (B m) c = 0
      rw [coefO_none, pol_mul_zero_left])
  simp only at e
  rw [e, (M_entry_rowD g N hG j0 hj0).2.2.2.2.2,
    show B (2 * g.G + 1) = fun _ => 0 from funext hL, pol_mul_zero_right,
    ← add_zero (pol_mul g.K _ (B 1) c + pol_mul g.K _ (B 2) c), add_assoc (_ + _), add_zero]
  have hr : 0 ≤ 1 - g.P := by linarith
  have hT := tail_bounds 1 ((1 - g.P) ^ c) zero_le_one (pow_nonneg hr c)
    (c ≤ g.G - (j0 + 1) - 1)
  rw [one_mul, ← coef_T_up_all g (g.G - (j0 + 1) - 1) c] at hT
  exact generic_row_bounds g.K (fun _ => 1) (1 - g.P) rfl c hc _ _ _ _ _ _
    hT.1 (hT.2.trans (le_of_eq (one_mul _).symm)) (coef_D_zero _ _ _ _)
    (fun t _ => (returns_D g N _ hP0 hP1 hU0 hU1 t).1)
    (coef_D_zero _ _ _ _) (fun t _ => (returns_D g N _ hP0 hP1 hU0 hU1 t).2.1)
    (fun t _ => (returns_D g N _ hP0 hP1 hU0 hU1 t).2.2)
    (fun t ht => hB 1 (le_refl _) (by omega) t (by omega))
    (fun t ht => hB 2 (by omega) (by omega) t (by omega)) (le_refl _)
    (by simp only [sub_self, zero_mul, Finset.sum_const_zero]; exact le_refl _)

/-! ## Range: the sums of powers -/

/-- From every inner state, the first `n` powers carry at every degree
`≤ K` a weight between 0 and 1. -/
theorem path_sum_bounds (g : Params) (N : Nat) (hG : 1 ≤ g.G) (hH : g.G ≤ g.HIGH)
    (hP0 : 0 ≤ g.P) (hP1 : g.P ≤ 1) (hU0 : 0 < g.U) (hU1 : g.U < 1) (hN1 : 1 ≤ N)
    (hN : 2 ≤ N ∨ g.G = 1) (n : Nat) :
    ∀ m, 1 ≤ m → m ≤ 2 * g.G → ∀ c, c ≤ g.K →
      0 ≤ path_sum g.K (2 * g.G + 2) (cells (matrix_M g N)) n m (2 * g.G + 1) c ∧
      path_sum g.K (2 * g.G + 2) (cells (matrix_M g N)) n m (2 * g.G + 1) c ≤ 1 := by
  have hstep : ∀ n r c, path_sum g.K (2 * g.G + 2) (cells (matrix_M g N)) (n + 1) r
      (2 * g.G + 1) c = coefO (M_entry g N r (2 * g.G + 1)) c
        + ∑ m in Finset.range (2 * g.G + 2), pol_mul g.K (coefO (M_entry g N r m))
            (path_sum g.K (2 * g.G + 2) (cells (matrix_M g N)) n m (2 * g.G + 1)) c := by
    intro n r c
    rw [path_sum_succ, cells_matrix_M g N hG r _ (by omega)]
    congr 1
    refine Finset.sum_congr rfl fun m hm => ?_
    rw [cells_matrix_M g N hG r m (Finset.mem_range.mp hm)]
  have hL : ∀ n t, path_sum g.K (2 * g.G + 2) (cells (matrix_M g N)) n (2 * g.G + 1)
      (2 * g.G + 1) t = 0 := by
    intro n t
    refine path_sum_null_row _ _ _ _ (fun m hm c => ?_) n _ (by omega) t
    rw [cells_matrix_M g N hG _ m hm, M_entry_last g N hG]
    rfl
  induction n with
  | zero =>
    intro m _ _ c _
    unfold path_sum
    rw [Finset.sum_range_zero]
    exact ⟨le_refl _, zero_le_one⟩
  | succ n ih =>
    intro m hm1 hm2 c hc
    rw [hstep]
    have hB : ∀ m, 1 ≤ m → m ≤ 2 * g.G → ∀ t, t ≤ c →
        0 ≤ path_sum g.K (2 * g.G + 2) (cells (matrix_M g N)) n m (2 * g.G + 1) t ∧
        path_sum g.K (2 * g.G + 2) (cells (matrix_M g N)) n m (2 * g.G + 1) t ≤ 1 :=
      fun m h1 h2 t ht => ih m h1 h2 t (by omega)
    rcases inner_cases g.G m hm1 hm2 with rfl | rfl | ⟨j0, rfl, hj0⟩ | ⟨j0, rfl, hj0⟩
    · exact row1_bounds g N hG hH hP0 hP1 hU0 hU1 hN1 _ c hc (hL n) hB
    · exact row2_bounds g N hG hP0 hP1 hU0 hU1 hN1 _ c hc (hL n) hB
    · exact rowC_bounds g N hG hP0 hP1 hU0 hU1 (hN.resolve_right (by omega)) j0 hj0 _ c hc
        (hL n) hB
    · exact rowD_bounds g N hG hP0 hP1 hU0 hU1 j0 hj0 _ c hc (hL n) hB

/-- The sum of the powers `2..n+1` read in row 0 and column `2G+1` has, at
every degree `≤ K`, a coefficient between 0 and 1. -/
theorem power_sum_bounds (g : Params) (N : Nat) (hG : 1 ≤ g.G) (hH : g.G ≤ g.HIGH)
    (hP0 : 0 ≤ g.P) (hP1 : g.P ≤ 1) (hU0 : 0 < g.U) (hU1 : g.U < 1) (hN1 : 1 ≤ N)
    (hN : 2 ≤ N ∨ g.G = 1) (n c : Nat) (hc : c ≤ g.K) :
    0 ≤ ∑ p in Finset.Icc 2 (n + 1),
        mat_pow g.K (2 * g.G + 2) (cells (matrix_M g N)) p 0 (2 * g.G + 1) c ∧
    ∑ p in Finset.Icc 2 (n + 1),
        mat_pow g.K (2 * g.G + 2) (cells (matrix_M g N)) p 0 (2 * g.G + 1) c ≤ 1 := by
  rw [head_row g N hG n _ c hc]
  exact path_sum_bounds g N hG hH hP0 hP1 hU0 hU1 hN1 hN n 1 (le_refl _) (by omega) c hc

end MemProb

namespace MemProb

/-! ## matrix_mult in any order -/

theorem source_order_visits (dim : Nat) : visits_each_once dim (source_order dim) := by
  refine ⟨List.Nodup.product (List.nodup_range _)
    (List.Nodup.product (List.nodup_range _) (List.nodup_range _)), fun i j m => ?_⟩
  unfold source_order
  rw [List.pair_mem_product, List.pair_mem_product, List.mem_range, List.mem_range,
    List.mem_range]

theorem visits_reverse (dim : Nat) (order : List (Nat × Nat × Nat))
    (h : visits_each_once dim order) : visits_each_once dim order.reverse :=
  ⟨List.nodup_reverse.mpr h.1, fun i j m => by rw [List.mem_reverse]; exact h.2 i j m⟩

theorem erase_entries_spec (dim : Nat) (dest : matrix_t)
    (hdest : ∀ x, x < dim * dim → (dest.term x).isSome) :
    ∃ D, erase_entries dim dest = some D ∧ D.dim = dest.dim ∧
      (∀ x, x < dim * dim → D.term x = some zero_trunc_pol) ∧
      (∀ x, dim * dim ≤ x → D.term x = dest.term x) := by
  have key := forLoopM_option_inv
    (fun x (D : matrix_t) => D.dim = dest.dim ∧
      (∀ y, y < x → D.term y = some zero_trunc_pol) ∧ (∀ y, x ≤ y → D.term y = dest.term y))
    (fun x (D : matrix_t) => do
      let _ ← D.term x
      pure (D.set x (some zero_trunc_pol)))
    (dim * dim) 0 dest ⟨rfl, fun y hy => absurd hy (by omega), fun _ _ => rfl⟩
    (by
      intro x D _ hx ⟨h1, h2, h3⟩
      simp only [Nat.zero_add] at hx
      obtain ⟨q, hq⟩ := Option.isSome_iff_exists.mp (hdest x hx)
      have hcur : D.term x = some q := by rw [h3 x (le_refl _), hq]
      refine ⟨D.set x (some zero_trunc_pol), ?_, h1, ?_, ?_⟩
      · simp only [hcur]
        rfl
      · intro y hy
        rw [matrix_t.set_term]
        by_cases hyx : y = x
        · rw [if_pos hyx]
        · rw [if_neg hyx]
          exact h2 y (by omega)
      · intro y hy
        rw [matrix_t.set_term, if_neg (by omega)]
        exact h3 y (by omega))
  obtain ⟨D, hD, h1, h2, h3⟩ := key
  simp only [Nat.zero_add] at h2 h3
  exact ⟨D, hD, h1, h2, h3⟩

theorem cells_of_dim (M : matrix_t) (dim : Nat) (h : M.dim = dim) (i j : Nat) :
    cells M i j = coefO (M.term (i * dim + j)) := by
  funext c
  unfold cells
  rw [h]

/-- One accumulation adds the truncated product of its two operands to the
entry it addresses, at every degree, and leaves the other entries alone. -/
theorem accumulate_term_spec (K dim : Nat) (a b : matrix_t)
    (ha : ∀ x p, x < dim * dim → a.term x = some p → hint_consistent K p)
    (hb : ∀ x p, x < dim * dim → b.term x = some p → hint_consistent K p)
    (dest : matrix_t) (f : Nat → Nat → ℚ) (st : matrix_t × Option trunc_pol_t)
    (hT : st.2.isSome) (hdim : st.1.dim = dest.dim)
    (hin : ∀ x, x < dim * dim →
      st.1.term x = some { mono := { deg := 0, coeff := 0 }, coeff := f x })
    (hout : ∀ x, dim * dim ≤ x → st.1.term x = dest.term x)
    (t : Nat × Nat × Nat) (ht : t.1 < dim ∧ t.2.1 < dim ∧ t.2.2 < dim) :
    ∃ st', accumulate_term K dim a b st t = some st' ∧ st'.2.isSome ∧
      st'.1.dim = dest.dim ∧
      (∀ x, x < dim * dim → st'.1.term x = some
        { mono := { deg := 0, coeff := 0 },
          coeff := fun c => f x c + if t.1 * dim + t.2.1 = x then
            pol_mul K (coefO (a.term (t.1 * dim + t.2.2)))
              (coefO (b.term (t.2.2 * dim + t.2.1))) c else 0 }) ∧
      (∀ x, dim * dim ≤ x → st'.1.term x = dest.term x) := by
  obtain ⟨M, T⟩ := st
  obtain ⟨T0, hT0⟩ := Option.isSome_iff_exists.mp hT
  simp only at hT0 hdim hin hout
  subst hT0
  have hlt : t.1 * dim + t.2.1 < dim * dim := flat_lt ht.1 ht.2.1
  refine ⟨(M.set (t.1 * dim + t.2.1) (some (trunc_pol_update_add K
      { mono := { deg := 0, coeff := 0 }, coeff := f (t.1 * dim + t.2.1) }
      (trunc_pol_mult K T0 (a.term (t.1 * dim + t.2.2)) (b.term (t.2.2 * dim + t.2.1))).1)),
    some (trunc_pol_mult K T0 (a.term (t.1 * dim + t.2.2))
      (b.term (t.2.2 * dim + t.2.1))).2), ?_, rfl, hdim, ?_, ?_⟩
  · unfold accumulate_term
    simp only [hin _ hlt]
    rfl
  · intro x hx
    simp only
    rw [matrix_t.set_term]
    by_cases hxe : x = t.1 * dim + t.2.1
    · rw [if_pos hxe]
      refine congrArg some (trunc_pol_t.eq_of ?_ fun c => ?_)
      · rw [trunc_pol_update_add_mono]
      · rw [trunc_pol_update_add_coeff]
        simp only
        rw [if_pos hxe.symm, hxe]
        by_cases hc : c ≤ K
        · rw [if_pos hc, trunc_pol_mult_coeff K T0 _ _
            (fun p => ha _ p (flat_lt ht.1 ht.2.2))
            (fun p => hb _ p (flat_lt ht.2.2 ht.2.1)) c hc]
        · rw [if_neg hc, pol_mul_above K _ _ c hc, add_zero]
    · rw [if_neg hxe, hin x hx]
      refine congrArg some (trunc_pol_t.eq_of rfl fun c => ?_)
      simp only
      rw [if_neg (fun h => hxe h.symm), add_zero]
  · intro x hx
    simp only
    rw [matrix_t.set_term, if_neg (by omega)]
    exact hout x hx

/-- The accumulations of a list of triples add up, entry by entry. -/
theorem accumulate_list (K dim : Nat) (a b : matrix_t)
    (ha : ∀ x p, x < dim * dim → a.term x = some p → hint_consistent K p)
    (hb : ∀ x p, x < dim * dim → b.term x = some p → hint_consistent K p)
    (dest : matrix_t) (order : List (Nat × Nat × Nat))
    (ht : ∀ t ∈ order, t.1 < dim ∧ t.2.1 < dim ∧ t.2.2 < dim) :
    ∀ (f : Nat → Nat → ℚ) (st : matrix_t × Option trunc_pol_t), st.2.isSome →
      st.1.dim = dest.dim →
      (∀ x, x < dim * dim →
        st.1.term x = some { mono := { deg := 0, coeff := 0 }, coeff := f x }) →
      (∀ x, dim * dim ≤ x → st.1.term x = dest.term x) →
      ∃ st', order.foldlM (accumulate_term K dim a b) st = some st' ∧ st'.2.isSome ∧
        st'.1.dim = dest.dim ∧
        (∀ x, x < dim * dim → st'.1.term x = some
          { mono := { deg := 0, coeff := 0 },
            coeff := fun c => f x c + (order.map fun t =>
              if t.1 * dim + t.2.1 = x then
                pol_mul K (coefO (a.term (t.1 * dim + t.2.2)))
                  (coefO (b.term (t.2.2 * dim + t.2.1))) c else 0).sum }) ∧
        (∀ x, dim * dim ≤ x → st'.1.term x = dest.term x) := by
  induction order with
  | nil =>
    intro f st hT hdim hin hout
    refine ⟨st, rfl, hT, hdim, fun x hx => ?_, hout⟩
    rw [hin x hx]
    refine congrArg some (trunc_pol_t.eq_of rfl fun c => ?_)
    simp only [List.map_nil, List.sum_nil, add_zero]
  | cons t l ih =>
    intro f st hT hdim hin hout
    obtain ⟨st1, h1, hT1, hdim1, hin1, hout1⟩ := accumulate_term_spec K dim a b ha hb dest f st
      hT hdim hin hout t (ht t (List.mem_cons_self _ _))
    obtain ⟨st2, h2, hT2, hdim2, hin2, hout2⟩ := ih
      (fun t' ht' => ht t' (List.mem_cons_of_mem _ ht')) _ st1 hT1 hdim1 hin1 hout1
    refine ⟨st2, ?_, hT2, hdim2, fun x hx => ?_, hout2⟩
    · rw [List.foldlM_cons, h1]
      exact h2
    · rw [hin2 x hx]
      refine congrArg some (trunc_pol_t.eq_of rfl fun c => ?_)
      simp only [List.map_cons, List.sum_cons]
      ring

/-- Over a list that visits every triple once, the contributions to the
entry `(i, j)` are those of `m = 0..dim-1`. -/
theorem visits_sum (dim : Nat) (order : List (Nat × Nat × Nat))
    (ho : visits_each_once dim order) (g : Nat × Nat × Nat → ℚ) (i j : Nat) (hi : i < dim)
    (hj : j < dim) :
    (order.map fun t => if t.1 * dim + t.2.1 = i * dim + j then g t else 0).sum =
      ∑ m in Finset.range dim, g (i, j, m) := by
  rw [← List.sum_toFinset _ ho.1, ← Finset.sum_filter]
  have e : order.toFinset.filter (fun t => t.1 * dim + t.2.1 = i * dim + j) =
      (Finset.range dim).image (fun m => (i, j, m)) := by
    ext ⟨i1, j1, m1⟩
    simp only [Finset.mem_filter, List.mem_toFinset, Finset.mem_image, Finset.mem_range,
      Prod.mk.injEq]
    rw [ho.2]
    constructor
    · rintro ⟨⟨h1, h2, h3⟩, h4⟩
      obtain ⟨e1, e2⟩ := flat_inj h2 hj h4
      exact ⟨m1, h3, e1.symm, e2.symm, rfl⟩
    · rintro ⟨m, hm, e1, e2, e3⟩
      subst e1 e2 e3
      exact ⟨⟨hi, hj, hm⟩, rfl⟩
  rw [e, Finset.sum_image]
  intro x _ y _ h
  simp only [Prod.mk.injEq] at h
  exact h.2.2

end MemProb

namespace MemProb
namespace IEEE

/-! ## Arithmetic of doubles: the facts used below -/

theorem double_nan_add (x : double) : double.nan + x = double.nan := by
  cases x <;> rfl

theorem double_add_nan (x : double) : x + double.nan = double.nan := by
  cases x <;> rfl

theorem double_nan_mul (x : double) : double.nan * x = double.nan := by
  cases x <;> rfl

theorem double_mul_nan (x : double) : x * double.nan = double.nan := by
  cases x <;> rfl

theorem log_two_eq (q : ℚ) (e : Int) (h1 : (2 : ℚ) ^ e ≤ q) (h2 : q < (2 : ℚ) ^ (e + 1)) :
    Int.log 2 q = e := by
  have hq : 0 < q := lt_of_lt_of_le (zpow_pos (by norm_num) e) h1
  have a1 : e ≤ Int.log 2 q := by
    rw [← Int.zpow_le_iff_le_log (by decide) hq]
    exact_mod_cast h1
  have a2 : Int.log 2 q < e + 1 := by
    rw [← Int.lt_zpow_iff_log_lt (by decide) hq]
    exact_mod_cast h2
  omega

theorem rne_int (f : Int) : rne (f : ℚ) = f := by
  unfold rne
  rw [Int.floor_intCast, sub_self, if_pos (by norm_num)]

theorem rne_down (x : ℚ) (f : Int) (h1 : (f : ℚ) ≤ x) (h2 : x < f + 1 / 2) : rne x = f := by
  have hf : ⌊x⌋ = f := Int.floor_eq_iff.mpr ⟨h1, by linarith⟩
  unfold rne
  rw [hf, if_pos (by linarith)]

theorem rne_up (x : ℚ) (f : Int) (h1 : (f : ℚ) + 1 / 2 < x) (h2 : x < f + 1) :
    rne x = f + 1 := by
  have hf : ⌊x⌋ = f := Int.floor_eq_iff.mpr ⟨by linarith, h2⟩
  unfold rne
  rw [hf, if_neg (by linarith), if_pos (by linarith)]

/-- The rounded magnitude of a `q` in the normal range, from its exponent `e`
and the nearest integer `n` to `q / 2^(e-52)`. -/
theorem round_mag_eq (q : ℚ) (e n : Int) (h1 : (2 : ℚ) ^ e ≤ q) (h2 : q < (2 : ℚ) ^ (e + 1))
    (he : -1022 ≤ e) (hn : rne (q / 2 ^ (e - 52)) = n) :
    round_mag q = (n : ℚ) * 2 ^ (e - 52) := by
  unfold round_mag quantum
  rw [log_two_eq q e h1 h2, max_eq_left he, hn]

/-- The product `1.0 * 2^-100` is exact. -/
theorem one_mul_tiny :
    double.fin false 1 * double.fin false (1 / 2 ^ 100) = double.fin false (1 / 2 ^ 100) := by
  show rnd (xor false false) (1 * (1 / 2 ^ 100)) = _
  have h : round_mag (1 * (1 / 2 ^ 100)) = 1 / 2 ^ 100 := by
    rw [round_mag_eq _ (-100) (2 ^ 52) (by norm_num) (by norm_num) (by decide)
      (by
        have e : (1 * (1 / 2 ^ 100) : ℚ) / 2 ^ ((-100 : Int) - 52) = ((2 ^ 52 : Int) : ℚ) := by
          norm_num
        rw [e, rne_int])]
    norm_num
  unfold rnd
  rw [if_neg (by norm_num), h, if_pos (by norm_num)]
  rfl

/-- The quotient `2^-100 / 3.0`, rounded. -/
theorem tiny_div_three :
    double.fin false (1 / 2 ^ 100) / double.fin false 3 =
      double.fin false (6004799503160661 / 2 ^ 154) := by
  show (if (3 : ℚ) = 0 then
      (if (1 / 2 ^ 100 : ℚ) = 0 then double.nan else double.inf (xor false false))
    else rnd (xor false false) (1 / 2 ^ 100 / 3)) = _
  rw [if_neg (by norm_num)]
  have h : round_mag (1 / 2 ^ 100 / 3) = 6004799503160661 / 2 ^ 154 := by
    rw [round_mag_eq _ (-102) 6004799503160661 (by norm_num) (by norm_num) (by decide)
      (rne_down _ _ (by norm_num) (by norm_num))]
    norm_num
  unfold rnd
  rw [if_neg (by norm_num), h, if_pos (by norm_num)]
  rfl

/-- The difference `1.0 - 2^-100/3.0` rounds to `1.0`. -/
theorem one_sub_tiny :
    double.fin false 1 - double.fin false (6004799503160661 / 2 ^ 154) =
      double.fin false 1 := by
  show (if sval false 1 + sval (!false) (6004799503160661 / 2 ^ 154) = 0 then _
    else rnd (decide (sval false 1 + sval (!false) (6004799503160661 / 2 ^ 154) < 0))
      |sval false 1 + sval (!false) (6004799503160661 / 2 ^ 154)|) = _
  have hs : sval false 1 + sval (!false) (6004799503160661 / 2 ^ 154) =
      1 - 6004799503160661 / 2 ^ 154 := by
    simp only [sval, Bool.not_false, if_true, Bool.false_eq_true, if_false]
    ring
  rw [hs, if_neg (by norm_num), abs_of_pos (by norm_num),
    show decide ((1 : ℚ) - 6004799503160661 / 2 ^ 154 < 0) = false from by
      rw [decide_eq_false_iff_not]; norm_num]
  have h : round_mag (1 - 6004799503160661 / 2 ^ 154) = 1 := by
    rw [round_mag_eq _ (-1) (2 ^ 53 - 1 + 1) (by norm_num) (by norm_num) (by decide)
      (rne_up _ _ (by norm_num) (by norm_num))]
    norm_num
  unfold rnd
  rw [if_neg (by norm_num), h, if_pos (by norm_num)]

theorem forLoop_first {σ : Type} (P : σ → Prop) (body : Nat → σ → σ) (n : Nat) (s : σ)
    (h0 : P (body 0 s)) (h : ∀ j s, 1 ≤ j → P s → P (body j s)) :
    P (forLoop 0 (n + 1) body s) :=
  forLoop_inv P body n 1 (body 0 s) h0 fun j s hj _ hs => h j s hj hs

theorem pow_one_double (n : Int) : double.pow (double.fin false 1) n = double.fin false 1 := by
  unfold double.pow
  split_ifs <;> rfl

/-- With `U = 2^-100` the double `1.0 - U/3.0` is `1.0`, so `aN(0)` is
`pow(1.0, N) = 1.0`. -/
theorem aN_tiny (N : Nat) :
    aN (double.fin false (1 / 2 ^ 100)) N ((0 : Nat) : Int) = double.fin false 1 := by
  unfold aN
  have h0 : double.pow (1 - double.fin false (1 / 2 ^ 100)) ((0 : Nat) : Int) =
      double.fin false 1 := by
    unfold double.pow
    rw [if_pos (by simp)]
  rw [h0]
  have h1 : (1 : double) - double.fin false 1 * double.fin false (1 / 2 ^ 100) / 3 =
      double.fin false 1 := by
    show double.fin false 1 - double.fin false 1 * double.fin false (1 / 2 ^ 100) /
      double.fin false 3 = _
    rw [one_mul_tiny, tiny_div_three, one_sub_tiny]
  rw [h1, pow_one_double]

/-- With `U = 2^-100` the denominator `1.0 - pow(1-U/3.0, N)` is `+0.0`. -/
theorem denom_tiny (N : Nat) :
    (1 : double) - double.pow (1 - double.fin false (1 / 2 ^ 100) / 3) N =
      double.fin false 0 := by
  have h1 : (1 : double) - double.fin false (1 / 2 ^ 100) / 3 = double.fin false 1 := by
    show double.fin false 1 - double.fin false (1 / 2 ^ 100) / double.fin false 3 = _
    rw [tiny_div_three, one_sub_tiny]
  rw [h1, pow_one_double]
  show (if sval false 1 + sval (!false) 1 = 0 then double.fin (false && !false) 0
    else rnd (decide (sval false 1 + sval (!false) 1 < 0)) |sval false 1 + sval (!false) 1|) = _
  rw [if_pos (by simp [sval])]
  rfl

/-! ## Truncated polynomials -/

theorem trunc_pol_set_coeff (p : trunc_pol_t) (i : Nat) (v : double) (c : Nat) :
    (p.set i v).coeff c = if c = i then v else p.coeff c := by
  unfold trunc_pol_t.set
  simp only [Function.update_apply]

/-- The coefficient of degree 0 of `T_down`: `(1.0 - aN(0)) / denom * 1.0`. -/
theorem fill_T_down_zero (g : Params) (N : Nat) (new : trunc_pol_t) :
    (fill_T_down g N new).coeff 0 =
      (1 - aN g.U N ((0 : Nat) : Int)) / (1 - double.pow (1 - g.U / 3) N) * 1 ∧
    (fill_T_down g N new).mono = new.mono := by
  unfold fill_T_down
  simp only
  refine forLoop_first (fun st : trunc_pol_t × double => st.1.coeff 0 =
      (1 - aN g.U N ((0 : Nat) : Int)) / (1 - double.pow (1 - g.U / 3) N) * 1 ∧
      st.1.mono = new.mono) _ _ _ ⟨?_, rfl⟩ fun j st hj hst => ⟨?_, hst.2⟩
  · simp only [trunc_pol_set_coeff, if_true]
  · simp only [trunc_pol_set_coeff]
    rw [if_neg (by omega)]
    exact hst.1

/-- With `U = 2^-100` and `N` duplicates the polynomial `T_down` has the
coefficient `0.0/0.0 * 1.0`, a NaN, at degree 0, and no hint. -/
theorem fill_T_down_nan (g : Params) (N : Nat) (hU : g.U = double.fin false (1 / 2 ^ 100)) :
    (fill_T_down g N zero_trunc_pol).coeff 0 = double.nan ∧
    (fill_T_down g N zero_trunc_pol).mono.coeff.nonzero = false := by
  obtain ⟨h1, h2⟩ := fill_T_down_zero g N zero_trunc_pol
  refine ⟨?_, by rw [h2]; rfl⟩
  rw [h1, hU, aN_tiny, denom_tiny]
  have h3 : (1 : double) - double.fin false 1 = double.fin false 0 := by
    show (if sval false 1 + sval (!false) 1 = 0 then double.fin (false && !false) 0
      else rnd (decide (sval false 1 + sval (!false) 1 < 0))
        |sval false 1 + sval (!false) 1|) = _
    rw [if_pos (by simp [sval])]
    rfl
  rw [h3]
  have h4 : double.fin false 0 / double.fin false 0 = double.nan := by
    show (if (0 : ℚ) = 0 then (if (0 : ℚ) = 0 then double.nan else double.inf (xor false false))
      else rnd (xor false false) (0 / 0)) = _
    rw [if_pos rfl, if_pos rfl]
  rw [h4, double_nan_mul]

/-- The standard convolution branch of `trunc_pol_mult` (neither operand
carries a hint): the pointer returned is `dest` and its coefficient of degree
0 is `a->coeff[0] * b->coeff[0]`. -/
theorem trunc_pol_mult_plain_zero (K : Nat) (T a b : trunc_pol_t)
    (ha : a.mono.coeff.nonzero = false) (hb : b.mono.coeff.nonzero = false) :
    ∃ r, (trunc_pol_mult K T (some a) (some b)).1 = some r ∧
      r.coeff 0 = a.coeff 0 * b.coeff 0 := by
  unfold trunc_pol_mult
  simp only
  rw [if_neg (by rw [ha]; simp), if_neg (by rw [ha]; simp), if_neg (by rw [hb]; simp)]
  refine ⟨_, rfl, ?_⟩
  refine forLoop_first (fun d : trunc_pol_t => d.coeff 0 = a.coeff 0 * b.coeff 0) _ _ _ ?_
    fun i d hi hd => ?_
  · show ((T.set 0 (a.coeff 0 * b.coeff 0)).coeff 0 = _)
    rw [trunc_pol_set_coeff, if_pos rfl]
  · refine forLoop_inv (fun d : trunc_pol_t => d.coeff 0 = a.coeff 0 * b.coeff 0) _ _ _ _ ?_
      fun j d' _ _ hd' => ?_
    · show (d.set i _).coeff 0 = _
      rw [trunc_pol_set_coeff, if_neg (by omega)]
      exact hd
    · show (d'.set i _).coeff 0 = _
      rw [trunc_pol_set_coeff, if_neg (by omega)]
      exact hd'

theorem update_add_header (K : Nat) (d : trunc_pol_t) (a : Option trunc_pol_t) :
    (trunc_pol_update_add K d a).mono = d.mono := by
  cases a with
  | none => rfl
  | some a =>
    unfold trunc_pol_update_add
    simp only
    exact forLoop_inv (fun x : trunc_pol_t => x.mono = d.mono) _ _ _ _ rfl
      fun j x _ _ hx => hx

/-- The coefficient of degree 0 after `trunc_pol_update_add(dest, a)`. -/
theorem update_add_zero (K : Nat) (d a : trunc_pol_t) :
    (trunc_pol_update_add K d (some a)).coeff 0 = d.coeff 0 + a.coeff 0 := by
  unfold trunc_pol_update_add
  simp only
  refine forLoop_first (fun x : trunc_pol_t => x.coeff 0 = d.coeff 0 + a.coeff 0) _ _ _ ?_
    fun j x hj hx => ?_
  · show (d.set 0 _).coeff 0 = _
    rw [trunc_pol_set_coeff, if_pos rfl]
  · show (x.set j _).coeff 0 = _
    rw [trunc_pol_set_coeff, if_neg (by omega)]
    exact hx

/-- A NaN at degree 0 of `dest` stays there through
`trunc_pol_update_add(dest, a)`, and a NaN at degree 0 of `a` gets there. -/
theorem update_add_nan (K : Nat) (d : trunc_pol_t) (a : Option trunc_pol_t)
    (h : d.coeff 0 = double.nan ∨ ∃ r, a = some r ∧ r.coeff 0 = double.nan) :
    (trunc_pol_update_add K d a).coeff 0 = double.nan := by
  cases a with
  | none =>
    rcases h with h | ⟨r, hr, _⟩
    · exact h
    · cases hr
  | some a =>
    rw [update_add_zero]
    rcases h with h | ⟨r, hr, hn⟩
    · rw [h, double_nan_add]
    · cases hr
      rw [hn, double_add_nan]

/-! ## matrix_mult over doubles -/

theorem matrix_set_term (M : matrix_t) (x : Nat) (p : Option trunc_pol_t) (y : Nat) :
    (M.set x p).term y = if y = x then p else M.term y := by
  unfold matrix_t.set
  simp only [Function.update_apply]

/-- The innermost loop of `matrix_mult`: the entry `i*dim+j` stays allocated
and without hint, the other entries are not touched, and a product with a NaN
at degree 0 leaves a NaN at degree 0 of the entry. -/
theorem matrix_mult_inner_nan (K dim : Nat) (a b : matrix_t) (i j : Nat)
    (M1 : matrix_t) (T : Option trunc_pol_t) (hT : T.isSome)
    (h1 : M1.term (i * dim + j) = some zero_trunc_pol) :
    ∃ st : matrix_t × Option trunc_pol_t,
      forLoopM 0 dim (fun m (st : matrix_t × Option trunc_pol_t) => do
          let T ← st.2
          let d ← st.1.term (i * dim + j)
          let r := trunc_pol_mult K T (a.term (i * dim + m)) (b.term (m * dim + j))
          pure (st.1.set (i * dim + j) (some (trunc_pol_update_add K d r.1)), some r.2))
        (M1, T) = some st ∧
      st.2.isSome ∧ st.1.dim = M1.dim ∧ (∀ x, x ≠ i * dim + j → st.1.term x = M1.term x) ∧
      ∃ q, st.1.term (i * dim + j) = some q ∧ q.mono = zero_trunc_pol.mono ∧
        ((∃ m0, m0 < dim ∧ ∀ T0, ∃ r,
            (trunc_pol_mult K T0 (a.term (i * dim + m0)) (b.term (m0 * dim + j))).1 = some r ∧
            r.coeff 0 = double.nan) → q.coeff 0 = double.nan) := by
  have key := forLoopM_option_inv
    (fun m (st : matrix_t × Option trunc_pol_t) =>
      st.2.isSome ∧ st.1.dim = M1.dim ∧ (∀ x, x ≠ i * dim + j → st.1.term x = M1.term x) ∧
      ∃ q, st.1.term (i * dim + j) = some q ∧ q.mono = zero_trunc_pol.mono ∧
        ((∃ m0, m0 < m ∧ ∀ T0, ∃ r,
            (trunc_pol_mult K T0 (a.term (i * dim + m0)) (b.term (m0 * dim + j))).1 = some r ∧
            r.coeff 0 = double.nan) → q.coeff 0 = double.nan))
    (fun m (st : matrix_t × Option trunc_pol_t) => do
          let T ← st.2
          let d ← st.1.term (i * dim + j)
          let r := trunc_pol_mult K T (a.term (i * dim + m)) (b.term (m * dim + j))
          pure (st.1.set (i * dim + j) (some (trunc_pol_update_add K d r.1)), some r.2))
    dim 0 (M1, T)
    ⟨hT, rfl, fun _ _ => rfl, zero_trunc_pol, h1, rfl, fun ⟨m0, hm0, _⟩ => absurd hm0 (by omega)⟩
    (by
      rintro m ⟨Mx, Tx⟩ _ hm ⟨hTx, hdimx, hothers, q, hq, hqm, hqn⟩
      simp only at hTx hdimx hothers hq
      obtain ⟨T0, rfl⟩ := Option.isSome_iff_exists.mp hTx
      refine ⟨(Mx.set (i * dim + j) (some (trunc_pol_update_add K q
          (trunc_pol_mult K T0 (a.term (i * dim + m)) (b.term (m * dim + j))).1)),
          some (trunc_pol_mult K T0 (a.term (i * dim + m)) (b.term (m * dim + j))).2),
        by simp only [hq]; rfl, rfl, hdimx, ?_,
        trunc_pol_update_add K q
          (trunc_pol_mult K T0 (a.term (i * dim + m)) (b.term (m * dim + j))).1, ?_, ?_, ?_⟩
      · intro x hx
        simp only [matrix_set_term, if_neg hx]
        exact hothers x hx
      · simp only [matrix_set_term, if_true]
      · rw [update_add_header]
        exact hqm
      · rintro ⟨m0, hm0, hp⟩
        by_cases hlt : m0 < m
        · exact update_add_nan K q _ (Or.inl (hqn ⟨m0, hlt, hp⟩))
        · have hme : m0 = m := by omega
          subst hme
          obtain ⟨r, hr, hrn⟩ := hp T0
          exact update_add_nan K q _ (Or.inr ⟨r, hr, hrn⟩))
  obtain ⟨st, hst, h2, h3, h4, q, h5, h6, h7⟩ := key
  refine ⟨st, hst, h2, h3, h4, q, h5, h6, fun ⟨m0, hm0, hp⟩ => h7 ⟨m0, by omega, hp⟩⟩

/-- With equal dimensions, a scratch buffer and every entry of `dest`
allocated, `matrix_mult` returns `dest` with every entry allocated and
without hint, and the error token as it was. If for some `m0` the product
`a[i0,m0] * b[m0,j0]` has a NaN at degree 0, so has the entry `(i0, j0)` of
`dest`. -/
theorem matrix_mult_nan (K dim : Nat) (dest a b : matrix_t) (TEMP : Option trunc_pol_t)
    (E : Int) (hd : dest.dim = dim) (ha_dim : a.dim = dim) (hb_dim : b.dim = dim)
    (hT : TEMP.isSome) (hdest : ∀ x, x < dim * dim → (dest.term x).isSome) (i0 j0 : Nat) :
    ∃ out, matrix_mult K dest a b TEMP E = some out ∧ out.ERRNO = E ∧ out.TEMP.isSome ∧
      Clean dim out.dest ∧
      ((∃ m0, i0 < dim ∧ j0 < dim ∧ m0 < dim ∧ ∀ T0, ∃ r,
          (trunc_pol_mult K T0 (a.term (i0 * dim + m0)) (b.term (m0 * dim + j0))).1 = some r ∧
          r.coeff 0 = double.nan) →
        ∃ q, out.dest.term (i0 * dim + j0) = some q ∧ q.coeff 0 = double.nan) := by
  unfold matrix_mult
  rw [if_neg (by rw [ha_dim, hb_dim, hd]; simp)]
  simp only
  rw [hd]
  have key := forLoopM_option_inv
    (fun i (st : matrix_t × Option trunc_pol_t) =>
      st.2.isSome ∧ st.1.dim = dim ∧
      (∀ x, x < i * dim → ∃ q, st.1.term x = some q ∧ q.mono = zero_trunc_pol.mono ∧
        ((∃ m0, x = i0 * dim + j0 ∧ i0 < dim ∧ j0 < dim ∧ m0 < dim ∧ ∀ T0, ∃ r,
          (trunc_pol_mult K T0 (a.term (i0 * dim + m0)) (b.term (m0 * dim + j0))).1 = some r ∧
          r.coeff 0 = double.nan) → q.coeff 0 = double.nan)) ∧
      (∀ x, i * dim ≤ x → x < dim * dim → (st.1.term x).isSome))
    (fun i (st : matrix_t × Option trunc_pol_t) =>
      forLoopM 0 dim (fun j (st : matrix_t × Option trunc_pol_t) => do
        let _ ← st.1.term (i * dim + j)
        let st : matrix_t × Option trunc_pol_t :=
          (st.1.set (i * dim + j) (some zero_trunc_pol), st.2)
        forLoopM 0 dim (fun m (st : matrix_t × Option trunc_pol_t) => do
          let T ← st.2
          let d ← st.1.term (i * dim + j)
          let r := trunc_pol_mult K T (a.term (i * dim + m)) (b.term (m * dim + j))
          pure (st.1.set (i * dim + j) (some (trunc_pol_update_add K d r.1)), some r.2))
          st) st)
    dim 0 (dest, TEMP)
    ⟨hT, hd, fun x hx => absurd hx (by omega), fun x _ hx => hdest x hx⟩
    (by
      intro i st0 _ hi hInv0
      simp only [Nat.zero_add] at hi
      have row := forLoopM_option_inv
        (fun j (st : matrix_t × Option trunc_pol_t) =>
          st.2.isSome ∧ st.1.dim = dim ∧
          (∀ x, x < i * dim + j → ∃ q, st.1.term x = some q ∧ q.mono = zero_trunc_pol.mono ∧
            ((∃ m0, x = i0 * dim + j0 ∧ i0 < dim ∧ j0 < dim ∧ m0 < dim ∧ ∀ T0, ∃ r,
              (trunc_pol_mult K T0 (a.term (i0 * dim + m0)) (b.term (m0 * dim + j0))).1
                = some r ∧ r.coeff 0 = double.nan) → q.coeff 0 = double.nan)) ∧
          (∀ x, i * dim + j ≤ x → x < dim * dim → (st.1.term x).isSome))
        (fun j (st : matrix_t × Option trunc_pol_t) => do
          let _ ← st.1.term (i * dim + j)
          let st : matrix_t × Option trunc_pol_t :=
            (st.1.set (i * dim + j) (some zero_trunc_pol), st.2)
          forLoopM 0 dim (fun m (st : matrix_t × Option trunc_pol_t) => do
            let T ← st.2
            let d ← st.1.term (i * dim + j)
            let r := trunc_pol_mult K T (a.term (i * dim + m)) (b.term (m * dim + j))
            pure (st.1.set (i * dim + j) (some (trunc_pol_update_add K d r.1)), some r.2))
            st)
        dim 0 st0
        (by simpa using hInv0)
        (by
          rintro j ⟨Mx, Tx⟩ _ hj ⟨hTx, hdimx, hdone, hrest⟩
          simp only [Nat.zero_add] at hj
          simp only at hTx hdimx hdone hrest
          have hlt : i * dim + j < dim * dim := flat_lt hi hj
          obtain ⟨q0, hq0⟩ := Option.isSome_iff_exists.mp (hrest _ (le_refl _) hlt)
          obtain ⟨st, hst, h2, h3, h4, q, h5, h6, h7⟩ := matrix_mult_inner_nan K dim a b i j
            (Mx.set (i * dim + j) (some zero_trunc_pol)) Tx hTx
            (by simp [matrix_set_term])
          refine ⟨st, ?_, h2, ?_, ?_, ?_⟩
          · simp only [hq0]
            exact hst
          · rw [h3]; exact hdimx
          · intro x hx
            by_cases hxe : x = i * dim + j
            · refine ⟨q, by rw [hxe, h5], h6, ?_⟩
              rintro ⟨m0, hx0, hi0, hj0, hm0, hp⟩
              obtain ⟨e1, e2⟩ := flat_inj hj hj0 (hxe.symm.trans hx0)
              subst e1 e2
              exact h7 ⟨m0, hm0, hp⟩
            · rw [h4 x hxe, matrix_set_term, if_neg hxe]
              exact hdone x (by omega)
          · intro x hx hx2
            have hxe : x ≠ i * dim + j := by omega
            rw [h4 x hxe, matrix_set_term, if_neg hxe]
            exact hrest x (by omega) hx2)
      obtain ⟨st, hst, h2, h3, h4, h5⟩ := row
      have hnext : (i + 1) * dim = i * dim + dim := by ring
      refine ⟨st, hst, h2, h3, ?_, ?_⟩
      · intro x hx; exact h4 x (by omega)
      · intro x hx hx2; exact h5 x (by omega) hx2)
  obtain ⟨st, hst, h2, h3, h4, _⟩ := key
  simp only [Nat.zero_add] at h4
  refine ⟨_, by rw [hst]; rfl, rfl, h2, ⟨h3, fun x hx => ?_⟩, ?_⟩
  · obtain ⟨q, hq, hm, _⟩ := h4 x hx
    exact ⟨q, hq, hm⟩
  · rintro ⟨m0, hi0, hj0, hm0, hp⟩
    obtain ⟨q, hq, _, hn⟩ := h4 _ (flat_lt hi0 hj0)
    exact ⟨q, hq, hn ⟨m0, rfl, hi0, hj0, hm0, hp⟩⟩

/-! ## The sum of the powers over doubles -/

/-- An entry of a matrix without hints times a polynomial without hint whose
coefficient of degree 0 is a NaN: the product has a NaN at degree 0. -/
theorem nan_product (K dim : Nat) (A M : matrix_t) (x y : Nat) (hA : Clean dim A)
    (hx : x < dim * dim) (Td : trunc_pol_t) (hTd : M.term y = some Td)
    (hn : Td.coeff 0 = double.nan) (hh : Td.mono.coeff.nonzero = false) :
    ∀ T0, ∃ r, (trunc_pol_mult K T0 (A.term x) (M.term y)).1 = some r ∧
      r.coeff 0 = double.nan := by
  obtain ⟨q, hq, hm⟩ := hA.2 x hx
  intro T0
  rw [hq, hTd]
  obtain ⟨r, hr, hc⟩ := trunc_pol_mult_plain_zero K T0 q Td (by rw [hm]; rfl) hh
  exact ⟨r, hr, by rw [hc, hn, double_mul_nan]⟩

theorem clean_allocated {dim : Nat} {D : matrix_t} (h : Clean dim D) :
    ∀ x, x < dim * dim → (D.term x).isSome := by
  intro x hx
  obtain ⟨q, hq, _⟩ := h.2 x hx
  rw [hq]
  rfl

/-- One round of the loop of `compute_mem_prob` when the entry `T_down` of
`M` (row 2, column `2G+1`) has a NaN at degree 0: both products are carried
out and `w` has a NaN at degree 0 afterwards. -/
theorem power_round_nan (K G : Nat) (hG : 1 ≤ G) (M : matrix_t) (hM : M.dim = 2 * G + 2)
    (Td : trunc_pol_t) (hTd : M.term (2 * (2 * G + 2) + (2 * G + 1)) = some Td)
    (hn : Td.coeff 0 = double.nan) (hh : Td.mono.coeff.nonzero = false) (x : Work)
    (hT : x.TEMP.isSome) (h1 : Clean (2 * G + 2) x.powM1) (h2 : Clean (2 * G + 2) x.powM2) :
    ∃ y, power_round K G M x = some y ∧ y.ERRNO = x.ERRNO ∧ y.TEMP.isSome ∧
      Clean (2 * G + 2) y.powM1 ∧ Clean (2 * G + 2) y.powM2 ∧
      y.w.coeff 0 = double.nan := by
  obtain ⟨o1, ho1, hE1, hT1, hC1, hN1⟩ := matrix_mult_nan K (2 * G + 2) x.powM2 x.powM1 M
    x.TEMP x.ERRNO h2.1 h1.1 hM hT (clean_allocated h2) 0 (2 * G + 1)
  obtain ⟨q, hq, hqn⟩ := hN1 ⟨2, by omega, by omega, by omega,
    nan_product K (2 * G + 2) x.powM1 M (0 * (2 * G + 2) + 2)
      (2 * (2 * G + 2) + (2 * G + 1)) h1
      (flat_lt (show 0 < 2 * G + 2 from by omega) (show 2 < 2 * G + 2 from by omega))
      Td hTd hn hh⟩
  rw [Nat.zero_mul, Nat.zero_add] at hq
  obtain ⟨o2, ho2, hE2, hT2, hC2, _⟩ := matrix_mult_nan K (2 * G + 2) x.powM1 o1.dest M
    o1.TEMP o1.ERRNO h1.1 hC1.1 hM hT1 (clean_allocated h1) 0 0
  refine ⟨{ w := trunc_pol_update_add K
                (trunc_pol_update_add K x.w (o1.dest.term (2 * G + 1)))
                (o2.dest.term (2 * G + 1))
            powM1 := o2.dest
            powM2 := o1.dest
            TEMP := o2.TEMP
            ERRNO := o2.ERRNO }, ?_, ?_, hT2, hC2, hC1, ?_⟩
  · unfold power_round
    simp only [ho1, Option.bind_eq_bind, Option.some_bind, ho2]
    rfl
  · show o2.ERRNO = x.ERRNO
    rw [hE2, hE1]
  · show (trunc_pol_update_add K (trunc_pol_update_add K x.w _) _).coeff 0 = _
    exact update_add_nan K _ _ (Or.inl (update_add_nan K _ _ (Or.inr ⟨q, hq, hqn⟩)))

/-- Lines 901-910 of `compute_mem_prob` when the entry `T_down` of `M` has a
NaN at degree 0: all the products are carried out and `w` ends with a NaN at
degree 0. -/
theorem sum_of_powers_nan (K G : Nat) (hG : 1 ≤ G) (M : matrix_t) (hM : M.dim = 2 * G + 2)
    (Td : trunc_pol_t) (hTd : M.term (2 * (2 * G + 2) + (2 * G + 1)) = some Td)
    (hn : Td.coeff 0 = double.nan) (hh : Td.mono.coeff.nonzero = false) (x : Work)
    (hT : x.TEMP.isSome) (h1 : Clean (2 * G + 2) x.powM1) (h2 : Clean (2 * G + 2) x.powM2) :
    ∃ y, sum_of_powers K G M x = some y ∧ y.ERRNO = x.ERRNO ∧ y.TEMP.isSome ∧
      y.w.coeff 0 = double.nan := by
  obtain ⟨o1, ho1, hE1, hT1, hC1, _⟩ := matrix_mult_nan K (2 * G + 2) x.powM1 M M
    x.TEMP x.ERRNO h1.1 hM hM hT (clean_allocated h1) 0 0
  have key := forLoopM_option_inv
    (fun t (y : Work) => y.ERRNO = x.ERRNO ∧ y.TEMP.isSome ∧
      Clean (2 * G + 2) y.powM1 ∧ Clean (2 * G + 2) y.powM2 ∧
      (1 ≤ t → y.w.coeff 0 = double.nan))
    (fun _ (x : Work) => power_round K G M x) 10 0
    { x with powM1 := o1.dest, TEMP := o1.TEMP, ERRNO := o1.ERRNO,
             w := trunc_pol_update_add K x.w (o1.dest.term (2 * G + 1)) }
    ⟨hE1, hT1, hC1, h2, fun h => absurd h (by omega)⟩
    (by
      rintro t y _ _ ⟨hE, hTy, hP, hA, _⟩
      obtain ⟨z, hz, hzE, hzT, hzP, hzA, hzw⟩ :=
        power_round_nan K G hG M hM Td hTd hn hh y hTy hP hA
      exact ⟨z, hz, by rw [hzE, hE], hzT, hzP, hzA, fun _ => hzw⟩)
  obtain ⟨y, hy, hyE, hyT, _, _, hyw⟩ := key
  refine ⟨y, ?_, hyE, hyT, hyw (by omega)⟩
  unfold sum_of_powers
  simp only [ho1, Option.bind_eq_bind, Option.some_bind]
  exact hy

/-! ## A configuration whose result is a NaN -/

/-- The four allocations of `compute_mem_prob(2, k)` for `G = K = 1`, all
served: `M` has dimension 4 and its entry 11 (row 2, column 3) is `T_down`. -/
theorem allocate_work_small (P U : double) :
    ∃ M Z1 Z2, allocate_work { G := 1, K := 1, HIGH := 1, P := P, U := U, KSZ := 32 } 2
        { ERRNO := 0, mem := [] } =
        (some (zero_trunc_pol, M, Z1, Z2), { ERRNO := 0, mem := [] }) ∧
      M.dim = 4 ∧
      M.term 11 = some (fill_T_down { G := 1, K := 1, HIGH := 1, P := P, U := U, KSZ := 32 } 2
        zero_trunc_pol) ∧
      Clean 4 Z1 ∧ Clean 4 Z2 := by
  refine ⟨_, _, _, rfl, rfl, rfl, ⟨rfl, fun x hx => ?_⟩, ⟨rfl, fun x hx => ?_⟩⟩
  · interval_cases x <;> exact ⟨_, rfl, rfl⟩
  · interval_cases x <;> exact ⟨_, rfl, rfl⟩

/-- The numbers `0.5` and `2^-100` are doubles: rounding leaves them as they
are. -/
theorem small_parameters_exact :
    rnd false (1 / 2) = double.fin false (1 / 2) ∧
    rnd false (1 / 2 ^ 100) = double.fin false (1 / 2 ^ 100) := by
  have h1 : round_mag (1 / 2) = 1 / 2 := by
    rw [round_mag_eq _ (-1) (2 ^ 52) (by norm_num) (by norm_num) (by decide)
      (by
        have e : (1 / 2 : ℚ) / 2 ^ ((-1 : Int) - 52) = ((2 ^ 52 : Int) : ℚ) := by norm_num
        rw [e, rne_int])]
    norm_num
  have h2 : round_mag (1 / 2 ^ 100) = 1 / 2 ^ 100 := by
    rw [round_mag_eq _ (-100) (2 ^ 52) (by norm_num) (by norm_num) (by decide)
      (by
        have e : (1 / 2 ^ 100 : ℚ) / 2 ^ ((-100 : Int) - 52) = ((2 ^ 52 : Int) : ℚ) := by
          norm_num
        rw [e, rne_int])]
    norm_num
  constructor
  · unfold rnd
    rw [if_neg (by norm_num), h1, if_pos (by norm_num)]
  · unfold rnd
    rw [if_neg (by norm_num), h2, if_pos (by norm_num)]

/-- The call `set_params_mem_prob(1, 1, 0.5, 2^-100)` at program start. -/
theorem set_params_small :
    set_params_mem_prob 1 1 (double.fin false (1 / 2)) (double.fin false (1 / 2 ^ 100))
        (Session.init []) =
      (SUCCESS, { G := 1, K := 1, HIGH := 1, P := double.fin false (1 / 2),
                  U := double.fin false (1 / 2 ^ 100), KSZ := 32, ERRNO := 0, mem := [],
                  TEMP := some zero_trunc_pol, ARRAY := fun _ => none }) := by
  have h1 : ¬ (double.le (double.fin false (1 / 2)) 0 = true ∨
      double.le 1 (double.fin false (1 / 2)) = true) := by
    show ¬ (decide (sval false (1 / 2) ≤ sval false 0) = true ∨
      decide (sval false 1 ≤ sval false (1 / 2)) = true)
    simp only [sval, Bool.false_eq_true, if_false, decide_eq_true_eq]
    norm_num
  have h2 : ¬ (double.le (double.fin false (1 / 2 ^ 100)) 0 = true ∨
      double.le 1 (double.fin false (1 / 2 ^ 100)) = true) := by
    show ¬ (decide (sval false (1 / 2 ^ 100) ≤ sval false 0) = true ∨
      decide (sval false 1 ≤ sval false (1 / 2 ^ 100)) = true)
    simp only [sval, Bool.false_eq_true, if_false, decide_eq_true_eq]
    norm_num
  unfold set_params_mem_prob
  rw [if_neg h1, if_neg h2]
  rfl

/-- After `set_params_mem_prob(1, 1, 0.5, 2^-100)` the call
`compute_mem_prob(2, 0)` leaves through the normal exit, stores `w` in
`ARRAY[2]`, leaves the error token at 0 and returns a NaN. -/
theorem compute_mem_prob_small_nan :
    ∃ s', compute_mem_prob 2 0
        { G := 1, K := 1, HIGH := 1, P := double.fin false (1 / 2),
          U := double.fin false (1 / 2 ^ 100), KSZ := 32, ERRNO := 0, mem := [],
          TEMP := some zero_trunc_pol, ARRAY := fun _ => none } =
        some (some double.nan, s') ∧ s'.ERRNO = 0 ∧ (s'.ARRAY 2).isSome := by
  obtain ⟨M, Z1, Z2, hw, hMd, hM11, hZ1, hZ2⟩ :=
    allocate_work_small (double.fin false (1 / 2)) (double.fin false (1 / 2 ^ 100))
  obtain ⟨hn, hh⟩ := fill_T_down_nan
    { G := 1, K := 1, HIGH := 1, P := double.fin false (1 / 2),
      U := double.fin false (1 / 2 ^ 100), KSZ := 32 } 2 rfl
  obtain ⟨y, hy, hyE, _, hyw⟩ := sum_of_powers_nan 1 1 (le_refl _) M hMd _ hM11 hn hh
    { w := zero_trunc_pol, powM1 := Z1, powM2 := Z2, TEMP := some zero_trunc_pol, ERRNO := 0 }
    rfl hZ1 hZ2
  refine ⟨{ G := 1, K := 1, HIGH := 1, P := double.fin false (1 / 2),
            U := double.fin false (1 / 2 ^ 100), KSZ := 32, ERRNO := y.ERRNO, mem := [],
            TEMP := y.TEMP, ARRAY := Function.update (fun _ => none) 2 (some y.w) }, ?_, hyE, ?_⟩
  · unfold compute_mem_prob
    rw [if_neg (by decide), if_neg (by decide)]
    simp only [hw, hy, Option.map_some']
    rw [hyw]
  · show (Function.update (fun _ => none) 2 (some y.w) 2 : Option trunc_pol_t).isSome = true
    rw [Function.update_same]
    rfl

end IEEE
end MemProb

namespace MemProb

/-- C3. A query with `N > MAXN-1` (that is `N ≥ 1024`) or `k > K` returns `nan`
through the failure exit, leaves a non-zero error token, and changes neither
the parameters `G, K, P, U, HIGH` nor any entry of the memoisation table
(nor the scratch buffer). -/
theorem compute_mem_prob_rejects_out_of_range (N k : Nat) (s : Session)
    (h : N ≥ 1024 ∨ k > s.K) :
    ∃ s', compute_mem_prob N k s = some (none, s') ∧ get_mem_prob_error_code s' ≠ 0 ∧
      s'.G = s.G ∧ s'.K = s.K ∧ s'.P = s.P ∧ s'.U = s.U ∧ s'.HIGH = s.HIGH ∧
      s'.ARRAY = s.ARRAY ∧ s'.TEMP = s.TEMP := by
  unfold compute_mem_prob get_mem_prob_error_code
  by_cases h1 : N > MAXN - 1
  · rw [if_pos h1]
    exact ⟨_, rfl, by simp, rfl, rfl, rfl, rfl, rfl, rfl, rfl⟩
  · have hk : k > s.K := by
      rcases h with h | h
      · exact absurd (show N > MAXN - 1 by unfold MAXN; omega) h1
      · exact h
    rw [if_neg h1, if_pos hk]
    exact ⟨_, rfl, by simp, rfl, rfl, rfl, rfl, rfl, rfl, rfl⟩

theorem compute_mem_prob_rejects_out_of_range_witness :
    (1025 ≥ 1024 ∨ 10 > (Session.init []).K) ∧
    ∃ s', compute_mem_prob 1025 10 (Session.init []) = some (none, s') ∧
      get_mem_prob_error_code s' ≠ 0 ∧
      s'.G = (Session.init []).G ∧ s'.K = (Session.init []).K ∧ s'.P = (Session.init []).P ∧
      s'.U = (Session.init []).U ∧ s'.HIGH = (Session.init []).HIGH ∧
      s'.ARRAY = (Session.init []).ARRAY ∧ s'.TEMP = (Session.init []).TEMP :=
  ⟨Or.inl (by decide),
    compute_mem_prob_rejects_out_of_range 1025 10 (Session.init []) (Or.inl (by decide))⟩

/-- C5. Memoisation reuse and idempotence. In a state whose table holds a
polynomial `w` for `N` (`N ≤ MAXN-1`), `compute_mem_prob(N, k')` with `k' ≤ K`
returns the degree-`k'` coefficient of `w` and leaves the whole state as it
was. Any call that returned a number `v` in state `s'` has left such a
polynomial in the table, with `v` its degree-`k` coefficient, so every later
call for the same `N` is answered from it without a change of state and the
same call again returns the same `v`. -/
theorem compute_mem_prob_memoised (N : Nat) (s : Session) (w : trunc_pol_t)
    (hN : N ≤ MAXN - 1) (hw : s.ARRAY N = some w) :
    (∀ k', k' ≤ s.K → compute_mem_prob N k' s = some (some (w.coeff k'), s)) ∧
    (∀ k v s', compute_mem_prob N k s = some (some v, s') → s' = s) ∧
    (∀ (s0 : Session) k v, compute_mem_prob N k s0 = some (some v, s) →
      v = w.coeff k ∧ compute_mem_prob N k s = some (some v, s)) := by
  refine ⟨fun k' hk => compute_mem_prob_of_cached hN hk hw, ?_, ?_⟩
  · intro k v s' h
    have hk := (compute_mem_prob_some_inv h).2.1
    rw [compute_mem_prob_of_cached hN hk hw] at h
    simp only [Option.some.injEq, Prod.mk.injEq] at h
    exact h.2.symm
  · intro s0 k v h
    obtain ⟨_, hk, hp, _, w', hw', hv⟩ := compute_mem_prob_some_inv h
    rw [hw] at hw'
    cases hw'
    have hk' : k ≤ s.K := by
      have : s.K = s0.K := congrArg Params.K hp
      omega
    exact ⟨hv, by rw [hv]; exact compute_mem_prob_of_cached hN hk' hw⟩

theorem compute_mem_prob_memoised_witness :
    (∀ k', k' ≤ ({ Session.init [] with ARRAY := fun _ => some zero_trunc_pol } : Session).K →
      compute_mem_prob 7 k' { Session.init [] with ARRAY := fun _ => some zero_trunc_pol } =
        some (some (zero_trunc_pol.coeff k'),
          { Session.init [] with ARRAY := fun _ => some zero_trunc_pol })) ∧
    (∀ k v s', compute_mem_prob 7 k
        { Session.init [] with ARRAY := fun _ => some zero_trunc_pol } = some (some v, s') →
      s' = { Session.init [] with ARRAY := fun _ => some zero_trunc_pol }) ∧
    (∀ (s0 : Session) k v, compute_mem_prob 7 k s0 =
        some (some v, { Session.init [] with ARRAY := fun _ => some zero_trunc_pol }) →
      v = zero_trunc_pol.coeff k ∧
      compute_mem_prob 7 k { Session.init [] with ARRAY := fun _ => some zero_trunc_pol } =
        some (some v, { Session.init [] with ARRAY := fun _ => some zero_trunc_pol })) :=
  compute_mem_prob_memoised 7 { Session.init [] with ARRAY := fun _ => some zero_trunc_pol }
    zero_trunc_pol (by decide) rfl

end MemProb

namespace MemProb

theorem FAILURE_ne_SUCCESS : FAILURE ≠ SUCCESS := by decide

theorem handle_calloc_nil {α : Type} (line : Int) (z : α) (e : Eff) (h : e.mem = []) :
    handle_memory_error line (calloc z) e = (some z, e) := by
  simp only [handle_memory_error, calloc, h]

theorem handle_calloc_true {α : Type} (line : Int) (z : α) (e : Eff) (rest : List Bool)
    (h : e.mem = true :: rest) :
    handle_memory_error line (calloc z) e = (some z, { e with mem := rest }) := by
  simp only [handle_memory_error, calloc, h, if_true]

theorem handle_calloc_false {α : Type} (line : Int) (z : α) (e : Eff) (rest : List Bool)
    (h : e.mem = false :: rest) :
    handle_memory_error line (calloc z) e = (none, { ERRNO := line, mem := rest }) := by
  simp [handle_memory_error, calloc, h]

theorem set_params_mem_prob_bad_p {g k : Nat} {p u : ℚ} {s : Session} (h : p ≤ 0 ∨ p ≥ 1) :
    set_params_mem_prob g k p u s = (FAILURE, { s with ERRNO := 136 }) := by
  unfold set_params_mem_prob
  rw [if_pos h]

theorem set_params_mem_prob_bad_u {g k : Nat} {p u : ℚ} {s : Session} (h1 : ¬ (p ≤ 0 ∨ p ≥ 1))
    (h : u ≤ 0 ∨ u ≥ 1) :
    set_params_mem_prob g k p u s = (FAILURE, { s with ERRNO := 143 }) := by
  unfold set_params_mem_prob
  rw [if_neg h1, if_pos h]

theorem set_params_mem_prob_good {g k : Nat} {p u : ℚ} {s : Session} (h1 : ¬ (p ≤ 0 ∨ p ≥ 1))
    (h2 : ¬ (u ≤ 0 ∨ u ≥ 1)) :
    set_params_mem_prob g k p u s =
      match handle_memory_error 167 new_zero_trunc_pol s.toEff with
      | (some t, e) => (SUCCESS,
          { G := g, K := k, HIGH := if k > g then k else g, P := p, U := u,
            KSZ := (16 + (k + 1) * 8) % 2 ^ 64, toEff := e, TEMP := some t,
            ARRAY := fun _ => none })
      | (none, e) => (FAILURE,
          { G := g, K := k, HIGH := if k > g then k else g, P := p, U := u,
            KSZ := (16 + (k + 1) * 8) % 2 ^ 64, toEff := e, TEMP := none,
            ARRAY := fun _ => none }) := by
  unfold set_params_mem_prob
  exact (if_neg h1).trans ((if_neg h2).trans rfl)

/-- The state a successful `set_params_mem_prob(g, k, p, u)` leaves: it keeps
nothing of the previous state but the error token and the allocator. -/
theorem set_params_mem_prob_success {g k : Nat} {p u : ℚ} {s : Session}
    (h : (set_params_mem_prob g k p u s).1 = SUCCESS) :
    ∃ mem, (set_params_mem_prob g k p u s).2 =
      { G := g, K := k, HIGH := if k > g then k else g, P := p, U := u,
        KSZ := (16 + (k + 1) * 8) % 2 ^ 64, ERRNO := s.ERRNO, mem := mem,
        TEMP := some zero_trunc_pol, ARRAY := fun _ => none } ∧
      (mem = s.mem ∨ s.mem = true :: mem) := by
  by_cases h1 : p ≤ 0 ∨ p ≥ 1
  · rw [set_params_mem_prob_bad_p h1] at h; exact absurd h FAILURE_ne_SUCCESS
  by_cases h2 : u ≤ 0 ∨ u ≥ 1
  · rw [set_params_mem_prob_bad_u h1 h2] at h; exact absurd h FAILURE_ne_SUCCESS
  rw [set_params_mem_prob_good h1 h2] at h ⊢
  unfold new_zero_trunc_pol at h ⊢
  cases hm : s.mem with
  | nil =>
    rw [handle_calloc_nil 167 _ _ hm]
    exact ⟨s.mem, rfl, Or.inl hm⟩
  | cons b rest =>
    cases b with
    | true =>
      rw [handle_calloc_true 167 _ _ rest hm]
      exact ⟨rest, rfl, Or.inr rfl⟩
    | false =>
      rw [handle_calloc_false 167 _ _ rest hm] at h
      exact absurd h FAILURE_ne_SUCCESS

/-- C6. Provided the allocation of the scratch buffer is served,
`set_params_mem_prob(g, k, p, u)` returns `FAILURE` exactly when `p ≤ 0`,
`p ≥ 1`, `u ≤ 0` or `u ≥ 1`; and then the parameters (`G, K, HIGH, P, U`,
`KSZ`), the scratch buffer, the memoisation table and the allocator are as
before the call, and the error token is non-zero. -/
theorem set_params_mem_prob_failure (g k : Nat) (p u : ℚ) (s : Session)
    (hmem : s.mem.head? ≠ some false) :
    ((set_params_mem_prob g k p u s).1 = FAILURE ↔ (p ≤ 0 ∨ p ≥ 1 ∨ u ≤ 0 ∨ u ≥ 1)) ∧
    ((set_params_mem_prob g k p u s).1 = FAILURE →
      (set_params_mem_prob g k p u s).2.toParams = s.toParams ∧
      (set_params_mem_prob g k p u s).2.TEMP = s.TEMP ∧
      (set_params_mem_prob g k p u s).2.ARRAY = s.ARRAY ∧
      (set_params_mem_prob g k p u s).2.mem = s.mem ∧
      get_mem_prob_error_code (set_params_mem_prob g k p u s).2 ≠ 0) := by
  unfold get_mem_prob_error_code
  by_cases h1 : p ≤ 0 ∨ p ≥ 1
  · rw [set_params_mem_prob_bad_p h1]
    refine ⟨⟨fun _ => ?_, fun _ => rfl⟩, fun _ => ⟨rfl, rfl, rfl, rfl, by simp⟩⟩
    rcases h1 with h1 | h1
    · exact Or.inl h1
    · exact Or.inr (Or.inl h1)
  by_cases h2 : u ≤ 0 ∨ u ≥ 1
  · rw [set_params_mem_prob_bad_u h1 h2]
    refine ⟨⟨fun _ => ?_, fun _ => rfl⟩, fun _ => ⟨rfl, rfl, rfl, rfl, by simp⟩⟩
    rcases h2 with h2 | h2
    · exact Or.inr (Or.inr (Or.inl h2))
    · exact Or.inr (Or.inr (Or.inr h2))
  have hgood : ¬ (p ≤ 0 ∨ p ≥ 1 ∨ u ≤ 0 ∨ u ≥ 1) := by
    rintro (h | h | h | h)
    · exact h1 (Or.inl h)
    · exact h1 (Or.inr h)
    · exact h2 (Or.inl h)
    · exact h2 (Or.inr h)
  rw [set_params_mem_prob_good h1 h2]
  unfold new_zero_trunc_pol
  cases hm : s.mem with
  | nil =>
    rw [handle_calloc_nil 167 _ _ hm]
    exact ⟨⟨fun h => absurd h.symm FAILURE_ne_SUCCESS, fun h => absurd h hgood⟩,
      fun h => absurd h.symm FAILURE_ne_SUCCESS⟩
  | cons b rest =>
    cases b with
    | true =>
      rw [handle_calloc_true 167 _ _ rest hm]
      exact ⟨⟨fun h => absurd h.symm FAILURE_ne_SUCCESS, fun h => absurd h hgood⟩,
        fun h => absurd h.symm FAILURE_ne_SUCCESS⟩
    | false => rw [hm] at hmem; exact absurd rfl hmem

theorem set_params_mem_prob_failure_witness :
    (Session.init []).mem.head? ≠ some false ∧
    (((set_params_mem_prob 10 40 0 (1/10) (Session.init [])).1 = FAILURE ↔
        ((0 : ℚ) ≤ 0 ∨ (0 : ℚ) ≥ 1 ∨ (1/10 : ℚ) ≤ 0 ∨ (1/10 : ℚ) ≥ 1)) ∧
    ((set_params_mem_prob 10 40 0 (1/10) (Session.init [])).1 = FAILURE →
      (set_params_mem_prob 10 40 0 (1/10) (Session.init [])).2.toParams
        = (Session.init []).toParams ∧
      (set_params_mem_prob 10 40 0 (1/10) (Session.init [])).2.TEMP = (Session.init []).TEMP ∧
      (set_params_mem_prob 10 40 0 (1/10) (Session.init [])).2.ARRAY
        = (Session.init []).ARRAY ∧
      (set_params_mem_prob 10 40 0 (1/10) (Session.init [])).2.mem = (Session.init []).mem ∧
      get_mem_prob_error_code (set_params_mem_prob 10 40 0 (1/10) (Session.init [])).2 ≠ 0)) :=
  ⟨by simp [Session.init],
    set_params_mem_prob_failure 10 40 0 (1/10) (Session.init []) (by simp [Session.init])⟩

/-- C7. After a successful `set_params_mem_prob(g, k, p, u)`: `G = g`, `K = k`,
`P = p`, `U = u`, `HIGH = max(G, K)`, every entry of the memoisation table is
empty, and the state holds nothing of the previous configuration: two
previous states with the same error token and allocator lead to the same
state, so no later `compute_mem_prob` can return a coefficient cached under
the previous configuration. -/
theorem set_params_mem_prob_invalidates (g k : Nat) (p u : ℚ) (s : Session)
    (h : (set_params_mem_prob g k p u s).1 = SUCCESS) :
    (set_params_mem_prob g k p u s).2.G = g ∧ (set_params_mem_prob g k p u s).2.K = k ∧
    (set_params_mem_prob g k p u s).2.P = p ∧ (set_params_mem_prob g k p u s).2.U = u ∧
    (set_params_mem_prob g k p u s).2.HIGH = max g k ∧
    (∀ n, (set_params_mem_prob g k p u s).2.ARRAY n = none) ∧
    (∀ t : Session, t.ERRNO = s.ERRNO → t.mem = s.mem →
      set_params_mem_prob g k p u t = set_params_mem_prob g k p u s) := by
  obtain ⟨mem, hs, _⟩ := set_params_mem_prob_success h
  refine ⟨by rw [hs], by rw [hs], by rw [hs], by rw [hs], ?_, fun n => by rw [hs], ?_⟩
  · rw [hs]
    show (if k > g then k else g) = max g k
    split_ifs with hk
    · exact (max_eq_right (le_of_lt hk)).symm
    · exact (max_eq_left (not_lt.mp hk)).symm
  · intro t hE hM
    have ht : t.toEff = s.toEff := by
      show (⟨t.ERRNO, t.mem⟩ : Eff) = ⟨s.ERRNO, s.mem⟩
      rw [hE, hM]
    by_cases h1 : p ≤ 0 ∨ p ≥ 1
    · rw [set_params_mem_prob_bad_p h1] at h; exact absurd h FAILURE_ne_SUCCESS
    by_cases h2 : u ≤ 0 ∨ u ≥ 1
    · rw [set_params_mem_prob_bad_u h1 h2] at h; exact absurd h FAILURE_ne_SUCCESS
    rw [set_params_mem_prob_good h1 h2, set_params_mem_prob_good h1 h2, ht]

theorem set_params_mem_prob_invalidates_witness :
    (set_params_mem_prob 17 50 (1/100) (1/20) (Session.init [])).1 = SUCCESS ∧
    ((set_params_mem_prob 17 50 (1/100) (1/20) (Session.init [])).2.G = 17 ∧
    (set_params_mem_prob 17 50 (1/100) (1/20) (Session.init [])).2.K = 50 ∧
    (set_params_mem_prob 17 50 (1/100) (1/20) (Session.init [])).2.P = 1/100 ∧
    (set_params_mem_prob 17 50 (1/100) (1/20) (Session.init [])).2.U = 1/20 ∧
    (set_params_mem_prob 17 50 (1/100) (1/20) (Session.init [])).2.HIGH = max 17 50 ∧
    (∀ n, (set_params_mem_prob 17 50 (1/100) (1/20) (Session.init [])).2.ARRAY n = none) ∧
    (∀ t : Session, t.ERRNO = (Session.init []).ERRNO → t.mem = (Session.init []).mem →
      set_params_mem_prob 17 50 (1/100) (1/20) t
        = set_params_mem_prob 17 50 (1/100) (1/20) (Session.init []))) :=
  ⟨by norm_num [set_params_mem_prob, handle_memory_error, new_zero_trunc_pol, calloc,
      Session.init],
    set_params_mem_prob_invalidates 17 50 (1/100) (1/20) (Session.init [])
      (by norm_num [set_params_mem_prob, handle_memory_error, new_zero_trunc_pol, calloc,
        Session.init])⟩

/-- C8 (as the claim states it, refuted). After a failed query (error token
877) a successful `set_params_mem_prob` still shows the error token 877. -/
theorem set_params_mem_prob_keeps_error_token_example :
    ∃ s1, compute_mem_prob 1025 10 (Session.init []) = some (none, s1) ∧
      (set_params_mem_prob 17 50 (1/100) (1/20) s1).1 = SUCCESS ∧
      get_mem_prob_error_code (set_params_mem_prob 17 50 (1/100) (1/20) s1).2 = 877 := by
  refine ⟨{ Session.init [] with ERRNO := 877 }, by simp [compute_mem_prob, MAXN], ?_, ?_⟩ <;>
    norm_num [set_params_mem_prob, handle_memory_error, new_zero_trunc_pol, calloc,
      Session.init, get_mem_prob_error_code]

/-- C8 (amended). A successful `set_params_mem_prob` leaves the error token as
it was: `get_mem_prob_error_code()` returns after the call what it returned
before. The token is cleared by `reset_mem_prob_error` and by
`clean_mem_prob`. -/
theorem set_params_mem_prob_keeps_error_token (g k : Nat) (p u : ℚ) (s : Session)
    (h : (set_params_mem_prob g k p u s).1 = SUCCESS) :
    get_mem_prob_error_code (set_params_mem_prob g k p u s).2 = get_mem_prob_error_code s ∧
    get_mem_prob_error_code (reset_mem_prob_error (set_params_mem_prob g k p u s).2) = 0 ∧
    get_mem_prob_error_code (clean_mem_prob (set_params_mem_prob g k p u s).2) = 0 := by
  obtain ⟨mem, hs, _⟩ := set_params_mem_prob_success h
  refine ⟨by rw [hs]; rfl, rfl, rfl⟩

theorem set_params_mem_prob_keeps_error_token_witness :
    (set_params_mem_prob 17 50 (1/100) (1/20) { Session.init [] with ERRNO := 877 }).1
      = SUCCESS ∧
    (get_mem_prob_error_code
        (set_params_mem_prob 17 50 (1/100) (1/20) { Session.init [] with ERRNO := 877 }).2
      = get_mem_prob_error_code { Session.init [] with ERRNO := 877 } ∧
    get_mem_prob_error_code (reset_mem_prob_error
        (set_params_mem_prob 17 50 (1/100) (1/20) { Session.init [] with ERRNO := 877 }).2)
      = 0 ∧
    get_mem_prob_error_code (clean_mem_prob
        (set_params_mem_prob 17 50 (1/100) (1/20) { Session.init [] with ERRNO := 877 }).2)
      = 0) :=
  ⟨by norm_num [set_params_mem_prob, handle_memory_error, new_zero_trunc_pol, calloc,
      Session.init],
    set_params_mem_prob_keeps_error_token 17 50 (1/100) (1/20) _
      (by norm_num [set_params_mem_prob, handle_memory_error, new_zero_trunc_pol, calloc,
        Session.init])⟩

end MemProb

namespace MemProb

/-- C1 (the code breaks the claim). With `N = 1` and `G ≥ 2` the assembly of
the transfer matrix never succeeds: `new_trunc_pol_C` returns `NULL` for
`N = 1` and `new_matrix_M` treats this `NULL` as a failed allocation. Hence
every `compute_mem_prob(1, k)` with `k ≤ K` and no `w(1)` in the table returns
`nan` through the failure exit, sets the error token and stores nothing; so
does the spec's scenario `configure(17, 50, 0.01, 0.05); compute(1, 16)`. -/
theorem compute_mem_prob_N1_takes_failure_exit :
    (∀ (g : Params) (e : Eff), 2 ≤ g.G → (new_matrix_M g 1 e).1 = none) ∧
    (∀ (k : Nat) (s : Session), 2 ≤ s.G → k ≤ s.K → s.ARRAY 1 = none →
      ∃ s', compute_mem_prob 1 k s = some (none, s') ∧ get_mem_prob_error_code s' ≠ 0 ∧
        s'.ARRAY = s.ARRAY) ∧
    ∃ s', compute_mem_prob 1 16
        (set_params_mem_prob 17 50 (1/100) (1/20) (Session.init [])).2 = some (none, s') ∧
      get_mem_prob_error_code s' ≠ 0 ∧ ∀ n, s'.ARRAY n = none := by
  refine ⟨fun g e hG => new_matrix_M_one_fails g hG e,
    fun k s hG hk hA => compute_mem_prob_one_fails k s hG hk hA, ?_⟩
  rw [set_params_mem_prob_init 17 50 (1/100) (1/20) (by norm_num) (by norm_num) (by norm_num)
    (by norm_num)]
  obtain ⟨s', h1, h2, h3⟩ := compute_mem_prob_one_fails 16
    { G := 17, K := 50, HIGH := if 50 > 17 then 50 else 17, P := 1/100, U := 1/20,
      KSZ := (16 + (50 + 1) * 8) % 2 ^ 64, ERRNO := 0, mem := [],
      TEMP := some zero_trunc_pol, ARRAY := fun _ => none }
    (by decide) (by decide) rfl
  exact ⟨s', h1, h2, fun n => by rw [h3]⟩

/-- C4 (the code breaks the claim). `compute_mem_prob(0, k)` is not rejected:
after `configure(17, 50, 0.01, 0.05)` the call `compute_mem_prob(0, 16)` passes
the input checks, builds the matrix, stores a polynomial in entry 0 of the
table and returns its coefficient through the normal exit; the error token
stays 0. -/
theorem compute_mem_prob_N0_not_rejected :
    ∃ w s', compute_mem_prob 0 16
        (set_params_mem_prob 17 50 (1/100) (1/20) (Session.init [])).2
        = some (some (w.coeff 16), s') ∧
      s'.ARRAY 0 = some w ∧ get_mem_prob_error_code s' = 0 := by
  rw [set_params_mem_prob_init 17 50 (1/100) (1/20) (by norm_num) (by norm_num) (by norm_num)
    (by norm_num)]
  obtain ⟨w, T, mem, h, _, _⟩ := compute_mem_prob_total 0 16
    { G := 17, K := 50, HIGH := if 50 > 17 then 50 else 17, P := 1/100, U := 1/20,
      KSZ := (16 + (50 + 1) * 8) % 2 ^ 64, ERRNO := 0, mem := [],
      TEMP := some zero_trunc_pol, ARRAY := fun _ => none }
    (by decide) (by decide) (by decide) (Or.inl (by decide)) (by decide) (by decide) rfl rfl
    (fun b hb => by simp at hb)
  exact ⟨w, _, h, by simp, rfl⟩

/-- C9. Frame of `compute_mem_prob`. In a session that has a scratch buffer
every call returns. Whenever a call returns, `G`, `K`, `P`, `U` and `HIGH` are
as before; if it returned `nan` the memoisation table is unchanged; if it
returned a number the table differs from its previous content at most at
index `N`. -/
theorem compute_mem_prob_frame (N k : Nat) (s : Session) :
    (s.TEMP.isSome → (compute_mem_prob N k s).isSome) ∧
    ∀ r s', compute_mem_prob N k s = some (r, s') →
      s'.G = s.G ∧ s'.K = s.K ∧ s'.P = s.P ∧ s'.U = s.U ∧ s'.HIGH = s.HIGH ∧
      (r = none → s'.ARRAY = s.ARRAY) ∧
      (r ≠ none → ∀ n, n ≠ N → s'.ARRAY n = s.ARRAY n) := by
  constructor
  · intro hT
    by_cases h1 : N > MAXN - 1
    · unfold compute_mem_prob; rw [if_pos h1]; rfl
    by_cases h2 : k > s.K
    · unfold compute_mem_prob; rw [if_neg h1, if_pos h2]; rfl
    cases hA : s.ARRAY N with
    | some w => rw [compute_mem_prob_of_cached (by omega) (by omega) hA]; rfl
    | none =>
      rcases compute_mem_prob_fresh N k s (by omega) (by omega) hA hT with
        ⟨e, _, h⟩ | ⟨e, w, T, _, _, h, _⟩ <;> rw [h] <;> rfl
  · intro r s' h
    cases r with
    | none =>
      obtain ⟨hp, hA, _⟩ := compute_mem_prob_none_inv h
      exact ⟨congrArg Params.G hp, congrArg Params.K hp, congrArg Params.P hp,
        congrArg Params.U hp, congrArg Params.HIGH hp, fun _ => hA, fun h => absurd rfl h⟩
    | some v =>
      obtain ⟨_, _, hp, hA, _⟩ := compute_mem_prob_some_inv h
      exact ⟨congrArg Params.G hp, congrArg Params.K hp, congrArg Params.P hp,
        congrArg Params.U hp, congrArg Params.HIGH hp, fun h => Option.noConfusion h,
        fun _ => hA⟩

/-- C2 (amended). After a first `compute_mem_prob(N, k)` with `1 ≤ G ≤ K`,
`2 ≤ N ≤ MAXN-1`, `k ≤ K` and no allocation failure, in a session with its
scratch buffer: the call returns a number, the polynomial stored in the table
for `N` is the sum over `p = 2..22` of the entry of `M(N)^p` in row 0 and
column `2G+1` (flat index `2G+1`), the powers taken with truncated-polynomial
arithmetic, and the value returned is its degree-`k` coefficient. `M(N)` is
the matrix `new_matrix_M(N)` returns. -/
theorem compute_mem_prob_stores_power_sum (N k : Nat) (s : Session) (hG : 1 ≤ s.G)
    (hGK : s.G ≤ s.K) (hH : s.HIGH = max s.G s.K) (hN2 : 2 ≤ N) (hN : N ≤ MAXN - 1)
    (hk : k ≤ s.K) (hfirst : s.ARRAY N = none) (hT : s.TEMP.isSome)
    (hmem : Served s.toEff) :
    (new_matrix_M s.toParams N).yields (matrix_M s.toParams N) ∧
    ∃ w s', compute_mem_prob N k s = some (some (w.coeff k), s') ∧ s'.ARRAY N = some w ∧
      ∀ c, w.coeff c = ∑ p in Finset.Icc 2 22,
        mat_pow s.K (2 * s.G + 2) (cells (matrix_M s.toParams N)) p 0 (2 * s.G + 1) c := by
  have hHK : s.HIGH = s.K := by rw [hH]; exact max_eq_right hGK
  refine ⟨new_matrix_M_yields s.toParams N hG hGK (by rw [hHK]) (by rw [hHK]; omega)
    (Or.inl (by omega)), ?_⟩
  obtain ⟨w, T, mem, h, _, hw⟩ := compute_mem_prob_total N k s hG hGK hH (Or.inl (by omega))
    hN hk hfirst hT hmem
  exact ⟨w, _, h, by simp, hw⟩

theorem compute_mem_prob_stores_power_sum_witness :
    (new_matrix_M (set_params_mem_prob 1 1 (1/2) (1/2) (Session.init [])).2.toParams 2).yields
      (matrix_M (set_params_mem_prob 1 1 (1/2) (1/2) (Session.init [])).2.toParams 2) ∧
    ∃ w s', compute_mem_prob 2 0 (set_params_mem_prob 1 1 (1/2) (1/2) (Session.init [])).2
        = some (some (w.coeff 0), s') ∧ s'.ARRAY 2 = some w ∧
      ∀ c, w.coeff c = ∑ p in Finset.Icc 2 22,
        mat_pow (set_params_mem_prob 1 1 (1/2) (1/2) (Session.init [])).2.K
          (2 * (set_params_mem_prob 1 1 (1/2) (1/2) (Session.init [])).2.G + 2)
          (cells (matrix_M (set_params_mem_prob 1 1 (1/2) (1/2) (Session.init [])).2.toParams 2))
          p 0 (2 * (set_params_mem_prob 1 1 (1/2) (1/2) (Session.init [])).2.G + 1) c := by
  have h := set_params_mem_prob_init 1 1 (1/2) (1/2) (by norm_num) (by norm_num) (by norm_num)
    (by norm_num)
  exact compute_mem_prob_stores_power_sum 2 0
    (set_params_mem_prob 1 1 (1/2) (1/2) (Session.init [])).2
    (by rw [h]) (by rw [h]) (by rw [h]; decide) (by decide)
    (by decide) (by rw [h]; decide) (by rw [h]) (by rw [h]; rfl)
    (by rw [h]; intro b hb; simp at hb)

end MemProb

namespace MemProb

/-- C2 (counterexample). After `configure(1, 1, 0.5, 0.5)` the first
`compute_mem_prob(2, 0)` succeeds and stores a polynomial whose coefficient of
degree 0 is 1, while the sum over `p = 2..22` of the entry of `M(2)^p` in row
`2G+1 = 3` and column 1 has coefficient 0 at degree 0 (row `2G+1` of `M(N)` is
empty): the polynomial stored is not that sum. -/
theorem compute_mem_prob_stores_not_last_row :
    ∃ w s', compute_mem_prob 2 0 (set_params_mem_prob 1 1 (1/2) (1/2) (Session.init [])).2
        = some (some (w.coeff 0), s') ∧ s'.ARRAY 2 = some w ∧ w.coeff 0 = 1 ∧
      ∑ p in Finset.Icc 2 22,
        mat_pow (set_params_mem_prob 1 1 (1/2) (1/2) (Session.init [])).2.K
          (2 * (set_params_mem_prob 1 1 (1/2) (1/2) (Session.init [])).2.G + 2)
          (cells (matrix_M (set_params_mem_prob 1 1 (1/2) (1/2) (Session.init [])).2.toParams 2))
          p (2 * (set_params_mem_prob 1 1 (1/2) (1/2) (Session.init [])).2.G + 1) 1 0 = 0 := by
  rw [set_params_mem_prob_init 1 1 (1/2) (1/2) (by norm_num) (by norm_num) (by norm_num)
    (by norm_num)]
  obtain ⟨w, T, mem, h, _, hw⟩ := compute_mem_prob_total 2 0
    { G := 1, K := 1, HIGH := if 1 > 1 then 1 else 1, P := 1/2, U := 1/2,
      KSZ := (16 + (1 + 1) * 8) % 2 ^ 64, ERRNO := 0, mem := [],
      TEMP := some zero_trunc_pol, ARRAY := fun _ => none }
    (by decide) (by decide) (by decide) (Or.inl (by decide)) (by decide) (by decide) rfl rfl
    (fun b hb => by simp at hb)
  refine ⟨w, _, h, by simp, ?_, ?_⟩
  · rw [hw 0]
    exact power_sum_one
      { G := 1, K := 1, HIGH := if 1 > 1 then 1 else 1, P := 1/2, U := 1/2,
        KSZ := (16 + (1 + 1) * 8) % 2 ^ 64 } 2 (by decide) (by decide) (by decide)
      (by norm_num) (by norm_num) (by decide) (Or.inl (by decide)) 21 0 (by decide) (by decide)
  · refine Finset.sum_eq_zero fun p hp => ?_
    refine mat_pow_null_row _ _ _ _ (fun m hm c => ?_) p
      (le_trans (by decide) (Finset.mem_Icc.mp hp).1) 1 (by decide) 0
    rw [cells_matrix_M _ 2 (by decide) _ m hm]
    exact congrFun (congrArg coefO (M_entry_last _ 2 (by decide) m)) c

/-- Boundary at `k < G`, for the coefficients the 21 products reach. In a
session with its scratch buffer, configured with `1 ≤ G ≤ K` and `0 < U < 1`,
for `N ≥ 1` without `w(N)` in the table, `k < G` and `k ≤ 20`: every number
`compute_mem_prob(N, k)` returns is exactly 1 (arithmetic over the
rationals); and when `N ≤ MAXN-1`, `N ≥ 2` or `G = 1`, and no allocation
fails, it does return 1. -/
theorem compute_mem_prob_below_seed (N k : Nat) (s : Session) (hG : 1 ≤ s.G)
    (hGK : s.G ≤ s.K) (hH : s.HIGH = max s.G s.K) (hU0 : 0 < s.U) (hU1 : s.U < 1)
    (hN1 : 1 ≤ N) (hk : k < s.G) (hk20 : k ≤ 20) (hfirst : s.ARRAY N = none)
    (hT : s.TEMP.isSome) :
    (∀ v s', compute_mem_prob N k s = some (some v, s') → v = 1) ∧
    (N ≤ MAXN - 1 → (2 ≤ N ∨ s.G = 1) → Served s.toEff →
      ∃ s', compute_mem_prob N k s = some (some 1, s')) := by
  have hHK : s.G ≤ s.HIGH := by rw [hH]; exact le_max_left _ _
  have hone : (2 ≤ N ∨ s.G = 1) → ∀ w : trunc_pol_t,
      (∀ c, w.coeff c = ∑ p in Finset.Icc 2 22,
        mat_pow s.K (2 * s.G + 2) (cells (matrix_M s.toParams N)) p 0 (2 * s.G + 1) c) →
      w.coeff k = 1 := by
    intro hN w hw
    rw [hw k]
    exact power_sum_one s.toParams N hG hGK hHK hU0 hU1 hN1 hN 21 k hk (by omega)
  constructor
  · intro v s' hrun
    obtain ⟨hNM, hkK, _⟩ := compute_mem_prob_some_inv hrun
    by_cases hN : 2 ≤ N ∨ s.G = 1
    · rcases compute_mem_prob_fresh N k s hNM hkK hfirst hT with
        ⟨e, _, he⟩ | ⟨e, w, T, _, _, he, _, hw⟩
      · rw [he] at hrun
        cases hrun
      · rw [he] at hrun
        simp only [Option.some.injEq, Prod.mk.injEq] at hrun
        rw [← hrun.1]
        exact hone hN w hw
    · have hN' : N = 1 := by omega
      subst hN'
      obtain ⟨s1, h1, _⟩ := compute_mem_prob_one_fails k s (by omega) hkK hfirst
      rw [h1] at hrun
      cases hrun
  · intro hNM hN hmem
    obtain ⟨w, T, mem, h, _, hw⟩ := compute_mem_prob_total N k s hG hGK hH
      (hN.elim (fun h => Or.inl (by omega)) Or.inr) hNM (by omega) hfirst hT hmem
    rw [hone hN w hw] at h
    exact ⟨_, h⟩

theorem compute_mem_prob_below_seed_witness :
    ∃ s', compute_mem_prob 2 16
      (set_params_mem_prob 17 50 (1/100) (1/20) (Session.init [])).2 = some (some 1, s') := by
  have h := set_params_mem_prob_init 17 50 (1/100) (1/20) (by norm_num) (by norm_num)
    (by norm_num) (by norm_num)
  exact (compute_mem_prob_below_seed 2 16
    (set_params_mem_prob 17 50 (1/100) (1/20) (Session.init [])).2
    (by rw [h]; decide) (by rw [h]; decide) (by rw [h]; decide) (by rw [h]; norm_num)
    (by rw [h]; norm_num) (by decide) (by rw [h]; decide) (by decide) (by rw [h])
    (by rw [h]; rfl)).2 (by decide) (Or.inl (by decide))
    (by rw [h]; intro b hb; simp at hb)

/-- C10 (the code breaks the claim). After `configure(22, 22, 0.5, 0.5)` the
query `compute_mem_prob(2, 21)` succeeds and `k = 21 < G = 22`, but the value
returned is less than 1: the powers `M^2..M^22` of the fixed loop leave out
the path of 21 steps of degree one, which only `M^23` holds. -/
theorem compute_mem_prob_below_seed_degree_21 :
    ∃ v s', compute_mem_prob 2 21
        (set_params_mem_prob 22 22 (1/2) (1/2) (Session.init [])).2 = some (some v, s') ∧
      v < 1 := by
  rw [set_params_mem_prob_init 22 22 (1/2) (1/2) (by norm_num) (by norm_num) (by norm_num)
    (by norm_num)]
  obtain ⟨w, T, mem, h, _, hw⟩ := compute_mem_prob_total 2 21
    { G := 22, K := 22, HIGH := if 22 > 22 then 22 else 22, P := 1/2, U := 1/2,
      KSZ := (16 + (22 + 1) * 8) % 2 ^ 64, ERRNO := 0, mem := [],
      TEMP := some zero_trunc_pol, ARRAY := fun _ => none }
    (by decide) (by decide) (by decide) (Or.inl (by decide)) (by decide) (by decide) rfl rfl
    (fun b hb => by simp at hb)
  refine ⟨w.coeff 21, _, h, ?_⟩
  rw [hw 21]
  have h1 := power_sum_short
    { G := 22, K := 22, HIGH := if 22 > 22 then 22 else 22, P := 1/2, U := 1/2,
      KSZ := (16 + (22 + 1) * 8) % 2 ^ 64 } 2 (by decide) (by decide) (by decide)
    (by norm_num) (by norm_num) (by norm_num) (by norm_num) (by decide) (Or.inl (by decide))
    21 (by decide)
  have h2 : (0 : ℚ) < OMEGA (1/2) (1/2) 2 ^ 21 :=
    pow_pos (OMEGA_pos (by norm_num) (by norm_num) (by norm_num) 2) 21
  exact lt_of_le_of_lt h1 (by linarith)

end MemProb

namespace MemProb

/-- C13 (counterexample). With `K = 1`, let `dest` hold the constant 1 with
its hint (degree 0, coefficient 1) and let `a = b = 1 + x` carry no hint.
`trunc_pol_mult(dest, a, b)` takes the standard convolution branch, which
overwrites the coefficients and does not write the header: afterwards `dest`
holds `1 + 2x` and still carries the hint of the constant 1, so it is not
hint-consistent, and it carries a hint although neither operand does. -/
theorem trunc_pol_mult_keeps_stale_hint :
    hint_consistent 1
      ({ mono := { deg := 0, coeff := 1 }, coeff := fun i => if i = 0 then 1 else 0 } :
        trunc_pol_t) ∧
    hint_consistent 1
      ({ mono := { deg := 0, coeff := 0 }, coeff := fun i => if i ≤ 1 then 1 else 0 } :
        trunc_pol_t) ∧
    (trunc_pol_mult 1
      { mono := { deg := 0, coeff := 1 }, coeff := fun i => if i = 0 then 1 else 0 }
      (some { mono := { deg := 0, coeff := 0 }, coeff := fun i => if i ≤ 1 then 1 else 0 })
      (some { mono := { deg := 0, coeff := 0 }, coeff := fun i => if i ≤ 1 then 1 else 0 })
      ).2.mono = { deg := 0, coeff := 1 } ∧
    (trunc_pol_mult 1
      { mono := { deg := 0, coeff := 1 }, coeff := fun i => if i = 0 then 1 else 0 }
      (some { mono := { deg := 0, coeff := 0 }, coeff := fun i => if i ≤ 1 then 1 else 0 })
      (some { mono := { deg := 0, coeff := 0 }, coeff := fun i => if i ≤ 1 then 1 else 0 })
      ).2.coeff 1 = 2 ∧
    ¬ hint_consistent 1 (trunc_pol_mult 1
      { mono := { deg := 0, coeff := 1 }, coeff := fun i => if i = 0 then 1 else 0 }
      (some { mono := { deg := 0, coeff := 0 }, coeff := fun i => if i ≤ 1 then 1 else 0 })
      (some { mono := { deg := 0, coeff := 0 }, coeff := fun i => if i ≤ 1 then 1 else 0 })
      ).2 := by
  rw [trunc_pol_mult_plain 1 _ _ _ rfl rfl]
  refine ⟨fun _ c _ => rfl, hint_consistent_of_mono rfl, rfl, ?_, fun h => ?_⟩
  · simp only [Finset.sum_range_succ, Finset.sum_range_one]
    norm_num
  · have h1 := h (by norm_num) 1 (le_refl _)
    simp only [Finset.sum_range_succ, Finset.sum_range_one] at h1
    norm_num at h1

/-- C13 (amended). Hint of `dest` after `trunc_pol_mult(dest, a, b)` with `a`
and `b` not null. When an operand carries a hint (the three branches that
start with `bzero(dest, KSZ)`), `dest` is hint-consistent afterwards whatever
it held before. When neither operand carries a hint (full convolution
branch), the coefficients `0..K` of `dest` are overwritten with the truncated
convolution and its header is not written (no hint is set): the hint of
`dest` is after the call what it was before, so `dest` carries no hint
afterwards exactly when it carried none before, and in that case it is
hint-consistent. -/
theorem trunc_pol_mult_hint_spec (K : Nat) (dest a b : trunc_pol_t) :
    ((a.mono.coeff ≠ 0 ∨ b.mono.coeff ≠ 0) →
      hint_consistent K (trunc_pol_mult K dest (some a) (some b)).2) ∧
    (a.mono.coeff = 0 → b.mono.coeff = 0 →
      (trunc_pol_mult K dest (some a) (some b)).2.mono = dest.mono ∧
      (∀ i, i ≤ K → (trunc_pol_mult K dest (some a) (some b)).2.coeff i =
        ∑ j in Finset.range (i + 1), a.coeff j * b.coeff (i - j)) ∧
      (dest.mono.coeff = 0 →
        hint_consistent K (trunc_pol_mult K dest (some a) (some b)).2)) := by
  refine ⟨fun h => trunc_pol_mult_hint K dest a b (Or.inr h), fun ha hb => ?_⟩
  refine ⟨?_, fun i hi => ?_, fun hd => trunc_pol_mult_hint K dest a b (Or.inl hd)⟩
  · rw [trunc_pol_mult_plain K dest a b ha hb]
  · rw [trunc_pol_mult_plain K dest a b ha hb]
    simp only
    rw [if_pos hi]

theorem trunc_pol_mult_hint_spec_witness :
    hint_consistent 2 (trunc_pol_mult 2 (fill_one zero_trunc_pol)
      (some (set_monomial zero_trunc_pol 1 2)) (some (fill_one zero_trunc_pol))).2 ∧
    (trunc_pol_mult 2 (fill_one zero_trunc_pol) (some zero_trunc_pol)
      (some zero_trunc_pol)).2.mono = (fill_one zero_trunc_pol).mono :=
  ⟨(trunc_pol_mult_hint_spec 2 (fill_one zero_trunc_pol) (set_monomial zero_trunc_pol 1 2)
      (fill_one zero_trunc_pol)).1 (Or.inl (by
        show (2 : ℚ) ≠ 0
        norm_num)),
    ((trunc_pol_mult_hint_spec 2 (fill_one zero_trunc_pol) zero_trunc_pol
      zero_trunc_pol).2 rfl rfl).1⟩

/-- C14 (counterexample). With `K = 1`, adding the non-null `a = 1 + x` to a
`dest` that holds the constant 1 with its hint (degree 0, coefficient 1)
leaves the hint in place: `dest` still carries a monomial hint after the
addition, though it now holds `2 + x`. -/
theorem trunc_pol_update_add_keeps_hint_example :
    (trunc_pol_update_add 1
      { mono := { deg := 0, coeff := 1 }, coeff := fun i => if i = 0 then 1 else 0 }
      (some { mono := { deg := 0, coeff := 0 }, coeff := fun i => if i ≤ 1 then 1 else 0 })
      ).mono.coeff = 1 ∧
    (trunc_pol_update_add 1
      { mono := { deg := 0, coeff := 1 }, coeff := fun i => if i = 0 then 1 else 0 }
      (some { mono := { deg := 0, coeff := 0 }, coeff := fun i => if i ≤ 1 then 1 else 0 })
      ).coeff 1 = 1 := by
  rw [trunc_pol_update_add_mono, trunc_pol_update_add_coeff]
  refine ⟨rfl, ?_⟩
  norm_num [coefO]

/-- C14 (amended). `trunc_pol_update_add(dest, a)`: if `a` is `NULL`, `dest`
is unchanged; otherwise every coefficient `i ≤ K` of `dest` becomes the old
`dest.c[i] + a.c[i]` and the coefficients above `K` are not touched. The
header of `dest` is never written: its monomial hint is after the call what it
was before. -/
theorem trunc_pol_update_add_spec (K : Nat) (dest : trunc_pol_t) :
    trunc_pol_update_add K dest none = dest ∧
    ∀ a : trunc_pol_t,
      (∀ i, i ≤ K →
        (trunc_pol_update_add K dest (some a)).coeff i = dest.coeff i + a.coeff i) ∧
      (∀ i, K < i → (trunc_pol_update_add K dest (some a)).coeff i = dest.coeff i) ∧
      (trunc_pol_update_add K dest (some a)).mono = dest.mono := by
  refine ⟨rfl, fun a => ⟨fun i hi => ?_, fun i hi => ?_, trunc_pol_update_add_mono K dest _⟩⟩
  · rw [trunc_pol_update_add_coeff, if_pos hi]
    rfl
  · rw [trunc_pol_update_add_coeff, if_neg (by omega)]

/-- C16. Closed form of family `A`. For `1 ≤ deg ≤ K`, every `N` and both
selectors, `new_trunc_pol_A(deg, N, tilde)` returns, when its allocation is
served, a polynomial with `c[i] = cst * xi(i-1, N) * (1-P)^(i-1)` for
`1 ≤ i ≤ min(deg, G)` and `c[i] = P * (1 - aN(i-1)) * (1-P)^(i-1)` for
`min(deg, G) < i ≤ deg`, where `cst` is `OMEGA` (plain) or `_OMEGA`
(tilde). -/
theorem new_trunc_pol_A_closed_form (g : Params) (deg N : Nat) (tilde : Int)
    (h1 : 1 ≤ deg) (hK : deg ≤ g.K) :
    (new_trunc_pol_A g deg N tilde).yields (fill_A g deg N tilde zero_trunc_pol) ∧
    (new_trunc_pol_A g deg N tilde).returns (fill_A g deg N tilde zero_trunc_pol) ∧
    ∀ i,
      (1 ≤ i → i ≤ min deg g.G →
        (fill_A g deg N tilde zero_trunc_pol).coeff i =
          (if tilde ≠ 0 then _OMEGA g.P g.U N else OMEGA g.P g.U N)
            * xi g.U ((i : Int) - 1) N * (1 - g.P) ^ (i - 1)) ∧
      (min deg g.G < i → i ≤ deg →
        (fill_A g deg N tilde zero_trunc_pol).coeff i =
          g.P * (1 - aN g.U N ((i : Int) - 1)) * (1 - g.P) ^ (i - 1)) := by
  have hmin : (if deg ≤ g.G then deg else g.G) = min deg g.G := by
    rw [min_def]
  refine ⟨new_trunc_pol_A_yields g deg N tilde hK (by omega),
    new_trunc_pol_A_returns g deg N tilde, fun i => ⟨fun hi1 hi2 => ?_, fun hi1 hi2 => ?_⟩⟩
  · rw [fill_A_coeff, hmin, if_pos ⟨hi1, hi2⟩]
  · rw [fill_A_coeff, hmin, if_neg (by omega), if_pos ⟨hi1, hi2⟩]

theorem new_trunc_pol_A_closed_form_witness :
    (1 ≤ 50 ∧ 50 ≤ 50) ∧
    (new_trunc_pol_A { G := 17, K := 50, HIGH := 50, P := 1/100, U := 1/20, KSZ := 424 }
      50 2 YES).yields
      (fill_A { G := 17, K := 50, HIGH := 50, P := 1/100, U := 1/20, KSZ := 424 }
        50 2 YES zero_trunc_pol) :=
  ⟨⟨by decide, by decide⟩,
    (new_trunc_pol_A_closed_form
      { G := 17, K := 50, HIGH := 50, P := 1/100, U := 1/20, KSZ := 424 } 50 2 YES
      (by decide) (by decide)).1⟩

/-- C17. Support of the families `A`, `B`, `C`, `D`. For `1 ≤ deg ≤ K`, every
`N` (`N ≥ 2` for `C`) and both selectors, the polynomial
`new_trunc_pol_A/B/C/D(deg, N, tilde)` returns (it does return one when its
allocation is served) has `c[0] = 0`, `c[i] = 0` for `deg < i ≤ K`, and no
monomial hint. -/
theorem factory_support (g : Params) (deg N : Nat) (tilde : Int) (h1 : 1 ≤ deg)
    (hK : deg ≤ g.K) :
    ((new_trunc_pol_A g deg N tilde).yields (fill_A g deg N tilde zero_trunc_pol) ∧
      (new_trunc_pol_A g deg N tilde).returns (fill_A g deg N tilde zero_trunc_pol) ∧
      supported deg g.K (fill_A g deg N tilde zero_trunc_pol)) ∧
    ((new_trunc_pol_B g deg N tilde).yields (fill_B g deg N tilde zero_trunc_pol) ∧
      (new_trunc_pol_B g deg N tilde).returns (fill_B g deg N tilde zero_trunc_pol) ∧
      supported deg g.K (fill_B g deg N tilde zero_trunc_pol)) ∧
    (2 ≤ N →
      (new_trunc_pol_C g deg N tilde).yields (fill_C g deg N tilde zero_trunc_pol) ∧
      (new_trunc_pol_C g deg N tilde).returns (fill_C g deg N tilde zero_trunc_pol) ∧
      supported deg g.K (fill_C g deg N tilde zero_trunc_pol)) ∧
    ((new_trunc_pol_D g deg N tilde).yields (fill_D g deg N tilde zero_trunc_pol) ∧
      (new_trunc_pol_D g deg N tilde).returns (fill_D g deg N tilde zero_trunc_pol) ∧
      supported deg g.K (fill_D g deg N tilde zero_trunc_pol)) :=
  ⟨⟨new_trunc_pol_A_yields g deg N tilde hK (by omega), new_trunc_pol_A_returns g deg N tilde,
      fill_A_supported g deg N tilde⟩,
    ⟨new_trunc_pol_B_yields g deg N tilde hK (by omega), new_trunc_pol_B_returns g deg N tilde,
      fill_B_supported g deg N tilde⟩,
    fun hN => ⟨new_trunc_pol_C_yields g deg N tilde (by omega) hK (by omega),
      new_trunc_pol_C_returns g deg N tilde, fill_C_supported g deg N tilde⟩,
    ⟨new_trunc_pol_D_yields g deg N tilde hK (by omega), new_trunc_pol_D_returns g deg N tilde,
      fill_D_supported g deg N tilde⟩⟩

theorem factory_support_witness :
    (1 ≤ 16 ∧ 16 ≤ 50) ∧
    supported 16 50
      (fill_C { G := 17, K := 50, HIGH := 50, P := 1/100, U := 1/20, KSZ := 424 }
        16 2 NO zero_trunc_pol) :=
  ⟨⟨by decide, by decide⟩,
    ((factory_support { G := 17, K := 50, HIGH := 50, P := 1/100, U := 1/20, KSZ := 424 }
      16 2 NO (by decide) (by decide)).2.2.1 (by decide)).2.2⟩

end MemProb

namespace MemProb

/-- C15. Layout of `M(N)`. For `1 ≤ G ≤ K` and `N ≥ 2`, with no allocation
failure `new_matrix_M(N)` returns a matrix of dimension `2G+2` whose non-null
cells are exactly the items of the listing (`Cell`, with `j` in `1..G-1` and
`i` in `1..G-j-1`, at row `Cell.row` and column `Cell.col`); row `2G+1` and
column 0 are entirely null, and no two items of the listing are the same
cell. -/
theorem new_matrix_M_layout (g : Params) (N : Nat) (hG : 1 ≤ g.G) (hGK : g.G ≤ g.K)
    (hH : g.HIGH = max g.G g.K) (hN : 2 ≤ N) :
    (new_matrix_M g N).yields (matrix_M g N) ∧
    (matrix_M g N).dim = 2 * g.G + 2 ∧
    (∀ r c, r < 2 * g.G + 2 → c < 2 * g.G + 2 →
      (((matrix_M g N).term (r * (2 * g.G + 2) + c)).isSome ↔
        ∃ s : Cell, s.listed g.G ∧ s.row g.G = r ∧ s.col g.G = c)) ∧
    (∀ c, c < 2 * g.G + 2 →
      (matrix_M g N).term ((2 * g.G + 1) * (2 * g.G + 2) + c) = none) ∧
    (∀ r, r < 2 * g.G + 2 → (matrix_M g N).term (r * (2 * g.G + 2) + 0) = none) ∧
    (∀ s s' : Cell, s.listed g.G → s'.listed g.G → s.row g.G = s'.row g.G →
      s.col g.G = s'.col g.G → s = s') := by
  have hHK : g.HIGH = g.K := by rw [hH]; exact max_eq_right hGK
  refine ⟨new_matrix_M_yields g N hG hGK (by omega) (by omega) (Or.inl (by omega)),
    matrix_M_dim g N, fun r c hr hc => ?_, fun c hc => ?_, fun r hr => ?_,
    cell_injective g.G hG⟩
  · rw [matrix_M_entry g N hG r c hc]
    constructor
    · exact listed_of_M_entry g N hG r c hr
    · rintro ⟨s, hs, rfl, rfl⟩
      exact M_entry_of_listed g N hG s hs
  · rw [matrix_M_entry g N hG _ c hc]
    exact M_entry_last g N hG c
  · rw [matrix_M_entry g N hG r 0 (by omega)]
    exact M_entry_col0 g N hG r hr

theorem new_matrix_M_layout_witness :
    (1 ≤ 17 ∧ 17 ≤ 50 ∧ 2 ≤ 2) ∧
    ((matrix_M { G := 17, K := 50, HIGH := 50, P := 1/100, U := 1/20, KSZ := 424 } 2).term
      (3 * (2 * 17 + 2) + 21)).isSome :=
  ⟨⟨by decide, by decide, by decide⟩,
    ((new_matrix_M_layout { G := 17, K := 50, HIGH := 50, P := 1/100, U := 1/20, KSZ := 424 }
      2 (by decide) (by decide) (by decide) (by decide)).2.2.1 3 21 (by decide)
      (by decide)).2 ⟨.y 1 2, ⟨⟨by decide, by decide⟩, by decide, by decide⟩, rfl, rfl⟩⟩

end MemProb

namespace MemProb

/-- C19 (counterexample). With the parameters of `configure(1, 1, 0.5, 0.5)`
and `N = 2`, the power `p = 3` exceeds `K + 1 = 2`, yet the entry of `M(2)^3`
that `compute_mem_prob` accumulates (row 0, column `2G+1 = 3`) has a positive
coefficient at degree `1 ≤ K`: the first and the last of the three steps have
degree 0. -/
theorem accumulated_entry_not_zero_at_K_plus_2 :
    (1 : Nat) ≤ 1 ∧ 1 + 1 < 3 ∧
    0 < mat_pow 1 (2 * 1 + 2)
      (cells (matrix_M { G := 1, K := 1, HIGH := 1, P := 1/2, U := 1/2, KSZ := 32 } 2))
      3 0 (2 * 1 + 1) 1 := by
  refine ⟨le_refl _, by decide, ?_⟩
  have h := accumulated_lowest
    { G := 1, K := 1, HIGH := 1, P := 1/2, U := 1/2, KSZ := 32 } 2 (by decide) (by decide)
    (by norm_num) (by norm_num) (by norm_num) (by norm_num) (by decide) (Or.inl (by decide))
    1 (by decide)
  exact lt_of_lt_of_le
    (pow_pos (OMEGA_pos (by norm_num) (by norm_num) (by norm_num) 2) 1) h

/-- C19 (amended). Truncation depth. For every configuration with `G ≥ 1`,
every `N` and every power `p` that exceeds `K + 2`, all coefficients at
degrees `0..K` of the entry of `M(N)^p` that `compute_mem_prob` accumulates
into `w` (row 0, column `2G+1`: flat index `2G+1` of the power matrix) are
exactly zero. `M(N)` is the matrix `new_matrix_M(N)` returns. -/
theorem accumulated_entry_zero (g : Params) (N : Nat) (hG : 1 ≤ g.G) (p : Nat)
    (hp : g.K + 2 < p) :
    (new_matrix_M g N).returns (matrix_M g N) ∧
    ∀ c, c ≤ g.K →
      mat_pow g.K (2 * g.G + 2) (cells (matrix_M g N)) p 0 (2 * g.G + 1) c = 0 :=
  ⟨new_matrix_M_returns g N,
    fun c hc => accumulated_valuation g N hG p (by omega) c (by omega) hc⟩

theorem accumulated_entry_zero_witness :
    ((1 : Nat) ≤ 1 ∧ 1 + 2 < 4) ∧
    ∀ c, c ≤ 1 →
      mat_pow 1 (2 * 1 + 2)
        (cells (matrix_M { G := 1, K := 1, HIGH := 1, P := 1/2, U := 1/2, KSZ := 32 } 2))
        4 0 (2 * 1 + 1) c = 0 :=
  ⟨⟨le_refl _, by decide⟩,
    (accumulated_entry_zero { G := 1, K := 1, HIGH := 1, P := 1/2, U := 1/2, KSZ := 32 } 2
      (by decide) 4 (by decide)).2⟩

/-- Adaptive termination and the fixed number of products. For a
configuration with `1 ≤ G ≤ K` and `P`, `U` in `(0,1)`, and `N ≥ 1` with
`N ≥ 2` or `G = 1`: the adaptive summation ends (fuel `K + 2` is enough)
after the powers `2..K+2`; when `K ≤ 20` the polynomial a first successful
`compute_mem_prob(N, k)` stores has the same coefficients on the degrees
`0..K`. -/
theorem compute_mem_prob_adaptive (N k : Nat) (s : Session) (hG : 1 ≤ s.G)
    (hGK : s.G ≤ s.K) (hH : s.HIGH = max s.G s.K) (hP0 : 0 < s.P) (hP1 : s.P < 1)
    (hU0 : 0 < s.U) (hU1 : s.U < 1) (hN1 : 1 ≤ N) (hN2 : 2 ≤ N ∨ s.G = 1)
    (hN : N ≤ MAXN - 1) (hk : k ≤ s.K) (hfirst : s.ARRAY N = none) (hT : s.TEMP.isSome)
    (hmem : Served s.toEff) (hK : s.K ≤ 20) :
    ∃ w s' a, compute_mem_prob N k s = some (some (w.coeff k), s') ∧ s'.ARRAY N = some w ∧
      adaptive_sum s.K (2 * s.G + 2) (cells (matrix_M s.toParams N)) 0 (2 * s.G + 1)
        (s.K + 2) 2 (fun _ => 0) = some a ∧
      ∀ c, c ≤ s.K → w.coeff c = a c := by
  obtain ⟨w, T, mem, h, _, hw⟩ := compute_mem_prob_total N k s hG hGK hH
    (hN2.elim (fun h => Or.inl (by omega)) Or.inr) hN hk hfirst hT hmem
  refine ⟨w, _, _, h, by simp, adaptive_sum_eq s.toParams N hG
    (by rw [hH]; exact le_max_left _ _) hP0 (le_of_lt hP1) hU0 hU1 hN1 hN2 0, fun c hc => ?_⟩
  rw [hw c]
  exact fixed_sum_adaptive s.toParams N hG hK c hc

/-- C20 (the code breaks the claim). After `configure(1, 21, 0.5, 0.5)` the
first `compute_mem_prob(2, 21)` succeeds and stores the sum of the powers
`2..22`; the adaptive summation goes on to the power `23 = K + 2`, whose
accumulated entry has a positive coefficient at degree `21 ≤ K`: the two
polynomials differ at degree 21. -/
theorem compute_mem_prob_cap_not_adaptive :
    ∃ w s' a, compute_mem_prob 2 21
        (set_params_mem_prob 1 21 (1/2) (1/2) (Session.init [])).2
        = some (some (w.coeff 21), s') ∧ s'.ARRAY 2 = some w ∧
      adaptive_sum 21 (2 * 1 + 2)
        (cells (matrix_M (set_params_mem_prob 1 21 (1/2) (1/2) (Session.init [])).2.toParams
          2)) 0 (2 * 1 + 1) (21 + 2) 2 (fun _ => 0) = some a ∧
      w.coeff 21 < a 21 := by
  rw [set_params_mem_prob_init 1 21 (1/2) (1/2) (by norm_num) (by norm_num) (by norm_num)
    (by norm_num)]
  obtain ⟨w, T, mem, h, _, hw⟩ := compute_mem_prob_total 2 21
    { G := 1, K := 21, HIGH := if 21 > 1 then 21 else 1, P := 1/2, U := 1/2,
      KSZ := (16 + (21 + 1) * 8) % 2 ^ 64, ERRNO := 0, mem := [],
      TEMP := some zero_trunc_pol, ARRAY := fun _ => none }
    (by decide) (by decide) (by decide) (Or.inl (by decide)) (by decide) (by decide) rfl rfl
    (fun b hb => by simp at hb)
  have ha := adaptive_sum_eq
    { G := 1, K := 21, HIGH := if 21 > 1 then 21 else 1, P := 1/2, U := 1/2,
      KSZ := (16 + (21 + 1) * 8) % 2 ^ 64 } 2 (by decide) (by decide)
    (by norm_num) (by norm_num) (by norm_num) (by norm_num) (by decide) (Or.inl (by decide)) 0
  have hl := accumulated_lowest
    { G := 1, K := 21, HIGH := if 21 > 1 then 21 else 1, P := 1/2, U := 1/2,
      KSZ := (16 + (21 + 1) * 8) % 2 ^ 64 } 2 (by decide) (by decide)
    (by norm_num) (by norm_num) (by norm_num) (by norm_num) (by decide) (Or.inl (by decide))
    21 (by decide)
  have hpos : (0 : ℚ) < OMEGA (1/2) (1/2) 2 ^ 21 :=
    pow_pos (OMEGA_pos (by norm_num) (by norm_num) (by norm_num) 2) 21
  refine ⟨w, _, _, h, by simp, ha, ?_⟩
  rw [hw 21, fixed_sum_range]
  refine lt_of_lt_of_eq ?_ (Finset.sum_range_succ _ 21).symm
  exact lt_add_of_pos_right _ (lt_of_lt_of_le hpos hl)

end MemProb

namespace MemProb

/-- C11 (counterexample). The value `compute_mem_prob` returns is an IEEE
double that nothing clamps. With the arithmetic of doubles, take the valid
configuration `set_params_mem_prob(1, 1, 0.5, 2^-100)` (both `0.5` and
`2^-100` are doubles in the open interval (0, 1)) and the query `N = 2`,
`k = 0` (`1 ≤ N ≤ MAXN-1`, `k ≤ K`). The double `1.0 - U/3.0` is `1.0`, so
`pow(1.0 - U/3.0, N)` is `1.0`, the denominator `1.0 - pow(1-U/3.0, N)` of
`T_down` is `0.0`, its numerator `1.0 - aN(0)` is `0.0` too, and the
coefficients of `T_down` are `0.0/0.0`, NaN. The query goes through the normal
exit: every allocation is served, `w` is stored in `ARRAY[2]`, the error
token stays 0; the value returned is a NaN, for which `0 <= v` and `v <= 1`
are both false. -/
theorem compute_mem_prob_double_not_in_range :
    IEEE.rnd false (1 / 2) = IEEE.double.fin false (1 / 2) ∧
    IEEE.rnd false (1 / 2 ^ 100) = IEEE.double.fin false (1 / 2 ^ 100) ∧
    ∃ s, IEEE.set_params_mem_prob 1 1 (IEEE.double.fin false (1 / 2))
        (IEEE.double.fin false (1 / 2 ^ 100)) (IEEE.Session.init []) = (SUCCESS, s) ∧
      ∃ s', IEEE.compute_mem_prob 2 0 s = some (some IEEE.double.nan, s') ∧
        s'.ERRNO = 0 ∧ (s'.ARRAY 2).isSome ∧
        ¬ (IEEE.double.le 0 IEEE.double.nan = true ∧
           IEEE.double.le IEEE.double.nan 1 = true) := by
  obtain ⟨s', h, hE, hA⟩ := IEEE.compute_mem_prob_small_nan
  exact ⟨IEEE.small_parameters_exact.1, IEEE.small_parameters_exact.2, _,
    IEEE.set_params_small, s', h, hE, hA, fun hle => Bool.false_ne_true hle.1⟩

/-- C11 (amended). Range, in exact arithmetic. In a session whose parameters
are those a successful `set_params_mem_prob` leaves (`G ≥ 1`,
`HIGH = max G K`, `0 < P < 1`, `0 < U < 1`, scratch buffer allocated) and
whose cached polynomials are in
range, every number that `compute_mem_prob(N, k)` returns for `N ≥ 1`,
whether read from the cache or freshly computed, and whatever the allocator
does, satisfies `0 ≤ v ≤ 1` (arithmetic over the rationals); the session it
leaves has the same parameters, a scratch buffer and a cache in range, so
the bound holds for the queries that follow. Moreover, when `N ≤ MAXN-1`,
`k ≤ K`, `G ≤ K`, `N ≥ 2` or `G = 1`, `N` is not cached and no allocation
fails, the query does return such a number. -/
theorem compute_mem_prob_range (N k : Nat) (s : Session) (hG : 1 ≤ s.G)
    (hH : s.HIGH = max s.G s.K) (hP0 : 0 < s.P) (hP1 : s.P < 1) (hU0 : 0 < s.U)
    (hU1 : s.U < 1) (hN1 : 1 ≤ N) (hT : s.TEMP.isSome) (hcache : cache_in_range s) :
    (∀ v s', compute_mem_prob N k s = some (some v, s') →
      (0 ≤ v ∧ v ≤ 1) ∧ s'.toParams = s.toParams ∧ s'.TEMP.isSome ∧ cache_in_range s') ∧
    (N ≤ MAXN - 1 → k ≤ s.K → s.G ≤ s.K → (2 ≤ N ∨ s.G = 1) → s.ARRAY N = none →
      Served s.toEff →
      ∃ v s', compute_mem_prob N k s = some (some v, s') ∧ 0 ≤ v ∧ v ≤ 1) := by
  have hHK : s.G ≤ s.HIGH := by rw [hH]; exact le_max_left _ _
  have hrange : (2 ≤ N ∨ s.G = 1) → ∀ w : trunc_pol_t,
      (∀ c, w.coeff c = ∑ p in Finset.Icc 2 22,
        mat_pow s.K (2 * s.G + 2) (cells (matrix_M s.toParams N)) p 0 (2 * s.G + 1) c) →
      ∀ c, c ≤ s.K → 0 ≤ w.coeff c ∧ w.coeff c ≤ 1 := by
    intro hN w hw c hc
    rw [hw c]
    exact power_sum_bounds s.toParams N hG hHK hP0.le hP1.le hU0 hU1 hN1 hN 21 c hc
  constructor
  · intro v s' hrun
    obtain ⟨hNM, hkK, _⟩ := compute_mem_prob_some_inv hrun
    cases hA : s.ARRAY N with
    | some w0 =>
      unfold compute_mem_prob at hrun
      rw [if_neg (by omega), if_neg (by omega), hA] at hrun
      simp only [Option.some.injEq, Prod.mk.injEq] at hrun
      obtain ⟨hv, hs⟩ := hrun
      subst hs
      rw [← hv]
      exact ⟨hcache N w0 hA k hkK, rfl, hT, hcache⟩
    | none =>
      by_cases hGK : s.G ≤ s.K
      · by_cases hN : 2 ≤ N ∨ s.G = 1
        · rcases compute_mem_prob_fresh N k s hNM hkK hA hT with
            ⟨e, _, he⟩ | ⟨e, w, T, _, _, he, _, hw⟩
          · rw [he] at hrun
            cases hrun
          · rw [he] at hrun
            simp only [Option.some.injEq, Prod.mk.injEq] at hrun
            obtain ⟨hv, hs⟩ := hrun
            subst hs
            rw [← hv]
            refine ⟨hrange hN w hw k hkK, rfl, rfl, ?_⟩
            intro n w1 hn c hc
            by_cases hnN : n = N
            · subst hnN
              have hn1 : Function.update s.ARRAY n (some w) n = some w1 := hn
              rw [Function.update_same] at hn1
              cases hn1
              exact hrange hN w hw c hc
            · have hn1 : Function.update s.ARRAY N (some w) n = some w1 := hn
              rw [Function.update_noteq hnN] at hn1
              exact hcache n w1 hn1 c hc
        · have hN' : N = 1 := by omega
          subst hN'
          obtain ⟨s1, h1, _⟩ := compute_mem_prob_one_fails k s (by omega) hkK hA
          rw [h1] at hrun
          cases hrun
      · obtain ⟨s1, h1, _⟩ := compute_mem_prob_fails_of_matrix N k s hNM hkK hA
          (new_matrix_M_fails_of_lt s.toParams N (by omega))
        rw [h1] at hrun
        cases hrun
  · intro hNM hkK hGK hN hA hmem
    obtain ⟨w, T, mem, h, _, hw⟩ := compute_mem_prob_total N k s hG hGK hH
      (hN.elim (fun h => Or.inl (by omega)) Or.inr) hNM hkK hA hT hmem
    exact ⟨_, _, h, hrange hN w hw k hkK⟩

theorem compute_mem_prob_range_witness :
    ∃ v s', compute_mem_prob 2 50
        (set_params_mem_prob 17 50 (1/100) (1/20) (Session.init [])).2 = some (some v, s') ∧
      0 ≤ v ∧ v ≤ 1 := by
  have h := set_params_mem_prob_init 17 50 (1/100) (1/20) (by norm_num) (by norm_num)
    (by norm_num) (by norm_num)
  exact (compute_mem_prob_range 2 50
    (set_params_mem_prob 17 50 (1/100) (1/20) (Session.init [])).2
    (by rw [h]; decide) (by rw [h]; decide) (by rw [h]; norm_num) (by rw [h]; norm_num)
    (by rw [h]; norm_num) (by rw [h]; norm_num) (by decide) (by rw [h]; rfl)
    (by rw [h]; intro n w hn; cases hn)).2 (by decide) (by rw [h]) (by rw [h]; decide)
    (Or.inl (by decide)) (by rw [h]) (by rw [h]; intro b hb; simp at hb)

end MemProb

namespace MemProb

/-- C21. `matrix_mult` computes the truncated-polynomial matrix product, with
`dest` an object of its own (distinct from `a` and `b`, its entries and the
scratch buffer shared with no entry of `a` or `b`). When the dimensions
differ it returns `NULL`, sets the error token (to its line, 835) and leaves
`dest` and the scratch buffer alone. When `a`, `b` and `dest` have the same
dimension `dim`, the scratch buffer exists, every entry of `dest` is
allocated and the entries of `a` and `b` are null or hint-consistent, the
call returns `dest` with the error token untouched, and every entry
`(i, j)` of `dest` then carries no hint and has, at each degree `c`, the
coefficient `Σ_{m < dim} (a[i,m]*b[m,j])[c]` of the truncated products (a null
entry counts as zero). The same entries come out whatever `dest` and the
scratch buffer held before (any other allocated `dest2` and buffer `TEMP2`),
and in whatever order the triples `(i, j, m)` are visited: for every list
`order` that holds each triple below `dim` once, `matrix_mult_in_order`
leaves the same entries. Arithmetic is over the rationals. -/
theorem matrix_mult_product (K : Nat) (dest a b : matrix_t) (TEMP : Option trunc_pol_t)
    (E : Int) :
    ((a.dim ≠ dest.dim ∨ b.dim ≠ dest.dim) →
      matrix_mult K dest a b TEMP E =
        some { ret := none, dest := dest, TEMP := TEMP, ERRNO := 835 }) ∧
    (a.dim = dest.dim → b.dim = dest.dim → TEMP.isSome →
      (∀ x, x < dest.dim * dest.dim → (dest.term x).isSome) →
      (∀ x p, x < dest.dim * dest.dim → a.term x = some p → hint_consistent K p) →
      (∀ x p, x < dest.dim * dest.dim → b.term x = some p → hint_consistent K p) →
      ∃ out, matrix_mult K dest a b TEMP E = some out ∧ out.ret = some out.dest ∧
        out.ERRNO = E ∧ out.dest.dim = dest.dim ∧
        (∀ i j, i < dest.dim → j < dest.dim → ∃ q,
          out.dest.term (i * dest.dim + j) = some q ∧ q.mono.coeff = 0 ∧
          ∀ c, q.coeff c = ∑ m in Finset.range dest.dim,
            pol_mul K (coefO (a.term (i * dest.dim + m)))
              (coefO (b.term (m * dest.dim + j))) c) ∧
        (∀ dest2 TEMP2 E2, dest2.dim = dest.dim → TEMP2.isSome →
          (∀ x, x < dest.dim * dest.dim → (dest2.term x).isSome) →
          ∃ out2, matrix_mult K dest2 a b TEMP2 E2 = some out2 ∧
            ∀ x, x < dest.dim * dest.dim → out2.dest.term x = out.dest.term x) ∧
        (∀ order, visits_each_once dest.dim order →
          ∃ out3, matrix_mult_in_order K dest a b TEMP E order = some out3 ∧
            out3.ret = some out3.dest ∧
            ∀ x, x < dest.dim * dest.dim → out3.dest.term x = out.dest.term x)) := by
  constructor
  · intro h
    unfold matrix_mult
    rw [if_pos h]
  · intro ha_dim hb_dim hT hdest ha hb
    obtain ⟨out, hout, hret, hE, _, hdim, hcell, _⟩ :=
      matrix_mult_spec K dest a b TEMP E ha_dim hb_dim hT hdest ha hb
    refine ⟨out, hout, hret, hE, hdim, ?_, ?_, ?_⟩
    · intro i j hi hj
      refine ⟨_, hcell _ (flat_lt hi hj), rfl, fun c => ?_⟩
      simp only [prod_cell, mat_mul, flat_div hj, flat_mod hj]
      refine Finset.sum_congr rfl fun m _ => ?_
      rw [cells_of_dim a _ ha_dim, cells_of_dim b _ hb_dim]
    · intro dest2 TEMP2 E2 hd2 hT2 hdest2
      obtain ⟨out2, hout2, _, _, _, _, hcell2, _⟩ :=
        matrix_mult_spec K dest2 a b TEMP2 E2 (ha_dim.trans hd2.symm) (hb_dim.trans hd2.symm)
          hT2 (by rw [hd2]; exact hdest2) (by rw [hd2]; exact ha) (by rw [hd2]; exact hb)
      refine ⟨out2, hout2, fun x hx => ?_⟩
      rw [hcell2 x (by rw [hd2]; exact hx), hcell x hx, hd2]
    · intro order ho
      obtain ⟨D, hD, hDdim, hDin, hDout⟩ := erase_entries_spec dest.dim dest hdest
      obtain ⟨st, hst, _, _, hin, _⟩ := accumulate_list K dest.dim a b ha hb dest order
        (fun t ht => (ho.2 t.1 t.2.1 t.2.2).mp ht) (fun _ _ => 0) (D, TEMP) hT hDdim
        hDin hDout
      refine ⟨{ ret := some st.1, dest := st.1, TEMP := st.2, ERRNO := E }, ?_, rfl,
        fun x hx => ?_⟩
      · unfold matrix_mult_in_order
        rw [if_neg (by rw [ha_dim, hb_dim]; simp), hD, Option.some_bind, hst]
        rfl
      · have hpos : 0 < dest.dim := by
          rcases Nat.eq_zero_or_pos dest.dim with h0 | h0
          · rw [h0] at hx
            exact absurd hx (by omega)
          · exact h0
        have hi : x / dest.dim < dest.dim := by
          rw [Nat.div_lt_iff_lt_mul hpos]
          exact hx
        have hj : x % dest.dim < dest.dim := Nat.mod_lt _ hpos
        have hxe : x / dest.dim * dest.dim + x % dest.dim = x := Nat.div_add_mod' x dest.dim
        show st.1.term x = out.dest.term x
        rw [hin x hx, hcell x hx]
        refine congrArg some (trunc_pol_t.eq_of rfl fun c => ?_)
        simp only [prod_cell, mat_mul, zero_add]
        have hs := visits_sum dest.dim order ho
          (fun t => pol_mul K (coefO (a.term (t.1 * dest.dim + t.2.2)))
            (coefO (b.term (t.2.2 * dest.dim + t.2.1))) c)
          (x / dest.dim) (x % dest.dim) hi hj
        rw [hxe] at hs
        refine hs.trans (Finset.sum_congr rfl fun m _ => ?_)
        rw [cells_of_dim a _ ha_dim, cells_of_dim b _ hb_dim]

theorem matrix_mult_product_witness :
    visits_each_once (zero_matrix 36).dim (source_order (zero_matrix 36).dim).reverse ∧
    ∃ out, matrix_mult 50 (zero_matrix 36)
        (matrix_M { G := 17, K := 50, HIGH := 50, P := 1/100, U := 1/20, KSZ := 424 } 2)
        (matrix_M { G := 17, K := 50, HIGH := 50, P := 1/100, U := 1/20, KSZ := 424 } 2)
        (some zero_trunc_pol) 0 = some out ∧
      out.ret = some out.dest ∧ out.ERRNO = 0 ∧
      (∀ i j, i < (zero_matrix 36).dim → j < (zero_matrix 36).dim → ∃ q,
        out.dest.term (i * (zero_matrix 36).dim + j) = some q ∧ q.mono.coeff = 0 ∧
        ∀ c, q.coeff c = ∑ m in Finset.range (zero_matrix 36).dim,
          pol_mul 50
            (coefO ((matrix_M
              { G := 17, K := 50, HIGH := 50, P := 1/100, U := 1/20, KSZ := 424 } 2).term
                (i * (zero_matrix 36).dim + m)))
            (coefO ((matrix_M
              { G := 17, K := 50, HIGH := 50, P := 1/100, U := 1/20, KSZ := 424 } 2).term
                (m * (zero_matrix 36).dim + j))) c) ∧
      ∃ out3, matrix_mult_in_order 50 (zero_matrix 36)
          (matrix_M { G := 17, K := 50, HIGH := 50, P := 1/100, U := 1/20, KSZ := 424 } 2)
          (matrix_M { G := 17, K := 50, HIGH := 50, P := 1/100, U := 1/20, KSZ := 424 } 2)
          (some zero_trunc_pol) 0 (source_order (zero_matrix 36).dim).reverse = some out3 ∧
        ∀ x, x < (zero_matrix 36).dim * (zero_matrix 36).dim →
          out3.dest.term x = out.dest.term x := by
  have hv := visits_reverse _ _ (source_order_visits (zero_matrix 36).dim)
  have hd : (matrix_M
      { G := 17, K := 50, HIGH := 50, P := 1/100, U := 1/20, KSZ := 424 } 2).dim =
        (zero_matrix 36).dim := by
    rw [matrix_M_dim, (zero_matrix_allocated 36).1]
    rfl
  obtain ⟨out, h1, h2, h3, _, h5, _, h7⟩ := (matrix_mult_product 50 (zero_matrix 36)
    (matrix_M { G := 17, K := 50, HIGH := 50, P := 1/100, U := 1/20, KSZ := 424 } 2)
    (matrix_M { G := 17, K := 50, HIGH := 50, P := 1/100, U := 1/20, KSZ := 424 } 2)
    (some zero_trunc_pol) 0).2 hd hd rfl
    (fun x hx => (zero_matrix_allocated 36).2 x
      (by rw [(zero_matrix_allocated 36).1] at hx; exact hx))
    (fun x p _ => matrix_M_hints 50 _ 2 x p) (fun x p _ => matrix_M_hints 50 _ 2 x p)
  obtain ⟨out3, h8, _, h9⟩ := h7 _ hv
  exact ⟨hv, out, h1, h2, h3, h5, out3, h8, h9⟩

end MemProb

